import Mathlib

/-!
midilib: a shallow embedding of `src/lib/midilib.c` / `src/lib/midilib.h`

The C program turns a standard MIDI file into a time-ordered command stream.
This file embeds its data model and routines as Lean functions and proves
properties of them.

Conventions of the embedding

* Pointers into the file buffer (`trkptr`, `trkend`, `dataptr`) are offsets into
  `data`, the byte buffer that `midi_load` filled.  A read outside the buffer is
  undefined in C and is the fault `Fault.out_of_bounds` here.
* C unsigned integers are natural numbers; where a width can be exceeded the
  reduction `% 2 ^ w` is written out (`uint32_t output_usec`, the `uint32_t`
  horizon, `unsigned long`/`uint64_t` clocks, LP64).
* C arrays of fixed size are lists read with `List.getD` and written with
  `List.set`.
* A failing `assert` is the fault `Fault.assertion n`, `n` being the source line.
* Loops are structural recursions on a fuel argument that the caller computes
  from the state; running dry is the fault `Fault.no_fuel`.
* `remove_queue_entry` is called by `pull_queue` but defined nowhere in the two
  source files.  The output is therefore a list of items, `Out.byte b` for a byte
  written by `midi_writeoutput` and `Out.entry e` for a call of
  `remove_queue_entry` on the queue entry `e`; `render emit` turns it into the
  byte stream for any encoding `emit` of a queue entry, which is the parameter
  standing for the missing routine.
* `pedalNote` and `pedalStatus` are file-scope variables used by
  `midi_process_track_data` without a declaration in the two source files; they
  are carried in the state, zero-initialised like any C object of static storage.
* `midi_find_next_note` has no `return` statement at its end (lines 351-354), which
  it reaches when a track ends; the value that `assert(result == True)` then reads
  in the caller is indeterminate.  The state carries `end_results`, which says for
  every track whether that value is `True`; the C program fixes none of its
  entries, and a statement about a run that passes the end of a track holds for
  the entries the state has.
-/

namespace Midilib

/-! ## Constants of `midilib.h` -/

abbrev DEFAULT_TEMPO : Nat := 500000
abbrev DEFAULT_BEATTIME : Nat := 240
abbrev MAX_TRACKS : Nat := 24
abbrev PERCUSSION_TRACK : Nat := 9
abbrev NUM_CHANNELS : Nat := 16
abbrev MAX_CHANNELNOTES : Nat := 24
abbrev notemin_usec : Nat := 250
abbrev releasetime_usec : Nat := 0
abbrev QUEUE_SIZE : Nat := 100

abbrev CMD_PLAYNOTE : Nat := 0x90
abbrev CMD_STOPNOTE : Nat := 0x80
abbrev CMD_INSTRUMENT : Nat := 0xc0
abbrev CMD_RESTART : Nat := 0xe0
abbrev CMD_STOP : Nat := 0xf0
abbrev CMD_PED0 : Nat := 0xa0
abbrev CMD_PED1 : Nat := 0xb0
abbrev CMD_PED2 : Nat := 0xd0
abbrev CMD_TEMPO : Nat := 0xFE
abbrev CMD_TRACKDONE : Nat := 0xFF

/-- The command bytes that may be written to the output stream (`midilib.h`, lines 27-34). -/
def output_commands : List Nat :=
  [CMD_PLAYNOTE, CMD_STOPNOTE, CMD_INSTRUMENT, CMD_RESTART, CMD_STOP, CMD_PED0, CMD_PED1, CMD_PED2]

abbrev W32 : Nat := 4294967296
abbrev W64 : Nat := 18446744073709551616

/-! ## Data model (`midilib.h`) -/

/-- The ways a run can stop abnormally. -/
inductive Fault where
  | out_of_bounds
  | assertion (line : Nat)
  | uninitialised
  | div_by_zero
  | no_fuel
deriving DecidableEq, Repr

deriving instance DecidableEq for Except

/-- Outcome of `midi_find_next_note`: `return True`, `return False`, or the end of the
function body reached without a `return` statement (line 354). -/
inductive Ret where
  | ret_true
  | ret_false
  | no_return
deriving DecidableEq, Repr

/-- The C `struct noteinfo`. -/
structure NoteInfo where
  time_usec : Nat := 0
  track : Nat := 0
  channel : Nat := 0
  note : Nat := 0
  instrument : Nat := 0
  volume : Nat := 0
deriving DecidableEq, Repr

instance : Inhabited NoteInfo := ⟨{}⟩

/-- The C `struct track_status` (`preferred_tonegen` is never used and left out). -/
structure TrackStatus where
  trkptr : Nat := 0
  trkend : Nat := 0
  time : Nat := 0
  tempo : Nat := 0
  cmd : Nat := 0
  chan : Nat := 0
  note : Nat := 0
  volume : Nat := 0
  last_event : Nat := 0
  pedalVals : List Nat := [0, 0, 0]
deriving DecidableEq, Repr

instance : Inhabited TrackStatus := ⟨{}⟩

/-- The C `struct channel_status`. -/
structure ChannelStatus where
  instrument : Nat := 0
  note_playing : List Bool := List.replicate MAX_CHANNELNOTES false
  notes_playing : List NoteInfo := List.replicate MAX_CHANNELNOTES {}
deriving DecidableEq, Repr

instance : Inhabited ChannelStatus := ⟨{}⟩

/-- The C `struct queue_entry`. -/
structure QEntry where
  cmd : Nat := 0
  note : NoteInfo := {}
deriving DecidableEq, Repr

instance : Inhabited QEntry := ⟨{}⟩

/-- One item of the output: a byte written by `midi_writeoutput`, or what the call
`remove_queue_entry(midi, ndx)` writes for the queue entry found at `ndx`. -/
inductive Out where
  | byte (b : Nat)
  | entry (e : QEntry)
deriving DecidableEq, Repr

/-- The C `struct MIDIFile`, together with the file-scope variables `channel_mask`,
`pedalNote` and `pedalStatus`.  The default value is the state after `calloc`.
The last field is no C object: `end_results` holds, for track `k`, whether the
indeterminate value that the caller of `midi_find_next_note` reads when the function
reaches its end for track `k` without a `return` statement equals `True`. -/
structure MIDIFile where
  data : List Nat := []
  dataptr : Nat := 0
  num_tracks : Nat := 0
  track : List TrackStatus := List.replicate MAX_TRACKS {}
  channel : List ChannelStatus := List.replicate NUM_CHANNELS {}
  tracks_done : Nat := 0
  timenow_ticks : Nat := 0
  timenow_usec : Nat := 0
  timenow_usec_updated : Nat := 0
  output_usec : Nat := 0
  output_deficit_usec : Nat := 0
  time_division : Nat := 0
  ticks_per_beat : Nat := 0
  tempo : Nat := 0
  queue : List QEntry := List.replicate QUEUE_SIZE {}
  queue_numitems : Nat := 0
  queue_oldest_ndx : Nat := 0
  queue_newest_ndx : Nat := 0
  last_output_was_delay : Bool := false
  output : List Out := []
  channel_mask : Nat := 0xffff
  pedalNote : NoteInfo := {}
  pedalStatus : List Nat := [0, 0, 0]
  end_results : List Bool := List.replicate MAX_TRACKS true
deriving DecidableEq, Repr

instance : Inhabited MIDIFile := ⟨{}⟩

/-! ## Byte-cursor decoder -/

/-- The dereference `*ptr` of a byte pointer at offset `p` of the buffer. -/
def rd (data : List Nat) (p : Nat) : Except Fault Nat :=
  match data.get? p with
  | some b => .ok (b % 256)
  | none => .error .out_of_bounds

/-- The C `check_bufferlen`, with `ptr - buffer` given as the offset `ptr`;
`true` is the C `True`. -/
def check_bufferlen (ptr len buflen : Nat) : Bool :=
  if (ptr + len) % W32 > buflen then false else true

/-- The C `rev_short`. -/
def rev_short (val : Nat) : Nat :=
  (((val &&& 0xff) <<< 8) ||| ((val >>> 8) &&& 0xff)) % 65536

/-- The C `rev_long`. -/
def rev_long (val : Nat) : Nat :=
  ((((rev_short (val % 65536)) &&& 0xffff) <<< 16) |||
    ((rev_short ((val >>> 16) % 65536)) &&& 0xffff)) % W32

/-- The `for` loop of `get_varlen`; the first argument counts the iterations left. -/
def get_varlen_loop (data : List Nat) : Nat → Nat → Nat → Except Fault (Nat × Nat)
  | 0, val, ptr => .ok (val, ptr)
  | n + 1, val, ptr =>
    match rd data ptr with
    | .error e => .error e
    | .ok b =>
      let val1 := (val <<< 7) ||| (b &&& 0x7f)
      if b &&& 0x80 = 0 then .ok (val1, ptr + 1)
      else get_varlen_loop data n val1 (ptr + 1)

/-- The C `get_varlen`: the value read and the pointer past it. -/
def get_varlen (data : List Nat) (ptr : Nat) : Except Fault (Nat × Nat) :=
  get_varlen_loop data 4 0 ptr

/-- The load `*(uint16_t*)ptr` on the little-endian host the byte swaps assume. -/
def load16 (data : List Nat) (p : Nat) : Except Fault Nat := do
  let b0 ← rd data p
  let b1 ← rd data (p + 1)
  pure (b0 + b1 * 256)

/-- The load `*(uint32_t*)ptr` on the little-endian host the byte swaps assume. -/
def load32 (data : List Nat) (p : Nat) : Except Fault Nat := do
  let b0 ← rd data p
  let b1 ← rd data (p + 1)
  let b2 ← rd data (p + 2)
  let b3 ← rd data (p + 3)
  pure (b0 + b1 * 256 + b2 * 65536 + b3 * 16777216)

/-! ## Track event decoder -/

/-- The condition of `midi_note_off` and of the note-on case: the channel is selected by
`channel_mask` and is not the percussion channel. -/
def channel_wanted (channel_mask chan : Nat) : Bool :=
  ((1 <<< chan) &&& channel_mask != 0) && (chan != PERCUSSION_TRACK)

/-- The C `midi_note_off`: the updated track and the value returned. -/
def midi_note_off (channel_mask : Nat) (t : TrackStatus) (chan : Nat) : TrackStatus × Bool :=
  if channel_wanted channel_mask chan then
    ({ t with chan := 0, cmd := CMD_STOPNOTE }, true)
  else (t, false)

/-- What one pass through the body of the `while` loop of `midi_find_next_note` does:
either the function returns, or the loop goes on. -/
inductive Pass where
  | returned (r : Ret) (t : TrackStatus) (ch : List ChannelStatus)
  | continues (t : TrackStatus) (ch : List ChannelStatus)

/-- The channel table a pass leaves. -/
def Pass.channels : Pass → List ChannelStatus
  | .returned _ _ ch => ch
  | .continues _ ch => ch

/-- The track status a pass leaves. -/
def Pass.track : Pass → TrackStatus
  | .returned _ t _ => t
  | .continues t _ => t

/-- Case `0x8`, note off (lines 264-270). -/
def note_off_event (data : List Nat) (channel_mask chan : Nat) (t : TrackStatus)
    (ch : List ChannelStatus) : Except Fault Pass :=
  match rd data t.trkptr with
  | .error e => .error e
  | .ok note =>
    match rd data (t.trkptr + 1) with
    | .error e => .error e
    | .ok volume =>
      let t1 := { t with note := note, volume := volume, trkptr := t.trkptr + 2 }
      if (midi_note_off channel_mask t1 chan).2 then
        .ok (.returned .ret_true (midi_note_off channel_mask t1 chan).1 ch)
      else .ok (.continues (midi_note_off channel_mask t1 chan).1 ch)

/-- Case `0x9`, note on (lines 271-289). -/
def note_on_event (data : List Nat) (channel_mask chan : Nat) (t : TrackStatus)
    (ch : List ChannelStatus) : Except Fault Pass :=
  match rd data t.trkptr with
  | .error e => .error e
  | .ok note =>
    match rd data (t.trkptr + 1) with
    | .error e => .error e
    | .ok volume =>
      let t1 := { t with note := note, volume := volume, trkptr := t.trkptr + 2 }
      if volume = 0 ∧ (midi_note_off channel_mask t1 chan).2 = true then
        .ok (.returned .ret_true (midi_note_off channel_mask t1 chan).1 ch)
      else if channel_wanted channel_mask chan then
        .ok (.returned .ret_true { t1 with chan := 0, cmd := CMD_PLAYNOTE } ch)
      else .ok (.continues t1 ch)

/-- Cases `0xa` and `0xe`, key pressure and pitch wheel: two operands are read and
dropped (lines 290-296, 333-338). -/
def skip_two (data : List Nat) (t : TrackStatus) (ch : List ChannelStatus) :
    Except Fault Pass :=
  match rd data t.trkptr with
  | .error e => .error e
  | .ok _ =>
    match rd data (t.trkptr + 1) with
    | .error e => .error e
    | .ok _ => .ok (.continues { t with trkptr := t.trkptr + 2 } ch)

/-- Case `0xd`, channel pressure: one operand is read and dropped (lines 327-332). -/
def skip_one (data : List Nat) (t : TrackStatus) (ch : List ChannelStatus) :
    Except Fault Pass :=
  match rd data t.trkptr with
  | .error e => .error e
  | .ok _ => .ok (.continues { t with trkptr := t.trkptr + 1 } ch)

/-- Case `0xb`, control value change (lines 297-319). -/
def controller_event (data : List Nat) (t : TrackStatus) (ch : List ChannelStatus) :
    Except Fault Pass :=
  match rd data t.trkptr with
  | .error e => .error e
  | .ok controller =>
    match rd data (t.trkptr + 1) with
    | .error e => .error e
    | .ok velocity =>
      let t1 := { t with trkptr := t.trkptr + 2 }
      if controller = 64 then
        .ok (.returned .ret_true
          { t1 with cmd := CMD_PED0, pedalVals := t1.pedalVals.set 0 velocity,
                    volume := velocity } ch)
      else if controller = 66 then
        .ok (.returned .ret_true
          { t1 with cmd := CMD_PED1, pedalVals := t1.pedalVals.set 1 velocity,
                    volume := velocity } ch)
      else if controller = 67 then
        .ok (.returned .ret_true
          { t1 with cmd := CMD_PED2, pedalVals := t1.pedalVals.set 2 velocity,
                    volume := velocity } ch)
      else .ok (.continues t1 ch)

/-- Case `0xc`, program patch (lines 320-326). -/
def program_event (data : List Nat) (chan : Nat) (t : TrackStatus) (ch : List ChannelStatus) :
    Except Fault Pass :=
  match rd data t.trkptr with
  | .error e => .error e
  | .ok instrument =>
    .ok (.continues { t with trkptr := t.trkptr + 1 }
      (ch.set chan { ch.getD chan default with instrument := instrument }))

/-- Case `0xf`, sysex event (lines 339-345). -/
def sysex_event (data : List Nat) (t : TrackStatus) (ch : List ChannelStatus) :
    Except Fault Pass :=
  match get_varlen data t.trkptr with
  | .error e => .error e
  | .ok (sysex_length, p) => .ok (.continues { t with trkptr := p + sysex_length } ch)

/-- The `switch (event >> 4)` of the loop body (lines 262-349). -/
def channel_dispatch (data : List Nat) (channel_mask : Nat) (event : Nat)
    (t : TrackStatus) (ch : List ChannelStatus) : Except Fault Pass :=
  match event >>> 4 with
  | 0x8 => note_off_event data channel_mask (event &&& 0xf) t ch
  | 0x9 => note_on_event data channel_mask (event &&& 0xf) t ch
  | 0xa => skip_two data t ch
  | 0xb => controller_event data t ch
  | 0xc => program_event data (event &&& 0xf) t ch
  | 0xd => skip_one data t ch
  | 0xe => skip_two data t ch
  | 0xf => sysex_event data t ch
  | _ => .ok (.returned .ret_false t ch)

/-- The `else` branch "all other events" of the loop body (lines 256-350), entered with
the status byte `event` and the cursor on the first operand: the running status and the
channel are stored, then the event is dispatched on its high nibble. -/
def channel_event (data : List Nat) (channel_mask : Nat) (event : Nat)
    (t : TrackStatus) (ch : List ChannelStatus) : Except Fault Pass :=
  channel_dispatch data channel_mask event
    { t with last_event := if event < 0xf0 then event else t.last_event,
             chan := event &&& 0xf } ch

/-- The 24-bit tempo of a set-tempo event (line 242): a 32-bit load one byte before the
cursor, byte-swapped and masked. -/
def read_tempo (data : List Nat) (p : Nat) : Except Fault Nat :=
  match load32 data (p - 1) with
  | .error e => .error e
  | .ok w => .ok ((rev_long w) &&& 0xffffff)

/-- The meta-event branch of the loop body (lines 230-251), entered with the cursor on
the meta command byte. -/
def meta_event (data : List Nat) (t : TrackStatus) (ch : List ChannelStatus) :
    Except Fault Pass :=
  match rd data t.trkptr with
  | .error e => .error e
  | .ok meta_cmd =>
    match get_varlen data (t.trkptr + 1) with
    | .error e => .error e
    | .ok (meta_length, p) =>
      if meta_cmd = 0x51 then
        match read_tempo data p with
        | .error e => .error e
        | .ok tempo =>
          .ok (.returned .ret_true
            { t with cmd := CMD_TEMPO, tempo := tempo, trkptr := p + meta_length } ch)
      else .ok (.continues { t with trkptr := p + meta_length } ch)

/-- One pass through the body of the `while` loop of `midi_find_next_note` (lines 217-350):
the delta time, the status byte or the running status, and the event. -/
def event_pass (data : List Nat) (channel_mask : Nat) (t : TrackStatus)
    (ch : List ChannelStatus) : Except Fault Pass :=
  match get_varlen data t.trkptr with
  | .error e => .error e
  | .ok (delta_ticks, p) =>
    match rd data p with
    | .error e => .error e
    | .ok b =>
      let event := if b < 0x80 then t.last_event else b
      let t1 := { t with trkptr := if b < 0x80 then p else p + 1,
                         time := (t.time + delta_ticks) % W64 }
      if event = 0xff then meta_event data t1 ch
      else if event < 0x80 then .ok (.returned .ret_false t1 ch)
      else channel_event data channel_mask event t1 ch

/-- The `while (t->trkptr < t->trkend)` loop of `midi_find_next_note` and the two
statements after it, on the track and the channel table. -/
def find_next_loop (data : List Nat) (channel_mask : Nat) :
    Nat → TrackStatus → List ChannelStatus →
    Except Fault (Ret × TrackStatus × List ChannelStatus)
  | fuel, t, ch =>
    if t.trkptr < t.trkend then
      match fuel with
      | 0 => .error .no_fuel
      | fuel + 1 =>
        match event_pass data channel_mask t ch with
        | .error e => .error e
        | .ok (.returned r t1 ch1) => .ok (r, t1, ch1)
        | .ok (.continues t1 ch1) => find_next_loop data channel_mask fuel t1 ch1
    else .ok (.no_return, { t with cmd := CMD_TRACKDONE }, ch)

/-- The C `midi_find_next_note`.  Every pass of the loop moves the cursor forward by at
least one byte, so `trkend - trkptr` passes are enough. -/
def midi_find_next_note (s : MIDIFile) (tracknum : Nat) : Except Fault (Ret × MIDIFile) :=
  let t := s.track.getD tracknum default
  match find_next_loop s.data s.channel_mask (t.trkend - t.trkptr) t s.channel with
  | .error e => .error e
  | .ok (r, t1, ch1) =>
    let s1 := { s with track := s.track.set tracknum t1, channel := ch1 }
    match r with
    | .no_return => .ok (r, { s1 with tracks_done := s1.tracks_done + 1 })
    | _ => .ok (r, s1)

/-! ## Delivery queue and output codec -/

/-- The C `midi_writeoutput` (the growth of the output buffer is not modelled). -/
def midi_writeoutput (s : MIDIFile) (msg : Nat) : MIDIFile :=
  { s with output := s.output ++ [.byte (msg % 256)] }

/-- The call `remove_queue_entry(midi, ndx)`: the queue entry at `ndx` is handed to the
output. -/
def remove_queue_entry (s : MIDIFile) (ndx : Nat) : MIDIFile :=
  { s with output := s.output ++ [.entry (s.queue.getD ndx default)] }

/-- The byte stream of an output, `emit e` being the bytes `remove_queue_entry` writes
for the entry `e`. -/
def render (emit : QEntry → List Nat) : List Out → List Nat
  | [] => []
  | .byte b :: rest => b :: render emit rest
  | .entry e :: rest => emit e ++ render emit rest

/-- The ring step `if (--ndx < 0) ndx = QUEUE_SIZE - 1`. -/
def dec_ndx (ndx : Nat) : Nat := if ndx = 0 then QUEUE_SIZE - 1 else ndx - 1

/-- The ring step `if (++ndx >= QUEUE_SIZE) ndx = 0`. -/
def inc_ndx (ndx : Nat) : Nat := if ndx + 1 ≥ QUEUE_SIZE then 0 else ndx + 1

/-- The C `generate_delay`. -/
def generate_delay (s : MIDIFile) (delta_msec : Nat) : Except Fault MIDIFile :=
  if delta_msec > 0 then
    if delta_msec ≤ 0x7fff then
      let s1 := { s with last_output_was_delay := true }
      .ok (midi_writeoutput (midi_writeoutput s1 (delta_msec >>> 8)) (delta_msec &&& 0xff))
    else .error (.assertion 440)
  else .ok s

/-- The body of the `do ... while` loop of `pull_queue` (lines 493-496).  The C counter
`queue_numitems` is an `int`; both callers enter with it positive. -/
def pull_body (s : MIDIFile) : MIDIFile :=
  let s1 := remove_queue_entry s s.queue_oldest_ndx
  { s1 with queue_oldest_ndx := inc_ndx s1.queue_oldest_ndx,
            queue_numitems := s1.queue_numitems - 1 }

/-- The repetitions of the `do ... while` loop of `pull_queue` after its first pass. -/
def pull_while (oldtime : Nat) : Nat → MIDIFile → Except Fault MIDIFile
  | fuel, s =>
    if s.queue_numitems > 0 ∧
        (s.queue.getD s.queue_oldest_ndx default).note.time_usec ≤ oldtime then
      match fuel with
      | 0 => .error .no_fuel
      | fuel + 1 => pull_while oldtime fuel (pull_body s)
    else .ok s

/-- The time of the oldest queue entry, `oldtime` in `pull_queue`. -/
def oldest_time (s : MIDIFile) : Nat :=
  (s.queue.getD s.queue_oldest_ndx default).note.time_usec

/-- The first part of `pull_queue` (lines 465-489): the assertion, the delay and the
bookkeeping of the last output time and the deficit. -/
def pull_prelude (s : MIDIFile) : Except Fault MIDIFile :=
  let oldtime := oldest_time s
  if oldtime ≥ s.output_usec then
    let delta_usec := ((oldtime - s.output_usec) + s.output_deficit_usec) % W64
    let delta_msec := delta_usec / 1000
    let s1 := { s with output_deficit_usec := delta_usec % 1000 }
    if delta_usec > 0 then
      match (if delta_msec > 0 then generate_delay s1 delta_msec else .ok s1) with
      | .error e => .error e
      | .ok s2 => .ok { s2 with output_usec := oldtime % W32 }
    else .ok s1
  else .error (.assertion 466)

/-- The C `pull_queue`: the first part, then the `do ... while` loop that removes the
entries (lines 491-497). -/
def pull_queue (s : MIDIFile) : Except Fault MIDIFile :=
  match pull_prelude s with
  | .error e => .error e
  | .ok s3 => pull_while (oldest_time s) s3.queue_numitems (pull_body s3)

/-- The `while` loop of `flush_queue`. -/
def flush_loop : Nat → MIDIFile → Except Fault MIDIFile
  | fuel, s =>
    if s.queue_numitems > 0 then
      match fuel with
      | 0 => .error .no_fuel
      | fuel + 1 =>
        match pull_queue s with
        | .error e => .error e
        | .ok s1 => flush_loop fuel s1
    else .ok s

/-- The C `flush_queue`; every `pull_queue` removes at least one entry. -/
def flush_queue (s : MIDIFile) : Except Fault MIDIFile :=
  flush_loop s.queue_numitems s

/-- Where the backward search of `queue_cmd` ends: at the oldest entry, all entries
being newer (`front`), or at the entry `ndx` after which the new one goes. -/
inductive Place where
  | front
  | after (ndx : Nat)
deriving DecidableEq, Repr

/-- The backward search of `queue_cmd` (lines 400-413) for an entry as old as `time`. -/
def queue_search (queue : List QEntry) (oldest time : Nat) : Nat → Nat → Except Fault Place
  | fuel, ndx =>
    if (queue.getD ndx default).note.time_usec > time then
      if ndx = oldest then .ok .front
      else
        match fuel with
        | 0 => .error .no_fuel
        | fuel + 1 => queue_search queue oldest time fuel (dec_ndx ndx)
    else .ok (.after ndx)

/-- The shifting loop of `queue_cmd` (lines 420-425). -/
def queue_shift (ndx : Nat) : Nat → List QEntry → Nat → Except Fault (List QEntry)
  | fuel, queue, to_ndx =>
    if dec_ndx to_ndx = ndx then .ok queue
    else
      match fuel with
      | 0 => .error .no_fuel
      | fuel + 1 =>
        queue_shift ndx fuel (queue.set to_ndx (queue.getD (dec_ndx to_ndx) default))
          (dec_ndx to_ndx)

/-- The horizon clamp of `queue_cmd` (lines 383-390): the note with the time it is
queued with.  The horizon is a `uint32_t`. -/
def clamp_note (s : MIDIFile) (np : NoteInfo) : NoteInfo :=
  let horizon := (s.output_usec + s.output_deficit_usec) % W32
  if np.time_usec < horizon then { np with time_usec := horizon } else np

/-- The insertion of `queue_cmd` (lines 392-432) of an entry whose time is final.
Either loop visits each ring index at most once, so `QUEUE_SIZE` passes are enough. -/
def queue_insert (s : MIDIFile) (cmd : Nat) (np : NoteInfo) : Except Fault MIDIFile :=
  if s.queue_numitems = 0 then
    .ok { s with queue_oldest_ndx := 0, queue_newest_ndx := 0, queue_numitems := 1,
                 queue := s.queue.set 0 ⟨cmd, np⟩ }
  else
    match queue_search s.queue s.queue_oldest_ndx np.time_usec QUEUE_SIZE s.queue_newest_ndx with
    | .error e => .error e
    | .ok .front =>
      let ndx := dec_ndx s.queue_oldest_ndx
      .ok { s with queue_oldest_ndx := ndx, queue_numitems := s.queue_numitems + 1,
                   queue := s.queue.set ndx ⟨cmd, np⟩ }
    | .ok (.after ndx) =>
      let newest := inc_ndx s.queue_newest_ndx
      match queue_shift ndx QUEUE_SIZE s.queue newest with
      | .error e => .error e
      | .ok q =>
        .ok { s with queue_newest_ndx := newest, queue_numitems := s.queue_numitems + 1,
                     queue := q.set (inc_ndx ndx) ⟨cmd, np⟩ }

/-- The C `queue_cmd`.  The note is passed by pointer and its time may be overwritten by
the clamp, so the note as the caller sees it afterwards is returned with the state. -/
def queue_cmd (s : MIDIFile) (cmd : Nat) (np : NoteInfo) :
    Except Fault (MIDIFile × NoteInfo) :=
  match (if s.queue_numitems = QUEUE_SIZE then pull_queue s else .ok s) with
  | .error e => .error e
  | .ok s1 =>
    if s1.queue_numitems < QUEUE_SIZE then
      let np1 := clamp_note s1 np
      match queue_insert s1 cmd np1 with
      | .error e => .error e
      | .ok s2 => .ok (s2, np1)
    else .error (.assertion 381)

/-! ## Merge scheduler -/

/-- The track-selection loop of `midi_process_track_data` (lines 558-567): `count` passes
left, the running `tracknum`, and the running `earliest_time` and `earliest_tracknum`
(`none` while the C variable is still uninitialised). -/
def scan_tracks (s : MIDIFile) : Nat → Nat → Nat → Option Nat → Nat × Option Nat
  | 0, _, earliest_time, earliest_tracknum => (earliest_time, earliest_tracknum)
  | count + 1, tracknum, earliest_time, earliest_tracknum =>
    let tracknum1 := if tracknum + 1 ≥ s.num_tracks then 0 else tracknum + 1
    let trk := s.track.getD tracknum1 default
    if trk.cmd ≠ CMD_TRACKDONE ∧ trk.time < earliest_time then
      scan_tracks s count tracknum1 trk.time (some tracknum1)
    else scan_tracks s count tracknum1 earliest_time earliest_tracknum

/-- The selection of the track to process: the earliest time and the track picked.  With
no track at all the C loop counter underflows; that is reported as `uninitialised`, as is
a scan that picks no track and leaves `earliest_tracknum` unset. -/
def select_track (s : MIDIFile) : Except Fault (Nat × Nat) :=
  if s.num_tracks = 0 then .error .uninitialised
  else
    match scan_tracks s s.num_tracks 0 0x7fffffff none with
    | (earliest_time, some tracknum) => .ok (earliest_time, tracknum)
    | (_, none) => .error .uninitialised

/-- The clock update of `midi_process_track_data` (lines 574-576), in `uint64_t`
arithmetic. -/
def advance_clock (s : MIDIFile) (earliest_time : Nat) : Except Fault MIDIFile :=
  if s.ticks_per_beat = 0 then .error .div_by_zero
  else
    let ticks := (earliest_time + W64 - s.timenow_usec_updated) % W64
    .ok { s with timenow_ticks := earliest_time,
                 timenow_usec := (s.timenow_usec + (ticks * s.tempo) % W64 / s.ticks_per_beat) % W64,
                 timenow_usec_updated := earliest_time }

/-- The slot search of the stop-note branch (lines 603-606): the first slot that is
playing `note` for `tracknum`, `none` when the loop runs to `MAX_CHANNELNOTES`. -/
def find_playing_slot (cp : ChannelStatus) (note tracknum : Nat) : Option Nat :=
  (List.range MAX_CHANNELNOTES).find? fun ndx =>
    cp.note_playing.getD ndx false &&
      decide ((cp.notes_playing.getD ndx default).note = note) &&
      decide ((cp.notes_playing.getD ndx default).track = tracknum)

/-- The slot search of the play-note branch (lines 634-637): the first unused slot. -/
def find_free_slot (cp : ChannelStatus) : Option Nat :=
  (List.range MAX_CHANNELNOTES).find? fun ndx => !cp.note_playing.getD ndx false

/-- The truncation of a stopped note (lines 618-622), in `unsigned long` arithmetic. -/
def stop_truncation (timenow_usec start_usec : Nat) : Nat :=
  let duration_usec := (timenow_usec + W64 - start_usec) % W64
  if duration_usec ≤ notemin_usec then 0
  else if duration_usec < releasetime_usec + notemin_usec then duration_usec - notemin_usec
  else releasetime_usec

/-- The stop-note branch before its call of `midi_find_next_note` (lines 602-628). -/
def dispatch_stop (s : MIDIFile) (tracknum : Nat) :
    Except Fault MIDIFile :=
  let trk := s.track.getD tracknum default
  let cp := s.channel.getD trk.chan default
  match find_playing_slot cp trk.note tracknum with
  | none => .ok s
  | some ndx =>
    let np := cp.notes_playing.getD ndx default
    let truncation := stop_truncation s.timenow_usec np.time_usec
    let np1 := { np with time_usec := (s.timenow_usec + W64 - truncation) % W64 }
    match queue_cmd s CMD_STOPNOTE np1 with
    | .error e => .error e
    | .ok (s1, np2) =>
      let cp1 := { cp with notes_playing := cp.notes_playing.set ndx np2,
                           note_playing := cp.note_playing.set ndx false }
      .ok { s1 with channel := s1.channel.set trk.chan cp1 }

/-- The play-note branch before its call of `midi_find_next_note` (lines 633-656). -/
def dispatch_play (s : MIDIFile) (tracknum : Nat) :
    Except Fault MIDIFile :=
  let trk := s.track.getD tracknum default
  let cp := s.channel.getD trk.chan default
  match find_free_slot cp with
  | none => .ok s
  | some ndx =>
    let pn : NoteInfo :=
      { time_usec := s.timenow_usec, track := tracknum, channel := trk.chan,
        note := trk.note, instrument := cp.instrument, volume := trk.volume }
    match queue_cmd s CMD_PLAYNOTE pn with
    | .error e => .error e
    | .ok (s1, pn1) =>
      let cp1 := { cp with note_playing := cp.note_playing.set ndx true,
                           notes_playing := cp.notes_playing.set ndx pn1 }
      .ok { s1 with channel := s1.channel.set trk.chan cp1 }

/-- The three pedal branches before their call of `midi_find_next_note` (lines 659-679);
`k` is the pedal number.  The assignment to `pedalStatus[0]` is commented out in the
source (line 660); `midi->pedalStatus` (line 675) and the bare `timenow_usec` (line 676)
are read as `pedalStatus` and `midi->timenow_usec`. -/
def dispatch_pedal (s : MIDIFile) (tracknum k : Nat) (cmd : Nat) :
    Except Fault MIDIFile :=
  let trk := s.track.getD tracknum default
  let s1 := if k = 0 then s
            else { s with pedalStatus := s.pedalStatus.set k (trk.pedalVals.getD k 0) }
  let pn := { s1.pedalNote with volume := s1.pedalStatus.getD k 0,
                                time_usec := s1.timenow_usec }
  match queue_cmd s1 cmd pn with
  | .error e => .error e
  | .ok (s2, pn1) => .ok { s2 with pedalNote := pn1 }

/-- The dispatch on the command of the selected track (lines 588-682), up to the call of
`midi_find_next_note` that ends every branch. -/
def dispatch (s : MIDIFile) (tracknum : Nat) :
    Except Fault MIDIFile :=
  let trk := s.track.getD tracknum default
  if trk.cmd = CMD_TEMPO then
    .ok (if s.tempo ≠ trk.tempo then { s with tempo := trk.tempo } else s)
  else if trk.cmd = CMD_STOPNOTE then dispatch_stop s tracknum
  else if trk.cmd = CMD_PLAYNOTE then dispatch_play s tracknum
  else if trk.cmd = CMD_PED0 then dispatch_pedal s tracknum 0 CMD_PED0
  else if trk.cmd = CMD_PED1 then dispatch_pedal s tracknum 1 CMD_PED1
  else if trk.cmd = CMD_PED2 then dispatch_pedal s tracknum 2 CMD_PED2
  else .error (.assertion 681)

/-- The statement `result = midi_find_next_note(midi, tracknum); assert(result == True);`
found at the end of every branch (lines 598, 629, 657, 664, 671, 678).  When the track
ends the C function sets `CMD_TRACKDONE` and leaves without a `return` statement, so
the value of `result` is indeterminate: the assertion passes if `end_results` says for
the track that the value read is `True`, and fails otherwise.  The fault carries the line
of the first of the six assertions, 598, whichever branch was taken. -/
def advance_track (s : MIDIFile) (tracknum : Nat) : Except Fault MIDIFile :=
  match midi_find_next_note s tracknum with
  | .error e => .error e
  | .ok (.ret_false, _) => .error (.assertion 598)
  | .ok (r, s1) =>
    if r = .no_return ∧ s1.end_results.getD tracknum false = false then
      .error (.assertion 598)
    else .ok s1

/-- One pass through the body of the `do ... while` loop of `midi_process_track_data`. -/
def process_step (s : MIDIFile) : Except Fault MIDIFile :=
  match select_track s with
  | .error e => .error e
  | .ok (earliest_time, tracknum) =>
    if earliest_time ≥ s.timenow_ticks then
      match advance_clock s earliest_time with
      | .error e => .error e
      | .ok s1 =>
        match dispatch s1 tracknum with
        | .error e => .error e
        | .ok s2 => advance_track s2 tracknum
    else .error (.assertion 571)

/-- The `do ... while (tracks_done < num_tracks)` loop of `midi_process_track_data`. -/
def process_loop : Nat → MIDIFile → Except Fault MIDIFile
  | 0, _ => .error .no_fuel
  | fuel + 1, s =>
    match process_step s with
    | .error e => .error e
    | .ok s1 =>
      if s1.tracks_done < s1.num_tracks then process_loop fuel s1 else .ok s1

/-- A bound on the passes of the merge loop: every pass either moves the cursor of a
track forward or marks a track as done. -/
def merge_fuel (s : MIDIFile) : Nat :=
  ((List.range s.num_tracks).map fun i =>
    (s.track.getD i default).trkend - (s.track.getD i default).trkptr + 1).sum + 1

/-- The C `midi_process_track_data`. -/
def midi_process_track_data (s : MIDIFile) : Except Fault MIDIFile :=
  match process_loop (merge_fuel s) s with
  | .error e => .error e
  | .ok s1 =>
    match flush_queue s1 with
    | .error e => .error e
    | .ok s2 =>
      if s2.timenow_usec ≥ s2.output_usec then
        match generate_delay s2 ((s2.timenow_usec - s2.output_usec) / 1000) with
        | .error e => .error e
        | .ok s3 => .ok (midi_writeoutput s3 CMD_STOP)
      else .error (.assertion 697)

/-! ## File and track headers, and the whole run -/

/-- The C `midi_load`, given the bytes of the file. -/
def midi_load (data : List Nat) : MIDIFile :=
  { data := data, ticks_per_beat := DEFAULT_BEATTIME }

/-- The C `strcompare` of the four bytes at `p` with a four-letter tag. -/
def strcompare4 (data : List Nat) (p : Nat) (tag : List Nat) : Except Fault Bool :=
  match rd data p, rd data (p + 1), rd data (p + 2), rd data (p + 3) with
  | .ok b0, .ok b1, .ok b2, .ok b3 => .ok (decide ([b0, b1, b2, b3] = tag))
  | _, _, _, _ => .error .out_of_bounds

/-- The C `midi_process_file_header`.  `struct midi_header` has its fields at offsets
0, 4, 8, 10 and 12 and is 16 bytes long. -/
def midi_process_file_header (s : MIDIFile) : Except Fault MIDIFile :=
  if check_bufferlen 0 16 s.data.length = false then .error (.assertion 115)
  else
    match strcompare4 s.data 0 [0x4D, 0x54, 0x68, 0x64] with
    | .error e => .error e
    | .ok false => .error (.assertion 119)
    | .ok true =>
      match load16 s.data 10, load16 s.data 12, load32 s.data 4 with
      | .ok w_tracks, .ok w_division, .ok w_size =>
        let num_tracks := rev_short w_tracks
        let time_division := rev_short w_division
        let ticks_per_beat :=
          if time_division < 0x8000 then time_division
          else ((time_division >>> 8) &&& 0x7f) * (time_division &&& 0xff)
        if num_tracks < MAX_TRACKS then
          .ok { s with num_tracks := num_tracks, time_division := time_division,
                       ticks_per_beat := ticks_per_beat, dataptr := rev_long w_size + 8,
                       track := List.replicate MAX_TRACKS {} }
        else .error (.assertion 140)
      | _, _, _ => .error .out_of_bounds

/-- The C `midi_process_track_header`; the value returned is dropped by its only caller,
so only the state is given back. -/
def midi_process_track_header (s : MIDIFile) (tracknum : Nat) : Except Fault MIDIFile :=
  if check_bufferlen s.dataptr 8 s.data.length = false then .error (.assertion 151)
  else
    match strcompare4 s.data s.dataptr [0x4D, 0x54, 0x72, 0x6B] with
    | .error e => .error e
    | .ok false => .ok s
    | .ok true =>
      match load32 s.data (s.dataptr + 4) with
      | .error e => .error e
      | .ok w_size =>
        let tracklen := rev_long w_size
        if check_bufferlen (s.dataptr + 8) tracklen s.data.length = false then
          .error (.assertion 166)
        else
          .ok { s with dataptr := s.dataptr + 8 + tracklen,
                       track := s.track.set tracknum
                         { s.track.getD tracknum default with
                             trkptr := s.dataptr + 8, trkend := s.dataptr + 8 + tracklen } }

/-- The `for` loop of `midi_binarize` that positions every track on its first event
(lines 716-723): `count` tracks left, starting with `tracknum`.  For a track without
an event to return, `midi_find_next_note` leaves without a `return` statement, and the
assertion of line 722 passes or fails as `end_results` says for the track. -/
def position_tracks : Nat → Nat → MIDIFile → Except Fault MIDIFile
  | 0, _, s => .ok s
  | count + 1, tracknum, s =>
    let t := s.track.getD tracknum default
    let s1 := { s with track := s.track.set tracknum { t with tempo := DEFAULT_TEMPO } }
    match midi_process_track_header s1 tracknum with
    | .error e => .error e
    | .ok s2 =>
      match midi_find_next_note s2 tracknum with
      | .error e => .error e
      | .ok (.ret_false, _) => .error (.assertion 722)
      | .ok (r, s3) =>
        if r = .no_return ∧ s3.end_results.getD tracknum false = false then
          .error (.assertion 722)
        else position_tracks count (tracknum + 1) s3

/-- The C `midi_binarize` from the state `s0` that `midi_load` has filled, up to the
state in which `midi_process_track_data` is called. -/
def midi_prepare_from (s0 : MIDIFile) : Except Fault MIDIFile :=
  match midi_process_file_header s0 with
  | .error e => .error e
  | .ok s =>
    let s1 := { s with tempo := DEFAULT_TEMPO, tracks_done := 0 }
    match position_tracks s1.num_tracks 0 s1 with
    | .error e => .error e
    | .ok s2 =>
      .ok { s2 with queue_numitems := 0, queue_oldest_ndx := 0, queue_newest_ndx := 0,
                    last_output_was_delay := false, output := [],
                    timenow_ticks := 0, timenow_usec := 0, timenow_usec_updated := 0,
                    output_usec := 0, output_deficit_usec := 0 }

/-- The C `midi_binarize` on the bytes of the input file, up to the state in which
`midi_process_track_data` is called.  `midi_load` fills the default state, in which the
value read at the end of every track is `True`. -/
def midi_prepare (data : List Nat) : Except Fault MIDIFile :=
  midi_prepare_from (midi_load data)

/-- The C `midi_binarize` on the bytes of the input file: the final state, whose field
`output` is the byte stream produced. -/
def midi_binarize (data : List Nat) : Except Fault MIDIFile :=
  match midi_prepare data with
  | .error e => .error e
  | .ok s => midi_process_track_data s

/-- The C `midi_binarize` from the state `s0` that `midi_load` has filled: the run on the
bytes `s0.data` in which the values read at the ends of the tracks are those of
`s0.end_results`. -/
def midi_binarize_from (s0 : MIDIFile) : Except Fault MIDIFile :=
  match midi_prepare_from s0 with
  | .error e => .error e
  | .ok s => midi_process_track_data s

/-! ## Definitions used to state the properties -/

/-- The minimal variable-length encoding as the specification words it: 7 bits per byte,
most significant group first, the high bit set on every byte but the last. -/
def spec_varlen_encode (v : Nat) : List Nat :=
  if v < 0x80 then [v]
  else if v < 0x4000 then [0x80 + v / 0x80, v % 0x80]
  else if v < 0x200000 then [0x80 + v / 0x4000, 0x80 + v / 0x80 % 0x80, v % 0x80]
  else [0x80 + v / 0x200000, 0x80 + v / 0x4000 % 0x80, 0x80 + v / 0x80 % 0x80, v % 0x80]

/-- The minimal byte count of the specification: 1 below 0x80, 2 below 0x4000, 3 below
0x200000, otherwise 4. -/
def spec_varlen_size (v : Nat) : Nat :=
  if v < 0x80 then 1 else if v < 0x4000 then 2 else if v < 0x200000 then 3 else 4

/-- A MIDI file of one track at 240 ticks per beat: `MThd`, header length 6, format 0,
one track, division 240; `MTrk`, length 9; delta 0, note on channel 0 note 60 velocity 64;
delta 480, note off channel 0 note 60 velocity 64. -/
def one_note_file : List Nat :=
  [0x4D, 0x54, 0x68, 0x64, 0, 0, 0, 6, 0, 0, 0, 1, 0, 0xF0,
   0x4D, 0x54, 0x72, 0x6B, 0, 0, 0, 9,
   0x00, 0x90, 0x3C, 0x40,
   0x83, 0x60, 0x80, 0x3C, 0x40]

/-- The state after `k` passes through the removal loop of `pull_queue`. -/
def pull_n : Nat → MIDIFile → MIDIFile
  | 0, s => s
  | k + 1, s => pull_n k (pull_body s)

/-- The gap `(oldtime - output_usec) + output_deficit_usec` in exact arithmetic. -/
def drain_delta_usec (s : MIDIFile) : Nat :=
  (oldest_time s - s.output_usec) + s.output_deficit_usec

/-- The output of a delay of `d` milliseconds: nothing for 0, else two bytes, high first. -/
def delay_record (d : Nat) : List Out :=
  if 0 < d then [.byte (d >>> 8), .byte (d &&& 0xff)] else []

/-- A state whose queue holds Play entries with the given times from ring index 0 on,
with the given last output time and deficit. -/
def queue_state (output_usec deficit : Nat) (times : List Nat) : MIDIFile :=
  { output_usec := output_usec, output_deficit_usec := deficit,
    queue := (times.map fun t => (⟨CMD_PLAYNOTE, { time_usec := t }⟩ : QEntry))
      ++ List.replicate (QUEUE_SIZE - times.length) {},
    queue_numitems := times.length, queue_oldest_ndx := 0,
    queue_newest_ndx := times.length - 1 }

/-- The file `one_note_file` with the note off at delta 19200 (bytes 0x81 0x96 0x00), 40
seconds after the note on. -/
def long_note_file : List Nat :=
  [0x4D, 0x54, 0x68, 0x64, 0, 0, 0, 6, 0, 0, 0, 1, 0, 0xF0,
   0x4D, 0x54, 0x72, 0x6B, 0, 0, 0, 10,
   0x00, 0x90, 0x3C, 0x40,
   0x81, 0x96, 0x00, 0x80, 0x3C, 0x40]

/-- The note slots of every channel: what the channel table holds besides the
instruments. -/
def slots_of (ch : List ChannelStatus) : List (List Bool × List NoteInfo) :=
  ch.map fun c => (c.note_playing, c.notes_playing)

/-- A one-track state at 240 ticks per beat in which the track, at its end, has a
pending note off for note 60 while no note is playing. -/
def lone_stop_state : MIDIFile :=
  { data := [0x00, 0x80, 0x3C, 0x40], num_tracks := 1, ticks_per_beat := 240,
    tempo := DEFAULT_TEMPO,
    track := [{ trkptr := 4, trkend := 4, cmd := CMD_STOPNOTE, note := 60, volume := 64,
                last_event := 0x80 }] ++ List.replicate (MAX_TRACKS - 1) {} }

/-- The entry at offset `i` from the oldest ring index `o`. -/
def ring_at (q : List QEntry) (o i : Nat) : QEntry :=
  q.getD ((o + i) % QUEUE_SIZE) default

/-- The entries of the queue, oldest first. -/
def queue_seq (s : MIDIFile) : List QEntry :=
  (List.range s.queue_numitems).map (ring_at s.queue s.queue_oldest_ndx)

/-- The ring is well formed: the array has `QUEUE_SIZE` cells, the indices are in range
and the newest index is `numitems - 1` cells after the oldest, around the ring. -/
def ring_ok (s : MIDIFile) : Prop :=
  s.queue.length = QUEUE_SIZE ∧ s.queue_oldest_ndx < QUEUE_SIZE ∧
  s.queue_numitems ≤ QUEUE_SIZE ∧
  (0 < s.queue_numitems →
    s.queue_newest_ndx = (s.queue_oldest_ndx + (s.queue_numitems - 1)) % QUEUE_SIZE)

/-- The entries are in non-decreasing order of time. -/
def time_sorted (l : List QEntry) : Prop :=
  l.Pairwise fun a b => a.note.time_usec ≤ b.note.time_usec

/-- What an insertion into the queue achieves, `l` being the entries before and `l1` the
entries after, oldest first: `l1` is `l` with `e` put in after the last entry whose time
is at most that of `e`. -/
def inserted_after_last_le (e : QEntry) (l l1 : List QEntry) : Prop :=
  ∃ a b, l = a ++ b ∧ l1 = a ++ e :: b ∧
    (∀ x ∈ b, e.note.time_usec < x.note.time_usec) ∧
    (∀ x, a.getLast? = some x → x.note.time_usec ≤ e.note.time_usec)

instance (s : MIDIFile) : Decidable (ring_ok s) := by
  unfold ring_ok; infer_instance

instance (l : List QEntry) : Decidable (time_sorted l) := by
  unfold time_sorted; infer_instance

/-- A ring that wraps around: three entries at the ring indices 98, 99 and 0, with times
10, 20 and 30; last output time 5. -/
def wrapped_queue_state : MIDIFile :=
  { queue := (⟨CMD_STOPNOTE, { time_usec := 30, note := 1 }⟩ :: List.replicate 97 {})
      ++ [⟨CMD_PLAYNOTE, { time_usec := 10, note := 1 }⟩,
          ⟨CMD_PLAYNOTE, { time_usec := 20, note := 2 }⟩],
    queue_numitems := 3, queue_oldest_ndx := 98, queue_newest_ndx := 0,
    output_usec := 5, output_deficit_usec := 0 }

/-- The track status with cursor and end moved one byte on. -/
def shift1 (t : TrackStatus) : TrackStatus :=
  { t with trkptr := t.trkptr + 1, trkend := t.trkend + 1 }

/-- The outcome of a pass with cursor and end moved one byte on. -/
def Pass.shift1 : Pass → Pass
  | .returned r t ch => .returned r (Midilib.shift1 t) ch
  | .continues t ch => .continues (Midilib.shift1 t) ch

/-- The state in which track `tracknum` is written with the status byte: the buffer is
`data`, and cursor and end of the track lie one byte further. -/
def with_status (data : List Nat) (tracknum : Nat) (s : MIDIFile) : MIDIFile :=
  { s with data := data,
           track := s.track.set tracknum (shift1 (s.track.getD tracknum default)) }

/-- A one-track state whose track has decoded a note on (status 0x90) and stands before a
second note-on event written without its status byte: delta 0, note 62, velocity 64. -/
def running_status_state : MIDIFile :=
  { data := [0x00, 0x90, 0x3C, 0x40] ++ [0x00] ++ [0x3E, 0x40],
    num_tracks := 1, ticks_per_beat := 240, tempo := DEFAULT_TEMPO,
    track := [{ trkptr := 4, trkend := 7, cmd := CMD_PLAYNOTE, note := 60, volume := 64,
                last_event := 0x90 }] ++ List.replicate (MAX_TRACKS - 1) {} }

/-- A one-track file, every event written with its status byte: note on 60 and 62 at
tick 0, note off 60 and 62 at tick 96. -/
def full_status_file : List Nat :=
  [0x4D, 0x54, 0x68, 0x64, 0, 0, 0, 6, 0, 0, 0, 1, 0, 0xF0,
   0x4D, 0x54, 0x72, 0x6B, 0, 0, 0, 16,
   0x00, 0x90, 0x3C, 0x40, 0x00, 0x90, 0x3E, 0x40,
   0x60, 0x80, 0x3C, 0x40, 0x00, 0x80, 0x3E, 0x40]

/-- The file `full_status_file` with every repeated status byte left out. -/
def running_status_file : List Nat :=
  [0x4D, 0x54, 0x68, 0x64, 0, 0, 0, 6, 0, 0, 0, 1, 0, 0xF0,
   0x4D, 0x54, 0x72, 0x6B, 0, 0, 0, 14,
   0x00, 0x90, 0x3C, 0x40, 0x00, 0x3E, 0x40,
   0x60, 0x80, 0x3C, 0x40, 0x00, 0x3E, 0x40]

/-- The fields of the state that the queue and the codec never write. -/
def sched_fields (s : MIDIFile) :
    List Nat × Nat × List TrackStatus × Nat × Nat × Nat × Nat × Nat × Nat :=
  (s.data, s.num_tracks, s.track, s.tracks_done, s.timenow_ticks, s.timenow_usec,
    s.timenow_usec_updated, s.ticks_per_beat, s.channel_mask)

/-- A bound on the tick time a track can still reach: every event adds less than `2^28`
ticks and takes at least one byte. -/
def tick_budget (t : TrackStatus) : Nat :=
  t.time + 268435456 * (t.trkend - t.trkptr)

/-- The merge invariant: the track table is complete, no running track lies before the
song's current tick time, and no track can reach a tick time that does not fit in 64
bits. -/
def merge_inv (s : MIDIFile) : Prop :=
  s.track.length = MAX_TRACKS ∧ s.num_tracks ≤ MAX_TRACKS ∧
  ∀ i, i < s.num_tracks →
    ((s.track.getD i default).cmd ≠ CMD_TRACKDONE →
      s.timenow_ticks ≤ (s.track.getD i default).time) ∧
    tick_budget (s.track.getD i default) < W64

/-- `n` passes through the body of the merge loop, one after the other. -/
def process_steps : Nat → MIDIFile → Except Fault MIDIFile
  | 0, s => .ok s
  | n + 1, s =>
    match process_step s with
    | .error e => .error e
    | .ok s1 => process_steps n s1

/-- The state of the tracks while `midi_binarize` positions them: the table is complete,
no track can reach a tick time that does not fit in 64 bits, and the tracks from
`tracknum` on are still at tick 0. -/
def position_inv (tracknum : Nat) (s : MIDIFile) : Prop :=
  s.track.length = MAX_TRACKS ∧
  ∀ i, tick_budget (s.track.getD i default) < W64 ∧
    (tracknum ≤ i → (s.track.getD i default).time = 0)

/-- The state in which `midi_binarize` calls `midi_process_track_data` for
`one_note_file`. -/
def one_note_prepared : MIDIFile :=
  { data := one_note_file, dataptr := 31, num_tracks := 1, time_division := 240,
    ticks_per_beat := 240, tempo := DEFAULT_TEMPO,
    track := [{ trkptr := 26, trkend := 31, tempo := DEFAULT_TEMPO, cmd := CMD_PLAYNOTE,
                note := 60, volume := 64, last_event := 0x90 }]
      ++ List.replicate (MAX_TRACKS - 1) {} }

/-- A file of two tracks at 240 ticks per beat.  Track 0: note on 60 at tick 0, note off
at tick 200.  Track 1: note on 64 at tick 100, note off at tick 150. -/
def two_track_file : List Nat :=
  [0x4D, 0x54, 0x68, 0x64, 0, 0, 0, 6, 0, 1, 0, 2, 0, 0xF0,
   0x4D, 0x54, 0x72, 0x6B, 0, 0, 0, 9,
   0x00, 0x90, 0x3C, 0x40, 0x81, 0x48, 0x80, 0x3C, 0x40,
   0x4D, 0x54, 0x72, 0x6B, 0, 0, 0, 8,
   0x64, 0x90, 0x40, 0x40, 0x32, 0x80, 0x40, 0x40]

/-! ## Definitions for the note-slot capacity -/

/-- The state in which track `tracknum` has come to an event of the channel `chan`: its
pending command is `cmd` with the given note and volume. -/
def pending (s : MIDIFile) (chan tracknum cmd note volume : Nat) : MIDIFile :=
  { s with track := s.track.set tracknum
             ({ s.track.getD tracknum default with
                  cmd := cmd, chan := chan, note := note, volume := volume }) }

/-- The dispatch of a list of Play events `(track, note, volume)`, one after the other,
nothing else being dispatched in between. -/
def play_notes (chan : Nat) : List (Nat × Nat × Nat) → MIDIFile → Except Fault MIDIFile
  | [], s => .ok s
  | e :: rest, s =>
    match dispatch (pending s chan e.1 CMD_PLAYNOTE e.2.1 e.2.2) e.1 with
    | .error err => .error err
    | .ok s1 => play_notes chan rest s1

/-- The slots of a channel hold the notes of the events `done`, in their order, from slot
0 on, and the other slots are free. -/
def slots_hold (cp : ChannelStatus) (done : List (Nat × Nat × Nat)) : Prop :=
  cp.note_playing.length = MAX_CHANNELNOTES ∧ cp.notes_playing.length = MAX_CHANNELNOTES ∧
  ∀ i, i < MAX_CHANNELNOTES →
    if i < done.length then
      cp.note_playing.getD i false = true ∧
      (cp.notes_playing.getD i default).track = (done.getD i default).1 ∧
      (cp.notes_playing.getD i default).note = (done.getD i default).2.1
    else cp.note_playing.getD i false = false

/-- What identifies the queue entry of an event: command, channel, track, note, volume. -/
def entry_key (e : QEntry) : Nat × Nat × Nat × Nat × Nat :=
  (e.cmd, e.note.channel, e.note.track, e.note.note, e.note.volume)

instance (cp : ChannelStatus) (done : List (Nat × Nat × Nat)) : Decidable (slots_hold cp done) := by
  unfold slots_hold
  infer_instance

/-- Twenty-four Play events of one track for the notes 60 to 83, in ascending order. -/
def chord_events : List (Nat × Nat × Nat) :=
  (List.range MAX_CHANNELNOTES).map fun i => (0, 60 + i, 64)

/-- A MIDI file of one track at 240 ticks per beat: 25 note-on events of note 60 on
channel 0, each at delta 0, then the note off of note 60 at delta 0. -/
def same_note_file : List Nat :=
  [0x4D, 0x54, 0x68, 0x64, 0, 0, 0, 6, 0, 0, 0, 1, 0, 0xF0,
   0x4D, 0x54, 0x72, 0x6B, 0, 0, 0, 104]
  ++ (List.replicate 25 [0x00, 0x90, 0x3C, 0x40]).flatten
  ++ [0x00, 0x80, 0x3C, 0x40]

/-- The note that the play-note branch stores for the track `tracknum`. -/
def play_note_of (s : MIDIFile) (tracknum : Nat) : NoteInfo :=
  clamp_note s
    { time_usec := s.timenow_usec, track := tracknum,
      channel := (s.track.getD tracknum default).chan,
      note := (s.track.getD tracknum default).note,
      instrument := (s.channel.getD (s.track.getD tracknum default).chan default).instrument,
      volume := (s.track.getD tracknum default).volume }

/-! ## Definitions for the note lifecycle -/

/-- The `horizon` of `queue_cmd` (line 383): the last output time plus the deficit, in
`uint32_t` arithmetic. -/
def horizon (s : MIDIFile) : Nat := (s.output_usec + s.output_deficit_usec) % W32

/-- The state of the run on `one_note_file` after the first pass of the merge loop:
note 60 sounds in slot 0 of channel 0 since time 0, its Play command is the one entry of
the queue, and track 0 has come to the note off at tick 480. -/
def one_note_sounding : MIDIFile :=
  { data := one_note_file, dataptr := 31, num_tracks := 1, time_division := 240,
    ticks_per_beat := 240, tempo := DEFAULT_TEMPO,
    track := [{ trkptr := 31, trkend := 31, time := 480, tempo := DEFAULT_TEMPO,
                cmd := CMD_STOPNOTE, note := 60, volume := 64, last_event := 0x80 }]
      ++ List.replicate (MAX_TRACKS - 1) {},
    channel := [{ note_playing := [true] ++ List.replicate (MAX_CHANNELNOTES - 1) false,
                  notes_playing := [{ note := 60, volume := 64 }]
                    ++ List.replicate (MAX_CHANNELNOTES - 1) {} }]
      ++ List.replicate (NUM_CHANNELS - 1) {},
    queue := [⟨CMD_PLAYNOTE, { note := 60, volume := 64 }⟩]
      ++ List.replicate (QUEUE_SIZE - 1) {},
    queue_numitems := 1 }

/-- The state `one_note_sounding` with the clock moved on to tick 480, 1000000 usec. -/
def one_note_stopping : MIDIFile :=
  { one_note_sounding with
      timenow_ticks := 480, timenow_usec := 1000000, timenow_usec_updated := 480 }

/-- A MIDI file of one track at 1000 ticks per beat: the tempo set to 1000 usec per beat
(one tick is one microsecond); note 1 on at tick 999 and off at tick 1001; at tick 1001,
49 times note 2 on and off, then note 60 on and off; note 5 on and off at tick 2001.  It
puts 100 commands into the queue before the note on of note 60. -/
def crowded_file : List Nat :=
  [0x4D, 0x54, 0x68, 0x64, 0, 0, 0, 6, 0, 0, 0, 1, 0x03, 0xE8,
   0x4D, 0x54, 0x72, 0x6B, 0, 0, 0x01, 0xA9,
   0x00, 0xFF, 0x51, 0x03, 0x00, 0x03, 0xE8,
   0x87, 0x67, 0x90, 0x01, 0x40,
   0x02, 0x80, 0x01, 0x40]
  ++ (List.replicate 49 [0x00, 0x90, 0x02, 0x40, 0x00, 0x80, 0x02, 0x40]).flatten
  ++ [0x00, 0x90, 0x3C, 0x40,
      0x00, 0x80, 0x3C, 0x40,
      0x87, 0x68, 0x90, 0x05, 0x40,
      0x00, 0x80, 0x05, 0x40]

/-! ## Definitions for the queue count -/

/-- An operation on the delivery queue: the insertion of a command by `queue_cmd`, or one
pass of the `while` loop of `flush_queue`, which drains by `pull_queue` when the queue is
not empty. -/
inductive QOp where
  | insert (cmd : Nat) (np : NoteInfo)
  | drain
deriving DecidableEq, Repr

/-- One operation on the queue. -/
def queue_op (s : MIDIFile) : QOp → Except Fault MIDIFile
  | .insert cmd np =>
    match queue_cmd s cmd np with
    | .error e => .error e
    | .ok (s1, _) => .ok s1
  | .drain => if s.queue_numitems > 0 then pull_queue s else .ok s

/-- A sequence of operations on the queue, one after the other. -/
def queue_ops : List QOp → MIDIFile → Except Fault MIDIFile
  | [], s => .ok s
  | op :: rest, s =>
    match queue_op s op with
    | .error e => .error e
    | .ok s1 => queue_ops rest s1

/-! ## Definitions for the slot keys -/

/-- No two occupied slots of the channel hold the same (track, note) pair. -/
def slot_keys_unique (cp : ChannelStatus) : Prop :=
  ∀ i j, i < MAX_CHANNELNOTES → j < MAX_CHANNELNOTES → i ≠ j →
    cp.note_playing.getD i false = true → cp.note_playing.getD j false = true →
    ¬ ((cp.notes_playing.getD i default).track = (cp.notes_playing.getD j default).track ∧
       (cp.notes_playing.getD i default).note = (cp.notes_playing.getD j default).note)

/-- Every channel has its `MAX_CHANNELNOTES` slots, and no two occupied slots of one
channel hold the same (track, note) pair. -/
def slots_inv (ch : List ChannelStatus) : Prop :=
  ∀ c, (ch.getD c default).note_playing.length = MAX_CHANNELNOTES ∧
    (ch.getD c default).notes_playing.length = MAX_CHANNELNOTES ∧
    slot_keys_unique (ch.getD c default)

/-- The pass of the merge loop that starts in `s` dispatches a PlayNote for a
(track, note) pair that an occupied slot of the channel already holds: the search is the
one the stop-note branch makes (lines 603-606). -/
def restarts (s : MIDIFile) : Bool :=
  match select_track s with
  | .error _ => false
  | .ok (_, tracknum) =>
    decide ((s.track.getD tracknum default).cmd = CMD_PLAYNOTE) &&
      (find_playing_slot (s.channel.getD (s.track.getD tracknum default).chan default)
        (s.track.getD tracknum default).note tracknum).isSome

/-- None of the next `n` passes of the merge loop from `s` is one that `restarts`. -/
def clean_steps : Nat → MIDIFile → Bool
  | 0, _ => true
  | n + 1, s =>
    !restarts s &&
      (match process_step s with
       | .error _ => true
       | .ok s1 => clean_steps n s1)

/-! ## Definitions for the track cursor -/

/-- A MIDI file of two tracks at 240 ticks per beat.  Track 0 is the three bytes
`00 90 3C` at the offsets 22 to 24, a note on cut off before its velocity, its end offset
being 25; track 1 (header at offset 25) has note 64 on at tick 0 and off at tick 96. -/
def truncated_file : List Nat :=
  [0x4D, 0x54, 0x68, 0x64, 0, 0, 0, 6, 0, 1, 0, 2, 0, 0xF0,
   0x4D, 0x54, 0x72, 0x6B, 0, 0, 0, 3,
   0x00, 0x90, 0x3C,
   0x4D, 0x54, 0x72, 0x6B, 0, 0, 0, 8,
   0x00, 0x90, 0x40, 0x40, 0x60, 0x80, 0x40, 0x40]

/-- The file `truncated_file` with, as track 0, the three bytes `00 FF 01`: a meta event
cut off before its length. -/
def truncated_meta_file : List Nat :=
  [0x4D, 0x54, 0x68, 0x64, 0, 0, 0, 6, 0, 1, 0, 2, 0, 0xF0,
   0x4D, 0x54, 0x72, 0x6B, 0, 0, 0, 3,
   0x00, 0xFF, 0x01,
   0x4D, 0x54, 0x72, 0x6B, 0, 0, 0, 8,
   0x00, 0x90, 0x40, 0x40, 0x60, 0x80, 0x40, 0x40]

/-- A MIDI file of one track, the three bytes `00 90 3C`, which are the last bytes of the
file. -/
def truncated_last_file : List Nat :=
  [0x4D, 0x54, 0x68, 0x64, 0, 0, 0, 6, 0, 0, 0, 1, 0, 0xF0,
   0x4D, 0x54, 0x72, 0x6B, 0, 0, 0, 3,
   0x00, 0x90, 0x3C]

/-! ## Definitions for malformed events -/

/-- The effective status byte of an event: the byte read, or the stored running status
when the byte read has its high bit clear. -/
def effective_status (last_event b : Nat) : Nat := if b < 0x80 then last_event else b

/-- A status value is malformed: it is below 0x80, or its high nibble `event >> 4` is none
of the values 0x8 to 0xf that the `switch` of line 262 knows. -/
def malformed_status (event : Nat) : Prop :=
  event < 0x80 ∨ ¬ (8 ≤ event >>> 4 ∧ event >>> 4 ≤ 0xf)

instance (event : Nat) : Decidable (malformed_status event) := by
  unfold malformed_status
  infer_instance

/-- The pass ends the call with `return False`. -/
def Pass.fails : Pass → Bool
  | .returned .ret_false _ _ => true
  | _ => false

/-- The pass leaves the tag `cmd` of the track as it was, unless it returns `True`. -/
def Pass.keeps_cmd (cmd : Nat) : Pass → Prop
  | .returned .ret_true _ _ => True
  | .returned _ t _ => t.cmd = cmd
  | .continues t _ => t.cmd = cmd

/-- The decoder's position after `k` events that were consumed without being surfaced:
`k` passes of the loop of `midi_find_next_note`, each entered with the cursor before the
end of the track and each ending with `break`. -/
def skipped_events (data : List Nat) (channel_mask : Nat) :
    Nat → TrackStatus → List ChannelStatus → Option (TrackStatus × List ChannelStatus)
  | 0, t, ch => some (t, ch)
  | k + 1, t, ch =>
    if t.trkptr < t.trkend then
      match event_pass data channel_mask t ch with
      | .ok (.continues t1 ch1) => skipped_events data channel_mask k t1 ch1
      | _ => none
    else none

/-- A MIDI file of one track at 240 ticks per beat whose first event, at delta 0, begins
with the data byte 0x3C: it relies on a running status that was never stored. -/
def no_status_file : List Nat :=
  [0x4D, 0x54, 0x68, 0x64, 0, 0, 0, 6, 0, 0, 0, 1, 0, 0xF0,
   0x4D, 0x54, 0x72, 0x6B, 0, 0, 0, 3,
   0x00, 0x3C, 0x40]

/-! ## Definitions for the skipped channel events -/

/-- The bytes of a track: at delta 0 a key pressure event `A0 3C 40`, then at delta 0 a
note on `90 3E 40`. -/
def key_pressure_track : List Nat := [0x00, 0xA0, 0x3C, 0x40, 0x00, 0x90, 0x3E, 0x40]

/-! ## Definitions for the stop truncation -/

/-- The truncation of a stopped note (lines 618-622) with the values `notemin` and
`release` in the place of the constants `notemin_usec` and `releasetime_usec`, which are
taken as natural numbers; the duration is an `unsigned long`. -/
def stop_truncation_of (notemin release timenow_usec start_usec : Nat) : Nat :=
  let duration_usec := (timenow_usec + W64 - start_usec) % W64
  if duration_usec ≤ notemin then 0
  else if duration_usec < release + notemin then duration_usec - notemin
  else release

/-! ## Definitions for the track selection -/

/-- A MIDI file of one track at 240 ticks per beat: eight channel pressure events
`D0 00`, each at delta 0x0FFFFFFF (bytes `FF FF FF 7F`), then at the same delta the note
on of note 60, which so lies at tick 9 * 0x0FFFFFFF = 0x8FFFFFF7. -/
def late_note_file : List Nat :=
  [0x4D, 0x54, 0x68, 0x64, 0, 0, 0, 6, 0, 0, 0, 1, 0, 0xF0,
   0x4D, 0x54, 0x72, 0x6B, 0, 0, 0, 55,
   0xFF, 0xFF, 0xFF, 0x7F, 0xD0, 0x00,
   0xFF, 0xFF, 0xFF, 0x7F, 0xD0, 0x00,
   0xFF, 0xFF, 0xFF, 0x7F, 0xD0, 0x00,
   0xFF, 0xFF, 0xFF, 0x7F, 0xD0, 0x00,
   0xFF, 0xFF, 0xFF, 0x7F, 0xD0, 0x00,
   0xFF, 0xFF, 0xFF, 0x7F, 0xD0, 0x00,
   0xFF, 0xFF, 0xFF, 0x7F, 0xD0, 0x00,
   0xFF, 0xFF, 0xFF, 0x7F, 0xD0, 0x00,
   0xFF, 0xFF, 0xFF, 0x7F, 0x90, 0x3C, 0x40]

/-- A state of two tracks: track 0 has a pending StopNote at tick 200, track 1 a pending
PlayNote at tick 100. -/
def two_pending_state : MIDIFile :=
  { num_tracks := 2, ticks_per_beat := 240, tempo := DEFAULT_TEMPO,
    track := [{ cmd := CMD_STOPNOTE, time := 200, note := 60 },
              { cmd := CMD_PLAYNOTE, time := 100, note := 64, volume := 64 }]
      ++ List.replicate (MAX_TRACKS - 2) {} }

/-! ## Definitions for the termination of the merge loop -/

/-- The passes of the merge loop a track can still take: none when it is Done, otherwise
one for every byte left before its end and one for the pass that finds the end. -/
def track_fuel (t : TrackStatus) : Nat :=
  if t.cmd = CMD_TRACKDONE then 0 else t.trkend - t.trkptr + 1

/-- The sum of `track_fuel` over the first `n` tracks. -/
def fuel_left (tr : List TrackStatus) : Nat → Nat
  | 0 => 0
  | n + 1 => fuel_left tr n + track_fuel (tr.getD n default)

/-- The number of tracks among the first `n` whose tag is Done. -/
def done_count (tr : List TrackStatus) : Nat → Nat
  | 0 => 0
  | n + 1 => done_count tr n + (if (tr.getD n default).cmd = CMD_TRACKDONE then 1 else 0)

/-- A pass that returns `True` leaves a tag other than Done, and no pass ends the call
without a `return` statement. -/
def Pass.tagged : Pass → Prop
  | .returned .ret_true t _ => t.cmd ≠ CMD_TRACKDONE
  | .returned .no_return _ _ => False
  | _ => True

/-- A MIDI file of one track at 240 ticks per beat whose track chunk has length 0: the
call that positions the track finds its end at once and tags it Done. -/
def empty_track_file : List Nat :=
  [0x4D, 0x54, 0x68, 0x64, 0, 0, 0, 6, 0, 0, 0, 1, 0, 0xF0,
   0x4D, 0x54, 0x72, 0x6B, 0, 0, 0, 0]

/-- A MIDI file of one track at 240 ticks per beat: at delta 0 the meta event set tempo
(500000 usec per beat), then at delta 0 the data bytes `3C 40` with no status byte before
them in the track. -/
def tempo_then_data_file : List Nat :=
  [0x4D, 0x54, 0x68, 0x64, 0, 0, 0, 6, 0, 0, 0, 1, 0, 0xF0,
   0x4D, 0x54, 0x72, 0x6B, 0, 0, 0, 10,
   0x00, 0xFF, 0x51, 0x03, 0x07, 0xA1, 0x20,
   0x00, 0x3C, 0x40]

/-- The counter `tracks_done` is the number of the song's tracks that are Done. -/
def done_inv (s : MIDIFile) : Prop :=
  s.tracks_done = done_count s.track s.num_tracks

/-! ## Definitions for the set-tempo event -/

/-- The bytes of a track: at delta 0 the set-tempo event `FF 51 03 07 A1 20` (500000 usec
per beat), then at delta 0 the set-tempo event `FF 51 05 01 02 03 04 05` with the length
5. -/
def tempo_track : List Nat :=
  [0x00, 0xFF, 0x51, 0x03, 0x07, 0xA1, 0x20,
   0x00, 0xFF, 0x51, 0x05, 0x01, 0x02, 0x03, 0x04, 0x05]

/-- A one-track state whose track is `tempo_track`, the cursor being at `ptr`. -/
def tempo_state (ptr : Nat) : MIDIFile :=
  { data := tempo_track, num_tracks := 1, ticks_per_beat := 240, tempo := DEFAULT_TEMPO,
    track := [{ trkptr := ptr, trkend := 16 }] ++ List.replicate (MAX_TRACKS - 1) {} }

/-! ## Definitions for the note on with velocity 0 -/

/-- The bytes of a track: at delta 0 the note on `93 3C 00` of note 60 on channel 3 with
velocity 0, then at delta 0 the note on `99 3E 00` on the percussion channel, then at delta
0 the note on `90 40 40`. -/
def zero_velocity_track : List Nat :=
  [0x00, 0x93, 0x3C, 0x00, 0x00, 0x99, 0x3E, 0x00, 0x00, 0x90, 0x40, 0x40]

/-- The track `zero_velocity_track` with its first two events written as note off events:
`83 3C 00` and `89 3E 00`. -/
def note_off_track : List Nat :=
  [0x00, 0x83, 0x3C, 0x00, 0x00, 0x89, 0x3E, 0x00, 0x00, 0x90, 0x40, 0x40]

/-- The outcome of a pass with the stored running status replaced by `e`. -/
def Pass.with_last_event (e : Nat) : Pass → Pass
  | .returned r t ch => .returned r { t with last_event := e } ch
  | .continues t ch => .continues { t with last_event := e } ch

/-! ## Definitions for the pedal events -/

/-- The bytes of a track: at delta 0 the controller change `B2 42 64` (controller 66 of
channel 2 set to 100), then at delta 0 the controller change `B2 07 50` (controller 7). -/
def pedal_track : List Nat := [0x00, 0xB2, 0x42, 0x64, 0x00, 0xB2, 0x07, 0x50]

/-- A one-track state at 240 ticks per beat whose clock stands at 5000 usec and whose
track 0 holds what the decoder leaves after the first event of `pedal_track`. -/
def pedal_state : MIDIFile :=
  { data := pedal_track, num_tracks := 1, ticks_per_beat := 240, tempo := DEFAULT_TEMPO,
    timenow_usec := 5000,
    track := [{ trkend := 8, last_event := 0xB2, chan := 2, cmd := CMD_PED1,
                pedalVals := [0, 100, 0], volume := 100, trkptr := 4 }]
      ++ List.replicate (MAX_TRACKS - 1) {} }

/-- A MIDI file of one track at 240 ticks per beat: at delta 0 the controller change
`B0 40 7F`, the damper pedal (controller 64) of channel 0 set to 127. -/
def damper_file : List Nat :=
  [0x4D, 0x54, 0x68, 0x64, 0, 0, 0, 6, 0, 0, 0, 1, 0, 0xF0,
   0x4D, 0x54, 0x72, 0x6B, 0, 0, 0, 4,
   0x00, 0xB0, 0x40, 0x7F]

/-- A MIDI file of one track at 240 ticks per beat and the default tempo: 101 controller
changes of controller 66 to the value 64, all at tick 1 (2083 usec); the first is
`01 B0 42 40`, the others are written with the running status, `00 42 40`. -/
def pedal_burst_file : List Nat :=
  [0x4D, 0x54, 0x68, 0x64, 0, 0, 0, 6, 0, 0, 0, 1, 0, 0xF0,
   0x4D, 0x54, 0x72, 0x6B, 0, 0, 0x01, 0x30,
   0x01, 0xB0, 0x42, 0x40]
  ++ (List.replicate 100 [0x00, 0x42, 0x40]).flatten

/-! ## Definitions for the end of the song -/

/-- A MIDI file of one track at 240 ticks per beat and the default tempo: 51 times the
note on and the note off of note 60, all 102 events at tick 1 (2083 usec); the first is
`01 90 3C 40`, the others are written with the running status, the note off as a note on
with velocity 0. -/
def note_burst_file : List Nat :=
  [0x4D, 0x54, 0x68, 0x64, 0, 0, 0, 6, 0, 0, 0, 1, 0, 0xF0,
   0x4D, 0x54, 0x72, 0x6B, 0, 0, 0x01, 0x33,
   0x01, 0x90, 0x3C, 0x40, 0x00, 0x3C, 0x00]
  ++ (List.replicate 50 [0x00, 0x3C, 0x40, 0x00, 0x3C, 0x00]).flatten

/-! ## Definitions for the horizon near the end of the 32-bit range -/

/-- A MIDI file of one track at 1 tick per beat.  The tempo is first set to 16000000 usec
per beat; note 60 is switched on at tick 2 and then off and on again every 2 ticks (32
seconds), 134 events in all, the last a note off at 4288000000 usec.  With it, at delta
0, the tempo is set to 4 usec per beat, and 1741800 ticks later (delta `EA A7 68`), at
4294967200 usec, note 60 is switched on and off 51 times at the same tick, 102 events
written with the running status, the note off as a note on with velocity 0. -/
def late_burst_file : List Nat :=
  [0x4D, 0x54, 0x68, 0x64, 0, 0, 0, 6, 0, 0, 0, 1, 0x00, 0x01,
   0x4D, 0x54, 0x72, 0x6B, 0, 0, 0x02, 0xD5,
   0x00, 0xFF, 0x51, 0x03, 0xF4, 0x24, 0x00,
   0x02, 0x90, 0x3C, 0x40]
  ++ (List.replicate 66 [0x02, 0x3C, 0x00, 0x02, 0x3C, 0x40]).flatten
  ++ [0x02, 0x3C, 0x00,
      0x00, 0xFF, 0x51, 0x03, 0x00, 0x00, 0x04,
      0xEA, 0xA7, 0x68, 0x3C, 0x40]
  ++ (List.replicate 50 [0x00, 0x3C, 0x00, 0x00, 0x3C, 0x40]).flatten
  ++ [0x00, 0x3C, 0x00]

/-- The `e`-th note event of `late_burst_file` as the queue entry made of it: a Play for
an odd `e` and a Stop for an even one; the first 134 events are 32 seconds apart, the
others all have the time 4294967200 usec. -/
def late_burst_event (e : Nat) : QEntry :=
  ⟨if e % 2 = 1 then CMD_PLAYNOTE else CMD_STOPNOTE,
   { time_usec := if e ≤ 134 then 32000000 * e else 4294967200, note := 60, volume := 64 }⟩

/-- The state of the run on `late_burst_file` in which `n` note events have been queued
and event `n + 1` is the pending command of the track, written out field by field (for
`n` from 1 to 234; from 134 on the tempo is the one set after the 134th event): the clock
stands at the time of event `n`, the ring holds the last 100 events, event `e` in slot
`(e - 1) mod 100`, and the events before them have been output, each after a delay
record of 32000 ms (`7D 00`).  It is compared with the run at `n` = 47, 95, 142, 166,
190, 212 and 234. -/
def late_burst_reached (n : Nat) : MIDIFile :=
  { data := late_burst_file, dataptr := 747, num_tracks := 1, time_division := 1,
    ticks_per_beat := 1,
    tempo := if n < 134 then 16000000 else 4,
    track := [{ trkptr := if n < 134 then 33 + 3 * n else 42 + 3 * n,
                trkend := 747,
                time := if n < 134 then 2 * (n + 1) else 1742068,
                tempo := if n < 134 then 16000000 else 4,
                cmd := if n % 2 = 0 then CMD_PLAYNOTE else CMD_STOPNOTE,
                note := 60,
                volume := if n % 2 = 0 then 64 else 0,
                last_event := 0x90 }]
      ++ List.replicate (MAX_TRACKS - 1) {},
    channel := [{ note_playing := [decide (n % 2 = 1)]
                    ++ List.replicate (MAX_CHANNELNOTES - 1) false,
                  notes_playing := [(late_burst_event n).note]
                    ++ List.replicate (MAX_CHANNELNOTES - 1) {} }]
      ++ List.replicate (NUM_CHANNELS - 1) {},
    timenow_ticks := if n ≤ 134 then 2 * n else 1742068,
    timenow_usec := (late_burst_event n).note.time_usec,
    timenow_usec_updated := if n ≤ 134 then 2 * n else 1742068,
    output_usec := 32000000 * (n - 100),
    queue := (List.range QUEUE_SIZE).map (fun p =>
      if n ≤ p then {} else late_burst_event (p + 1 + 100 * ((n - 1 - p) / 100))),
    queue_numitems := min n 100,
    queue_oldest_ndx := (n - 100) % 100,
    queue_newest_ndx := (n - 1) % 100,
    last_output_was_delay := decide (100 < n),
    output := ((List.range (n - 100)).map (fun i =>
      [Out.byte 0x7D, Out.byte 0x00, Out.entry (late_burst_event (i + 1))])).flatten }

/-! ## Definitions for the carried deficit -/

/-- The delay values, in milliseconds, of the delay records in an output: a record is two
bytes, high byte first, as `generate_delay` writes them; what `remove_queue_entry` writes
is passed over.  A byte that is not followed by a second byte is no record, and the output
has no reading. -/
def delays_of : List Out → Option (List Nat)
  | [] => some []
  | .entry _ :: rest => delays_of rest
  | .byte hi :: .byte lo :: rest => (delays_of rest).map fun l => (hi * 256 + lo) :: l
  | .byte _ :: _ => none

/-- The state that three drains leave of `queue_state 0 0 [0, 1500, 3200]`: the three
entries are written, with a delay of 1 ms before the second and one of 2 ms before the
third; the last output time is 3200 and the deficit 200. -/
def drained_state : MIDIFile :=
  { queue_state 0 0 [0, 1500, 3200] with
      output_usec := 3200, output_deficit_usec := 200, queue_numitems := 0,
      queue_oldest_ndx := 3, last_output_was_delay := true,
      output := [.entry ⟨CMD_PLAYNOTE, { time_usec := 0 }⟩, .byte 0x00, .byte 0x01,
                 .entry ⟨CMD_PLAYNOTE, { time_usec := 1500 }⟩, .byte 0x00, .byte 0x02,
                 .entry ⟨CMD_PLAYNOTE, { time_usec := 3200 }⟩] }

/-- The invariant of the drains: the deficit is below one millisecond, and what has been
written since the output was `o0` is delay records and queue entries, the delays adding
up, with the deficit, to the last output time. -/
def drain_inv (o0 : List Out) (s : MIDIFile) : Prop :=
  s.output_deficit_usec < 1000 ∧
  ∃ out ds, s.output = o0 ++ out ∧ delays_of out = some ds ∧
    1000 * ds.sum + s.output_deficit_usec = s.output_usec

/-- Every entry of the queue has a time below `2^32`. -/
def times_fit (s : MIDIFile) : Prop :=
  ∀ e ∈ queue_seq s, e.note.time_usec < W32

/-! ## Definitions for the song's clock -/

/-- The invariant of the song's clock in a run: the microsecond clock has been brought up
to the current tick time, the current tick time lies below the sentinel of the selection,
every tempo is a 24-bit value, and the microsecond clock is at most `2^24` times the tick
time. -/
def clock_inv (s : MIDIFile) : Prop :=
  s.timenow_usec_updated = s.timenow_ticks ∧ s.timenow_ticks < 0x7fffffff ∧
  s.tempo < 16777216 ∧ (∀ i, (s.track.getD i default).tempo < 16777216) ∧
  s.timenow_usec ≤ s.timenow_ticks * 16777216

/-- A MIDI file of one track at 240 ticks per beat: note 60 on at tick 0; at tick 240 the
tempo is set to 250000 usec per beat (`FF 51 03 03 D0 90`); note 60 off at tick 480. -/
def tempo_change_file : List Nat :=
  [0x4D, 0x54, 0x68, 0x64, 0, 0, 0, 6, 0, 0, 0, 1, 0, 0xF0,
   0x4D, 0x54, 0x72, 0x6B, 0, 0, 0, 17,
   0x00, 0x90, 0x3C, 0x40,
   0x81, 0x70, 0xFF, 0x51, 0x03, 0x03, 0xD0, 0x90,
   0x81, 0x70, 0x80, 0x3C, 0x40]

/-- The state in which `midi_binarize` calls `midi_process_track_data` for
`tempo_change_file`. -/
def tempo_change_prepared : MIDIFile :=
  { data := tempo_change_file, dataptr := 39, num_tracks := 1, time_division := 240,
    ticks_per_beat := 240, tempo := DEFAULT_TEMPO,
    track := [{ trkptr := 26, trkend := 39, tempo := DEFAULT_TEMPO, cmd := CMD_PLAYNOTE,
                note := 60, volume := 64, last_event := 0x90 }]
      ++ List.replicate (MAX_TRACKS - 1) {} }

/-- The state of the run on `tempo_change_file` after the first pass of the merge loop:
note 60 sounds since time 0, and track 0 has come to the tempo change at tick 240, whose
tempo of 250000 usec per beat it already holds while the song's tempo is still the default
one. -/
def tempo_change_sounding : MIDIFile :=
  { tempo_change_prepared with
      track := [{ trkptr := 34, trkend := 39, time := 240, tempo := 250000, cmd := CMD_TEMPO,
                  note := 60, volume := 64, last_event := 0x90 }]
        ++ List.replicate (MAX_TRACKS - 1) {},
      channel := one_note_sounding.channel,
      queue := one_note_sounding.queue,
      queue_numitems := 1 }

/-! ## Byte-cursor decoder: proofs -/

theorem rd_append (pre l : List Nat) (k : Nat) :
    rd (pre ++ l) (pre.length + k) = rd l k := by
  simp [rd, List.getElem?_append_right]

theorem data_byte_low : ∀ b, b < 128 → (b % 256) &&& 0x7f = b ∧ (b % 256) &&& 0x80 = 0 := by
  decide!

theorem data_byte_high :
    ∀ b, b < 128 → ((0x80 + b) % 256) &&& 0x7f = b ∧ ((0x80 + b) % 256) &&& 0x80 ≠ 0 := by
  decide!

theorem shl7_or (a b : Nat) (h : b < 128) : (a <<< 7) ||| b = a * 128 + b := by
  rw [Nat.shiftLeft_eq, Nat.mul_comm]
  exact (Nat.mul_add_lt_is_or (i := 7) h a).symm

/-- A byte with the high bit clear ends the variable-length value. -/
theorem varlen_step_last (data : List Nat) (n val ptr b : Nat) (hb : b < 128)
    (h : rd data ptr = .ok (b % 256)) :
    get_varlen_loop data (n + 1) val ptr = .ok (val * 128 + b, ptr + 1) := by
  simp only [get_varlen_loop, h, (data_byte_low b hb).1, (data_byte_low b hb).2, if_true,
    shl7_or _ _ hb]

/-- A byte with the high bit set contributes seven bits and the loop goes on. -/
theorem varlen_step_more (data : List Nat) (n val ptr b : Nat) (hb : b < 128)
    (h : rd data ptr = .ok ((0x80 + b) % 256)) :
    get_varlen_loop data (n + 1) val ptr = get_varlen_loop data n (val * 128 + b) (ptr + 1) := by
  simp only [get_varlen_loop, h, (data_byte_high b hb).1, (data_byte_high b hb).2, if_false,
    shl7_or _ _ hb]

/-- C2: for every value `v ≤ 0x0FFFFFFF`, `get_varlen` applied where the minimal
variable-length encoding of `v` stands in the buffer returns `v` and moves the cursor by
the minimal byte count (1, 2, 3 or 4), which is the length of the encoding. -/
theorem get_varlen_roundtrip (v : Nat) (hv : v ≤ 0x0FFFFFFF) (pre post : List Nat) :
    get_varlen (pre ++ spec_varlen_encode v ++ post) pre.length
        = .ok (v, pre.length + spec_varlen_size v)
      ∧ (spec_varlen_encode v).length = spec_varlen_size v := by
  unfold spec_varlen_encode spec_varlen_size get_varlen
  have r0 : ∀ l : List Nat, rd (pre ++ l ++ post) pre.length = rd (l ++ post) 0 := by
    intro l; rw [List.append_assoc]; exact rd_append pre _ 0
  have r1 : ∀ l : List Nat, rd (pre ++ l ++ post) (pre.length + 1) = rd (l ++ post) 1 := by
    intro l; rw [List.append_assoc]; exact rd_append pre _ 1
  have r2 : ∀ l : List Nat, rd (pre ++ l ++ post) (pre.length + 1 + 1) = rd (l ++ post) 2 := by
    intro l; rw [List.append_assoc]; exact rd_append pre _ 2
  have r3 : ∀ l : List Nat,
      rd (pre ++ l ++ post) (pre.length + 1 + 1 + 1) = rd (l ++ post) 3 := by
    intro l; rw [List.append_assoc]; exact rd_append pre _ 3
  split_ifs with h1 h2 h3
  · refine ⟨?_, rfl⟩
    rw [varlen_step_last _ _ _ _ v h1 (by rw [r0]; rfl)]
    simp
  · refine ⟨?_, rfl⟩
    rw [varlen_step_more _ _ _ _ (v / 0x80) (by omega) (by rw [r0]; rfl),
      varlen_step_last _ _ _ _ (v % 0x80) (by omega) (by rw [r1]; rfl)]
    have e : (0 * 128 + v / 0x80) * 128 + v % 0x80 = v := by omega
    rw [e]
  · refine ⟨?_, rfl⟩
    rw [varlen_step_more _ _ _ _ (v / 0x4000) (by omega) (by rw [r0]; rfl),
      varlen_step_more _ _ _ _ (v / 0x80 % 0x80) (by omega) (by rw [r1]; rfl),
      varlen_step_last _ _ _ _ (v % 0x80) (by omega) (by rw [r2]; rfl)]
    have e : ((0 * 128 + v / 0x4000) * 128 + v / 0x80 % 0x80) * 128 + v % 0x80 = v := by
      omega
    rw [e]
  · refine ⟨?_, rfl⟩
    rw [varlen_step_more _ _ _ _ (v / 0x200000) (by omega) (by rw [r0]; rfl),
      varlen_step_more _ _ _ _ (v / 0x4000 % 0x80) (by omega) (by rw [r1]; rfl),
      varlen_step_more _ _ _ _ (v / 0x80 % 0x80) (by omega) (by rw [r2]; rfl),
      varlen_step_last _ _ _ _ (v % 0x80) (by omega) (by rw [r3]; rfl)]
    have e : (((0 * 128 + v / 0x200000) * 128 + v / 0x4000 % 0x80) * 128 + v / 0x80 % 0x80) * 128
        + v % 0x80 = v := by omega
    rw [e]

/-- Witness of C2 at the delta 480 (bytes 0x83 0x60) between two other bytes. -/
theorem get_varlen_roundtrip_witness :
    480 ≤ 0x0FFFFFFF ∧
      (get_varlen ([0x40] ++ spec_varlen_encode 480 ++ [0x80]) ([0x40] : List Nat).length
          = .ok (480, ([0x40] : List Nat).length + spec_varlen_size 480)
        ∧ (spec_varlen_encode 480).length = spec_varlen_size 480) :=
  ⟨by decide, get_varlen_roundtrip 480 (by decide) [0x40] [0x80]⟩

/-! ## Whole run: proofs -/

theorem one_note_file_output :
    (midi_binarize one_note_file).map (fun s => s.output) =
      .ok [.entry ⟨CMD_PLAYNOTE, { time_usec := 0, track := 0, channel := 0, note := 60,
                                   instrument := 0, volume := 64 }⟩,
           .byte 0x03, .byte 0xE8,
           .entry ⟨CMD_STOPNOTE, { time_usec := 1000000, track := 0, channel := 0, note := 60,
                                   instrument := 0, volume := 64 }⟩,
           .byte 0xF0] := by
  decide!

/-- The run on the one-track file (240 ticks per beat, default tempo, note on at delta 0,
note off at delta 480) in which the value read at the end of the track is `True`
produces, whatever bytes `remove_queue_entry` writes for a queue entry, exactly: the Play
command of note 60, the delay record 0x03 0xE8 (1000 ms), the Stop command of note 60 at
1000000 usec, and the terminal Stop byte 0xF0. -/
theorem one_note_file_stream (emit : QEntry → List Nat) :
    (midi_binarize one_note_file).map (fun s => render emit s.output) =
      .ok (emit ⟨CMD_PLAYNOTE, { time_usec := 0, track := 0, channel := 0, note := 60,
                                 instrument := 0, volume := 64 }⟩
           ++ [0x03, 0xE8]
           ++ emit ⟨CMD_STOPNOTE, { time_usec := 1000000, track := 0, channel := 0, note := 60,
                                    instrument := 0, volume := 64 }⟩
           ++ [CMD_STOP]) := by
  have h := one_note_file_output
  cases hr : midi_binarize one_note_file with
  | error e => rw [hr] at h; cases h
  | ok s =>
    rw [hr] at h
    simp only [Except.map, Except.ok.injEq] at h ⊢
    rw [h]
    simp [render]

theorem one_note_file_end_true :
    (midi_binarize_from
        { midi_load one_note_file with end_results := List.replicate MAX_TRACKS true }).map
        (fun s => s.output)
      = .ok [.entry ⟨CMD_PLAYNOTE, { time_usec := 0, track := 0, channel := 0, note := 60,
                                     instrument := 0, volume := 64 }⟩,
             .byte 0x03, .byte 0xE8,
             .entry ⟨CMD_STOPNOTE, { time_usec := 1000000, track := 0, channel := 0,
                                     note := 60, instrument := 0, volume := 64 }⟩,
             .byte 0xF0] := by
  decide!

theorem one_note_file_end_false :
    (midi_binarize_from
        { midi_load one_note_file with end_results := List.replicate MAX_TRACKS false }).map
        (fun s => s.output)
      = .error (.assertion 598) := by
  decide!

/-- C1: the run on `one_note_file`, the one-track file of the end-to-end example.  The
second pass of the merge loop queues the Stop of note 60 and calls
`midi_find_next_note`, which finds the end of the track, sets `CMD_TRACKDONE`, counts
the track as done and reaches its end without a `return` statement (lines 351-354).  The
caller's `assert(result == True)` (line 629, the fault 598 of `advance_track`) reads an
indeterminate value.  If it is not `True` the run stops at the assertion, with the Play
and the Stop still in the queue and nothing written; only if it is `True` does the run
write the expected stream: the Play of note 60, the delay record 0x03 0xE8, the Stop of
note 60 at 1000000 usec and the byte 0xF0. -/
theorem one_note_file_track_end :
    midi_prepare one_note_file = .ok one_note_prepared ∧
    (midi_find_next_note one_note_stopping 0).map
        (fun r => (r.1, (r.2.track.getD 0 default).cmd, r.2.tracks_done, r.2.queue_numitems))
      = .ok (.no_return, CMD_TRACKDONE, 1, 1) ∧
    (∀ b : Bool,
      advance_track { one_note_stopping with end_results := List.replicate MAX_TRACKS b } 0
        = if b = true then
            (midi_find_next_note
                { one_note_stopping with end_results := List.replicate MAX_TRACKS b } 0).map
              (fun r => r.2)
          else .error (.assertion 598)) ∧
    (∀ b : Bool,
      (midi_binarize_from
          { midi_load one_note_file with end_results := List.replicate MAX_TRACKS b }).map
          (fun s => s.output)
        = if b = true then
            .ok [.entry ⟨CMD_PLAYNOTE, { time_usec := 0, track := 0, channel := 0,
                                         note := 60, instrument := 0, volume := 64 }⟩,
                 .byte 0x03, .byte 0xE8,
                 .entry ⟨CMD_STOPNOTE, { time_usec := 1000000, track := 0, channel := 0,
                                         note := 60, instrument := 0, volume := 64 }⟩,
                 .byte 0xF0]
          else .error (.assertion 598)) := by
  refine ⟨by decide!, by decide!, ?_, ?_⟩
  · intro b
    cases b
    · decide!
    · decide!
  · intro b
    cases b
    · exact one_note_file_end_false
    · exact one_note_file_end_true

/-! ## Output codec: proofs -/

theorem pull_while_eq (oldtime : Nat) :
    ∀ (fuel : Nat) (s : MIDIFile), s.queue_numitems ≤ fuel →
      ∃ k, k ≤ s.queue_numitems ∧ pull_while oldtime fuel s = .ok (pull_n k s) := by
  intro fuel
  induction fuel with
  | zero =>
    intro s h
    refine ⟨0, Nat.zero_le _, ?_⟩
    have h0 : s.queue_numitems = 0 := by omega
    simp [pull_while, pull_n, h0]
  | succ n ih =>
    intro s h
    by_cases hc : s.queue_numitems > 0 ∧
        (s.queue.getD s.queue_oldest_ndx default).note.time_usec ≤ oldtime
    · have hb : (pull_body s).queue_numitems = s.queue_numitems - 1 := rfl
      obtain ⟨k, hk, he⟩ := ih (pull_body s) (by omega)
      refine ⟨k + 1, by omega, ?_⟩
      rw [pull_while, if_pos hc]
      exact he
    · refine ⟨0, Nat.zero_le _, ?_⟩
      rw [pull_while, if_neg hc]
      rfl

theorem pull_n_frame : ∀ (k : Nat) (s : MIDIFile),
    (pull_n k s).output_usec = s.output_usec ∧
    (pull_n k s).output_deficit_usec = s.output_deficit_usec ∧
    (pull_n k s).queue = s.queue ∧
    (pull_n k s).channel = s.channel ∧
    (pull_n k s).track = s.track ∧
    (pull_n k s).timenow_usec = s.timenow_usec ∧
    (pull_n k s).queue_numitems = s.queue_numitems - k ∧
    ∃ es : List QEntry, es.length = k ∧ (pull_n k s).output = s.output ++ es.map Out.entry := by
  intro k
  induction k with
  | zero => intro s; exact ⟨rfl, rfl, rfl, rfl, rfl, rfl, rfl, [], rfl, by simp [pull_n]⟩
  | succ n ih =>
    intro s
    obtain ⟨h1, h2, h3, h4, h5, h6, h7, es, hl, he⟩ := ih (pull_body s)
    refine ⟨h1, h2, h3, h4, h5, h6, ?_, s.queue.getD s.queue_oldest_ndx default :: es, ?_, ?_⟩
    · rw [pull_n, h7]; show s.queue_numitems - 1 - n = _; omega
    · simp [hl]
    · rw [pull_n, he]; simp [pull_body, remove_queue_entry]

theorem shr8 (d : Nat) : d >>> 8 = d / 256 := by
  rw [Nat.shiftRight_eq_div_pow]

theorem and255 (d : Nat) : d &&& 0xff = d % 256 := by
  exact Nat.and_pow_two_sub_one_eq_mod d 8

theorem generate_delay_eq (s : MIDIFile) (d : Nat) :
    generate_delay s d =
      (if d = 0 then .ok s
       else if d ≤ 0x7FFF then
         .ok { s with last_output_was_delay := true,
                      output := s.output ++ [.byte (d >>> 8), .byte (d &&& 0xff)] }
       else .error (.assertion 440)) := by
  unfold generate_delay
  by_cases h0 : d = 0
  · simp [h0]
  · by_cases h1 : d ≤ 0x7FFF
    · have e1 : (d >>> 8) % 256 = d >>> 8 := by rw [shr8]; omega
      have e2 : (d &&& 0xff) % 256 = d &&& 0xff := by rw [and255]; omega
      simp [h0, h1, Nat.pos_of_ne_zero h0, midi_writeoutput, e1, e2]
    · simp [h0, h1, Nat.pos_of_ne_zero h0]

/-- C9: `generate_delay` appends nothing for a delay of 0; for 1 ≤ d ≤ 0x7FFF it appends
exactly the two bytes `d >> 8` and `d & 0xFF`, the first of which is below 0x80 while every
command byte is at least 0x80, and the two bytes read back big-endian give `d`; for
d > 0x7FFF it fails at the assertion of line 440 and so appends nothing. -/
theorem generate_delay_spec (s : MIDIFile) (d : Nat) :
    generate_delay s d =
        (if d = 0 then .ok s
         else if d ≤ 0x7FFF then
           .ok { s with last_output_was_delay := true,
                        output := s.output ++ [.byte (d >>> 8), .byte (d &&& 0xff)] }
         else .error (.assertion 440))
      ∧ (d ≤ 0x7FFF → d >>> 8 < 0x80 ∧ (d >>> 8) * 256 + (d &&& 0xff) = d)
      ∧ (∀ c ∈ output_commands, 0x80 ≤ c) := by
  refine ⟨generate_delay_eq s d, ?_, by decide⟩
  intro h
  rw [shr8, and255]
  omega

/-- Witness of C9 at a delay of 1000 ms appended to an empty output. -/
theorem generate_delay_spec_witness :
    generate_delay {} 1000 =
        .ok { ({} : MIDIFile) with last_output_was_delay := true,
                                   output := [.byte 0x03, .byte 0xE8] }
      ∧ (1000 >>> 8 < 0x80 ∧ (1000 >>> 8) * 256 + (1000 &&& 0xff) = 1000)
      ∧ (∀ c ∈ output_commands, 0x80 ≤ c) :=
  ⟨(generate_delay_spec {} 1000).1, (generate_delay_spec {} 1000).2.1 (by decide),
    (generate_delay_spec {} 1000).2.2⟩

theorem generate_delay_output (s : MIDIFile) (d : Nat) (h : d ≤ 0x7FFF) :
    ∃ s1, generate_delay s d = .ok s1 ∧ s1.output = s.output ++ delay_record d ∧
      s1.queue_numitems = s.queue_numitems ∧ s1.output_deficit_usec = s.output_deficit_usec ∧
      s1.output_usec = s.output_usec := by
  rw [generate_delay_eq s d]
  by_cases h0 : d = 0
  · exact ⟨s, by simp [h0], by simp [h0, delay_record], rfl, rfl, rfl⟩
  · refine ⟨{ s with last_output_was_delay := true,
                       output := s.output ++ [.byte (d >>> 8), .byte (d &&& 0xff)] },
      by rw [if_neg h0, if_pos h], ?_, rfl, rfl, rfl⟩
    simp [delay_record, Nat.pos_of_ne_zero h0]

theorem pull_n_output_usec : ∀ (k : Nat) (s : MIDIFile),
    (pull_n k s).output_usec = s.output_usec ∧
    (pull_n k s).output_deficit_usec = s.output_deficit_usec := by
  intro k
  induction k with
  | zero => intro s; exact ⟨rfl, rfl⟩
  | succ n ih => intro s; exact ih (pull_body s)

/-- What the first part of `pull_queue` leaves: the state with a new deficit, last output
time, delay flag and output. -/
theorem pull_prelude_shape {s s3 : MIDIFile} (h : pull_prelude s = .ok s3) :
    ∃ d u f o, s3 = { s with output_deficit_usec := d, output_usec := u,
                             last_output_was_delay := f, output := o } := by
  unfold pull_prelude at h
  simp only [generate_delay_eq] at h
  split_ifs at h
  all_goals (cases h; exact ⟨_, _, _, _, rfl⟩)

/-- A successful `pull_queue` is its first part followed by `k + 1` removals. -/
theorem pull_queue_shape {s s1 : MIDIFile} (h : pull_queue s = .ok s1) :
    ∃ k s3, pull_prelude s = .ok s3 ∧ k + 1 ≤ max 1 s.queue_numitems ∧
      s1 = pull_n (k + 1) s3 := by
  unfold pull_queue at h
  split at h
  · cases h
  · next s3 hp =>
    obtain ⟨d, u, f, o, hs3⟩ := pull_prelude_shape hp
    obtain ⟨k, hk1, hk⟩ := pull_while_eq (oldest_time s) s3.queue_numitems (pull_body s3)
      (by show s3.queue_numitems - 1 ≤ _; omega)
    rw [hk] at h
    cases h
    refine ⟨k, s3, hp, ?_, rfl⟩
    have : (pull_body s3).queue_numitems = s.queue_numitems - 1 := by rw [hs3]; rfl
    omega

theorem pull_prelude_delay (s : MIDIFile) (h1 : s.output_usec ≤ oldest_time s)
    (h2 : oldest_time s < W32) (h3 : s.output_deficit_usec < W32) :
    (drain_delta_usec s / 1000 ≤ 0x7FFF →
      ∃ s3, pull_prelude s = .ok s3 ∧
        s3.output_deficit_usec = drain_delta_usec s % 1000 ∧
        s3.output_usec = oldest_time s ∧
        s3.queue_numitems = s.queue_numitems ∧
        s3.output = s.output ++ delay_record (drain_delta_usec s / 1000)) ∧
    (0x7FFF < drain_delta_usec s / 1000 → pull_prelude s = .error (.assertion 440)) := by
  have hmod : ((oldest_time s - s.output_usec) + s.output_deficit_usec) % W64
      = drain_delta_usec s := by
    unfold drain_delta_usec
    apply Nat.mod_eq_of_lt; simp only [W32, W64] at *; omega
  have hm32 : oldest_time s % W32 = oldest_time s := Nat.mod_eq_of_lt h2
  have hge : oldest_time s ≥ s.output_usec := h1
  unfold pull_prelude
  simp only [hge, if_true, hmod, hm32, generate_delay_eq]
  constructor
  · intro hq
    by_cases hd : drain_delta_usec s > 0
    · rw [if_pos hd]
      by_cases hz : drain_delta_usec s / 1000 > 0
      · have hnz : drain_delta_usec s / 1000 ≠ 0 := by omega
        rw [if_pos hz, if_neg hnz, if_pos hq]
        refine ⟨_, rfl, rfl, rfl, rfl, ?_⟩
        simp [delay_record, hz]
      · rw [if_neg hz]
        refine ⟨_, rfl, rfl, rfl, rfl, ?_⟩
        simp [delay_record, hz]
    · rw [if_neg hd]
      have h0 : drain_delta_usec s = 0 := by omega
      refine ⟨_, rfl, rfl, ?_, rfl, ?_⟩
      · show s.output_usec = oldest_time s
        unfold drain_delta_usec at h0; omega
      · simp [delay_record, h0]
  · intro hq
    have hd : drain_delta_usec s > 0 := by omega
    have hz : drain_delta_usec s / 1000 > 0 := by omega
    have hnz : drain_delta_usec s / 1000 ≠ 0 := by omega
    have hnq : ¬ drain_delta_usec s / 1000 ≤ 0x7FFF := by omega
    rw [if_pos hd, if_pos hz, if_neg hnz, if_neg hnq]

theorem pull_queue_delay_aux (s : MIDIFile) (h1 : s.output_usec ≤ oldest_time s)
    (h2 : oldest_time s < W32) (h3 : s.output_deficit_usec < W32) :
    (drain_delta_usec s / 1000 ≤ 0x7FFF →
      ∃ (s1 : MIDIFile) (es : List QEntry), pull_queue s = .ok s1 ∧
        s1.output_deficit_usec = drain_delta_usec s % 1000 ∧
        s1.output_usec = oldest_time s ∧
        es ≠ [] ∧
        s1.output = s.output ++ delay_record (drain_delta_usec s / 1000) ++ es.map Out.entry) ∧
    (0x7FFF < drain_delta_usec s / 1000 → pull_queue s = .error (.assertion 440)) := by
  obtain ⟨hok, herr⟩ := pull_prelude_delay s h1 h2 h3
  constructor
  · intro hq
    obtain ⟨s3, hp, hd, hu, hn, ho⟩ := hok hq
    obtain ⟨k, _, hk⟩ := pull_while_eq (oldest_time s) s3.queue_numitems (pull_body s3)
      (by show s3.queue_numitems - 1 ≤ _; omega)
    obtain ⟨f1, f2, _, _, _, _, _, es, hl, he⟩ := pull_n_frame (k + 1) s3
    refine ⟨pull_n (k + 1) s3, es, ?_, ?_, ?_, ?_, ?_⟩
    · unfold pull_queue; rw [hp]; exact hk
    · rw [f2, hd]
    · rw [f1, hu]
    · intro h; rw [h] at hl; cases hl
    · rw [he, ho]
  · intro hq
    unfold pull_queue
    rw [herr hq]

/-- C8, amended: for a drain whose oldest entry time `t` satisfies
`output_usec ≤ t < 2^32`, with `delta_usec = (t - output_usec) + output_deficit_usec`:
when `delta_usec / 1000 ≤ 0x7FFF`, `pull_queue` succeeds, the new deficit is
`delta_usec % 1000`, the last output time is `t`, and the output grows by the delay record
of `delta_usec / 1000` ms (present exactly when that quotient is positive) followed by the
entries removed; when the quotient exceeds 0x7FFF, `pull_queue` fails at the assertion of
line 440. -/
theorem pull_queue_delay (s : MIDIFile) (h1 : s.output_usec ≤ oldest_time s)
    (h2 : oldest_time s < W32) (h3 : s.output_deficit_usec < W32) :
    (drain_delta_usec s / 1000 ≤ 0x7FFF →
      ∃ (s1 : MIDIFile) (es : List QEntry), pull_queue s = .ok s1 ∧
        s1.output_deficit_usec = drain_delta_usec s % 1000 ∧
        s1.output_usec = oldest_time s ∧
        es ≠ [] ∧
        s1.output = s.output ++ delay_record (drain_delta_usec s / 1000) ++ es.map Out.entry) ∧
    (0x7FFF < drain_delta_usec s / 1000 → pull_queue s = .error (.assertion 440)) :=
  pull_queue_delay_aux s h1 h2 h3

/-- Witness of C8 (amended): last output time 0, deficit 0, oldest entry at 1500 usec. -/
theorem pull_queue_delay_witness :
    ((queue_state 0 0 [1500, 3200]).output_usec ≤ oldest_time (queue_state 0 0 [1500, 3200]) ∧
      oldest_time (queue_state 0 0 [1500, 3200]) < W32 ∧
      (queue_state 0 0 [1500, 3200]).output_deficit_usec < W32) ∧
    ((drain_delta_usec (queue_state 0 0 [1500, 3200]) / 1000 ≤ 0x7FFF →
      ∃ (s1 : MIDIFile) (es : List QEntry), pull_queue (queue_state 0 0 [1500, 3200]) = .ok s1 ∧
        s1.output_deficit_usec = drain_delta_usec (queue_state 0 0 [1500, 3200]) % 1000 ∧
        s1.output_usec = oldest_time (queue_state 0 0 [1500, 3200]) ∧
        es ≠ [] ∧
        s1.output = (queue_state 0 0 [1500, 3200]).output
          ++ delay_record (drain_delta_usec (queue_state 0 0 [1500, 3200]) / 1000)
          ++ es.map Out.entry) ∧
    (0x7FFF < drain_delta_usec (queue_state 0 0 [1500, 3200]) / 1000 →
      pull_queue (queue_state 0 0 [1500, 3200]) = .error (.assertion 440))) :=
  ⟨⟨by decide!, by decide!, by decide!⟩,
    pull_queue_delay (queue_state 0 0 [1500, 3200]) (by decide!) (by decide!) (by decide!)⟩

/-- Two events 1500 usec apart from deficit 0 give the single delay record 0x00 0x01 and
leave a deficit of 500 usec; the next gap of 1700 usec is computed as 1700 + 500 = 2200
usec, giving the record 0x00 0x02 and a deficit of 200 usec. -/
theorem deficit_carried :
    (pull_queue (queue_state 0 0 [0, 1500, 3200])).map
        (fun s => (s.output, s.output_usec, s.output_deficit_usec))
      = .ok ([.entry ⟨CMD_PLAYNOTE, { time_usec := 0 }⟩], 0, 0) ∧
    ((pull_queue (queue_state 0 0 [0, 1500, 3200])).bind pull_queue).map
        (fun s => (s.output, s.output_usec, s.output_deficit_usec))
      = .ok ([.entry ⟨CMD_PLAYNOTE, { time_usec := 0 }⟩, .byte 0x00, .byte 0x01,
              .entry ⟨CMD_PLAYNOTE, { time_usec := 1500 }⟩], 1500, 500) ∧
    (flush_queue (queue_state 0 0 [0, 1500, 3200])).map
        (fun s => (s.output, s.output_usec, s.output_deficit_usec))
      = .ok ([.entry ⟨CMD_PLAYNOTE, { time_usec := 0 }⟩, .byte 0x00, .byte 0x01,
              .entry ⟨CMD_PLAYNOTE, { time_usec := 1500 }⟩, .byte 0x00, .byte 0x02,
              .entry ⟨CMD_PLAYNOTE, { time_usec := 3200 }⟩], 3200, 200) := by
  decide!

/-- C8 as stated fails.  (1) With last output time 0, deficit 0 and the oldest entry at
40 s, the quotient is 40000 > 0 but no delay record is emitted: `pull_queue` fails at the
assertion of line 440; the run on `long_note_file` ends that way.  (2) With last output
time 4294900000 and the oldest entry at 4295000000 ≥ 2^32, the last output time becomes
32704, not the entry time. -/
theorem pull_queue_delay_counterexample :
    ((queue_state 0 0 [40000000]).output_usec ≤ oldest_time (queue_state 0 0 [40000000]) ∧
      0 < drain_delta_usec (queue_state 0 0 [40000000]) / 1000 ∧
      pull_queue (queue_state 0 0 [40000000]) = .error (.assertion 440) ∧
      midi_binarize long_note_file = .error (.assertion 440)) ∧
    ((queue_state 4294900000 0 [4295000000]).output_usec
        ≤ oldest_time (queue_state 4294900000 0 [4295000000]) ∧
      oldest_time (queue_state 4294900000 0 [4295000000]) = 4295000000 ∧
      (pull_queue (queue_state 4294900000 0 [4295000000])).map (fun s => s.output_usec)
        = .ok 32704) := by
  decide!

/-! ## Track event decoder and dispatch: frame properties -/

theorem slots_of_set_instrument (ch : List ChannelStatus) (chan i : Nat) :
    slots_of (ch.set chan { ch.getD chan default with instrument := i }) = slots_of ch := by
  unfold slots_of
  apply List.ext_getElem?
  intro n
  simp only [List.getElem?_map, List.getElem?_set]
  by_cases h : chan = n
  · subst h
    by_cases hl : chan < ch.length
    · simp [hl, List.getD_eq_getElem?_getD, List.getElem?_eq_getElem hl]
    · simp [hl, List.getElem?_eq_none (Nat.le_of_not_lt hl)]
  · simp [h]

theorem note_off_event_channels {data : List Nat} {mask chan : Nat} {t : TrackStatus}
    {ch : List ChannelStatus} {p : Pass} (h : note_off_event data mask chan t ch = .ok p) :
    p.channels = ch := by
  unfold note_off_event at h
  split at h
  · cases h
  · split at h
    · cases h
    · simp only [] at h
      split_ifs at h <;> (cases h; rfl)

theorem note_on_event_channels {data : List Nat} {mask chan : Nat} {t : TrackStatus}
    {ch : List ChannelStatus} {p : Pass} (h : note_on_event data mask chan t ch = .ok p) :
    p.channels = ch := by
  unfold note_on_event at h
  split at h
  · cases h
  · split at h
    · cases h
    · simp only [] at h
      split_ifs at h <;> (cases h; rfl)

theorem skip_two_channels {data : List Nat} {t : TrackStatus}
    {ch : List ChannelStatus} {p : Pass} (h : skip_two data t ch = .ok p) :
    p.channels = ch := by
  unfold skip_two at h
  split at h
  · cases h
  · split at h
    · cases h
    · cases h; rfl

theorem skip_one_channels {data : List Nat} {t : TrackStatus}
    {ch : List ChannelStatus} {p : Pass} (h : skip_one data t ch = .ok p) :
    p.channels = ch := by
  unfold skip_one at h
  split at h
  · cases h
  · cases h; rfl

theorem controller_event_channels {data : List Nat} {t : TrackStatus}
    {ch : List ChannelStatus} {p : Pass} (h : controller_event data t ch = .ok p) :
    p.channels = ch := by
  unfold controller_event at h
  split at h
  · cases h
  · split at h
    · cases h
    · simp only [] at h
      split_ifs at h <;> (cases h; rfl)

theorem sysex_event_channels {data : List Nat} {t : TrackStatus}
    {ch : List ChannelStatus} {p : Pass} (h : sysex_event data t ch = .ok p) :
    p.channels = ch := by
  unfold sysex_event at h
  split at h
  · cases h
  · cases h; rfl

theorem program_event_slots {data : List Nat} {chan : Nat} {t : TrackStatus}
    {ch : List ChannelStatus} {p : Pass} (h : program_event data chan t ch = .ok p) :
    slots_of p.channels = slots_of ch := by
  unfold program_event at h
  split at h
  · cases h
  · cases h; exact slots_of_set_instrument ch chan _

theorem channel_event_slots {data : List Nat} {mask event : Nat} {t : TrackStatus}
    {ch : List ChannelStatus} {p : Pass} (h : channel_event data mask event t ch = .ok p) :
    slots_of p.channels = slots_of ch := by
  unfold channel_event channel_dispatch at h
  split at h
  · rw [note_off_event_channels h]
  · rw [note_on_event_channels h]
  · rw [skip_two_channels h]
  · rw [controller_event_channels h]
  · exact program_event_slots h
  · rw [skip_one_channels h]
  · rw [skip_two_channels h]
  · rw [sysex_event_channels h]
  · cases h; rfl

theorem meta_event_channels {data : List Nat} {t : TrackStatus}
    {ch : List ChannelStatus} {p : Pass} (h : meta_event data t ch = .ok p) :
    p.channels = ch := by
  unfold meta_event at h
  split at h
  · cases h
  · split at h
    · cases h
    · split_ifs at h
      · split at h
        · cases h
        · cases h; rfl
      · cases h; rfl

theorem event_pass_slots {data : List Nat} {mask : Nat} {t : TrackStatus}
    {ch : List ChannelStatus} {p : Pass} (h : event_pass data mask t ch = .ok p) :
    slots_of p.channels = slots_of ch := by
  unfold event_pass at h
  split at h
  · cases h
  · split at h
    · cases h
    · simp only [] at h
      split_ifs at h
      all_goals first
        | rw [meta_event_channels h]
        | exact channel_event_slots h
        | (cases h; rfl)

theorem find_next_loop_slots {data : List Nat} {mask : Nat} :
    ∀ (fuel : Nat) (t : TrackStatus) (ch : List ChannelStatus) (r : Ret) (t1 : TrackStatus)
      (ch1 : List ChannelStatus),
      find_next_loop data mask fuel t ch = .ok (r, t1, ch1) → slots_of ch1 = slots_of ch := by
  intro fuel
  induction fuel with
  | zero =>
    intro t ch r t1 ch1 h
    unfold find_next_loop at h
    split at h
    · cases h
    · cases h; rfl
  | succ n ih =>
    intro t ch r t1 ch1 h
    unfold find_next_loop at h
    split at h
    · simp only at h
      split at h
      · cases h
      · next hp => cases h; exact event_pass_slots hp
      · next hp => rw [ih _ _ _ _ _ h]; exact event_pass_slots hp
    · cases h; rfl

theorem midi_find_next_note_frame {s s1 : MIDIFile} {tracknum : Nat} {r : Ret}
    (h : midi_find_next_note s tracknum = .ok (r, s1)) :
    ∃ (t1 : TrackStatus) (ch1 : List ChannelStatus) (d : Nat),
      s1 = { s with track := s.track.set tracknum t1, channel := ch1, tracks_done := d } ∧
      slots_of ch1 = slots_of s.channel := by
  unfold midi_find_next_note at h
  simp only at h
  split at h
  · cases h
  · next r0 t1 ch1 hl =>
    refine ⟨t1, ch1, ?_⟩
    have hs := find_next_loop_slots _ _ _ _ _ _ hl
    split at h
    · cases h; exact ⟨_, rfl, hs⟩
    · cases h; exact ⟨_, rfl, hs⟩

theorem advance_clock_frame {s s1 : MIDIFile} {et : Nat} (h : advance_clock s et = .ok s1) :
    ∃ u, s1 = { s with timenow_ticks := et, timenow_usec := u, timenow_usec_updated := et } := by
  unfold advance_clock at h
  split_ifs at h
  cases h
  exact ⟨_, rfl⟩

theorem find_playing_slot_none (cp : ChannelStatus) (note tracknum : Nat)
    (hnone : ∀ ndx, ndx < MAX_CHANNELNOTES →
      ¬ (cp.note_playing.getD ndx false = true ∧
         (cp.notes_playing.getD ndx default).note = note ∧
         (cp.notes_playing.getD ndx default).track = tracknum)) :
    find_playing_slot cp note tracknum = none := by
  unfold find_playing_slot
  rw [List.find?_eq_none]
  intro ndx hmem
  have hlt : ndx < MAX_CHANNELNOTES := List.mem_range.mp hmem
  have := hnone ndx hlt
  simpa [and_assoc] using this

theorem dispatch_stop_without_slot (s : MIDIFile) (tracknum : Nat)
    (hcmd : (s.track.getD tracknum default).cmd = CMD_STOPNOTE)
    (hnone : ∀ ndx, ndx < MAX_CHANNELNOTES →
      ¬ ((((s.channel.getD (s.track.getD tracknum default).chan default).note_playing).getD
            ndx false = true) ∧
         ((s.channel.getD (s.track.getD tracknum default).chan default).notes_playing.getD
            ndx default).note = (s.track.getD tracknum default).note ∧
         ((s.channel.getD (s.track.getD tracknum default).chan default).notes_playing.getD
            ndx default).track = tracknum)) :
    dispatch s tracknum = .ok s := by
  unfold dispatch
  simp only [hcmd, if_true]
  rw [if_neg (by decide)]
  unfold dispatch_stop
  simp only [find_playing_slot_none _ _ _ hnone]

/-- C6: in a step whose selected track has a pending StopNote that matches no occupied
slot of its channel, the dispatch changes nothing and does not fail, the step is the
advance of the track from the clock-updated state, and after the step the delivery queue,
the output and every note slot are as before. -/
theorem stop_without_slot (s s1 : MIDIFile) (earliest_time tracknum : Nat)
    (hsel : select_track s = .ok (earliest_time, tracknum))
    (hord : s.timenow_ticks ≤ earliest_time)
    (hclk : advance_clock s earliest_time = .ok s1)
    (hcmd : (s.track.getD tracknum default).cmd = CMD_STOPNOTE)
    (hnone : ∀ ndx, ndx < MAX_CHANNELNOTES →
      ¬ ((((s.channel.getD (s.track.getD tracknum default).chan default).note_playing).getD
            ndx false = true) ∧
         ((s.channel.getD (s.track.getD tracknum default).chan default).notes_playing.getD
            ndx default).note = (s.track.getD tracknum default).note ∧
         ((s.channel.getD (s.track.getD tracknum default).chan default).notes_playing.getD
            ndx default).track = tracknum)) :
    dispatch s1 tracknum = .ok s1 ∧
    process_step s = advance_track s1 tracknum ∧
    ∀ s2, process_step s = .ok s2 →
      s2.queue = s.queue ∧ s2.queue_numitems = s.queue_numitems ∧
      s2.queue_oldest_ndx = s.queue_oldest_ndx ∧ s2.queue_newest_ndx = s.queue_newest_ndx ∧
      s2.output = s.output ∧ slots_of s2.channel = slots_of s.channel := by
  obtain ⟨u, hs1⟩ := advance_clock_frame hclk
  have hd : dispatch s1 tracknum = .ok s1 := by
    apply dispatch_stop_without_slot
    · rw [hs1]; exact hcmd
    · rw [hs1]; exact hnone
  have hstep : process_step s = advance_track s1 tracknum := by
    unfold process_step
    simp only [hsel, ge_iff_le, hord, if_true, hclk, hd]
  refine ⟨hd, hstep, ?_⟩
  intro s2 h2
  rw [hstep] at h2
  unfold advance_track at h2
  split at h2
  · cases h2
  · cases h2
  · next r s3 hne hf =>
    split_ifs at h2
    cases h2
    obtain ⟨t1, ch1, d, he, hsl⟩ := midi_find_next_note_frame hf
    subst he
    subst hs1
    exact ⟨rfl, rfl, rfl, rfl, rfl, hsl⟩

/-- Witness of C6: the step of `lone_stop_state`. -/
theorem stop_without_slot_witness :
    select_track lone_stop_state = .ok (0, 0) ∧
    dispatch lone_stop_state 0 = .ok lone_stop_state ∧
    process_step lone_stop_state = advance_track lone_stop_state 0 ∧
    ∀ s2, process_step lone_stop_state = .ok s2 →
      s2.queue = lone_stop_state.queue ∧
      s2.queue_numitems = lone_stop_state.queue_numitems ∧
      s2.queue_oldest_ndx = lone_stop_state.queue_oldest_ndx ∧
      s2.queue_newest_ndx = lone_stop_state.queue_newest_ndx ∧
      s2.output = lone_stop_state.output ∧
      slots_of s2.channel = slots_of lone_stop_state.channel :=
  ⟨by decide!,
    stop_without_slot lone_stop_state lone_stop_state 0 0 (by decide!) (by decide!) (by decide!)
      (by decide!) (by decide!)⟩

/-! ## Delivery queue: the ring insertion -/

theorem getD_set_eq {α : Type} (l : List α) (i j : Nat) (a d : α) :
    (l.set i a).getD j d = if i = j ∧ i < l.length then a else l.getD j d := by
  simp only [List.getD_eq_getElem?_getD, List.getElem?_set]
  by_cases h : i = j
  · subst h
    by_cases hl : i < l.length
    · simp [hl]
    · simp [hl, List.getElem?_eq_none (Nat.le_of_not_lt hl)]
  · simp [h]

theorem dec_ndx_ring (o j : Nat) : dec_ndx ((o + (j + 1)) % QUEUE_SIZE) = (o + j) % QUEUE_SIZE := by
  unfold dec_ndx
  simp only [QUEUE_SIZE]
  split <;> omega

theorem inc_ndx_ring (o j : Nat) : inc_ndx ((o + j) % QUEUE_SIZE) = (o + (j + 1)) % QUEUE_SIZE := by
  unfold inc_ndx
  simp only [QUEUE_SIZE]
  split <;> omega

theorem dec_ndx_oldest (o : Nat) (ho : o < QUEUE_SIZE) :
    (dec_ndx o + 1) % QUEUE_SIZE = o ∧ dec_ndx o < QUEUE_SIZE := by
  unfold dec_ndx
  simp only [QUEUE_SIZE] at *
  split <;> omega

theorem queue_search_spec (q : List QEntry) (o t : Nat) (ho : o < QUEUE_SIZE) :
    ∀ (j fuel : Nat), j ≤ fuel → j < QUEUE_SIZE →
      (∃ m, m ≤ j ∧ queue_search q o t fuel ((o + j) % QUEUE_SIZE)
            = .ok (.after ((o + m) % QUEUE_SIZE)) ∧
          (ring_at q o m).note.time_usec ≤ t ∧
          ∀ i, m < i → i ≤ j → t < (ring_at q o i).note.time_usec) ∨
      (queue_search q o t fuel ((o + j) % QUEUE_SIZE) = .ok .front ∧
          ∀ i, i ≤ j → t < (ring_at q o i).note.time_usec) := by
  intro j
  induction j with
  | zero =>
    intro fuel _ _
    have e0 : (o + 0) % QUEUE_SIZE = o := by simp only [QUEUE_SIZE] at *; omega
    by_cases hgt : t < (ring_at q o 0).note.time_usec
    · right
      refine ⟨?_, ?_⟩
      · unfold queue_search
        rw [e0]
        have : (q.getD o default).note.time_usec > t := by
          unfold ring_at at hgt; rw [e0] at hgt; exact hgt
        rw [if_pos this, if_pos rfl]
      · intro i hi
        have : i = 0 := by omega
        subst this; exact hgt
    · left
      refine ⟨0, le_refl _, ?_, by omega, ?_⟩
      · unfold queue_search
        have : ¬ (q.getD ((o + 0) % QUEUE_SIZE) default).note.time_usec > t := by
          unfold ring_at at hgt; exact hgt
        rw [if_neg this]
      · intro i h1 h2; omega
  | succ j ih =>
    intro fuel hf hj
    by_cases hgt : t < (ring_at q o (j + 1)).note.time_usec
    · obtain ⟨f, rfl⟩ : ∃ f, fuel = f + 1 := ⟨fuel - 1, by omega⟩
      have hne : (o + (j + 1)) % QUEUE_SIZE ≠ o := by simp only [QUEUE_SIZE] at *; omega
      have hstep : queue_search q o t (f + 1) ((o + (j + 1)) % QUEUE_SIZE)
          = queue_search q o t f ((o + j) % QUEUE_SIZE) := by
        conv => lhs; unfold queue_search
        have : (q.getD ((o + (j + 1)) % QUEUE_SIZE) default).note.time_usec > t := hgt
        simp only [this, if_true, hne, if_false, dec_ndx_ring]
      rw [hstep]
      rcases ih f (by omega) (by omega) with ⟨m, hm, hs, hle, hall⟩ | ⟨hs, hall⟩
      · left
        refine ⟨m, by omega, hs, hle, ?_⟩
        intro i h1 h2
        by_cases hi : i = j + 1
        · subst hi; exact hgt
        · exact hall i h1 (by omega)
      · right
        refine ⟨hs, ?_⟩
        intro i h2
        by_cases hi : i = j + 1
        · subst hi; exact hgt
        · exact hall i (by omega)
    · left
      refine ⟨j + 1, le_refl _, ?_, by omega, ?_⟩
      · unfold queue_search
        have : ¬ (q.getD ((o + (j + 1)) % QUEUE_SIZE) default).note.time_usec > t := hgt
        rw [if_neg this]
      · intro i h1 h2; omega

theorem queue_shift_spec (o m : Nat) :
    ∀ (d j fuel : Nat) (q : List QEntry), j = m + 1 + d → j < QUEUE_SIZE → d ≤ fuel →
      q.length = QUEUE_SIZE →
      ∃ q1, queue_shift ((o + m) % QUEUE_SIZE) fuel q ((o + j) % QUEUE_SIZE) = .ok q1 ∧
        q1.length = QUEUE_SIZE ∧
        ∀ i, i < QUEUE_SIZE →
          q1.getD ((o + i) % QUEUE_SIZE) default =
            if m + 1 < i ∧ i ≤ j then q.getD ((o + (i - 1)) % QUEUE_SIZE) default
            else q.getD ((o + i) % QUEUE_SIZE) default := by
  intro d
  induction d with
  | zero =>
    intro j fuel q hj _ _ hl
    subst hj
    refine ⟨q, ?_, hl, ?_⟩
    · unfold queue_shift
      rw [if_pos (dec_ndx_ring o m)]
    · intro i _
      rw [if_neg (by omega)]
  | succ d ih =>
    intro j fuel q hj hjlt hf hl
    obtain ⟨f, rfl⟩ : ∃ f, fuel = f + 1 := ⟨fuel - 1, by omega⟩
    obtain ⟨j', rfl⟩ : ∃ j', j = j' + 1 := ⟨j - 1, by omega⟩
    have hne : (o + j') % QUEUE_SIZE ≠ (o + m) % QUEUE_SIZE := by
      simp only [QUEUE_SIZE] at *; omega
    have hstep : queue_shift ((o + m) % QUEUE_SIZE) (f + 1) q ((o + (j' + 1)) % QUEUE_SIZE)
        = queue_shift ((o + m) % QUEUE_SIZE) f
            (q.set ((o + (j' + 1)) % QUEUE_SIZE) (q.getD ((o + j') % QUEUE_SIZE) default))
            ((o + j') % QUEUE_SIZE) := by
      conv => lhs; unfold queue_shift
      simp only [dec_ndx_ring]
      rw [if_neg hne]
    rw [hstep]
    obtain ⟨q1, hq1, hl1, hget⟩ := ih j' f
      (q.set ((o + (j' + 1)) % QUEUE_SIZE) (q.getD ((o + j') % QUEUE_SIZE) default))
      (by omega) (by omega) (by omega) (by rw [List.length_set]; exact hl)
    refine ⟨q1, hq1, hl1, ?_⟩
    intro i hi
    rw [hget i hi]
    simp only [getD_set_eq, hl]
    have hlt : (o + (j' + 1)) % QUEUE_SIZE < QUEUE_SIZE := Nat.mod_lt _ (by decide)
    split_ifs <;>
      first
        | rfl
        | (exfalso; simp only [QUEUE_SIZE] at *; omega)
        | (congr 1; simp only [QUEUE_SIZE] at *; omega)

theorem map_range_add {α : Type} (f : Nat → α) (x y : Nat) :
    (List.range (x + y)).map f
      = (List.range x).map f ++ (List.range y).map (fun k => f (x + k)) := by
  rw [List.range_add, List.map_append, List.map_map]
  rfl

theorem queue_insert_empty (s : MIDIFile) (cmd : Nat) (np : NoteInfo) (hr : ring_ok s)
    (h0 : s.queue_numitems = 0) :
    ∃ s1, queue_insert s cmd np = .ok s1 ∧ ring_ok s1 ∧
      (∃ q o nw, s1 = { s with queue := q, queue_oldest_ndx := o, queue_newest_ndx := nw,
                               queue_numitems := s.queue_numitems + 1 }) ∧
      queue_seq s = [] ∧ queue_seq s1 = [⟨cmd, np⟩] := by
  obtain ⟨hl, _, _, _⟩ := hr
  refine ⟨{ s with queue_oldest_ndx := 0, queue_newest_ndx := 0, queue_numitems := 1,
                   queue := s.queue.set 0 ⟨cmd, np⟩ }, ?_, ?_, ?_, ?_, ?_⟩
  · unfold queue_insert; rw [if_pos h0]
  · refine ⟨?_, ?_, ?_, ?_⟩
    · show (s.queue.set 0 _).length = _; rw [List.length_set]; exact hl
    · show 0 < QUEUE_SIZE; decide
    · show 1 ≤ QUEUE_SIZE; decide
    · intro _; rfl
  · exact ⟨_, _, _, by rw [h0]⟩
  · unfold queue_seq; rw [h0]; rfl
  · show List.map _ (List.range 1) = _
    have r1 : List.range 1 = [0] := rfl
    simp only [r1, List.map_cons, List.map_nil, ring_at, getD_set_eq, hl]
    simp

theorem queue_insert_front (s : MIDIFile) (cmd : Nat) (np : NoteInfo) (hr : ring_ok s)
    (hn : s.queue_numitems < QUEUE_SIZE) (h0 : 0 < s.queue_numitems) :
    ring_ok { s with queue_oldest_ndx := dec_ndx s.queue_oldest_ndx,
                     queue_numitems := s.queue_numitems + 1,
                     queue := s.queue.set (dec_ndx s.queue_oldest_ndx) ⟨cmd, np⟩ } ∧
    queue_seq { s with queue_oldest_ndx := dec_ndx s.queue_oldest_ndx,
                       queue_numitems := s.queue_numitems + 1,
                       queue := s.queue.set (dec_ndx s.queue_oldest_ndx) ⟨cmd, np⟩ }
      = ⟨cmd, np⟩ :: queue_seq s := by
  obtain ⟨hl, ho, _, hnw⟩ := hr
  obtain ⟨hd1, hd2⟩ := dec_ndx_oldest s.queue_oldest_ndx ho
  constructor
  · refine ⟨?_, hd2, ?_, ?_⟩
    · show (s.queue.set _ _).length = _; rw [List.length_set]; exact hl
    · show s.queue_numitems + 1 ≤ QUEUE_SIZE; omega
    · intro _
      show s.queue_newest_ndx
        = (dec_ndx s.queue_oldest_ndx + (s.queue_numitems + 1 - 1)) % QUEUE_SIZE
      rw [hnw h0]; simp only [QUEUE_SIZE] at *; omega
  · show List.map _ (List.range (s.queue_numitems + 1)) = _
    rw [Nat.add_comm, map_range_add]
    have r1 : List.range 1 = [0] := rfl
    rw [r1]
    simp only [List.map_cons, List.map_nil, List.singleton_append]
    congr 1
    · simp only [ring_at, getD_set_eq, hl]
      rw [if_pos]
      simp only [QUEUE_SIZE] at *; omega
    · unfold queue_seq
      apply List.map_congr_left
      intro k hk
      have hk' : k < s.queue_numitems := List.mem_range.mp hk
      simp only [ring_at, getD_set_eq, hl]
      rw [if_neg]
      · congr 1; simp only [QUEUE_SIZE] at *; omega
      · intro hc; have := hc.1; simp only [QUEUE_SIZE] at *; omega

theorem queue_seq_split (s : MIDIFile) (m : Nat) (hm : m < s.queue_numitems) :
    queue_seq s
      = (List.range (m + 1)).map (ring_at s.queue s.queue_oldest_ndx)
        ++ (List.range (s.queue_numitems - m - 1)).map
            (fun k => ring_at s.queue s.queue_oldest_ndx (m + 1 + k)) := by
  unfold queue_seq
  rw [← map_range_add]
  congr 2
  omega

theorem queue_insert_after (s : MIDIFile) (cmd : Nat) (np : NoteInfo) (m : Nat)
    (q1 : List QEntry) (hr : ring_ok s) (hn : s.queue_numitems < QUEUE_SIZE)
    (hm : m < s.queue_numitems) (hq1 : q1.length = QUEUE_SIZE)
    (hget : ∀ i, i < QUEUE_SIZE →
      q1.getD ((s.queue_oldest_ndx + i) % QUEUE_SIZE) default =
        if m + 1 < i ∧ i ≤ s.queue_numitems then
          s.queue.getD ((s.queue_oldest_ndx + (i - 1)) % QUEUE_SIZE) default
        else s.queue.getD ((s.queue_oldest_ndx + i) % QUEUE_SIZE) default) :
    ring_ok { s with queue_newest_ndx := inc_ndx s.queue_newest_ndx,
                     queue_numitems := s.queue_numitems + 1,
                     queue := q1.set (inc_ndx ((s.queue_oldest_ndx + m) % QUEUE_SIZE)) ⟨cmd, np⟩ } ∧
    queue_seq { s with queue_newest_ndx := inc_ndx s.queue_newest_ndx,
                       queue_numitems := s.queue_numitems + 1,
                       queue := q1.set (inc_ndx ((s.queue_oldest_ndx + m) % QUEUE_SIZE)) ⟨cmd, np⟩ }
      = (List.range (m + 1)).map (ring_at s.queue s.queue_oldest_ndx)
        ++ ⟨cmd, np⟩ :: (List.range (s.queue_numitems - m - 1)).map
            (fun k => ring_at s.queue s.queue_oldest_ndx (m + 1 + k)) := by
  obtain ⟨hl, ho, _, hnw⟩ := hr
  constructor
  · refine ⟨?_, ho, ?_, ?_⟩
    · show (q1.set _ _).length = _; rw [List.length_set]; exact hq1
    · show s.queue_numitems + 1 ≤ QUEUE_SIZE; omega
    · intro _
      show inc_ndx s.queue_newest_ndx
        = (s.queue_oldest_ndx + (s.queue_numitems + 1 - 1)) % QUEUE_SIZE
      rw [hnw (by omega), inc_ndx_ring]
      congr 2; omega
  · show List.map _ (List.range (s.queue_numitems + 1)) = _
    have e : s.queue_numitems + 1 = (m + 1) + (1 + (s.queue_numitems - m - 1)) := by omega
    have r1 : List.range 1 = [0] := rfl
    have hL : ∀ f : Nat → QEntry, (List.range (s.queue_numitems + 1)).map f
        = (List.range (m + 1)).map f
          ++ f (m + 1) :: (List.range (s.queue_numitems - m - 1)).map
              (fun k => f (m + 1 + (1 + k))) := by
      intro f
      rw [e, map_range_add f (m + 1), map_range_add (fun k => f (m + 1 + k)) 1, r1]
      rfl
    rw [hL, inc_ndx_ring]
    congr 1
    · apply List.map_congr_left
      intro k hk
      have hk' : k < m + 1 := List.mem_range.mp hk
      simp only [ring_at, getD_set_eq, hq1]
      rw [if_neg, hget k (by omega), if_neg (by omega)]
      intro hc; have := hc.1; simp only [QUEUE_SIZE] at *; omega
    · congr 1
      · simp only [ring_at, getD_set_eq, hq1]
        rw [if_pos]
        exact ⟨trivial, Nat.mod_lt _ (by decide)⟩
      · apply List.map_congr_left
        intro k hk
        have hk' : k < s.queue_numitems - m - 1 := List.mem_range.mp hk
        simp only [ring_at, getD_set_eq, hq1]
        rw [if_neg, hget _ (by omega), if_pos (by omega)]
        · congr 2; omega
        · intro hc; have := hc.1; simp only [QUEUE_SIZE] at *; omega

theorem queue_insert_spec (s : MIDIFile) (cmd : Nat) (np : NoteInfo) (hr : ring_ok s)
    (hn : s.queue_numitems < QUEUE_SIZE) :
    ∃ s1, queue_insert s cmd np = .ok s1 ∧ ring_ok s1 ∧
      (∃ q o nw, s1 = { s with queue := q, queue_oldest_ndx := o, queue_newest_ndx := nw,
                               queue_numitems := s.queue_numitems + 1 }) ∧
      inserted_after_last_le ⟨cmd, np⟩ (queue_seq s) (queue_seq s1) := by
  by_cases h0 : s.queue_numitems = 0
  · obtain ⟨s1, h1, h2, h3, h4, h5⟩ := queue_insert_empty s cmd np hr h0
    refine ⟨s1, h1, h2, h3, [], [], ?_, ?_, ?_, ?_⟩
    · rw [h4]; rfl
    · rw [h5]; rfl
    · intro x hx; cases hx
    · intro x hx; cases hx
  · have hpos : 0 < s.queue_numitems := Nat.pos_of_ne_zero h0
    have hr' := hr
    obtain ⟨hl, ho, _, hnw⟩ := hr
    have hnewest := hnw hpos
    unfold queue_insert
    rw [if_neg h0, hnewest]
    rcases queue_search_spec s.queue s.queue_oldest_ndx np.time_usec ho
        (s.queue_numitems - 1) QUEUE_SIZE (by omega) (by omega) with
      ⟨m, hm, hs, hle, hall⟩ | ⟨hs, hall⟩
    · rw [hs]
      simp only []
      have hinc : inc_ndx ((s.queue_oldest_ndx + (s.queue_numitems - 1)) % QUEUE_SIZE)
          = (s.queue_oldest_ndx + s.queue_numitems) % QUEUE_SIZE := by
        rw [inc_ndx_ring]; congr 2; omega
      rw [hinc]
      obtain ⟨q1, hq1, hl1, hget⟩ := queue_shift_spec s.queue_oldest_ndx m
        (s.queue_numitems - m - 1) s.queue_numitems QUEUE_SIZE s.queue (by omega) hn
        (by omega) hl
      rw [hq1]
      simp only []
      have hmlt : m < s.queue_numitems := by omega
      obtain ⟨hok, hseq⟩ := queue_insert_after s cmd np m q1 hr' hn hmlt hl1 hget
      rw [hnewest, hinc] at hok hseq
      refine ⟨_, rfl, hok, ⟨_, _, _, rfl⟩, ?_⟩
      refine ⟨_, _, queue_seq_split s m hmlt, hseq, ?_, ?_⟩
      · intro x hx
        obtain ⟨k, hk, rfl⟩ := List.mem_map.mp hx
        have hk' : k < s.queue_numitems - m - 1 := List.mem_range.mp hk
        exact hall (m + 1 + k) (by omega) (by omega)
      · intro x hx
        rw [List.range_succ, List.map_append, List.map_cons, List.map_nil,
          List.getLast?_append_cons, List.getLast?_singleton] at hx
        cases hx
        exact hle
    · rw [hs]
      simp only []
      obtain ⟨hok, hseq⟩ := queue_insert_front s cmd np hr' hn hpos
      rw [hnewest] at hok hseq
      refine ⟨_, rfl, hok, ⟨_, _, _, rfl⟩, ?_⟩
      refine ⟨[], queue_seq s, rfl, hseq, ?_, ?_⟩
      · intro x hx
        obtain ⟨k, hk, rfl⟩ := List.mem_map.mp hx
        have hk' : k < s.queue_numitems := List.mem_range.mp hk
        exact hall k (by omega)
      · intro x hx; cases hx

theorem le_last_of_sorted (a : List QEntry) (z : QEntry) (hs : time_sorted a)
    (hz : a.getLast? = some z) : ∀ x ∈ a, x.note.time_usec ≤ z.note.time_usec := by
  rcases List.eq_nil_or_concat a with rfl | ⟨a', y, rfl⟩
  · intro x hx; cases hx
  · rw [List.concat_eq_append, List.getLast?_append_cons, List.getLast?_singleton] at hz
    cases hz
    intro x hx
    rw [List.concat_eq_append] at hx hs
    rcases List.mem_append.mp hx with h | h
    · exact (List.pairwise_append.mp hs).2.2 x h _ (List.mem_singleton.mpr rfl)
    · rw [List.mem_singleton.mp h]

theorem inserted_sorted (e : QEntry) (l l1 : List QEntry)
    (hi : inserted_after_last_le e l l1) (hs : time_sorted l) : time_sorted l1 := by
  obtain ⟨a, b, rfl, rfl, hb, ha⟩ := hi
  obtain ⟨hsa, hsb, hab⟩ := List.pairwise_append.mp hs
  unfold time_sorted
  rw [List.pairwise_append]
  refine ⟨hsa, List.pairwise_cons.mpr ⟨fun x hx => Nat.le_of_lt (hb x hx), hsb⟩, ?_⟩
  intro x hx y hy
  rcases List.mem_cons.mp hy with rfl | hy
  · cases hlast : a.getLast? with
    | none =>
      rw [List.getLast?_eq_none_iff] at hlast
      subst hlast; cases hx
    | some z =>
      exact le_trans (le_last_of_sorted a z hsa hlast x hx) (ha z hlast)
  · exact hab x hx y hy

theorem queue_cmd_insert_aux (s : MIDIFile) (cmd : Nat) (np : NoteInfo) (hr : ring_ok s)
    (hn : s.queue_numitems < QUEUE_SIZE) :
    ∃ s1, queue_cmd s cmd np = .ok (s1, clamp_note s np) ∧ ring_ok s1 ∧
      (∃ q o nw, s1 = { s with queue := q, queue_oldest_ndx := o, queue_newest_ndx := nw,
                               queue_numitems := s.queue_numitems + 1 }) ∧
      inserted_after_last_le ⟨cmd, clamp_note s np⟩ (queue_seq s) (queue_seq s1) := by
  obtain ⟨s1, h1, h2, h3, h4⟩ := queue_insert_spec s cmd (clamp_note s np) hr hn
  refine ⟨s1, ?_, h2, h3, h4⟩
  unfold queue_cmd
  have hne : s.queue_numitems ≠ QUEUE_SIZE := by omega
  rw [if_neg hne]
  simp only [hn, if_true, h1]

/-- C10: for a well-formed ring holding fewer than `QUEUE_SIZE` entries in non-decreasing
order of time, `queue_cmd` succeeds, hands back the note with its clamped time, and leaves
a well-formed ring with one entry more whose oldest-to-newest sequence is the previous one
with the new entry put in right after the last entry whose time is at most the new time
(every other entry kept, in place); the sequence stays ordered.  The statement covers every
position of the ring indices, wrapped or not. -/
theorem queue_cmd_insert (s : MIDIFile) (cmd : Nat) (np : NoteInfo) (hr : ring_ok s)
    (hn : s.queue_numitems < QUEUE_SIZE) (hs : time_sorted (queue_seq s)) :
    ∃ s1, queue_cmd s cmd np = .ok (s1, clamp_note s np) ∧ ring_ok s1 ∧
      s1.queue_numitems = s.queue_numitems + 1 ∧
      inserted_after_last_le ⟨cmd, clamp_note s np⟩ (queue_seq s) (queue_seq s1) ∧
      time_sorted (queue_seq s1) := by
  obtain ⟨s1, h1, h2, ⟨q, o, nw, h3⟩, h4⟩ := queue_cmd_insert_aux s cmd np hr hn
  exact ⟨s1, h1, h2, by rw [h3], h4, inserted_sorted _ _ _ h4 hs⟩

/-- Witness of C10 on a ring that wraps around (entries at the indices 98, 99, 0). -/
theorem queue_cmd_insert_witness :
    (ring_ok wrapped_queue_state ∧ wrapped_queue_state.queue_numitems < QUEUE_SIZE ∧
      time_sorted (queue_seq wrapped_queue_state)) ∧
    ∃ s1, queue_cmd wrapped_queue_state CMD_STOPNOTE { time_usec := 20, note := 3 }
          = .ok (s1, clamp_note wrapped_queue_state { time_usec := 20, note := 3 }) ∧
      ring_ok s1 ∧
      s1.queue_numitems = wrapped_queue_state.queue_numitems + 1 ∧
      inserted_after_last_le
        ⟨CMD_STOPNOTE, clamp_note wrapped_queue_state { time_usec := 20, note := 3 }⟩
        (queue_seq wrapped_queue_state) (queue_seq s1) ∧
      time_sorted (queue_seq s1) :=
  ⟨⟨by decide!, by decide!, by decide!⟩,
    queue_cmd_insert wrapped_queue_state CMD_STOPNOTE { time_usec := 20, note := 3 }
      (by decide!) (by decide!) (by decide!)⟩

/-- The insertions of the witness evaluated: an entry at time 20 goes after the queued
entry of time 20, into ring index 0, the entry of time 30 moving on to index 1; an entry
at time 3 is clamped to the horizon 5 and goes in front, into ring index 97. -/
theorem wrapped_queue_insertions :
    (queue_cmd wrapped_queue_state CMD_STOPNOTE { time_usec := 20, note := 3 }).map
        (fun r => (queue_seq r.1, r.1.queue_oldest_ndx, r.1.queue_newest_ndx))
      = .ok ([⟨CMD_PLAYNOTE, { time_usec := 10, note := 1 }⟩,
              ⟨CMD_PLAYNOTE, { time_usec := 20, note := 2 }⟩,
              ⟨CMD_STOPNOTE, { time_usec := 20, note := 3 }⟩,
              ⟨CMD_STOPNOTE, { time_usec := 30, note := 1 }⟩], 98, 1) ∧
    (queue_cmd wrapped_queue_state CMD_STOPNOTE { time_usec := 3, note := 3 }).map
        (fun r => (queue_seq r.1, r.1.queue_oldest_ndx, r.1.queue_newest_ndx))
      = .ok ([⟨CMD_STOPNOTE, { time_usec := 5, note := 3 }⟩,
              ⟨CMD_PLAYNOTE, { time_usec := 10, note := 1 }⟩,
              ⟨CMD_PLAYNOTE, { time_usec := 20, note := 2 }⟩,
              ⟨CMD_STOPNOTE, { time_usec := 30, note := 1 }⟩], 97, 0) := by
  decide!

/-! ## Track event decoder: running status -/

theorem get_varlen_loop_progress (data : List Nat) :
    ∀ (n val p v q : Nat), get_varlen_loop data n val p = .ok (v, q) → p ≤ q ∧ (0 < n → p < q) := by
  intro n
  induction n with
  | zero =>
    intro val p v q h
    unfold get_varlen_loop at h
    cases h
    exact ⟨le_refl _, fun h => absurd h (Nat.lt_irrefl 0)⟩
  | succ n ih =>
    intro val p v q h
    unfold get_varlen_loop at h
    split at h
    · cases h
    · simp only [] at h
      split_ifs at h
      · cases h; exact ⟨by omega, fun _ => by omega⟩
      · have := (ih _ _ _ _ h).1
        exact ⟨by omega, fun _ => by omega⟩

theorem get_varlen_progress {data : List Nat} {p v q : Nat}
    (h : get_varlen data p = .ok (v, q)) : p < q :=
  (get_varlen_loop_progress data 4 0 p v q h).2 (by decide)

theorem get_varlen_loop_shift (d1 d2 : List Nat) (p0 : Nat)
    (hsh : ∀ i, p0 ≤ i → rd d1 (i + 1) = rd d2 i) :
    ∀ (n val p : Nat), p0 ≤ p →
      get_varlen_loop d1 n val (p + 1)
        = (get_varlen_loop d2 n val p).map (fun r => (r.1, r.2 + 1)) := by
  intro n
  induction n with
  | zero => intro val p _; rfl
  | succ n ih =>
    intro val p hp
    unfold get_varlen_loop
    rw [hsh p hp]
    cases rd d2 p with
    | error e => rfl
    | ok b =>
      simp only []
      split_ifs
      · rfl
      · exact ih _ _ (by omega)

theorem get_varlen_shift (d1 d2 : List Nat) (p0 : Nat)
    (hsh : ∀ i, p0 ≤ i → rd d1 (i + 1) = rd d2 i) (p : Nat) (hp : p0 ≤ p) :
    get_varlen d1 (p + 1) = (get_varlen d2 p).map (fun r => (r.1, r.2 + 1)) :=
  get_varlen_loop_shift d1 d2 p0 hsh 4 0 p hp

theorem midi_note_off_shift (mask : Nat) (t : TrackStatus) (chan : Nat) :
    midi_note_off mask (shift1 t) chan
      = (shift1 (midi_note_off mask t chan).1, (midi_note_off mask t chan).2) := by
  unfold midi_note_off
  split_ifs <;> rfl

theorem note_off_event_shift (d1 d2 : List Nat) (p0 : Nat)
    (hsh : ∀ i, p0 ≤ i → rd d1 (i + 1) = rd d2 i) (mask chan : Nat) (t : TrackStatus)
    (ch : List ChannelStatus) (hp : p0 ≤ t.trkptr) :
    note_off_event d1 mask chan (shift1 t) ch
      = (note_off_event d2 mask chan t ch).map Pass.shift1 := by
  unfold note_off_event
  have h0 : rd d1 ((shift1 t).trkptr) = rd d2 t.trkptr := hsh t.trkptr hp
  have h1 : rd d1 ((shift1 t).trkptr + 1) = rd d2 (t.trkptr + 1) :=
    hsh (t.trkptr + 1) (by omega)
  rw [h0, h1]
  cases rd d2 t.trkptr with
  | error e => rfl
  | ok note =>
    cases rd d2 (t.trkptr + 1) with
    | error e => rfl
    | ok volume =>
      simp only []
      have e : ({ shift1 t with note := note, volume := volume,
                                 trkptr := (shift1 t).trkptr + 2 } : TrackStatus)
          = shift1 { t with note := note, volume := volume, trkptr := t.trkptr + 2 } := by
        simp [shift1]
      rw [e, midi_note_off_shift]
      simp only []
      split_ifs <;> rfl

theorem note_on_event_shift (d1 d2 : List Nat) (p0 : Nat)
    (hsh : ∀ i, p0 ≤ i → rd d1 (i + 1) = rd d2 i) (mask chan : Nat) (t : TrackStatus)
    (ch : List ChannelStatus) (hp : p0 ≤ t.trkptr) :
    note_on_event d1 mask chan (shift1 t) ch
      = (note_on_event d2 mask chan t ch).map Pass.shift1 := by
  unfold note_on_event
  have h0 : rd d1 ((shift1 t).trkptr) = rd d2 t.trkptr := hsh t.trkptr hp
  have h1 : rd d1 ((shift1 t).trkptr + 1) = rd d2 (t.trkptr + 1) :=
    hsh (t.trkptr + 1) (by omega)
  rw [h0, h1]
  cases rd d2 t.trkptr with
  | error e => rfl
  | ok note =>
    cases rd d2 (t.trkptr + 1) with
    | error e => rfl
    | ok volume =>
      simp only []
      have e : ({ shift1 t with note := note, volume := volume,
                                 trkptr := (shift1 t).trkptr + 2 } : TrackStatus)
          = shift1 { t with note := note, volume := volume, trkptr := t.trkptr + 2 } := by
        simp [shift1]
      rw [e, midi_note_off_shift]
      simp only []
      split_ifs <;> rfl

theorem skip_two_shift (d1 d2 : List Nat) (p0 : Nat)
    (hsh : ∀ i, p0 ≤ i → rd d1 (i + 1) = rd d2 i) (t : TrackStatus)
    (ch : List ChannelStatus) (hp : p0 ≤ t.trkptr) :
    skip_two d1 (shift1 t) ch = (skip_two d2 t ch).map Pass.shift1 := by
  unfold skip_two
  have h0 : rd d1 ((shift1 t).trkptr) = rd d2 t.trkptr := hsh t.trkptr hp
  have h1 : rd d1 ((shift1 t).trkptr + 1) = rd d2 (t.trkptr + 1) :=
    hsh (t.trkptr + 1) (by omega)
  rw [h0, h1]
  cases rd d2 t.trkptr with
  | error e => rfl
  | ok _ =>
    cases rd d2 (t.trkptr + 1) with
    | error e => rfl
    | ok _ => simp [Except.map, Pass.shift1, shift1]

theorem skip_one_shift (d1 d2 : List Nat) (p0 : Nat)
    (hsh : ∀ i, p0 ≤ i → rd d1 (i + 1) = rd d2 i) (t : TrackStatus)
    (ch : List ChannelStatus) (hp : p0 ≤ t.trkptr) :
    skip_one d1 (shift1 t) ch = (skip_one d2 t ch).map Pass.shift1 := by
  unfold skip_one
  have h0 : rd d1 ((shift1 t).trkptr) = rd d2 t.trkptr := hsh t.trkptr hp
  rw [h0]
  cases rd d2 t.trkptr with
  | error e => rfl
  | ok _ => simp [Except.map, Pass.shift1, shift1]

theorem controller_event_shift (d1 d2 : List Nat) (p0 : Nat)
    (hsh : ∀ i, p0 ≤ i → rd d1 (i + 1) = rd d2 i) (t : TrackStatus)
    (ch : List ChannelStatus) (hp : p0 ≤ t.trkptr) :
    controller_event d1 (shift1 t) ch = (controller_event d2 t ch).map Pass.shift1 := by
  unfold controller_event
  have h0 : rd d1 ((shift1 t).trkptr) = rd d2 t.trkptr := hsh t.trkptr hp
  have h1 : rd d1 ((shift1 t).trkptr + 1) = rd d2 (t.trkptr + 1) :=
    hsh (t.trkptr + 1) (by omega)
  rw [h0, h1]
  cases rd d2 t.trkptr with
  | error e => rfl
  | ok controller =>
    cases rd d2 (t.trkptr + 1) with
    | error e => rfl
    | ok velocity =>
      simp only []
      split_ifs <;> (simp [Except.map, Pass.shift1, shift1]; try omega)

theorem program_event_shift (d1 d2 : List Nat) (p0 : Nat)
    (hsh : ∀ i, p0 ≤ i → rd d1 (i + 1) = rd d2 i) (chan : Nat) (t : TrackStatus)
    (ch : List ChannelStatus) (hp : p0 ≤ t.trkptr) :
    program_event d1 chan (shift1 t) ch = (program_event d2 chan t ch).map Pass.shift1 := by
  unfold program_event
  have h0 : rd d1 ((shift1 t).trkptr) = rd d2 t.trkptr := hsh t.trkptr hp
  rw [h0]
  cases rd d2 t.trkptr with
  | error e => rfl
  | ok _ => simp [Except.map, Pass.shift1, shift1]

theorem sysex_event_shift (d1 d2 : List Nat) (p0 : Nat)
    (hsh : ∀ i, p0 ≤ i → rd d1 (i + 1) = rd d2 i) (t : TrackStatus)
    (ch : List ChannelStatus) (hp : p0 ≤ t.trkptr) :
    sysex_event d1 (shift1 t) ch = (sysex_event d2 t ch).map Pass.shift1 := by
  unfold sysex_event
  have h0 : get_varlen d1 ((shift1 t).trkptr) = _ := get_varlen_shift d1 d2 p0 hsh t.trkptr hp
  rw [h0]
  cases get_varlen d2 t.trkptr with
  | error e => rfl
  | ok r => simp [Except.map, Pass.shift1, shift1]; omega

theorem channel_dispatch_shift (d1 d2 : List Nat) (p0 : Nat)
    (hsh : ∀ i, p0 ≤ i → rd d1 (i + 1) = rd d2 i) (mask event : Nat) (t : TrackStatus)
    (ch : List ChannelStatus) (hp : p0 ≤ t.trkptr) :
    channel_dispatch d1 mask event (shift1 t) ch
      = (channel_dispatch d2 mask event t ch).map Pass.shift1 := by
  unfold channel_dispatch
  split
  · exact note_off_event_shift d1 d2 p0 hsh _ _ _ _ hp
  · exact note_on_event_shift d1 d2 p0 hsh _ _ _ _ hp
  · exact skip_two_shift d1 d2 p0 hsh _ _ hp
  · exact controller_event_shift d1 d2 p0 hsh _ _ hp
  · exact program_event_shift d1 d2 p0 hsh _ _ _ hp
  · exact skip_one_shift d1 d2 p0 hsh _ _ hp
  · exact skip_two_shift d1 d2 p0 hsh _ _ hp
  · exact sysex_event_shift d1 d2 p0 hsh _ _ hp
  · rfl

theorem channel_event_shift (d1 d2 : List Nat) (p0 : Nat)
    (hsh : ∀ i, p0 ≤ i → rd d1 (i + 1) = rd d2 i) (mask event : Nat) (t : TrackStatus)
    (ch : List ChannelStatus) (hp : p0 ≤ t.trkptr) :
    channel_event d1 mask event (shift1 t) ch
      = (channel_event d2 mask event t ch).map Pass.shift1 := by
  unfold channel_event
  exact channel_dispatch_shift d1 d2 p0 hsh mask event
    { t with last_event := if event < 0xf0 then event else t.last_event,
             chan := event &&& 0xf } ch hp

theorem read_tempo_shift (d1 d2 : List Nat) (p0 : Nat)
    (hsh : ∀ i, p0 ≤ i → rd d1 (i + 1) = rd d2 i) (p : Nat) (hp : p0 + 1 ≤ p) :
    read_tempo d1 (p + 1) = read_tempo d2 p := by
  unfold read_tempo load32
  have e : p + 1 - 1 = (p - 1) + 1 := by omega
  rw [e]
  simp only [bind, Except.bind]
  rw [hsh (p - 1) (by omega), Nat.add_assoc (p - 1) 1 1, Nat.add_assoc (p - 1) 1 2,
    Nat.add_assoc (p - 1) 1 3]
  rw [show p - 1 + (1 + 1) = (p - 1 + 1) + 1 by omega, hsh (p - 1 + 1) (by omega),
    show p - 1 + (1 + 2) = (p - 1 + 2) + 1 by omega, hsh (p - 1 + 2) (by omega),
    show p - 1 + (1 + 3) = (p - 1 + 3) + 1 by omega, hsh (p - 1 + 3) (by omega)]

theorem meta_event_shift (d1 d2 : List Nat) (p0 : Nat)
    (hsh : ∀ i, p0 ≤ i → rd d1 (i + 1) = rd d2 i) (t : TrackStatus)
    (ch : List ChannelStatus) (hp : p0 ≤ t.trkptr) :
    meta_event d1 (shift1 t) ch = (meta_event d2 t ch).map Pass.shift1 := by
  unfold meta_event
  have h0 : rd d1 ((shift1 t).trkptr) = rd d2 t.trkptr := hsh t.trkptr hp
  have h1 : get_varlen d1 ((shift1 t).trkptr + 1) = _ :=
    get_varlen_shift d1 d2 p0 hsh (t.trkptr + 1) (by omega)
  rw [h0, h1]
  cases rd d2 t.trkptr with
  | error e => rfl
  | ok meta_cmd =>
    cases hv : get_varlen d2 (t.trkptr + 1) with
    | error e => rfl
    | ok r =>
      obtain ⟨len, p⟩ := r
      have hprog := get_varlen_progress hv
      simp only [Except.map]
      split_ifs
      · rw [read_tempo_shift d1 d2 p0 hsh p (by omega)]
        cases read_tempo d2 p with
        | error e => rfl
        | ok tempo => simp [Pass.shift1, shift1]; omega
      · simp [Pass.shift1, shift1]; omega

theorem midi_note_off_cursor (mask : Nat) (t : TrackStatus) (chan : Nat) :
    (midi_note_off mask t chan).1.trkptr = t.trkptr ∧
    (midi_note_off mask t chan).1.trkend = t.trkend := by
  unfold midi_note_off
  split_ifs <;> exact ⟨rfl, rfl⟩

theorem channel_dispatch_cursor {data : List Nat} {mask event : Nat} {t : TrackStatus}
    {ch : List ChannelStatus} {p : Pass} (h : channel_dispatch data mask event t ch = .ok p) :
    t.trkptr ≤ p.track.trkptr ∧ p.track.trkend = t.trkend := by
  unfold channel_dispatch at h
  split at h
  · unfold note_off_event at h
    split at h
    · cases h
    · split at h
      · cases h
      · simp only [] at h
        split_ifs at h <;>
          (cases h; simp only [Pass.track, midi_note_off_cursor]
           constructor <;> first | omega | rfl | trivial)
  · unfold note_on_event at h
    split at h
    · cases h
    · split at h
      · cases h
      · simp only [] at h
        split_ifs at h <;>
          (cases h; simp only [Pass.track, midi_note_off_cursor]
           constructor <;> first | omega | rfl | trivial)
  · unfold skip_two at h
    split at h
    · cases h
    · split at h
      · cases h
      · cases h; exact ⟨by simp only [Pass.track]; omega, rfl⟩
  · unfold controller_event at h
    split at h
    · cases h
    · split at h
      · cases h
      · simp only [] at h
        split_ifs at h <;> (cases h; exact ⟨by simp only [Pass.track]; omega, rfl⟩)
  · unfold program_event at h
    split at h
    · cases h
    · cases h; exact ⟨by simp only [Pass.track]; omega, rfl⟩
  · unfold skip_one at h
    split at h
    · cases h
    · cases h; exact ⟨by simp only [Pass.track]; omega, rfl⟩
  · unfold skip_two at h
    split at h
    · cases h
    · split at h
      · cases h
      · cases h; exact ⟨by simp only [Pass.track]; omega, rfl⟩
  · unfold sysex_event at h
    split at h
    · cases h
    · next hv =>
      cases h
      have := get_varlen_progress hv
      exact ⟨by simp only [Pass.track]; omega, rfl⟩
  · cases h; exact ⟨le_refl _, rfl⟩

theorem meta_event_cursor {data : List Nat} {t : TrackStatus}
    {ch : List ChannelStatus} {p : Pass} (h : meta_event data t ch = .ok p) :
    t.trkptr ≤ p.track.trkptr ∧ p.track.trkend = t.trkend := by
  unfold meta_event at h
  split at h
  · cases h
  · split at h
    · cases h
    · next hv =>
      have := get_varlen_progress hv
      split_ifs at h
      · split at h
        · cases h
        · cases h; exact ⟨by simp only [Pass.track]; omega, rfl⟩
      · cases h; exact ⟨by simp only [Pass.track]; omega, rfl⟩

theorem event_pass_cursor {data : List Nat} {mask : Nat} {t : TrackStatus}
    {ch : List ChannelStatus} {p : Pass} (h : event_pass data mask t ch = .ok p) :
    t.trkptr < p.track.trkptr ∧ p.track.trkend = t.trkend := by
  unfold event_pass at h
  split at h
  · cases h
  · next hv =>
    have hprog := get_varlen_progress hv
    split at h
    · cases h
    · simp only [] at h
      split_ifs at h
      all_goals first
        | exact ⟨Nat.lt_of_lt_of_le (by first | exact hprog | exact Nat.lt_succ_of_lt hprog)
              (meta_event_cursor h).1, (meta_event_cursor h).2⟩
        | exact ⟨Nat.lt_of_lt_of_le (by first | exact hprog | exact Nat.lt_succ_of_lt hprog)
              (channel_dispatch_cursor h).1, (channel_dispatch_cursor h).2⟩
        | (cases h; exact ⟨by simp only [Pass.track]; omega, rfl⟩)

theorem event_pass_shift (d1 d2 : List Nat) (p0 : Nat)
    (hsh : ∀ i, p0 ≤ i → rd d1 (i + 1) = rd d2 i) (mask : Nat) (t : TrackStatus)
    (ch : List ChannelStatus) (hp : p0 ≤ t.trkptr) :
    event_pass d1 mask (shift1 t) ch = (event_pass d2 mask t ch).map Pass.shift1 := by
  unfold event_pass
  have h0 : get_varlen d1 ((shift1 t).trkptr) = _ := get_varlen_shift d1 d2 p0 hsh t.trkptr hp
  rw [h0]
  cases hv : get_varlen d2 t.trkptr with
  | error e => rfl
  | ok r =>
    obtain ⟨delta, p⟩ := r
    have hprog := get_varlen_progress hv
    simp only [Except.map]
    rw [hsh p (by omega)]
    cases rd d2 p with
    | error e => rfl
    | ok b =>
      simp only []
      have hq : p ≤ (if b < 0x80 then p else p + 1) := by split_ifs <;> omega
      have eq1 : (if b < 0x80 then p + 1 else p + 1 + 1)
          = (if b < 0x80 then p else p + 1) + 1 := by split_ifs <;> rfl
      have hl : (shift1 t).last_event = t.last_event := rfl
      rw [eq1, hl]
      generalize (if b < 0x80 then p else p + 1) = q at hq ⊢
      generalize (if b < 0x80 then t.last_event else b) = ev
      have hp' : p0 ≤ ({ t with trkptr := q, time := (t.time + delta) % W64 } : TrackStatus).trkptr := by
        show p0 ≤ q
        omega
      split_ifs
      · exact meta_event_shift d1 d2 p0 hsh
          { t with trkptr := q, time := (t.time + delta) % W64 } ch hp'
      · rfl
      · exact channel_event_shift d1 d2 p0 hsh mask ev
          { t with trkptr := q, time := (t.time + delta) % W64 } ch hp'

theorem find_next_loop_shift (d1 d2 : List Nat) (p0 : Nat)
    (hsh : ∀ i, p0 ≤ i → rd d1 (i + 1) = rd d2 i) (mask : Nat) :
    ∀ (fuel : Nat) (t : TrackStatus) (ch : List ChannelStatus), p0 ≤ t.trkptr →
      find_next_loop d1 mask fuel (shift1 t) ch
        = (find_next_loop d2 mask fuel t ch).map (fun r => (r.1, shift1 r.2.1, r.2.2)) := by
  intro fuel
  induction fuel with
  | zero =>
    intro t ch _
    unfold find_next_loop
    have e : ((shift1 t).trkptr < (shift1 t).trkend) = (t.trkptr < t.trkend) := by
      simp [shift1]
    simp only [e]
    split_ifs <;> rfl
  | succ n ih =>
    intro t ch hp
    unfold find_next_loop
    have e : ((shift1 t).trkptr < (shift1 t).trkend) = (t.trkptr < t.trkend) := by
      simp [shift1]
    simp only [e]
    split_ifs
    · rw [event_pass_shift d1 d2 p0 hsh mask t ch hp]
      cases hpass : event_pass d2 mask t ch with
      | error e => rfl
      | ok p =>
        have hc := event_pass_cursor hpass
        cases p with
        | returned r t1 ch1 => rfl
        | continues t1 ch1 =>
          simp only [Except.map, Pass.shift1]
          exact ih t1 ch1 (by simp only [Pass.track] at hc; omega)
    · rfl

theorem find_next_loop_fuel (data : List Nat) (mask : Nat) :
    ∀ (f1 f2 : Nat) (t : TrackStatus) (ch : List ChannelStatus),
      t.trkend - t.trkptr ≤ f1 → t.trkend - t.trkptr ≤ f2 →
      find_next_loop data mask f1 t ch = find_next_loop data mask f2 t ch := by
  intro f1
  induction f1 with
  | zero =>
    intro f2 t ch h1 _
    have hn : ¬ t.trkptr < t.trkend := by omega
    unfold find_next_loop
    rw [if_neg hn, if_neg hn]
  | succ n ih =>
    intro f2 t ch h1 h2
    by_cases hlt : t.trkptr < t.trkend
    · obtain ⟨m, rfl⟩ : ∃ m, f2 = m + 1 := ⟨f2 - 1, by omega⟩
      unfold find_next_loop
      rw [if_pos hlt, if_pos hlt]
      simp only []
      cases hpass : event_pass data mask t ch with
      | error e => rfl
      | ok p =>
        cases p with
        | returned r t1 ch1 => rfl
        | continues t1 ch1 =>
          have hc := event_pass_cursor hpass
          simp only [Pass.track] at hc
          exact ih m t1 ch1 (by omega) (by omega)
    · unfold find_next_loop
      rw [if_neg hlt, if_neg hlt]

theorem get_varlen_loop_append (pre l : List Nat) :
    ∀ (n val k : Nat),
      get_varlen_loop (pre ++ l) n val (pre.length + k)
        = (get_varlen_loop l n val k).map (fun r => (r.1, pre.length + r.2)) := by
  intro n
  induction n with
  | zero => intro val k; rfl
  | succ n ih =>
    intro val k
    unfold get_varlen_loop
    rw [rd_append]
    cases rd l k with
    | error e => rfl
    | ok b =>
      simp only []
      split_ifs
      · rfl
      · exact ih _ (k + 1)

theorem rd_cons_succ (a : Nat) (l : List Nat) (k : Nat) : rd (a :: l) (k + 1) = rd l k := by
  simp [rd]

theorem rd_insert_shift (pre : List Nat) (a : Nat) (rest : List Nat) :
    ∀ i, pre.length ≤ i → rd (pre ++ a :: rest) (i + 1) = rd (pre ++ rest) i := by
  intro i hi
  obtain ⟨k, rfl⟩ : ∃ k, i = pre.length + k := ⟨i - pre.length, by omega⟩
  rw [Nat.add_assoc, rd_append, rd_append, rd_cons_succ]

/-- The first pass over an event written with its status byte `st`, and over the same
event written without it while `st` is the running status, lead to the same call of
`channel_event`, one byte apart. -/
theorem event_pass_running_status (pre dl rest : List Nat) (st delta b : Nat) (mask : Nat)
    (t : TrackStatus) (ch : List ChannelStatus)
    (hst : 0x80 ≤ st ∧ st < 0xF0)
    (hdl : ∀ post, get_varlen (dl ++ post) 0 = .ok (delta, dl.length))
    (hb : rd rest 0 = .ok b) (hb7 : b < 0x80)
    (hptr : t.trkptr = pre.length) (hlast : t.last_event = st) :
    event_pass (pre ++ dl ++ st :: rest) mask { t with trkend := t.trkend + 1 } ch
        = (event_pass (pre ++ dl ++ rest) mask t ch).map Pass.shift1 ∧
      ∀ p, event_pass (pre ++ dl ++ rest) mask t ch = .ok p →
        pre.length + dl.length ≤ p.track.trkptr := by
  have hv1 : get_varlen (pre ++ dl ++ st :: rest) pre.length
      = .ok (delta, pre.length + dl.length) := by
    have := get_varlen_loop_append pre (dl ++ st :: rest) 4 0 0
    rw [List.append_assoc]
    unfold get_varlen at hdl ⊢
    rw [Nat.add_zero] at this
    rw [this, hdl]; rfl
  have hv2 : get_varlen (pre ++ dl ++ rest) pre.length
      = .ok (delta, pre.length + dl.length) := by
    have := get_varlen_loop_append pre (dl ++ rest) 4 0 0
    rw [List.append_assoc]
    unfold get_varlen at hdl ⊢
    rw [Nat.add_zero] at this
    rw [this, hdl]; rfl
  have hlen : (pre ++ dl).length = pre.length + dl.length := List.length_append _ _
  have hr1 : rd (pre ++ dl ++ st :: rest) (pre.length + dl.length) = .ok st := by
    have := rd_append (pre ++ dl) (st :: rest) 0
    rw [hlen, Nat.add_zero] at this
    rw [this]
    simp only [rd, List.get?_cons_zero]
    congr 1
    omega
  have hr2 : rd (pre ++ dl ++ rest) (pre.length + dl.length) = .ok b := by
    have := rd_append (pre ++ dl) rest 0
    rw [hlen, Nat.add_zero] at this
    rw [this, hb]
  have hsh : ∀ i, pre.length + dl.length ≤ i →
      rd (pre ++ dl ++ st :: rest) (i + 1) = rd (pre ++ dl ++ rest) i := by
    intro i hi
    exact rd_insert_shift (pre ++ dl) st rest i (by rw [hlen]; exact hi)
  unfold event_pass
  simp only [hptr, hv1, hv2, hr1, hr2, hlast]
  have c1 : ¬ st < 0x80 := by omega
  have c2 : st ≠ 0xff := by omega
  simp only [hb7, c1, c2, if_true, if_false]
  refine ⟨channel_event_shift _ _ (pre.length + dl.length) hsh mask st
    { t with trkptr := pre.length + dl.length, time := (t.time + delta) % W64,
             last_event := st } ch (le_refl _), ?_⟩
  intro p hp
  unfold channel_event at hp
  exact (channel_dispatch_cursor hp).1

theorem find_next_loop_running_status (pre dl rest : List Nat) (st delta b : Nat) (mask : Nat)
    (t : TrackStatus) (ch : List ChannelStatus)
    (hst : 0x80 ≤ st ∧ st < 0xF0)
    (hdl : ∀ post, get_varlen (dl ++ post) 0 = .ok (delta, dl.length))
    (hb : rd rest 0 = .ok b) (hb7 : b < 0x80)
    (hptr : t.trkptr = pre.length) (hlast : t.last_event = st) (hend : t.trkptr < t.trkend) :
    find_next_loop (pre ++ dl ++ st :: rest) mask (t.trkend + 1 - t.trkptr)
        { t with trkend := t.trkend + 1 } ch
      = (find_next_loop (pre ++ dl ++ rest) mask (t.trkend - t.trkptr) t ch).map
          (fun r => (r.1, shift1 r.2.1, r.2.2)) := by
  obtain ⟨hpass, hcur⟩ := event_pass_running_status pre dl rest st delta b mask t ch hst hdl hb
    hb7 hptr hlast
  obtain ⟨k, hk⟩ : ∃ k, t.trkend - t.trkptr = k + 1 := ⟨t.trkend - t.trkptr - 1, by omega⟩
  have hk1 : t.trkend + 1 - t.trkptr = (k + 1) + 1 := by omega
  rw [hk1, hk]
  have hsh : ∀ i, pre.length + dl.length ≤ i →
      rd (pre ++ dl ++ st :: rest) (i + 1) = rd (pre ++ dl ++ rest) i := by
    intro i hi
    exact rd_insert_shift (pre ++ dl) st rest i (by rw [List.length_append]; exact hi)
  conv => lhs; unfold find_next_loop
  conv => rhs; unfold find_next_loop
  have c1 : ({ t with trkend := t.trkend + 1 } : TrackStatus).trkptr
      < ({ t with trkend := t.trkend + 1 } : TrackStatus).trkend := by
    show t.trkptr < t.trkend + 1; omega
  rw [if_pos c1, if_pos hend]
  simp only []
  rw [hpass]
  cases hp : event_pass (pre ++ dl ++ rest) mask t ch with
  | error e => rfl
  | ok p =>
    have hc := event_pass_cursor hp
    have hc0 := hcur p hp
    cases p with
    | returned r t1 ch1 => rfl
    | continues t1 ch1 =>
      simp only [Pass.track] at hc hc0
      simp only [Except.map, Pass.shift1]
      rw [find_next_loop_shift _ _ (pre.length + dl.length) hsh mask (k + 1) t1 ch1 hc0,
        find_next_loop_fuel _ mask (k + 1) k t1 ch1 (by omega) (by omega)]
      rfl

theorem midi_find_next_note_running_status_aux (s : MIDIFile) (tracknum : Nat)
    (pre dl rest : List Nat) (st delta b : Nat)
    (hn : tracknum < s.track.length)
    (hdata : s.data = pre ++ dl ++ rest)
    (hst : 0x80 ≤ st ∧ st < 0xF0)
    (hdl : ∀ post, get_varlen (dl ++ post) 0 = .ok (delta, dl.length))
    (hb : rd rest 0 = .ok b) (hb7 : b < 0x80)
    (hptr : (s.track.getD tracknum default).trkptr = pre.length)
    (hlast : (s.track.getD tracknum default).last_event = st)
    (hend : (s.track.getD tracknum default).trkptr < (s.track.getD tracknum default).trkend) :
    midi_find_next_note
        { s with data := pre ++ dl ++ st :: rest,
                 track := s.track.set tracknum
                   { s.track.getD tracknum default with
                       trkend := (s.track.getD tracknum default).trkend + 1 } } tracknum
      = (midi_find_next_note s tracknum).map
          (fun r => (r.1, with_status (pre ++ dl ++ st :: rest) tracknum r.2)) := by
  have hloop := find_next_loop_running_status pre dl rest st delta b s.channel_mask
    (s.track.getD tracknum default) s.channel hst hdl hb hb7 hptr hlast hend
  unfold midi_find_next_note
  have hget : ∀ (x : TrackStatus), (s.track.set tracknum x).getD tracknum default = x := by
    intro x
    rw [getD_set_eq, if_pos ⟨rfl, hn⟩]
  simp only [hget, hdata]
  rw [hloop]
  cases find_next_loop (pre ++ dl ++ rest) s.channel_mask
      ((s.track.getD tracknum default).trkend - (s.track.getD tracknum default).trkptr)
      (s.track.getD tracknum default) s.channel with
  | error e => rfl
  | ok r =>
    obtain ⟨r0, t1, ch1⟩ := r
    simp only [Except.map, List.set_set]
    cases r0 <;> simp [with_status, getD_set_eq, hn, List.set_set, hdata]

/-- C3: let the running status of a track be the channel status `st` (0x80 ≤ st < 0xF0)
and let the track stand before an event made of a delta time `dl` and data bytes `rest`
whose first byte has its high bit clear.  Then `midi_find_next_note` on the buffer in which
the event carries the status byte `st` gives the result it gives on the buffer without the
status byte: same return value or fault, same track fields, channels and counters, the
cursor and the end of the track lying one byte further (the same event boundary). -/
theorem midi_find_next_note_running_status (s : MIDIFile) (tracknum : Nat)
    (pre dl rest : List Nat) (st delta b : Nat)
    (hn : tracknum < s.track.length)
    (hdata : s.data = pre ++ dl ++ rest)
    (hst : 0x80 ≤ st ∧ st < 0xF0)
    (hdl : ∀ post, get_varlen (dl ++ post) 0 = .ok (delta, dl.length))
    (hb : rd rest 0 = .ok b) (hb7 : b < 0x80)
    (hptr : (s.track.getD tracknum default).trkptr = pre.length)
    (hlast : (s.track.getD tracknum default).last_event = st)
    (hend : (s.track.getD tracknum default).trkptr < (s.track.getD tracknum default).trkend) :
    midi_find_next_note
        { s with data := pre ++ dl ++ st :: rest,
                 track := s.track.set tracknum
                   { s.track.getD tracknum default with
                       trkend := (s.track.getD tracknum default).trkend + 1 } } tracknum
      = (midi_find_next_note s tracknum).map
          (fun r => (r.1, with_status (pre ++ dl ++ st :: rest) tracknum r.2)) :=
  midi_find_next_note_running_status_aux s tracknum pre dl rest st delta b hn hdata hst hdl hb
    hb7 hptr hlast hend

/-- Witness of C3: a second note on written without its status byte after a note on. -/
theorem midi_find_next_note_running_status_witness :
    midi_find_next_note
        { running_status_state with
            data := [0x00, 0x90, 0x3C, 0x40] ++ [0x00] ++ 0x90 :: [0x3E, 0x40],
            track := running_status_state.track.set 0
              { running_status_state.track.getD 0 default with
                  trkend := (running_status_state.track.getD 0 default).trkend + 1 } } 0
      = (midi_find_next_note running_status_state 0).map
          (fun r => (r.1, with_status ([0x00, 0x90, 0x3C, 0x40] ++ [0x00] ++ 0x90 :: [0x3E, 0x40])
            0 r.2)) :=
  midi_find_next_note_running_status running_status_state 0 [0x00, 0x90, 0x3C, 0x40] [0x00]
    [0x3E, 0x40] 0x90 0 0x3E (by decide!) rfl (by decide) (fun _ => rfl) (by decide!)
    (by decide) (by decide!) (by decide!) (by decide!)

/-- A sequence of events with the repeated status bytes left out is transcoded to the same
output as the fully specified sequence. -/
theorem running_status_file_output :
    (midi_binarize running_status_file).map (fun s => s.output)
      = (midi_binarize full_status_file).map (fun s => s.output) ∧
    ((midi_binarize full_status_file).map (fun s => s.output.length)) = .ok 7 := by
  decide!

/-! ## Merge scheduler: the selection and the monotone merge -/

theorem scan_tracks_spec (s : MIDIFile) :
    ∀ (count tracknum et : Nat) (en : Option Nat),
      (count = 0 ∨ count + tracknum = s.num_tracks) →
      (scan_tracks s count tracknum et en).1 ≤ et ∧
      (∀ j, 0 < count → (j = 0 ∨ (tracknum < j ∧ j < s.num_tracks)) →
        (s.track.getD j default).cmd ≠ CMD_TRACKDONE →
        (scan_tracks s count tracknum et en).1 ≤ (s.track.getD j default).time) ∧
      ((scan_tracks s count tracknum et en) = (et, en) ∨
        ∃ k, (scan_tracks s count tracknum et en).2 = some k ∧
          (0 < s.num_tracks → k < s.num_tracks) ∧
          (s.track.getD k default).cmd ≠ CMD_TRACKDONE ∧
          (s.track.getD k default).time = (scan_tracks s count tracknum et en).1 ∧
          (scan_tracks s count tracknum et en).1 < et) := by
  intro count
  induction count with
  | zero =>
    intro tracknum et en _
    unfold scan_tracks
    exact ⟨le_refl _, fun j h => absurd h (Nat.lt_irrefl 0), Or.inl rfl⟩
  | succ c ih =>
    intro tracknum et en hinv
    have hsum : c + 1 + tracknum = s.num_tracks := by
      rcases hinv with h | h
      · omega
      · exact h
    unfold scan_tracks
    simp only []
    generalize htn : (if tracknum + 1 ≥ s.num_tracks then 0 else tracknum + 1) = tn1
    have hinv1 : c = 0 ∨ c + tn1 = s.num_tracks := by
      by_cases hc : c = 0
      · exact Or.inl hc
      · right
        rw [← htn, if_neg (by omega)]
        omega
    have htn1 : tn1 < s.num_tracks := by
      rw [← htn]; split_ifs <;> omega
    have hcover : ∀ j, (j = 0 ∨ (tracknum < j ∧ j < s.num_tracks)) →
        j = tn1 ∨ (0 < c ∧ (j = 0 ∨ (tn1 < j ∧ j < s.num_tracks))) := by
      intro j hj
      rw [← htn]
      split_ifs with hge
      · rcases hj with h | h
        · exact Or.inl h
        · omega
      · have : 0 < c := by omega
        rcases hj with h | h
        · exact Or.inr ⟨this, Or.inl h⟩
        · by_cases hj1 : j = tracknum + 1
          · exact Or.inl hj1
          · exact Or.inr ⟨this, Or.inr ⟨by omega, h.2⟩⟩
    by_cases hsel : (s.track.getD tn1 default).cmd ≠ CMD_TRACKDONE ∧
        (s.track.getD tn1 default).time < et
    · rw [if_pos hsel]
      obtain ⟨h1, h2, h3⟩ := ih tn1 (s.track.getD tn1 default).time (some tn1) hinv1
      refine ⟨by omega, ?_, ?_⟩
      · intro j _ hj hcmd
        rcases hcover j hj with rfl | ⟨hc, hj'⟩
        · exact h1
        · exact h2 j hc hj' hcmd
      · right
        rcases h3 with h3 | ⟨k, hk1, hk2, hk3, hk4, hk5⟩
        · exact ⟨tn1, by rw [h3], fun _ => htn1, hsel.1, by rw [h3], by rw [h3]; exact hsel.2⟩
        · exact ⟨k, hk1, hk2, hk3, hk4, by omega⟩
    · rw [if_neg hsel]
      obtain ⟨h1, h2, h3⟩ := ih tn1 et en hinv1
      refine ⟨h1, ?_, h3⟩
      intro j _ hj hcmd
      rcases hcover j hj with rfl | ⟨hc, hj'⟩
      · have : ¬ (s.track.getD j default).time < et := fun h => hsel ⟨hcmd, h⟩
        omega
      · exact h2 j hc hj' hcmd

theorem select_track_spec {s : MIDIFile} {et k : Nat} (h : select_track s = .ok (et, k)) :
    k < s.num_tracks ∧ (s.track.getD k default).cmd ≠ CMD_TRACKDONE ∧
    (s.track.getD k default).time = et ∧ et < 0x7fffffff ∧
    ∀ j, j < s.num_tracks → (s.track.getD j default).cmd ≠ CMD_TRACKDONE →
      et ≤ (s.track.getD j default).time := by
  unfold select_track at h
  split_ifs at h with h0
  have hpos : 0 < s.num_tracks := Nat.pos_of_ne_zero h0
  obtain ⟨h1, h2, h3⟩ := scan_tracks_spec s s.num_tracks 0 0x7fffffff none (Or.inr rfl)
  split at h
  · next et' k' heq =>
    cases h
    rw [heq] at h1 h2 h3
    simp only at h1 h2 h3
    rcases h3 with h3 | ⟨k1, hk1, hk2, hk3, hk4, hk5⟩
    · cases h3
    · cases hk1
      refine ⟨hk2 hpos, hk3, hk4, hk5, ?_⟩
      · intro j hj hcmd
        apply h2 j hpos _ hcmd
        by_cases hj0 : j = 0
        · exact Or.inl hj0
        · exact Or.inr ⟨by omega, hj⟩
  · cases h

theorem pull_n_sched : ∀ (k : Nat) (s : MIDIFile),
    sched_fields (pull_n k s) = sched_fields s ∧ (pull_n k s).channel = s.channel ∧
    (pull_n k s).tempo = s.tempo ∧ (pull_n k s).pedalNote = s.pedalNote ∧
    (pull_n k s).pedalStatus = s.pedalStatus := by
  intro k
  induction k with
  | zero => intro s; exact ⟨rfl, rfl, rfl, rfl, rfl⟩
  | succ n ih => intro s; exact ih (pull_body s)

theorem pull_queue_sched {s s1 : MIDIFile} (h : pull_queue s = .ok s1) :
    sched_fields s1 = sched_fields s ∧ s1.channel = s.channel ∧ s1.tempo = s.tempo ∧
    s1.pedalNote = s.pedalNote ∧ s1.pedalStatus = s.pedalStatus := by
  obtain ⟨k, s3, hp, _, rfl⟩ := pull_queue_shape h
  obtain ⟨d, u, f, o, rfl⟩ := pull_prelude_shape hp
  exact pull_n_sched (k + 1) _

theorem queue_insert_sched {s s1 : MIDIFile} {cmd : Nat} {np : NoteInfo}
    (h : queue_insert s cmd np = .ok s1) :
    sched_fields s1 = sched_fields s ∧ s1.channel = s.channel ∧ s1.tempo = s.tempo ∧
    s1.pedalNote = s.pedalNote ∧ s1.pedalStatus = s.pedalStatus := by
  unfold queue_insert at h
  split_ifs at h
  · cases h; exact ⟨rfl, rfl, rfl, rfl, rfl⟩
  · split at h
    · cases h
    · cases h; exact ⟨rfl, rfl, rfl, rfl, rfl⟩
    · simp only [] at h
      split at h
      · cases h
      · cases h; exact ⟨rfl, rfl, rfl, rfl, rfl⟩

theorem queue_cmd_sched {s s1 : MIDIFile} {cmd : Nat} {np np1 : NoteInfo}
    (h : queue_cmd s cmd np = .ok (s1, np1)) :
    sched_fields s1 = sched_fields s ∧ s1.channel = s.channel ∧ s1.tempo = s.tempo ∧
    s1.pedalNote = s.pedalNote ∧ s1.pedalStatus = s.pedalStatus := by
  unfold queue_cmd at h
  split at h
  · cases h
  · next s2 hp =>
    have hs2 : sched_fields s2 = sched_fields s ∧ s2.channel = s.channel ∧
        s2.tempo = s.tempo ∧ s2.pedalNote = s.pedalNote ∧
        s2.pedalStatus = s.pedalStatus := by
      split_ifs at hp
      · exact pull_queue_sched hp
      · cases hp; exact ⟨rfl, rfl, rfl, rfl, rfl⟩
    split_ifs at h
    simp only [] at h
    split at h
    · cases h
    · next s3 hi =>
      cases h
      obtain ⟨a1, a2, a3, a4, a5⟩ := queue_insert_sched hi
      obtain ⟨b1, b2, b3, b4, b5⟩ := hs2
      exact ⟨a1.trans b1, a2.trans b2, a3.trans b3, a4.trans b4, a5.trans b5⟩

theorem dispatch_sched {s s1 : MIDIFile} {tracknum : Nat} (h : dispatch s tracknum = .ok s1) :
    sched_fields s1 = sched_fields s := by
  unfold dispatch at h
  simp only [] at h
  split_ifs at h
  · cases h; rfl
  · cases h; rfl
  · unfold dispatch_stop at h
    simp only [] at h
    split at h
    · cases h; rfl
    · split at h
      · cases h
      · next hq => cases h; exact (queue_cmd_sched hq).1
  · unfold dispatch_play at h
    simp only [] at h
    split at h
    · cases h; rfl
    · split at h
      · cases h
      · next hq => cases h; exact (queue_cmd_sched hq).1
  all_goals
    unfold dispatch_pedal at h
    simp only [] at h
    split at h
    · cases h
    · next hq =>
      cases h
      exact (queue_cmd_sched hq).1

theorem and_7f_lt (b : Nat) : b &&& 0x7f < 128 :=
  Nat.lt_of_le_of_lt Nat.and_le_right (by decide)

theorem get_varlen_loop_bound (data : List Nat) :
    ∀ (n val p v q : Nat), get_varlen_loop data n val p = .ok (v, q) →
      v < (val + 1) * 128 ^ n := by
  intro n
  induction n with
  | zero =>
    intro val p v q h
    unfold get_varlen_loop at h
    cases h
    simp
  | succ n ih =>
    intro val p v q h
    unfold get_varlen_loop at h
    split at h
    · cases h
    · next b _ =>
      simp only [] at h
      have hb := and_7f_lt b
      have hv1 : (val <<< 7 ||| b &&& 0x7f) + 1 ≤ (val + 1) * 128 := by
        rw [shl7_or _ _ hb]; omega
      have hpow : (val + 1) * 128 ^ (n + 1) = (val + 1) * 128 * 128 ^ n := by
        rw [pow_succ]; ring
      split_ifs at h
      · cases h
        rw [hpow]
        calc val <<< 7 ||| b &&& 0x7f < (val + 1) * 128 := by omega
          _ ≤ (val + 1) * 128 * 128 ^ n := Nat.le_mul_of_pos_right _ (by positivity)
      · have := ih _ _ _ _ h
        rw [hpow]
        calc v < ((val <<< 7 ||| b &&& 0x7f) + 1) * 128 ^ n := this
          _ ≤ (val + 1) * 128 * 128 ^ n := Nat.mul_le_mul_right _ hv1

theorem get_varlen_bound {data : List Nat} {p v q : Nat}
    (h : get_varlen data p = .ok (v, q)) : v < 268435456 := by
  have := get_varlen_loop_bound data 4 0 p v q h
  simpa using this

theorem channel_dispatch_time {data : List Nat} {mask event : Nat} {t : TrackStatus}
    {ch : List ChannelStatus} {p : Pass} (h : channel_dispatch data mask event t ch = .ok p) :
    p.track.time = t.time := by
  unfold channel_dispatch at h
  split at h
  · unfold note_off_event at h
    split at h
    · cases h
    · split at h
      · cases h
      · simp only [midi_note_off] at h
        split_ifs at h <;> (cases h; rfl)
  · unfold note_on_event at h
    split at h
    · cases h
    · split at h
      · cases h
      · simp only [midi_note_off] at h
        split_ifs at h <;> (cases h; rfl)
  · unfold skip_two at h
    split at h
    · cases h
    · split at h
      · cases h
      · cases h; rfl
  · unfold controller_event at h
    split at h
    · cases h
    · split at h
      · cases h
      · simp only [] at h
        split_ifs at h <;> (cases h; rfl)
  · unfold program_event at h
    split at h
    · cases h
    · cases h; rfl
  · unfold skip_one at h
    split at h
    · cases h
    · cases h; rfl
  · unfold skip_two at h
    split at h
    · cases h
    · split at h
      · cases h
      · cases h; rfl
  · unfold sysex_event at h
    split at h
    · cases h
    · cases h; rfl
  · cases h; rfl

theorem meta_event_time {data : List Nat} {t : TrackStatus}
    {ch : List ChannelStatus} {p : Pass} (h : meta_event data t ch = .ok p) :
    p.track.time = t.time := by
  unfold meta_event at h
  split at h
  · cases h
  · split at h
    · cases h
    · split_ifs at h
      · split at h
        · cases h
        · cases h; rfl
      · cases h; rfl

theorem event_pass_time {data : List Nat} {mask : Nat} {t : TrackStatus}
    {ch : List ChannelStatus} {p : Pass} (h : event_pass data mask t ch = .ok p) :
    ∃ delta, delta < 268435456 ∧ p.track.time = (t.time + delta) % W64 := by
  unfold event_pass at h
  split at h
  · cases h
  · next delta q hv =>
    refine ⟨delta, get_varlen_bound hv, ?_⟩
    split at h
    · cases h
    · simp only [] at h
      split_ifs at h
      all_goals first
        | exact meta_event_time h
        | (unfold channel_event at h; exact channel_dispatch_time h)
        | (cases h; rfl)

theorem find_next_loop_budget (data : List Nat) (mask : Nat) :
    ∀ (fuel : Nat) (t : TrackStatus) (ch : List ChannelStatus) (r : Ret) (t1 : TrackStatus)
      (ch1 : List ChannelStatus),
      find_next_loop data mask fuel t ch = .ok (r, t1, ch1) → tick_budget t < W64 →
      t.time ≤ t1.time ∧ tick_budget t1 ≤ tick_budget t := by
  intro fuel
  induction fuel with
  | zero =>
    intro t ch r t1 ch1 h _
    unfold find_next_loop at h
    split_ifs at h
    cases h
    exact ⟨le_refl _, le_refl _⟩
  | succ n ih =>
    intro t ch r t1 ch1 h hb
    unfold find_next_loop at h
    split_ifs at h with hlt
    · simp only [] at h
      split at h
      · cases h
      · next r' t' ch' hp =>
        cases h
        obtain ⟨delta, hd, ht⟩ := event_pass_time hp
        have hc := event_pass_cursor hp
        simp only [Pass.track] at ht hc
        unfold tick_budget at hb ⊢
        have hnw : (t.time + delta) % W64 = t.time + delta := by
          apply Nat.mod_eq_of_lt; simp only [W64] at *; omega
        rw [ht, hnw, hc.2]
        constructor
        · omega
        · omega
      · next t' ch' hp =>
        obtain ⟨delta, hd, ht⟩ := event_pass_time hp
        have hc := event_pass_cursor hp
        simp only [Pass.track] at ht hc
        have hnw : (t.time + delta) % W64 = t.time + delta := by
          unfold tick_budget at hb
          apply Nat.mod_eq_of_lt; simp only [W64] at *; omega
        have hb' : tick_budget t' ≤ tick_budget t := by
          unfold tick_budget at hb ⊢
          rw [ht, hnw, hc.2]; omega
        obtain ⟨h1, h2⟩ := ih t' ch' r t1 ch1 h (by omega)
        exact ⟨by rw [ht, hnw] at h1; omega, by omega⟩
    · cases h
      exact ⟨le_refl _, le_refl _⟩

theorem midi_find_next_note_track {s s1 : MIDIFile} {tracknum : Nat} {r : Ret}
    (h : midi_find_next_note s tracknum = .ok (r, s1)) :
    ∃ (t1 : TrackStatus) (ch1 : List ChannelStatus) (d : Nat),
      find_next_loop s.data s.channel_mask
          ((s.track.getD tracknum default).trkend - (s.track.getD tracknum default).trkptr)
          (s.track.getD tracknum default) s.channel = .ok (r, t1, ch1) ∧
      s1 = { s with track := s.track.set tracknum t1, channel := ch1, tracks_done := d } := by
  unfold midi_find_next_note at h
  simp only at h
  split at h
  · cases h
  · next r0 t1 ch1 hl =>
    refine ⟨t1, ch1, ?_⟩
    split at h
    · cases h; exact ⟨_, hl, rfl⟩
    · cases h; exact ⟨_, hl, rfl⟩

theorem advance_track_track {s s1 : MIDIFile} {tracknum : Nat}
    (h : advance_track s tracknum = .ok s1) :
    ∃ (r : Ret) (t1 : TrackStatus) (ch1 : List ChannelStatus) (d : Nat),
      find_next_loop s.data s.channel_mask
          ((s.track.getD tracknum default).trkend - (s.track.getD tracknum default).trkptr)
          (s.track.getD tracknum default) s.channel = .ok (r, t1, ch1) ∧
      s1 = { s with track := s.track.set tracknum t1, channel := ch1, tracks_done := d } := by
  unfold advance_track at h
  split at h
  · cases h
  · cases h
  · next r s2 _ hf =>
    split_ifs at h
    cases h
    obtain ⟨t1, ch1, d, hl, he⟩ := midi_find_next_note_track hf
    exact ⟨r, t1, ch1, d, hl, he⟩

theorem process_step_inv {s s1 : MIDIFile} (hinv : merge_inv s)
    (h : process_step s = .ok s1) :
    merge_inv s1 ∧ s.timenow_ticks ≤ s1.timenow_ticks ∧
    ∃ k, select_track s = .ok (s1.timenow_ticks, k) := by
  obtain ⟨hlen, hnum, htr⟩ := hinv
  unfold process_step at h
  split at h
  · cases h
  · next et k hsel =>
    split_ifs at h with hord
    split at h
    · cases h
    · next sc hclk =>
      split at h
      · cases h
      · next sd hd =>
        obtain ⟨hk, hcmd, htime, _, hmin⟩ := select_track_spec hsel
        obtain ⟨u, hsc⟩ := advance_clock_frame hclk
        have hsf := dispatch_sched hd
        have hsd_track : sd.track = s.track := by
          have : sd.track = sc.track := congrArg (fun x => x.2.2.1) hsf
          rw [this, hsc]
        have hsd_num : sd.num_tracks = s.num_tracks := by
          have : sd.num_tracks = sc.num_tracks := congrArg (fun x => x.2.1) hsf
          rw [this, hsc]
        have hsd_ticks : sd.timenow_ticks = et := by
          have : sd.timenow_ticks = sc.timenow_ticks := congrArg (fun x => x.2.2.2.2.1) hsf
          rw [this, hsc]
        obtain ⟨r, t1, ch1, d, hl, he⟩ := advance_track_track h
        rw [hsd_track] at hl
        obtain ⟨hb1, hb2⟩ := find_next_loop_budget _ _ _ _ _ _ _ _ hl (htr k hk).2
        have hs1_track : s1.track = s.track.set k t1 := by
          rw [he]; show sd.track.set k t1 = _; rw [hsd_track]
        have hs1_num : s1.num_tracks = s.num_tracks := by
          rw [he]; show sd.num_tracks = _; exact hsd_num
        have hs1_ticks : s1.timenow_ticks = et := by
          rw [he]; show sd.timenow_ticks = _; exact hsd_ticks
        refine ⟨⟨?_, ?_, ?_⟩, ?_, ?_⟩
        · rw [hs1_track, List.length_set]; exact hlen
        · rw [hs1_num]; exact hnum
        · intro i hi
          rw [hs1_num] at hi
          rw [hs1_track, hs1_ticks, getD_set_eq]
          by_cases hik : k = i
          · have hcond : k = i ∧ k < s.track.length := ⟨hik, by rw [hlen]; omega⟩
            rw [if_pos hcond]
            have h2 := (htr k hk).2
            refine ⟨fun _ => ?_, lt_of_le_of_lt hb2 h2⟩
            rw [htime] at hb1
            exact hb1
          · have hcond : ¬ (k = i ∧ k < s.track.length) := fun hc => hik hc.1
            rw [if_neg hcond]
            exact ⟨fun hc => hmin i hi hc, (htr i hi).2⟩
        · rw [hs1_ticks]; exact hord
        · exact ⟨k, by rw [hs1_ticks]; exact hsel⟩

theorem rev_long_lt (w : Nat) : rev_long w < W32 := by
  unfold rev_long
  exact Nat.mod_lt _ (by decide)

theorem midi_process_track_header_inv {s s1 : MIDIFile} {tracknum : Nat}
    (hinv : position_inv tracknum s) (h : midi_process_track_header s tracknum = .ok s1) :
    position_inv tracknum s1 ∧ s1.num_tracks = s.num_tracks := by
  obtain ⟨hlen, htr⟩ := hinv
  unfold midi_process_track_header at h
  split_ifs at h
  split at h
  · cases h
  · cases h; exact ⟨⟨hlen, htr⟩, rfl⟩
  · split at h
    · cases h
    · next w _ =>
      simp only [] at h
      split_ifs at h
      cases h
      refine ⟨⟨?_, ?_⟩, rfl⟩
      · show (s.track.set _ _).length = _; rw [List.length_set]; exact hlen
      · intro i
        show tick_budget ((s.track.set _ _).getD i default) < W64 ∧
          (tracknum ≤ i → ((s.track.set _ _).getD i default).time = 0)
        rw [getD_set_eq]
        split_ifs with hc
        · obtain ⟨rfl, _⟩ := hc
          have ht0 := (htr tracknum).2 (le_refl _)
          refine ⟨?_, fun _ => ht0⟩
          unfold tick_budget
          show (s.track.getD tracknum default).time
            + 268435456 * (s.dataptr + 8 + rev_long w - (s.dataptr + 8)) < W64
          have := rev_long_lt w
          rw [ht0]
          simp only [W32, W64] at *
          omega
        · exact htr i

theorem position_tracks_inv :
    ∀ (count tracknum : Nat) (s s1 : MIDIFile), position_inv tracknum s →
      position_tracks count tracknum s = .ok s1 →
      (∃ k, position_inv k s1) ∧ s1.num_tracks = s.num_tracks := by
  intro count
  induction count with
  | zero =>
    intro tracknum s s1 hinv h
    unfold position_tracks at h
    cases h
    exact ⟨⟨tracknum, hinv⟩, rfl⟩
  | succ c ih =>
    intro tracknum s s1 hinv h
    unfold position_tracks at h
    simp only [] at h
    have hinv0 : position_inv tracknum
        { s with track := s.track.set tracknum
                   ({ s.track.getD tracknum default with tempo := DEFAULT_TEMPO }) } := by
      obtain ⟨hlen, htr⟩ := hinv
      refine ⟨?_, ?_⟩
      · show (s.track.set _ _).length = _; rw [List.length_set]; exact hlen
      · intro i
        show tick_budget ((s.track.set _ _).getD i default) < W64 ∧
          (tracknum ≤ i → ((s.track.set _ _).getD i default).time = 0)
        rw [getD_set_eq]
        split_ifs with hc
        · obtain ⟨rfl, _⟩ := hc
          exact htr tracknum
        · exact htr i
    split at h
    · cases h
    · next s2 hh =>
      obtain ⟨hinv2, hnum2⟩ := midi_process_track_header_inv hinv0 hh
      split at h
      · cases h
      · cases h
      · next r s3 _ hf =>
        split_ifs at h
        obtain ⟨t1, ch1, d, hl, he⟩ := midi_find_next_note_track hf
        obtain ⟨hlen2, htr2⟩ := hinv2
        obtain ⟨hb1, hb2⟩ := find_next_loop_budget _ _ _ _ _ _ _ _ hl (htr2 tracknum).1
        have hinv3 : position_inv (tracknum + 1) s3 := by
          rw [he]
          refine ⟨?_, ?_⟩
          · show (s2.track.set _ _).length = _; rw [List.length_set]; exact hlen2
          · intro i
            show tick_budget ((s2.track.set _ _).getD i default) < W64 ∧
              (tracknum + 1 ≤ i → ((s2.track.set _ _).getD i default).time = 0)
            rw [getD_set_eq]
            split_ifs with hc
            · obtain ⟨rfl, _⟩ := hc
              exact ⟨lt_of_le_of_lt hb2 (htr2 tracknum).1, fun hi => by omega⟩
            · exact ⟨(htr2 i).1, fun hi => (htr2 i).2 (by omega)⟩
        obtain ⟨hk, hn⟩ := ih (tracknum + 1) s3 s1 hinv3 h
        refine ⟨hk, ?_⟩
        rw [hn, he]
        exact hnum2

theorem midi_process_file_header_inv {s s1 : MIDIFile}
    (h : midi_process_file_header s = .ok s1) :
    s1.track = List.replicate MAX_TRACKS {} ∧ s1.num_tracks < MAX_TRACKS := by
  unfold midi_process_file_header at h
  split_ifs at h
  split at h
  · cases h
  · cases h
  · split at h
    · simp only [] at h
      split_ifs at h with hn
      all_goals (cases h; exact ⟨rfl, hn⟩)
    · cases h

theorem midi_prepare_inv {data : List Nat} {s : MIDIFile} (h : midi_prepare data = .ok s) :
    merge_inv s := by
  unfold midi_prepare midi_prepare_from at h
  split at h
  · cases h
  · next sh hh =>
    obtain ⟨htrack, hnum⟩ := midi_process_file_header_inv hh
    simp only [] at h
    split at h
    · cases h
    · next s2 hp =>
      cases h
      have hinv0 : position_inv 0 { sh with tempo := DEFAULT_TEMPO, tracks_done := 0 } := by
        refine ⟨?_, ?_⟩
        · show sh.track.length = _; rw [htrack]; simp
        · intro i
          show tick_budget (sh.track.getD i default) < W64 ∧
            (0 ≤ i → (sh.track.getD i default).time = 0)
          rw [htrack]
          have : (List.replicate MAX_TRACKS ({} : TrackStatus)).getD i default = {} := by
            rw [List.getD_eq_getElem?_getD]
            by_cases hi : i < MAX_TRACKS
            · simp [List.getElem?_replicate, hi]
            · simp [List.getElem?_replicate, hi]; rfl
          rw [this]
          exact ⟨by decide, fun _ => rfl⟩
      obtain ⟨⟨k, hlen, htr⟩, hn⟩ := position_tracks_inv _ _ _ _ hinv0 hp
      refine ⟨hlen, ?_, ?_⟩
      · show s2.num_tracks ≤ _; rw [hn]; exact Nat.le_of_lt hnum
      · intro i _
        exact ⟨fun _ => Nat.zero_le _, (htr i).1⟩

theorem process_steps_inv :
    ∀ (n : Nat) (s s1 : MIDIFile), merge_inv s → process_steps n s = .ok s1 → merge_inv s1 := by
  intro n
  induction n with
  | zero => intro s s1 hinv h; cases h; exact hinv
  | succ n ih =>
    intro s s1 hinv h
    unfold process_steps at h
    split at h
    · cases h
    · next s2 hs => exact ih s2 s1 (process_step_inv hinv hs).1 h

theorem merge_monotone_aux (data : List Nat) (s0 : MIDIFile) (n : Nat) (s : MIDIFile)
    (hprep : midi_prepare data = .ok s0) (hrun : process_steps n s0 = .ok s) :
    (∀ et k, select_track s = .ok (et, k) → s.timenow_ticks ≤ et) ∧
    (∀ s1, process_step s = .ok s1 →
      s.timenow_ticks ≤ s1.timenow_ticks ∧ ∃ k, select_track s = .ok (s1.timenow_ticks, k)) := by
  have hinv := process_steps_inv n s0 s (midi_prepare_inv hprep) hrun
  constructor
  · intro et k hsel
    obtain ⟨hk, hcmd, htime, _, _⟩ := select_track_spec hsel
    rw [← htime]
    exact (hinv.2.2 k hk).1 hcmd
  · intro s1 hs1
    exact (process_step_inv hinv hs1).2

/-- C4: in every state reached from the state `midi_binarize` prepares by passes of the
merge loop, the tick time selected by the scan is at least the song's current tick time,
so the condition of the assertion of line 571 holds whenever it is evaluated; after the
pass the song's tick time is the selected one, so the selected tick times never decrease
from one pass to the next. -/
theorem merge_monotone (data : List Nat) (s0 : MIDIFile) (n : Nat) (s : MIDIFile)
    (hprep : midi_prepare data = .ok s0) (hrun : process_steps n s0 = .ok s) :
    (∀ et k, select_track s = .ok (et, k) → s.timenow_ticks ≤ et) ∧
    (∀ s1, process_step s = .ok s1 →
      s.timenow_ticks ≤ s1.timenow_ticks ∧ ∃ k, select_track s = .ok (s1.timenow_ticks, k)) :=
  merge_monotone_aux data s0 n s hprep hrun

/-- Witness of C4: the prepared state of `one_note_file`. -/
theorem merge_monotone_witness :
    (midi_prepare one_note_file = .ok one_note_prepared ∧
      process_steps 0 one_note_prepared = .ok one_note_prepared) ∧
    (∀ et k, select_track one_note_prepared = .ok (et, k) →
      one_note_prepared.timenow_ticks ≤ et) ∧
    (∀ s1, process_step one_note_prepared = .ok s1 →
      one_note_prepared.timenow_ticks ≤ s1.timenow_ticks ∧
        ∃ k, select_track one_note_prepared = .ok (s1.timenow_ticks, k)) :=
  ⟨⟨by decide!, rfl⟩,
    merge_monotone one_note_file one_note_prepared 0 one_note_prepared (by decide!) rfl⟩

/-- The tick times and tracks selected in the four passes of the run on `two_track_file`:
track 0 at tick 0, track 1 at 100 and at 150, track 0 at 200. -/
theorem two_track_selection :
    ((midi_prepare two_track_file).bind fun s =>
        (process_steps 0 s).bind select_track) = .ok (0, 0) ∧
    ((midi_prepare two_track_file).bind fun s =>
        (process_steps 1 s).bind select_track) = .ok (100, 1) ∧
    ((midi_prepare two_track_file).bind fun s =>
        (process_steps 2 s).bind select_track) = .ok (150, 1) ∧
    ((midi_prepare two_track_file).bind fun s =>
        (process_steps 3 s).bind select_track) = .ok (200, 0) ∧
    ((midi_prepare two_track_file).bind fun s =>
        (process_steps 4 s).map fun s1 => (s1.tracks_done, s1.timenow_ticks)) = .ok (2, 200) := by
  decide!

/-! ## Note slots: the capacity of a channel -/

theorem find_range_first (p : Nat → Bool) (k : Nat) (hk : p k = true)
    (hlt : ∀ i, i < k → p i = false) :
    ∀ n, k < n → (List.range n).find? p = some k := by
  intro n
  induction n with
  | zero => intro h; omega
  | succ n ih =>
    intro h
    rw [List.range_succ, List.find?_append]
    by_cases hkn : k < n
    · rw [ih hkn]; rfl
    · have hkn' : k = n := by omega
      subst hkn'
      have : (List.range k).find? p = none := by
        rw [List.find?_eq_none]
        intro x hx
        have := hlt x (List.mem_range.mp hx)
        simp [this]
      rw [this]
      simp [hk]

theorem find_range_none (p : Nat → Bool) (n : Nat) (h : ∀ i, i < n → p i = false) :
    (List.range n).find? p = none := by
  rw [List.find?_eq_none]
  intro x hx
  have := h x (List.mem_range.mp hx)
  simp [this]

theorem dispatch_play_slot (s : MIDIFile) (tracknum ndx : Nat)
    (hcmd : (s.track.getD tracknum default).cmd = CMD_PLAYNOTE)
    (hfree : find_free_slot (s.channel.getD (s.track.getD tracknum default).chan default)
      = some ndx)
    (hr : ring_ok s) (hn : s.queue_numitems < QUEUE_SIZE) :
    ∃ s1 q o nw, dispatch s tracknum = .ok s1 ∧ ring_ok s1 ∧
      inserted_after_last_le ⟨CMD_PLAYNOTE, play_note_of s tracknum⟩ (queue_seq s) (queue_seq s1) ∧
      s1 = { s with
        queue := q, queue_oldest_ndx := o, queue_newest_ndx := nw,
        queue_numitems := s.queue_numitems + 1,
        channel := s.channel.set (s.track.getD tracknum default).chan
          { s.channel.getD (s.track.getD tracknum default).chan default with
              note_playing :=
                (s.channel.getD (s.track.getD tracknum default).chan default).note_playing.set
                  ndx true,
              notes_playing :=
                (s.channel.getD (s.track.getD tracknum default).chan default).notes_playing.set
                  ndx (play_note_of s tracknum) } } := by
  obtain ⟨s1, hq, hok, ⟨q, o, nw, hs1⟩, hins⟩ := queue_cmd_insert_aux s CMD_PLAYNOTE
    { time_usec := s.timenow_usec, track := tracknum,
      channel := (s.track.getD tracknum default).chan,
      note := (s.track.getD tracknum default).note,
      instrument := (s.channel.getD (s.track.getD tracknum default).chan default).instrument,
      volume := (s.track.getD tracknum default).volume } hr hn
  refine ⟨_, q, o, nw, ?_, ?_, ?_, rfl⟩
  · unfold dispatch
    simp only [hcmd]
    rw [if_neg (by decide), if_neg (by decide), if_pos trivial]
    unfold dispatch_play
    simp only [hfree, hq]
    rw [hs1]
    rfl
  · rw [hs1] at hok
    exact hok
  · rw [hs1] at hins
    exact hins

theorem clamp_note_fields (s : MIDIFile) (np : NoteInfo) :
    (clamp_note s np).track = np.track ∧ (clamp_note s np).channel = np.channel ∧
    (clamp_note s np).note = np.note ∧ (clamp_note s np).volume = np.volume := by
  unfold clamp_note
  simp only []
  split_ifs <;> exact ⟨rfl, rfl, rfl, rfl⟩

theorem pending_track (s : MIDIFile) (chan tracknum cmd note volume : Nat)
    (h : tracknum < s.track.length) :
    (pending s chan tracknum cmd note volume).track.getD tracknum default =
      { s.track.getD tracknum default with
          cmd := cmd, chan := chan, note := note, volume := volume } := by
  unfold pending
  simp only []
  rw [getD_set_eq, if_pos ⟨rfl, h⟩]

theorem dispatch_play_full (s : MIDIFile) (tracknum : Nat)
    (hcmd : (s.track.getD tracknum default).cmd = CMD_PLAYNOTE)
    (hfull : ∀ ndx, ndx < MAX_CHANNELNOTES →
      (s.channel.getD (s.track.getD tracknum default).chan default).note_playing.getD
        ndx false = true) :
    dispatch s tracknum = .ok s := by
  unfold dispatch
  simp only [hcmd]
  rw [if_neg (by decide), if_neg (by decide), if_pos trivial]
  unfold dispatch_play
  have : find_free_slot (s.channel.getD (s.track.getD tracknum default).chan default)
      = none := by
    unfold find_free_slot
    apply find_range_none
    intro i hi
    rw [hfull i hi]
    rfl
  simp only [this]

theorem play_notes_fill (chan : Nat) :
    ∀ (rest done : List (Nat × Nat × Nat)) (s : MIDIFile),
      chan < s.channel.length → slots_hold (s.channel.getD chan default) done →
      ring_ok s → s.queue_numitems + rest.length ≤ QUEUE_SIZE →
      done.length + rest.length ≤ MAX_CHANNELNOTES →
      (∀ e ∈ rest, e.1 < s.track.length) →
      ∃ s1, play_notes chan rest s = .ok s1 ∧ chan < s1.channel.length ∧
        slots_hold (s1.channel.getD chan default) (done ++ rest) ∧ ring_ok s1 ∧
        s1.queue_numitems = s.queue_numitems + rest.length ∧
        s1.track.length = s.track.length ∧
        ∃ plays, plays.map entry_key =
            rest.map (fun e => (CMD_PLAYNOTE, chan, e.1, e.2.1, e.2.2)) ∧
          (queue_seq s1).Perm (plays ++ queue_seq s) := by
  intro rest
  induction rest with
  | nil =>
    intro done s hc hs hr _ _ _
    refine ⟨s, rfl, hc, ?_, hr, rfl, rfl, [], rfl, ?_⟩
    · rw [List.append_nil]; exact hs
    · exact List.Perm.refl _
  | cons e rest ih =>
    intro done s hc hs hr hq hd ht
    have hlen : (e :: rest).length = rest.length + 1 := rfl
    rw [hlen] at hq hd
    have he : e.1 < s.track.length := ht e (List.mem_cons_self _ _)
    have hpt := pending_track s chan e.1 CMD_PLAYNOTE e.2.1 e.2.2 he
    have hk : done.length < MAX_CHANNELNOTES := by omega
    have hfree : find_free_slot
        ((pending s chan e.1 CMD_PLAYNOTE e.2.1 e.2.2).channel.getD
          ((pending s chan e.1 CMD_PLAYNOTE e.2.1 e.2.2).track.getD e.1 default).chan default)
        = some done.length := by
      rw [hpt]
      show find_free_slot (s.channel.getD chan default) = some done.length
      unfold find_free_slot
      apply find_range_first _ _ _ _ _ hk
      · have := hs.2.2 done.length hk
        rw [if_neg (Nat.lt_irrefl _)] at this
        simp only [this]
        rfl
      · intro i hi
        have := hs.2.2 i (by omega)
        rw [if_pos hi] at this
        simp only [this.1]
        rfl
    obtain ⟨s1, q, o, nw, hdisp, hr1, hins, hs1⟩ :=
      dispatch_play_slot (pending s chan e.1 CMD_PLAYNOTE e.2.1 e.2.2) e.1 done.length
        (by rw [hpt]) hfree hr (by show s.queue_numitems < QUEUE_SIZE; omega)
    have hch1 : s1.channel = s.channel.set chan
        { s.channel.getD chan default with
            note_playing := (s.channel.getD chan default).note_playing.set done.length true,
            notes_playing := (s.channel.getD chan default).notes_playing.set done.length
              (play_note_of (pending s chan e.1 CMD_PLAYNOTE e.2.1 e.2.2) e.1) } := by
      rw [hs1]
      simp only []
      rw [hpt]
      rfl
    have hn1 : s1.queue_numitems = s.queue_numitems + 1 := by rw [hs1]; rfl
    have ht1 : s1.track.length = s.track.length := by
      rw [hs1]
      show (pending s chan e.1 CMD_PLAYNOTE e.2.1 e.2.2).track.length = _
      unfold pending
      simp only [List.length_set]
    have hc1 : chan < s1.channel.length := by rw [hch1, List.length_set]; exact hc
    have hpn := clamp_note_fields (pending s chan e.1 CMD_PLAYNOTE e.2.1 e.2.2)
      { time_usec := (pending s chan e.1 CMD_PLAYNOTE e.2.1 e.2.2).timenow_usec, track := e.1,
        channel := ((pending s chan e.1 CMD_PLAYNOTE e.2.1 e.2.2).track.getD e.1 default).chan,
        note := ((pending s chan e.1 CMD_PLAYNOTE e.2.1 e.2.2).track.getD e.1 default).note,
        instrument := ((pending s chan e.1 CMD_PLAYNOTE e.2.1 e.2.2).channel.getD
          ((pending s chan e.1 CMD_PLAYNOTE e.2.1 e.2.2).track.getD e.1 default).chan
            default).instrument,
        volume := ((pending s chan e.1 CMD_PLAYNOTE e.2.1 e.2.2).track.getD e.1 default).volume }
    rw [hpt] at hpn
    simp only [] at hpn
    have hpn' : (play_note_of (pending s chan e.1 CMD_PLAYNOTE e.2.1 e.2.2) e.1).track = e.1 ∧
        (play_note_of (pending s chan e.1 CMD_PLAYNOTE e.2.1 e.2.2) e.1).channel = chan ∧
        (play_note_of (pending s chan e.1 CMD_PLAYNOTE e.2.1 e.2.2) e.1).note = e.2.1 ∧
        (play_note_of (pending s chan e.1 CMD_PLAYNOTE e.2.1 e.2.2) e.1).volume = e.2.2 := by
      unfold play_note_of
      rw [hpt]
      exact hpn
    have hs1' : slots_hold (s1.channel.getD chan default) (done ++ [e]) := by
      rw [hch1, getD_set_eq, if_pos ⟨rfl, hc⟩]
      refine ⟨?_, ?_, ?_⟩
      · simp only [List.length_set]; exact hs.1
      · simp only [List.length_set]; exact hs.2.1
      · intro i hi
        simp only [List.length_append, List.length_singleton]
        have hold := hs.2.2 i hi
        rw [getD_set_eq, getD_set_eq]
        by_cases hik : done.length = i
        · subst hik
          rw [if_pos (Nat.lt_succ_self _), if_pos ⟨rfl, by rw [hs.1]; exact hk⟩,
            if_pos ⟨rfl, by rw [hs.2.1]; exact hk⟩]
          have hget : (done ++ [e]).getD done.length default = e := by
            simp [List.getD_eq_getElem?_getD]
          rw [hget]
          exact ⟨rfl, hpn'.1, hpn'.2.2.1⟩
        · simp only [hik, false_and, if_false]
          by_cases hlt : i < done.length
          · rw [if_pos hlt] at hold
            rw [if_pos (Nat.lt_succ_of_lt hlt)]
            have hget : (done ++ [e]).getD i default = done.getD i default := by
              simp [List.getD_eq_getElem?_getD, List.getElem?_append_left hlt]
            rw [hget]
            exact hold
          · rw [if_neg hlt] at hold
            rw [if_neg (fun h => hlt (by omega))]
            exact hold
    obtain ⟨s2, hp2, hc2, hs2, hr2, hn2, ht2, plays, hkeys, hperm⟩ :=
      ih (done ++ [e]) s1 hc1 hs1' hr1 (by omega)
        (by simp only [List.length_append, List.length_singleton]; omega)
        (by
          intro x hx
          rw [ht1]
          exact ht x (List.mem_cons_of_mem _ hx))
    refine ⟨s2, ?_, hc2, ?_, hr2, by omega, by rw [ht2, ht1], ?_⟩
    · simp only [play_notes, hdisp]
      exact hp2
    · have : done ++ e :: rest = done ++ [e] ++ rest := by simp
      rw [this]
      exact hs2
    · obtain ⟨a, b, hab, hab1, -, -⟩ := hins
      refine ⟨⟨CMD_PLAYNOTE, play_note_of (pending s chan e.1 CMD_PLAYNOTE e.2.1 e.2.2) e.1⟩
        :: plays, ?_, ?_⟩
      · rw [List.map_cons, List.map_cons, hkeys]
        unfold entry_key
        simp only [hpn'.1, hpn'.2.1, hpn'.2.2.1, hpn'.2.2.2]
      · have hqs : queue_seq (pending s chan e.1 CMD_PLAYNOTE e.2.1 e.2.2) = queue_seq s := rfl
        rw [hqs] at hab
        refine hperm.trans ?_
        rw [hab1, hab, ← List.append_assoc, List.cons_append, ← List.append_assoc]
        exact List.perm_middle

theorem play_notes_append (chan : Nat) (a b : List (Nat × Nat × Nat)) :
    ∀ s, play_notes chan (a ++ b) s = (play_notes chan a s).bind (play_notes chan b) := by
  induction a with
  | nil => intro s; rfl
  | cons e a ih =>
    intro s
    simp only [List.cons_append, play_notes]
    cases dispatch (pending s chan e.1 CMD_PLAYNOTE e.2.1 e.2.2) e.1 with
    | error err => rfl
    | ok s1 => exact ih s1

/-- C7 (amended): a PlayNote dispatched when all 24 slots of its channel are occupied
leaves the state as it is (no slot, no command, no failure).  From a state whose channel
`chan` has all slots free and whose queue has room for 24 commands, 24 Play events on
that channel, dispatched with nothing in between, take the slots 0 to 23 in their order and
put 24 Play commands with their tracks, notes and volumes into the queue; a 25th Play
event changes nothing but the pending command of its track, and so does the Stop of the
25th note, provided none of the 24 slotted notes has the track and the note of the 25th. -/
theorem full_channel_drops_play (s : MIDIFile) (chan : Nat) (evs : List (Nat × Nat × Nat))
    (last : Nat × Nat × Nat)
    (hlen : evs.length = MAX_CHANNELNOTES)
    (hchan : chan < s.channel.length)
    (hfree : slots_hold (s.channel.getD chan default) [])
    (htrk : ∀ e ∈ last :: evs, e.1 < s.track.length)
    (hr : ring_ok s) (hroom : s.queue_numitems + MAX_CHANNELNOTES ≤ QUEUE_SIZE)
    (hkey : ∀ e ∈ evs, ¬ (e.1 = last.1 ∧ e.2.1 = last.2.1)) :
    (∀ (s0 : MIDIFile) (tracknum : Nat),
      (s0.track.getD tracknum default).cmd = CMD_PLAYNOTE →
      (∀ ndx, ndx < MAX_CHANNELNOTES →
        (s0.channel.getD (s0.track.getD tracknum default).chan default).note_playing.getD
          ndx false = true) →
      dispatch s0 tracknum = .ok s0) ∧
    ∃ s1, play_notes chan evs s = .ok s1 ∧
      slots_hold (s1.channel.getD chan default) evs ∧
      s1.queue_numitems = s.queue_numitems + MAX_CHANNELNOTES ∧
      (∃ plays, plays.map entry_key =
          evs.map (fun e => (CMD_PLAYNOTE, chan, e.1, e.2.1, e.2.2)) ∧
        (queue_seq s1).Perm (plays ++ queue_seq s)) ∧
      play_notes chan (evs ++ [last]) s =
        .ok (pending s1 chan last.1 CMD_PLAYNOTE last.2.1 last.2.2) ∧
      dispatch (pending s1 chan last.1 CMD_STOPNOTE last.2.1 last.2.2) last.1 =
        .ok (pending s1 chan last.1 CMD_STOPNOTE last.2.1 last.2.2) := by
  refine ⟨dispatch_play_full, ?_⟩
  obtain ⟨s1, hp, hc1, hs1, -, hn1, ht1, hplays⟩ :=
    play_notes_fill chan evs [] s hchan hfree hr (by rw [hlen]; exact hroom)
      (by rw [hlen]; exact Nat.le_of_eq (Nat.zero_add _))
      (fun e he => htrk e (List.mem_cons_of_mem _ he))
  rw [List.nil_append] at hs1
  have hl : last.1 < s1.track.length := by
    rw [ht1]
    exact htrk last (List.mem_cons_self _ _)
  have hplay : dispatch (pending s1 chan last.1 CMD_PLAYNOTE last.2.1 last.2.2) last.1 =
      .ok (pending s1 chan last.1 CMD_PLAYNOTE last.2.1 last.2.2) := by
    apply dispatch_play_full
    · rw [pending_track _ _ _ _ _ _ hl]
    · intro ndx hndx
      rw [pending_track _ _ _ _ _ _ hl]
      show (s1.channel.getD chan default).note_playing.getD ndx false = true
      have := hs1.2.2 ndx hndx
      rw [if_pos (by rw [hlen]; exact hndx)] at this
      exact this.1
  refine ⟨s1, hp, hs1, by rw [hn1, hlen], hplays, ?_, ?_⟩
  · rw [play_notes_append, hp]
    show play_notes chan [last] s1 = _
    simp only [play_notes, hplay]
  · apply dispatch_stop_without_slot
    · rw [pending_track _ _ _ _ _ _ hl]
    · intro ndx hndx
      rw [pending_track _ _ _ _ _ _ hl]
      show ¬ ((s1.channel.getD chan default).note_playing.getD ndx false = true ∧
        ((s1.channel.getD chan default).notes_playing.getD ndx default).note = last.2.1 ∧
        ((s1.channel.getD chan default).notes_playing.getD ndx default).track = last.1)
      have hlt : ndx < evs.length := by rw [hlen]; exact hndx
      have := hs1.2.2 ndx hndx
      rw [if_pos hlt] at this
      rintro ⟨-, hnote, htrack⟩
      have hmem : evs.getD ndx default ∈ evs := by
        rw [List.getD_eq_getElem _ _ hlt]
        exact List.getElem_mem _
      exact hkey _ hmem ⟨this.2.1.symm.trans htrack, this.2.2.symm.trans hnote⟩

/-- Witness of C7: from the initial state, the notes 60 to 83 of track 0 on channel 0,
then note 90. -/
theorem full_channel_drops_play_witness :
    ∃ s1, play_notes 0 chord_events {} = .ok s1 ∧
      slots_hold (s1.channel.getD 0 default) chord_events ∧
      s1.queue_numitems = MAX_CHANNELNOTES ∧
      play_notes 0 (chord_events ++ [(0, 90, 64)]) {} =
        .ok (pending s1 0 0 CMD_PLAYNOTE 90 64) ∧
      dispatch (pending s1 0 0 CMD_STOPNOTE 90 64) 0 = .ok (pending s1 0 0 CMD_STOPNOTE 90 64) := by
  obtain ⟨s1, h1, h2, h3, -, h5, h6⟩ :=
    (full_channel_drops_play {} 0 chord_events (0, 90, 64) (by decide!) (by decide!)
      (by decide!) (by decide!) (by decide!) (by decide!) (by decide!)).2
  exact ⟨s1, h1, h2, by rw [h3]; rfl, h5, h6⟩

/-- Counterexample to C7 as stated: 25 Play events of the same track and note.  The 25th
is dropped, but its Stop finds slot 0, which holds the first of them: the Stop frees that
slot and is put into the queue after the 24 Play commands.  On the file with these
events the whole run delivers the 24 Play commands, the Stop command and the final
byte 0xF0. -/
theorem full_channel_drops_play_counterexample :
    ((play_notes 0 (List.replicate 25 (0, 60, 64)) {}).bind fun s1 =>
        (dispatch (pending s1 0 0 CMD_STOPNOTE 60 64) 0).map fun s2 =>
          (s1.queue_numitems, s2.queue_numitems, (queue_seq s2).map (fun e => e.cmd),
            (s2.channel.getD 0 default).note_playing.getD 0 true))
      = .ok (24, 25, List.replicate 24 CMD_PLAYNOTE ++ [CMD_STOPNOTE], false) ∧
    (midi_binarize same_note_file).map (fun s => s.output) =
      .ok (List.replicate 24
            (.entry ⟨CMD_PLAYNOTE, { time_usec := 0, track := 0, channel := 0, note := 60,
                                     instrument := 0, volume := 64 }⟩)
          ++ [.entry ⟨CMD_STOPNOTE, { time_usec := 0, track := 0, channel := 0, note := 60,
                                      instrument := 0, volume := 64 }⟩,
              .byte 0xF0]) := by
  constructor
  · decide!
  · decide!

/-! ## Note lifecycle: the Stop of a sounding note -/

theorem clamp_note_eq (s : MIDIFile) (np : NoteInfo) :
    clamp_note s np = { np with time_usec := max np.time_usec (horizon s) } := by
  unfold clamp_note horizon
  simp only []
  split_ifs with h
  · rw [Nat.max_eq_right (Nat.le_of_lt h)]
  · rw [Nat.max_eq_left (Nat.le_of_not_lt h)]

theorem stop_truncation_zero (a b : Nat) : stop_truncation a b = 0 := by
  unfold stop_truncation
  simp only [notemin_usec, releasetime_usec]
  split_ifs with h1 h2
  · rfl
  · omega
  · rfl

theorem pull_body_ring_ok (s : MIDIFile) (hr : ring_ok s) (hn : 0 < s.queue_numitems) :
    ring_ok (pull_body s) ∧ (pull_body s).queue_numitems = s.queue_numitems - 1 := by
  obtain ⟨h1, h2, h3, h4⟩ := hr
  have h5 := h4 hn
  unfold pull_body remove_queue_entry
  refine ⟨⟨h1, ?_, ?_, ?_⟩, rfl⟩
  · show inc_ndx s.queue_oldest_ndx < QUEUE_SIZE
    unfold inc_ndx
    simp only [QUEUE_SIZE] at *
    split <;> omega
  · show s.queue_numitems - 1 ≤ QUEUE_SIZE
    omega
  · show 0 < s.queue_numitems - 1 →
      s.queue_newest_ndx = (inc_ndx s.queue_oldest_ndx + (s.queue_numitems - 1 - 1)) % QUEUE_SIZE
    intro h6
    rw [h5]
    unfold inc_ndx
    simp only [QUEUE_SIZE] at *
    split <;> omega

theorem pull_n_ring_ok : ∀ (k : Nat) (s : MIDIFile), ring_ok s → k ≤ s.queue_numitems →
    ring_ok (pull_n k s) ∧ (pull_n k s).queue_numitems = s.queue_numitems - k := by
  intro k
  induction k with
  | zero => intro s hr _; exact ⟨hr, rfl⟩
  | succ n ih =>
    intro s hr hk
    obtain ⟨h1, h2⟩ := pull_body_ring_ok s hr (by omega)
    obtain ⟨h3, h4⟩ := ih (pull_body s) h1 (by omega)
    refine ⟨h3, ?_⟩
    show (pull_n n (pull_body s)).queue_numitems = _
    omega

theorem pull_queue_ring_ok {s s1 : MIDIFile} (h : pull_queue s = .ok s1) (hr : ring_ok s)
    (hn : 0 < s.queue_numitems) :
    ring_ok s1 ∧ s1.queue_numitems < s.queue_numitems := by
  obtain ⟨k, s3, hp, hk, rfl⟩ := pull_queue_shape h
  obtain ⟨d, u, f, o, rfl⟩ := pull_prelude_shape hp
  have hk1 : k + 1 ≤ s.queue_numitems := by
    rw [Nat.max_eq_right hn] at hk
    exact hk
  obtain ⟨h1, h2⟩ := pull_n_ring_ok (k + 1)
    { s with output_deficit_usec := d, output_usec := u, last_output_was_delay := f,
             output := o } hr hk1
  refine ⟨h1, ?_⟩
  rw [h2]
  show s.queue_numitems - (k + 1) < s.queue_numitems
  omega

theorem queue_cmd_drain_aux (s s2 : MIDIFile) (cmd : Nat) (np : NoteInfo) (hr : ring_ok s)
    (hdrain : (if s.queue_numitems = QUEUE_SIZE then pull_queue s else .ok s) = .ok s2) :
    ∃ s3, queue_cmd s cmd np = .ok (s3, clamp_note s2 np) ∧ ring_ok s3 ∧
      (∃ q o nw, s3 = { s2 with queue := q, queue_oldest_ndx := o, queue_newest_ndx := nw,
                                queue_numitems := s2.queue_numitems + 1 }) ∧
      inserted_after_last_le ⟨cmd, clamp_note s2 np⟩ (queue_seq s2) (queue_seq s3) := by
  have h2 : ring_ok s2 ∧ s2.queue_numitems < QUEUE_SIZE := by
    by_cases hfull : s.queue_numitems = QUEUE_SIZE
    · rw [if_pos hfull] at hdrain
      obtain ⟨h1, h2⟩ := pull_queue_ring_ok hdrain hr (by rw [hfull]; decide)
      exact ⟨h1, by omega⟩
    · rw [if_neg hfull] at hdrain
      cases hdrain
      exact ⟨hr, Nat.lt_of_le_of_ne hr.2.2.1 hfull⟩
  have heq : queue_cmd s cmd np = queue_cmd s2 cmd np := by
    unfold queue_cmd
    rw [hdrain, if_neg (Nat.ne_of_lt h2.2)]
  rw [heq]
  exact queue_cmd_insert_aux s2 cmd np h2.1 h2.2

theorem dispatch_stop_slot (s s2 : MIDIFile) (tracknum ndx : Nat) (hr : ring_ok s)
    (hnow : s.timenow_usec < W64)
    (hcmd : (s.track.getD tracknum default).cmd = CMD_STOPNOTE)
    (hslot : find_playing_slot (s.channel.getD (s.track.getD tracknum default).chan default)
      (s.track.getD tracknum default).note tracknum = some ndx)
    (hdrain : (if s.queue_numitems = QUEUE_SIZE then pull_queue s else .ok s) = .ok s2) :
    ∃ s3 q o nw, dispatch s tracknum = .ok s3 ∧
      inserted_after_last_le
        ⟨CMD_STOPNOTE,
          { (s.channel.getD (s.track.getD tracknum default).chan default).notes_playing.getD
              ndx default with time_usec := max s.timenow_usec (horizon s2) }⟩
        (queue_seq s2) (queue_seq s3) ∧
      s3 = { s2 with
        queue := q, queue_oldest_ndx := o, queue_newest_ndx := nw,
        queue_numitems := s2.queue_numitems + 1,
        channel := s2.channel.set (s.track.getD tracknum default).chan
          { s.channel.getD (s.track.getD tracknum default).chan default with
              notes_playing :=
                (s.channel.getD (s.track.getD tracknum default).chan default).notes_playing.set
                  ndx
                  { (s.channel.getD (s.track.getD tracknum default).chan
                      default).notes_playing.getD ndx default with
                    time_usec := max s.timenow_usec (horizon s2) },
              note_playing :=
                (s.channel.getD (s.track.getD tracknum default).chan default).note_playing.set
                  ndx false } } := by
  obtain ⟨s3, hq, -, ⟨q, o, nw, hs3⟩, hins⟩ := queue_cmd_drain_aux s s2 CMD_STOPNOTE
    { (s.channel.getD (s.track.getD tracknum default).chan default).notes_playing.getD
        ndx default with time_usec := s.timenow_usec } hr hdrain
  rw [clamp_note_eq] at hq hins
  refine ⟨_, q, o, nw, ?_, ?_, rfl⟩
  · unfold dispatch
    simp only [hcmd]
    rw [if_neg (by decide), if_pos trivial]
    unfold dispatch_stop
    simp only [hslot, stop_truncation_zero, Nat.sub_zero, Nat.add_mod_right,
      Nat.mod_eq_of_lt hnow, hq]
    rw [hs3]
  · rw [hs3] at hins
    exact hins

theorem dispatch_play_drain (s s2 : MIDIFile) (tracknum ndx : Nat) (hr : ring_ok s)
    (hcmd : (s.track.getD tracknum default).cmd = CMD_PLAYNOTE)
    (hfree : find_free_slot (s.channel.getD (s.track.getD tracknum default).chan default)
      = some ndx)
    (hdrain : (if s.queue_numitems = QUEUE_SIZE then pull_queue s else .ok s) = .ok s2) :
    ∃ s3 q o nw, dispatch s tracknum = .ok s3 ∧
      inserted_after_last_le
        ⟨CMD_PLAYNOTE,
          { time_usec := max s.timenow_usec (horizon s2), track := tracknum,
            channel := (s.track.getD tracknum default).chan,
            note := (s.track.getD tracknum default).note,
            instrument :=
              (s.channel.getD (s.track.getD tracknum default).chan default).instrument,
            volume := (s.track.getD tracknum default).volume }⟩
        (queue_seq s2) (queue_seq s3) ∧
      s3 = { s2 with
        queue := q, queue_oldest_ndx := o, queue_newest_ndx := nw,
        queue_numitems := s2.queue_numitems + 1,
        channel := s2.channel.set (s.track.getD tracknum default).chan
          { s.channel.getD (s.track.getD tracknum default).chan default with
              note_playing :=
                (s.channel.getD (s.track.getD tracknum default).chan default).note_playing.set
                  ndx true,
              notes_playing :=
                (s.channel.getD (s.track.getD tracknum default).chan default).notes_playing.set
                  ndx
                  { time_usec := max s.timenow_usec (horizon s2), track := tracknum,
                    channel := (s.track.getD tracknum default).chan,
                    note := (s.track.getD tracknum default).note,
                    instrument :=
                      (s.channel.getD (s.track.getD tracknum default).chan default).instrument,
                    volume := (s.track.getD tracknum default).volume } } } := by
  obtain ⟨s3, hq, -, ⟨q, o, nw, hs3⟩, hins⟩ := queue_cmd_drain_aux s s2 CMD_PLAYNOTE
    { time_usec := s.timenow_usec, track := tracknum,
      channel := (s.track.getD tracknum default).chan,
      note := (s.track.getD tracknum default).note,
      instrument := (s.channel.getD (s.track.getD tracknum default).chan default).instrument,
      volume := (s.track.getD tracknum default).volume } hr hdrain
  rw [clamp_note_eq] at hq hins
  refine ⟨_, q, o, nw, ?_, ?_, rfl⟩
  · unfold dispatch
    simp only [hcmd]
    rw [if_neg (by decide), if_neg (by decide), if_pos trivial]
    unfold dispatch_play
    simp only [hfree, hq]
    rw [hs3]
  · rw [hs3] at hins
    exact hins

theorem pull_drain_channel {s s2 : MIDIFile}
    (hdrain : (if s.queue_numitems = QUEUE_SIZE then pull_queue s else .ok s) = .ok s2) :
    s2.channel = s.channel := by
  split_ifs at hdrain
  · exact (pull_queue_sched hdrain).2.1
  · cases hdrain; rfl

theorem find_some_range (p : Nat → Bool) (n k : Nat)
    (h : (List.range n).find? p = some k) : k < n ∧ p k = true := by
  have h1 := List.find?_some h
  have h2 := List.mem_of_find?_eq_some h
  exact ⟨List.mem_range.mp h2, h1⟩

theorem getD_true_lt (l : List Bool) (i : Nat) (h : l.getD i false = true) : i < l.length := by
  by_contra hn
  rw [List.getD_eq_default _ _ (Nat.le_of_not_lt hn)] at h
  cases h

theorem playing_slot_bounds (ch : List ChannelStatus) (chan note tracknum ndx : Nat)
    (h : find_playing_slot (ch.getD chan default) note tracknum = some ndx) :
    chan < ch.length ∧ ndx < (ch.getD chan default).note_playing.length ∧
    (ch.getD chan default).note_playing.getD ndx false = true ∧
    ((ch.getD chan default).notes_playing.getD ndx default).note = note ∧
    ((ch.getD chan default).notes_playing.getD ndx default).track = tracknum := by
  unfold find_playing_slot at h
  obtain ⟨hk, hp⟩ := find_some_range _ _ _ h
  simp only [Bool.and_eq_true, decide_eq_true_eq] at hp
  obtain ⟨⟨h1, h2⟩, h3⟩ := hp
  refine ⟨?_, getD_true_lt _ _ h1, h1, h2, h3⟩
  by_contra hn
  rw [List.getD_eq_default _ _ (Nat.le_of_not_lt hn)] at h1
  have hall : ∀ i, i < MAX_CHANNELNOTES →
      (default : ChannelStatus).note_playing.getD i false = false := by decide
  rw [hall ndx hk] at h1
  cases h1

theorem queue_cmd_ring_ok {s s1 : MIDIFile} {cmd : Nat} {np np1 : NoteInfo} (hr : ring_ok s)
    (h : queue_cmd s cmd np = .ok (s1, np1)) : ring_ok s1 := by
  cases hd : (if s.queue_numitems = QUEUE_SIZE then pull_queue s else .ok s) with
  | error e =>
    unfold queue_cmd at h
    rw [hd] at h
    cases h
  | ok s2 =>
    obtain ⟨s3, hq, hr3, -, -⟩ := queue_cmd_drain_aux s s2 cmd np hr hd
    rw [hq] at h
    cases h
    exact hr3

theorem dispatch_pedal_ring_ok {s s1 : MIDIFile} {tracknum k cmd : Nat} (hr : ring_ok s)
    (h : dispatch_pedal s tracknum k cmd = .ok s1) : ring_ok s1 := by
  unfold dispatch_pedal at h
  simp only [] at h
  split at h
  · cases h
  · next s2 pn1 hq =>
    cases h
    have hr1 : ring_ok (if k = 0 then s
        else { s with pedalStatus :=
          s.pedalStatus.set k ((s.track.getD tracknum default).pedalVals.getD k 0) }) := by
      split_ifs
      · exact hr
      · exact hr
    have hr2 := queue_cmd_ring_ok hr1 hq
    exact hr2

theorem dispatch_ring_ok {s s1 : MIDIFile} {tracknum : Nat} (hr : ring_ok s)
    (h : dispatch s tracknum = .ok s1) : ring_ok s1 := by
  unfold dispatch at h
  simp only [] at h
  split_ifs at h
  · cases h; exact hr
  · cases h; exact hr
  · unfold dispatch_stop at h
    simp only [] at h
    split at h
    · cases h; exact hr
    · split at h
      · cases h
      · next hq =>
        cases h
        have hr2 := queue_cmd_ring_ok hr hq
        exact hr2
  · unfold dispatch_play at h
    simp only [] at h
    split at h
    · cases h; exact hr
    · split at h
      · cases h
      · next hq =>
        cases h
        have hr2 := queue_cmd_ring_ok hr hq
        exact hr2
  all_goals exact dispatch_pedal_ring_ok hr h

theorem process_step_ring_ok {s s1 : MIDIFile} (hr : ring_ok s)
    (h : process_step s = .ok s1) : ring_ok s1 := by
  unfold process_step at h
  split at h
  · cases h
  · next et k hsel =>
    split_ifs at h with hord
    split at h
    · cases h
    · next sc hclk =>
      split at h
      · cases h
      · next sd hd =>
        obtain ⟨u, rfl⟩ := advance_clock_frame hclk
        have hrd : ring_ok sd := by
          refine dispatch_ring_ok ?_ hd
          exact hr
        obtain ⟨r, t1, ch1, d, -, rfl⟩ := advance_track_track h
        exact hrd

theorem process_steps_ring_ok :
    ∀ (n : Nat) (s s1 : MIDIFile), ring_ok s → process_steps n s = .ok s1 → ring_ok s1 := by
  intro n
  induction n with
  | zero => intro s s1 hr h; cases h; exact hr
  | succ n ih =>
    intro s s1 hr h
    unfold process_steps at h
    split at h
    · cases h
    · next s2 hs => exact ih s2 s1 (process_step_ring_ok hr hs) h

theorem midi_process_file_header_queue {s s1 : MIDIFile}
    (h : midi_process_file_header s = .ok s1) : s1.queue = s.queue := by
  unfold midi_process_file_header at h
  split_ifs at h
  split at h
  · cases h
  · cases h
  · split at h
    · simp only [] at h
      split_ifs at h
      all_goals (cases h; rfl)
    · cases h

theorem midi_process_track_header_queue {s s1 : MIDIFile} {tracknum : Nat}
    (h : midi_process_track_header s tracknum = .ok s1) : s1.queue = s.queue := by
  unfold midi_process_track_header at h
  split_ifs at h
  split at h
  · cases h
  · cases h; rfl
  · split at h
    · cases h
    · simp only [] at h
      split_ifs at h
      cases h
      rfl

theorem position_tracks_queue :
    ∀ (count tracknum : Nat) (s s1 : MIDIFile),
      position_tracks count tracknum s = .ok s1 → s1.queue = s.queue := by
  intro count
  induction count with
  | zero =>
    intro tracknum s s1 h
    unfold position_tracks at h
    cases h
    rfl
  | succ c ih =>
    intro tracknum s s1 h
    unfold position_tracks at h
    simp only [] at h
    split at h
    · cases h
    · next s2 hh =>
      have h2 := midi_process_track_header_queue hh
      split at h
      · cases h
      · cases h
      · next r s3 _ hf =>
        split_ifs at h
        obtain ⟨t1, ch1, d, -, he⟩ := midi_find_next_note_track hf
        rw [ih (tracknum + 1) s3 s1 h, he]
        exact h2

theorem midi_prepare_ring_ok {data : List Nat} {s : MIDIFile} (h : midi_prepare data = .ok s) :
    ring_ok s := by
  unfold midi_prepare midi_prepare_from at h
  split at h
  · cases h
  · next sh hh =>
    have h1 := midi_process_file_header_queue hh
    simp only [] at h
    split at h
    · cases h
    · next s2 hp =>
      cases h
      have h2 := position_tracks_queue _ _ _ _ hp
      refine ⟨?_, ?_, ?_, ?_⟩
      · show s2.queue.length = QUEUE_SIZE
        rw [h2]
        show sh.queue.length = QUEUE_SIZE
        rw [h1]
        rfl
      · show 0 < QUEUE_SIZE
        decide
      · show 0 ≤ QUEUE_SIZE
        decide
      · intro h0
        exact absurd h0 (Nat.lt_irrefl 0)

theorem reached_ring_ok {data : List Nat} {s0 s : MIDIFile} {n : Nat}
    (hprep : midi_prepare data = .ok s0) (hrun : process_steps n s0 = .ok s) : ring_ok s :=
  process_steps_ring_ok n s0 s (midi_prepare_ring_ok hprep) hrun

theorem advance_clock_now {s sc : MIDIFile} {et : Nat} (h : advance_clock s et = .ok sc) :
    sc.timenow_usec < W64 := by
  unfold advance_clock at h
  split_ifs at h
  cases h
  exact Nat.mod_lt _ (by decide)

theorem process_step_dispatch {s sc sd : MIDIFile} {et tracknum : Nat}
    (hsel : select_track s = .ok (et, tracknum)) (hord : s.timenow_ticks ≤ et)
    (hclk : advance_clock s et = .ok sc) (hd : dispatch sc tracknum = .ok sd) :
    process_step s = advance_track sd tracknum := by
  unfold process_step
  simp only [hsel]
  rw [if_pos hord]
  simp only [hclk, hd]

/-- C5 (amended): take a state `s` reached from the prepared state by passes of the merge
loop, the track `tracknum` selected in it, and the state `sc` after the clock update,
whose time is `now`.  A PlayNote that finds the free slot `k` puts exactly one Play
command into the queue and writes that command's note, with its delivery time, into slot
`k`.  A StopNote that finds the slot `ndx` of its (track, note) on its channel, the forced
drain of a full queue having succeeded with the state `s2`, puts exactly one Stop command
into the queue and frees the slot; the delivery time of the Stop is the later of `now` and
the horizon of `s2` (last output time plus deficit), so it is never before `now`, it is
`now` when the horizon is not after `now`, and it is not before the delivery time of the
Play held in the slot when that time is not after `now`. -/
theorem stop_after_play (data : List Nat) (s0 : MIDIFile) (n : Nat) (s sc s2 : MIDIFile)
    (et tracknum ndx : Nat)
    (hprep : midi_prepare data = .ok s0) (hrun : process_steps n s0 = .ok s)
    (hsel : select_track s = .ok (et, tracknum)) (hclk : advance_clock s et = .ok sc)
    (hcmd : (sc.track.getD tracknum default).cmd = CMD_STOPNOTE)
    (hslot : find_playing_slot (sc.channel.getD (sc.track.getD tracknum default).chan default)
      (sc.track.getD tracknum default).note tracknum = some ndx)
    (hdrain : (if sc.queue_numitems = QUEUE_SIZE then pull_queue sc else .ok sc) = .ok s2) :
    (∀ (qdata : List Nat) (p0 : MIDIFile) (m : Nat) (p pc p2 : MIDIFile) (pt t k : Nat),
      midi_prepare qdata = .ok p0 → process_steps m p0 = .ok p →
      select_track p = .ok (pt, t) → advance_clock p pt = .ok pc →
      (pc.track.getD t default).cmd = CMD_PLAYNOTE →
      find_free_slot (pc.channel.getD (pc.track.getD t default).chan default) = some k →
      (if pc.queue_numitems = QUEUE_SIZE then pull_queue pc else .ok pc) = .ok p2 →
      ∃ p3 play, dispatch pc t = .ok p3 ∧ process_step p = advance_track p3 t ∧
        inserted_after_last_le ⟨CMD_PLAYNOTE, play⟩ (queue_seq p2) (queue_seq p3) ∧
        p3.queue_numitems = p2.queue_numitems + 1 ∧
        play =
          { time_usec := max pc.timenow_usec (horizon p2), track := t,
            channel := (pc.track.getD t default).chan,
            note := (pc.track.getD t default).note,
            instrument := (pc.channel.getD (pc.track.getD t default).chan default).instrument,
            volume := (pc.track.getD t default).volume } ∧
        p3.channel = pc.channel.set (pc.track.getD t default).chan
          { pc.channel.getD (pc.track.getD t default).chan default with
              note_playing :=
                (pc.channel.getD (pc.track.getD t default).chan default).note_playing.set
                  k true,
              notes_playing :=
                (pc.channel.getD (pc.track.getD t default).chan default).notes_playing.set
                  k play }) ∧
    ∃ s3 stop, dispatch sc tracknum = .ok s3 ∧ process_step s = advance_track s3 tracknum ∧
      inserted_after_last_le ⟨CMD_STOPNOTE, stop⟩ (queue_seq s2) (queue_seq s3) ∧
      s3.queue_numitems = s2.queue_numitems + 1 ∧
      (s3.channel.getD (sc.track.getD tracknum default).chan default).note_playing.getD
        ndx false = false ∧
      stop =
        { (sc.channel.getD (sc.track.getD tracknum default).chan default).notes_playing.getD
            ndx default with time_usec := max sc.timenow_usec (horizon s2) } ∧
      stop.note = (sc.track.getD tracknum default).note ∧ stop.track = tracknum ∧
      sc.timenow_usec ≤ stop.time_usec ∧
      (horizon s2 ≤ sc.timenow_usec → stop.time_usec = sc.timenow_usec) ∧
      (((sc.channel.getD (sc.track.getD tracknum default).chan default).notes_playing.getD
          ndx default).time_usec ≤ sc.timenow_usec →
        ((sc.channel.getD (sc.track.getD tracknum default).chan default).notes_playing.getD
          ndx default).time_usec ≤ stop.time_usec) := by
  constructor
  · intro qdata p0 m p pc p2 pt t k hpp hpr hps hpc hcp hfp hdp
    have hrp : ring_ok pc := by
      have := reached_ring_ok hpp hpr
      obtain ⟨u, rfl⟩ := advance_clock_frame hpc
      exact this
    have hord := (merge_monotone_aux qdata p0 m p hpp hpr).1 pt t hps
    obtain ⟨p3, q, o, nw, hd, hins, hp3⟩ := dispatch_play_drain pc p2 t k hrp hcp hfp hdp
    have hch := pull_drain_channel hdp
    refine ⟨p3, _, hd, process_step_dispatch hps hord hpc hd, hins, by rw [hp3], rfl, ?_⟩
    rw [hp3]
    simp only []
    rw [hch]
  · have hr : ring_ok sc := by
      have := reached_ring_ok hprep hrun
      obtain ⟨u, rfl⟩ := advance_clock_frame hclk
      exact this
    have hnow := advance_clock_now hclk
    have hord := (merge_monotone_aux data s0 n s hprep hrun).1 et tracknum hsel
    obtain ⟨s3, q, o, nw, hd, hins, hs3⟩ := dispatch_stop_slot sc s2 tracknum ndx hr hnow hcmd
      hslot hdrain
    obtain ⟨hchan, hndx, -, hnote, htrack⟩ := playing_slot_bounds _ _ _ _ _ hslot
    have hch := pull_drain_channel hdrain
    refine ⟨s3, _, hd, process_step_dispatch hsel hord hclk hd, hins, by rw [hs3], ?_, rfl,
      hnote, htrack, Nat.le_max_left _ _,
      fun h => Nat.max_eq_left h, fun h => Nat.le_trans h (Nat.le_max_left _ _)⟩
    rw [hs3]
    simp only []
    rw [hch, getD_set_eq, if_pos ⟨rfl, hchan⟩]
    simp only []
    rw [getD_set_eq, if_pos ⟨rfl, hndx⟩]

/-- Witness of C5: the second pass of the run on `one_note_file`, the Stop of note 60 at
1000000 usec, with a queue that is not full. -/
theorem stop_after_play_witness :
    (midi_prepare one_note_file = .ok one_note_prepared ∧
      process_steps 1 one_note_prepared = .ok one_note_sounding ∧
      select_track one_note_sounding = .ok (480, 0) ∧
      advance_clock one_note_sounding 480 = .ok one_note_stopping) ∧
    ∃ s3 stop, dispatch one_note_stopping 0 = .ok s3 ∧
      process_step one_note_sounding = advance_track s3 0 ∧
      inserted_after_last_le ⟨CMD_STOPNOTE, stop⟩ (queue_seq one_note_stopping) (queue_seq s3) ∧
      s3.queue_numitems = 2 ∧
      (s3.channel.getD 0 default).note_playing.getD 0 false = false ∧
      stop = { time_usec := 1000000, note := 60, volume := 64 } :=
  ⟨⟨by decide!, by decide!, by decide!, by decide!⟩,
    match (stop_after_play one_note_file one_note_prepared 1 one_note_sounding
        one_note_stopping one_note_stopping 480 0 0 (by decide!) (by decide!) (by decide!)
        (by decide!) (by decide!) (by decide!) (by decide!)).2 with
    | ⟨s3, stop, h1, h2, h3, h4, h5, h6, _⟩ => ⟨s3, stop, h1, h2, h3, h4, h5, h6⟩⟩

/-- Counterexample to C5 as stated, on `crowded_file`.  After 102 passes of the merge
loop the note off of note 60 on track 0 finds slot 0; the list gives the clock (1001
usec), the pending command and note of track 0, the delivery time held in slot 0 (1998,
that of the Play command: the drain forced by the Play left the last output time 999 and
the deficit 999), the number of queued commands (100) and the clock after the next pass
(1001).  That pass drains again (last output time 1001, deficit 1) and puts the Stop into
the queue with the delivery time 1002: after `now` and before the delivery time of the
Play.  The run writes the Stop of note 60 before its Play. -/
theorem stop_after_play_counterexample :
    ((midi_prepare crowded_file).bind (process_steps 102)).bind (fun s =>
        (process_step s).map (fun s1 =>
          (find_playing_slot (s.channel.getD 0 default) 60 0,
            [s.timenow_usec, (s.track.getD 0 default).cmd, (s.track.getD 0 default).note,
              ((s.channel.getD 0 default).notes_playing.getD 0 default).time_usec,
              s.queue_numitems, s1.timenow_usec],
            queue_seq s1)))
      = .ok (some 0, [1001, CMD_STOPNOTE, 60, 1998, 100, 1001],
          [⟨CMD_STOPNOTE, { time_usec := 1002, track := 0, channel := 0, note := 60,
                            instrument := 0, volume := 64 }⟩,
           ⟨CMD_PLAYNOTE, { time_usec := 1998, track := 0, channel := 0, note := 60,
                            instrument := 0, volume := 64 }⟩]) ∧
    (midi_binarize crowded_file).map (fun s => s.output.drop 102)
      = .ok [.entry ⟨CMD_STOPNOTE, { time_usec := 1002, track := 0, channel := 0, note := 60,
                                     instrument := 0, volume := 64 }⟩,
             .entry ⟨CMD_PLAYNOTE, { time_usec := 1998, track := 0, channel := 0, note := 60,
                                     instrument := 0, volume := 64 }⟩,
             .byte 0, .byte 1,
             .entry ⟨CMD_PLAYNOTE, { time_usec := 2001, track := 0, channel := 0, note := 5,
                                     instrument := 0, volume := 64 }⟩,
             .entry ⟨CMD_STOPNOTE, { time_usec := 2001, track := 0, channel := 0, note := 5,
                                     instrument := 0, volume := 64 }⟩,
             .byte 0xF0] := by
  constructor
  · decide!
  · decide!

/-! ## Delivery queue: the horizon clamp -/

theorem queue_cmd_horizon_aux (s s1 : MIDIFile) (cmd : Nat) (np np1 : NoteInfo)
    (hr : ring_ok s) (h : queue_cmd s cmd np = .ok (s1, np1)) :
    ∃ s2, (if s.queue_numitems = QUEUE_SIZE then pull_queue s else .ok s) = .ok s2 ∧
      np1 = { np with time_usec := max np.time_usec (horizon s2) } ∧
      inserted_after_last_le ⟨cmd, np1⟩ (queue_seq s2) (queue_seq s1) ∧
      s1.queue_numitems = s2.queue_numitems + 1 ∧
      s1.output_usec = s2.output_usec ∧ s1.output_deficit_usec = s2.output_deficit_usec := by
  cases hd : (if s.queue_numitems = QUEUE_SIZE then pull_queue s else .ok s) with
  | error e =>
    unfold queue_cmd at h
    rw [hd] at h
    cases h
  | ok s2 =>
    obtain ⟨s3, hq, -, ⟨q, o, nw, hs3⟩, hins⟩ := queue_cmd_drain_aux s s2 cmd np hr hd
    rw [hq] at h
    cases h
    refine ⟨s2, rfl, clamp_note_eq s2 np, hins, ?_, ?_, ?_⟩
    · rw [hs3]
    · rw [hs3]
    · rw [hs3]

/-- The clamp of `queue_cmd` as it is computed: every insert into a well-formed ring
stores the entry with the time `max (event time) horizon`, where `horizon` is the last
output time plus the deficit of the state `s2` left by the forced drain, if there was one,
the sum being the `uint32_t` of line 383.  An event earlier than the horizon is stored
with exactly the horizon, any other event keeps its time, and the stored time is never
earlier than the horizon.  The entry goes into the queue of `s2`, and the horizon after
the insert is the one it was stored against. -/
theorem queue_cmd_horizon (s s1 : MIDIFile) (cmd : Nat) (np np1 : NoteInfo)
    (hr : ring_ok s) (h : queue_cmd s cmd np = .ok (s1, np1)) :
    ∃ s2, (if s.queue_numitems = QUEUE_SIZE then pull_queue s else .ok s) = .ok s2 ∧
      horizon s2 = (s2.output_usec + s2.output_deficit_usec) % W32 ∧
      (s2.output_usec + s2.output_deficit_usec < W32 →
        horizon s2 = s2.output_usec + s2.output_deficit_usec) ∧
      np1 = { np with time_usec := max np.time_usec (horizon s2) } ∧
      (np.time_usec < horizon s2 → np1.time_usec = horizon s2) ∧
      (horizon s2 ≤ np.time_usec → np1 = np) ∧
      horizon s2 ≤ np1.time_usec ∧
      inserted_after_last_le ⟨cmd, np1⟩ (queue_seq s2) (queue_seq s1) ∧
      s1.queue_numitems = s2.queue_numitems + 1 ∧
      horizon s1 = horizon s2 := by
  obtain ⟨s2, hd, hnp, hins, hn, ho, hdf⟩ := queue_cmd_horizon_aux s s1 cmd np np1 hr h
  refine ⟨s2, hd, rfl, fun hlt => Nat.mod_eq_of_lt hlt, hnp, ?_, ?_, ?_, hins, hn, ?_⟩
  · intro hlt
    rw [hnp]
    exact Nat.max_eq_right (Nat.le_of_lt hlt)
  · intro hle
    rw [hnp]
    show ({ np with time_usec := max np.time_usec (horizon s2) } : NoteInfo) = np
    rw [Nat.max_eq_left hle]
  · rw [hnp]
    exact Nat.le_max_right _ _
  · unfold horizon
    rw [ho, hdf]

/-! ## Delivery queue: the horizon near the end of the 32-bit range -/

theorem late_burst_length : late_burst_file.length = 747 := by
  decide!

theorem process_steps_add (a b : Nat) :
    ∀ s : MIDIFile, process_steps (a + b) s = (process_steps a s).bind (process_steps b) := by
  induction a with
  | zero =>
    intro s
    rw [Nat.zero_add]
    rfl
  | succ n ih =>
    intro s
    rw [Nat.succ_add]
    simp only [process_steps]
    cases process_step s with
    | error e => rfl
    | ok s1 => exact ih s1

theorem bind_steps_chain {p : Except Fault MIDIFile} {a b : Nat} (c : Nat) {s1 s2 : MIDIFile}
    (h1 : p.bind (process_steps a) = .ok s1) (h2 : process_steps b s1 = .ok s2)
    (hc : a + b = c) :
    p.bind (process_steps c) = .ok s2 := by
  subst hc
  cases p with
  | error e => cases h1
  | ok s =>
    have h1a : process_steps a s = .ok s1 := h1
    show process_steps (a + b) s = .ok s2
    rw [process_steps_add, h1a]
    exact h2

theorem bind_ok_eq {α : Type} {p : Except Fault MIDIFile} {a : MIDIFile}
    (h : p = .ok a) (f : MIDIFile → Except Fault α) : p.bind f = f a := by
  rw [h]
  rfl

theorem late_burst_pass_48 :
    (midi_prepare late_burst_file).bind (process_steps 48) = .ok (late_burst_reached 47) := by
  decide!

theorem late_burst_pass_96 :
    process_steps 48 (late_burst_reached 47) = .ok (late_burst_reached 95) := by
  decide!

theorem late_burst_pass_144 :
    process_steps 48 (late_burst_reached 95) = .ok (late_burst_reached 142) := by
  decide!

theorem late_burst_pass_168 :
    process_steps 24 (late_burst_reached 142) = .ok (late_burst_reached 166) := by
  decide!

theorem late_burst_pass_192 :
    process_steps 24 (late_burst_reached 166) = .ok (late_burst_reached 190) := by
  decide!

theorem late_burst_pass_214 :
    process_steps 22 (late_burst_reached 190) = .ok (late_burst_reached 212) := by
  decide!

theorem late_burst_pass_236 :
    process_steps 22 (late_burst_reached 212) = .ok (late_burst_reached 234) := by
  decide!

/-- The run on `late_burst_file` after 236 passes of the merge loop: 134 note events 32
seconds apart and 100 of the events at 4294967200 usec have been queued, and the first
134 have been output. -/
theorem late_burst_passes :
    (midi_prepare late_burst_file).bind (process_steps 236)
      = .ok (late_burst_reached 234) :=
  bind_steps_chain 236
    (bind_steps_chain 214
      (bind_steps_chain 192
        (bind_steps_chain 168
          (bind_steps_chain 144
            (bind_steps_chain 96 late_burst_pass_48 late_burst_pass_96 rfl)
            late_burst_pass_144 rfl)
          late_burst_pass_168 rfl)
        late_burst_pass_192 rfl)
      late_burst_pass_214 rfl)
    late_burst_pass_236 rfl

theorem late_burst_pass_237 :
    (process_step (late_burst_reached 234)).map (fun s1 =>
        ([(late_burst_reached 234).queue_numitems, (late_burst_reached 234).timenow_usec,
          (late_burst_reached 234).output_usec, (late_burst_reached 234).output_deficit_usec,
          ((late_burst_reached 234).track.getD 0 default).cmd,
          s1.timenow_usec, s1.output_usec, s1.output_deficit_usec,
          s1.output_usec + s1.output_deficit_usec, horizon s1,
          (s1.track.getD 0 default).cmd, (s1.track.getD 0 default).trkptr,
          (s1.track.getD 0 default).trkend, s1.tracks_done],
          queue_seq s1))
      = .ok ([100, 4294967200, 4288000000, 0, CMD_PLAYNOTE,
              4294967200, 4294967200, 200, 4294967400, 104,
              CMD_STOPNOTE, 747, 747, 0],
          [⟨CMD_PLAYNOTE, { time_usec := 4294967200, note := 60, volume := 64 }⟩]) := by
  decide!

/-- C11: the run on `late_burst_file`, a file of 747 bytes with one track.  After 236
passes of the merge loop the song is at 4294967200 usec, the queue is full with the 100
commands of that time, the last output time is 4288000000 usec and the deficit is 0.
Pass 237 queues one more Play of note 60.  The forced drain writes a delay of 6967 ms
and leaves the last output time 4294967200 and the deficit 200, so the sum is 4294967400
usec; the `uint32_t horizon` of line 383 holds 104.  The event of time 4294967200 usec,
earlier than the last output time plus the deficit, is stored with its own time and not
with the sum, against the comment of line 384.  The pass does not end the track: the
next command is a Stop and no track is done. -/
theorem queue_cmd_horizon_wraps :
    ((midi_prepare late_burst_file).bind (process_steps 236)).bind (fun s =>
        (process_step s).map (fun s1 =>
          ([s.queue_numitems, s.timenow_usec, s.output_usec, s.output_deficit_usec,
            (s.track.getD 0 default).cmd,
            s1.timenow_usec, s1.output_usec, s1.output_deficit_usec,
            s1.output_usec + s1.output_deficit_usec, horizon s1,
            (s1.track.getD 0 default).cmd, (s1.track.getD 0 default).trkptr,
            (s1.track.getD 0 default).trkend, s1.tracks_done],
            queue_seq s1)))
      = .ok ([100, 4294967200, 4288000000, 0, CMD_PLAYNOTE,
              4294967200, 4294967200, 200, 4294967400, 104,
              CMD_STOPNOTE, 747, 747, 0],
          [⟨CMD_PLAYNOTE, { time_usec := 4294967200, note := 60, volume := 64 }⟩]) :=
  (bind_ok_eq late_burst_passes _).trans late_burst_pass_237

/-! ## Delivery queue: the count of queued entries -/

theorem pull_queue_count {s s1 : MIDIFile} (h : pull_queue s = .ok s1) (hr : ring_ok s)
    (hn : 0 < s.queue_numitems) :
    ring_ok s1 ∧ ∃ k, 1 ≤ k ∧ k ≤ s.queue_numitems ∧ s1.queue_numitems + k = s.queue_numitems := by
  obtain ⟨k, s3, hp, hk, rfl⟩ := pull_queue_shape h
  obtain ⟨d, u, f, o, rfl⟩ := pull_prelude_shape hp
  have hk1 : k + 1 ≤ s.queue_numitems := by
    rw [Nat.max_eq_right hn] at hk
    exact hk
  obtain ⟨h1, h2⟩ := pull_n_ring_ok (k + 1)
    { s with output_deficit_usec := d, output_usec := u, last_output_was_delay := f,
             output := o } hr hk1
  refine ⟨h1, k + 1, Nat.succ_le_succ (Nat.zero_le _), hk1, ?_⟩
  rw [h2]
  show s.queue_numitems - (k + 1) + (k + 1) = s.queue_numitems
  omega

theorem pull_queue_fault {s : MIDIFile} {e : Fault} (h : pull_queue s = .error e) :
    e = .assertion 466 ∨ e = .assertion 440 := by
  unfold pull_queue at h
  split at h
  · next e1 hp =>
    cases h
    unfold pull_prelude at hp
    simp only [generate_delay_eq] at hp
    split_ifs at hp
    all_goals first
      | (cases hp; exact Or.inl rfl)
      | (cases hp; exact Or.inr rfl)
  · next s3 hp =>
    obtain ⟨k, _, hk⟩ := pull_while_eq (oldest_time s) s3.queue_numitems (pull_body s3)
      (by show s3.queue_numitems - 1 ≤ _; omega)
    rw [hk] at h
    cases h

theorem queue_ops_ring_ok :
    ∀ (ops : List QOp) (s0 s : MIDIFile), ring_ok s0 → queue_ops ops s0 = .ok s → ring_ok s := by
  intro ops
  induction ops with
  | nil => intro s0 s hr h; cases h; exact hr
  | cons op rest ih =>
    intro s0 s hr h
    cases hop : queue_op s0 op with
    | error e =>
      simp only [queue_ops, hop] at h
      cases h
    | ok s1 =>
      simp only [queue_ops, hop] at h
      refine ih s1 s ?_ h
      cases op with
      | insert cmd np =>
        simp only [queue_op] at hop
        split at hop
        · cases hop
        · next s2 np1 hq =>
          cases hop
          exact queue_cmd_ring_ok hr hq
      | drain =>
        simp only [queue_op] at hop
        split_ifs at hop with hpos
        · exact (pull_queue_ring_ok hop hr hpos).1
        · cases hop; exact hr

theorem queue_cmd_count_aux (s : MIDIFile) (hr : ring_ok s) :
    s.queue_numitems ≤ QUEUE_SIZE ∧
    (∀ s2, 0 < s.queue_numitems → pull_queue s = .ok s2 →
      ∃ k, 1 ≤ k ∧ k ≤ s.queue_numitems ∧ s2.queue_numitems + k = s.queue_numitems) ∧
    ∀ cmd np, queue_cmd s cmd np ≠ .error (.assertion 381) ∧
      ∀ s1 np1, queue_cmd s cmd np = .ok (s1, np1) →
        1 ≤ s1.queue_numitems ∧ s1.queue_numitems ≤ QUEUE_SIZE ∧
        (s.queue_numitems < QUEUE_SIZE → s1.queue_numitems = s.queue_numitems + 1) := by
  refine ⟨hr.2.2.1, fun s2 hpos hp => (pull_queue_count hp hr hpos).2, ?_⟩
  intro cmd np
  cases hd : (if s.queue_numitems = QUEUE_SIZE then pull_queue s else .ok s) with
  | error e =>
    have hq : queue_cmd s cmd np = .error e := by
      unfold queue_cmd
      rw [hd]
    rw [hq]
    constructor
    · intro he
      cases he
      split_ifs at hd
      rcases pull_queue_fault hd with h1 | h1 <;> cases h1
    · intro s1 np1 h
      cases h
  | ok s2 =>
    obtain ⟨s3, hq, hr3, ⟨q, o, nw, hs3⟩, -⟩ := queue_cmd_drain_aux s s2 cmd np hr hd
    rw [hq]
    constructor
    · intro he
      cases he
    · intro s1 np1 h
      cases h
      refine ⟨?_, hr3.2.2.1, ?_⟩
      · rw [hs3]
        exact Nat.succ_le_succ (Nat.zero_le _)
      · intro hlt
        rw [if_neg (Nat.ne_of_lt hlt)] at hd
        cases hd
        rw [hs3]

/-- C12: in every state reached from a well-formed empty queue by insertions
(`queue_cmd`) and drains (`pull_queue`, entered as in `flush_queue` only when the queue is
not empty), the number of queued entries is at most `QUEUE_SIZE`; a drain is entered
with a positive count and takes at least one and at most all entries away, so the count
never goes below 0; an insertion never fails at the assertion
`queue_numitems < QUEUE_SIZE` of line 381, and after an insertion the count is between 1
and `QUEUE_SIZE`, one more than before when the queue was not full. -/
theorem queue_count_bounded (s0 : MIDIFile) (ops : List QOp) (s : MIDIFile)
    (hr : ring_ok s0) (_hempty : s0.queue_numitems = 0) (hrun : queue_ops ops s0 = .ok s) :
    s.queue_numitems ≤ QUEUE_SIZE ∧
    (∀ s2, 0 < s.queue_numitems → pull_queue s = .ok s2 →
      ∃ k, 1 ≤ k ∧ k ≤ s.queue_numitems ∧ s2.queue_numitems + k = s.queue_numitems) ∧
    ∀ cmd np, queue_cmd s cmd np ≠ .error (.assertion 381) ∧
      ∀ s1 np1, queue_cmd s cmd np = .ok (s1, np1) →
        1 ≤ s1.queue_numitems ∧ s1.queue_numitems ≤ QUEUE_SIZE ∧
        (s.queue_numitems < QUEUE_SIZE → s1.queue_numitems = s.queue_numitems + 1) :=
  queue_cmd_count_aux s (queue_ops_ring_ok ops s0 s hr hrun)

/-- Witness of C12: one insertion into the empty queue. -/
theorem queue_count_bounded_witness :
    (ring_ok (queue_state 1000 500 []) ∧ (queue_state 1000 500 []).queue_numitems = 0 ∧
      queue_ops [.insert CMD_PLAYNOTE { time_usec := 1200 }] (queue_state 1000 500 [])
        = .ok (queue_state 1000 500 [1500])) ∧
    (queue_state 1000 500 [1500]).queue_numitems ≤ QUEUE_SIZE ∧
    ∀ cmd np, queue_cmd (queue_state 1000 500 [1500]) cmd np ≠ .error (.assertion 381) :=
  ⟨⟨by decide!, by decide!, by decide!⟩,
    (queue_count_bounded (queue_state 1000 500 [])
      [.insert CMD_PLAYNOTE { time_usec := 1200 }] (queue_state 1000 500 [1500])
      (by decide!) (by decide!) (by decide!)).1,
    fun cmd np => ((queue_count_bounded (queue_state 1000 500 [])
      [.insert CMD_PLAYNOTE { time_usec := 1200 }] (queue_state 1000 500 [1500])
      (by decide!) (by decide!) (by decide!)).2.2 cmd np).1⟩

/-! ## Delivery queue: what one drain takes away -/

theorem ring_at_inc (q : List QEntry) (o i : Nat) (ho : o < QUEUE_SIZE) :
    ring_at q (inc_ndx o) i = ring_at q o (i + 1) := by
  unfold ring_at inc_ndx
  simp only [QUEUE_SIZE] at *
  congr 1
  split <;> omega

theorem pull_body_seq (s : MIDIFile) (hr : ring_ok s) (hn : 0 < s.queue_numitems) :
    queue_seq s = s.queue.getD s.queue_oldest_ndx default :: queue_seq (pull_body s) ∧
    (pull_body s).output = s.output ++ [.entry (s.queue.getD s.queue_oldest_ndx default)] := by
  refine ⟨?_, rfl⟩
  obtain ⟨n, hn1⟩ : ∃ n, s.queue_numitems = n + 1 := ⟨s.queue_numitems - 1, by omega⟩
  have hq : queue_seq (pull_body s)
      = (List.range n).map (ring_at s.queue (inc_ndx s.queue_oldest_ndx)) := by
    unfold queue_seq
    show (List.range (s.queue_numitems - 1)).map _ = _
    rw [hn1]
    rfl
  rw [hq]
  unfold queue_seq
  rw [hn1, List.range_succ_eq_map, List.map_cons, List.map_map]
  congr 1
  · unfold ring_at
    have := hr.2.1
    rw [Nat.add_zero, Nat.mod_eq_of_lt this]
  · apply List.map_congr_left
    intro i _
    exact (ring_at_inc s.queue s.queue_oldest_ndx i hr.2.1).symm

theorem pull_n_seq : ∀ (k : Nat) (s : MIDIFile), ring_ok s → k ≤ s.queue_numitems →
    queue_seq (pull_n k s) = (queue_seq s).drop k ∧
    (pull_n k s).output = s.output ++ ((queue_seq s).take k).map Out.entry := by
  intro k
  induction k with
  | zero =>
    intro s _ _
    exact ⟨rfl, by simp [pull_n]⟩
  | succ n ih =>
    intro s hr hk
    obtain ⟨h1, h2⟩ := pull_body_seq s hr (by omega)
    obtain ⟨hr1, hn1⟩ := pull_body_ring_ok s hr (by omega)
    obtain ⟨h3, h4⟩ := ih (pull_body s) hr1 (by omega)
    constructor
    · show queue_seq (pull_n n (pull_body s)) = _
      rw [h3, h1, List.drop_succ_cons]
    · show (pull_n n (pull_body s)).output = _
      rw [h4, h2, h1, List.take_succ_cons, List.map_cons, List.append_assoc]
      rfl

theorem pull_while_spec (oldtime : Nat) :
    ∀ (fuel : Nat) (s : MIDIFile), ring_ok s → s.queue_numitems ≤ fuel →
      ∃ k, k ≤ s.queue_numitems ∧ pull_while oldtime fuel s = .ok (pull_n k s) ∧
        (∀ e ∈ (queue_seq s).take k, e.note.time_usec ≤ oldtime) ∧
        (∀ e, ((queue_seq s).drop k).head? = some e → oldtime < e.note.time_usec) := by
  intro fuel
  induction fuel with
  | zero =>
    intro s _ h
    have h0 : s.queue_numitems = 0 := by omega
    refine ⟨0, Nat.zero_le _, by simp [pull_while, pull_n, h0], ?_, ?_⟩
    · intro e he
      simp at he
    · intro e he
      unfold queue_seq at he
      rw [h0] at he
      simp at he
  | succ n ih =>
    intro s hr h
    by_cases hc : s.queue_numitems > 0 ∧
        (s.queue.getD s.queue_oldest_ndx default).note.time_usec ≤ oldtime
    · obtain ⟨h1, -⟩ := pull_body_seq s hr hc.1
      obtain ⟨hr1, hn1⟩ := pull_body_ring_ok s hr hc.1
      obtain ⟨k, hk, he, ht, hd⟩ := ih (pull_body s) hr1 (by omega)
      refine ⟨k + 1, by omega, ?_, ?_, ?_⟩
      · rw [pull_while, if_pos hc]
        exact he
      · intro e hmem
        rw [h1, List.take_succ_cons, List.mem_cons] at hmem
        rcases hmem with rfl | hmem
        · exact hc.2
        · exact ht e hmem
      · intro e hh
        rw [h1, List.drop_succ_cons] at hh
        exact hd e hh
    · refine ⟨0, Nat.zero_le _, ?_, ?_, ?_⟩
      · rw [pull_while, if_neg hc]
        rfl
      · intro e he
        simp at he
      · intro e he
        rw [List.drop_zero] at he
        by_cases hpos : 0 < s.queue_numitems
        · obtain ⟨h1, -⟩ := pull_body_seq s hr hpos
          rw [h1] at he
          simp only [List.head?_cons, Option.some.injEq] at he
          subst he
          by_contra hle
          exact hc ⟨hpos, Nat.le_of_not_lt hle⟩
        · unfold queue_seq at he
          have h0 : s.queue_numitems = 0 := by omega
          rw [h0] at he
          simp at he

theorem pull_queue_removes_aux (s s1 : MIDIFile) (hr : ring_ok s)
    (hn : 0 < s.queue_numitems) (h : pull_queue s = .ok s1) :
    ∃ k s3, 1 ≤ k ∧ k ≤ s.queue_numitems ∧ pull_prelude s = .ok s3 ∧
      queue_seq s1 = (queue_seq s).drop k ∧
      s1.queue_numitems + k = s.queue_numitems ∧
      s1.output = s3.output ++ ((queue_seq s).take k).map Out.entry ∧
      (queue_seq s).head? = some (s.queue.getD s.queue_oldest_ndx default) ∧
      (∀ e ∈ (queue_seq s).take k, e.note.time_usec ≤ oldest_time s) ∧
      (∀ e, (queue_seq s1).head? = some e → oldest_time s < e.note.time_usec) := by
  unfold pull_queue at h
  split at h
  · cases h
  · next s3 hp =>
    obtain ⟨d, u, f, o, hs3⟩ := pull_prelude_shape hp
    have hr3 : ring_ok s3 := by rw [hs3]; exact hr
    have hq3 : queue_seq s3 = queue_seq s := by rw [hs3]; rfl
    have hn3 : s3.queue_numitems = s.queue_numitems := by rw [hs3]
    have ho3 : s3.queue.getD s3.queue_oldest_ndx default
        = s.queue.getD s.queue_oldest_ndx default := by rw [hs3]
    obtain ⟨h1, h2⟩ := pull_body_seq s3 hr3 (by rw [hn3]; exact hn)
    obtain ⟨hrb, hnb⟩ := pull_body_ring_ok s3 hr3 (by rw [hn3]; exact hn)
    obtain ⟨k, hk, he, ht, hd⟩ := pull_while_spec (oldest_time s) s3.queue_numitems
      (pull_body s3) hrb (by rw [hnb]; omega)
    rw [he] at h
    cases h
    obtain ⟨h3, h4⟩ := pull_n_seq k _ hrb hk
    obtain ⟨-, h5⟩ := pull_n_ring_ok k _ hrb hk
    rw [hq3, ho3] at h1
    rw [ho3] at h2
    refine ⟨k + 1, s3, Nat.succ_le_succ (Nat.zero_le _), by omega, hp, ?_, ?_, ?_, ?_, ?_, ?_⟩
    · rw [h3, h1, List.drop_succ_cons]
    · rw [h5, hnb, hn3]
      omega
    · rw [h4, h2, h1, List.take_succ_cons, List.map_cons, List.append_assoc]
      rfl
    · rw [h1]
      rfl
    · intro e hmem
      rw [h1, List.take_succ_cons, List.mem_cons] at hmem
      rcases hmem with rfl | hmem
      · exact Nat.le_refl _
      · exact ht e hmem
    · intro e hh
      rw [h3] at hh
      exact hd e hh

theorem sorted_drop_gt (l : List QEntry) (k t : Nat) (hs : time_sorted l)
    (hd : ∀ e, (l.drop k).head? = some e → t < e.note.time_usec) :
    ∀ e ∈ l.drop k, t < e.note.time_usec := by
  intro e he
  have hs2 : time_sorted (l.drop k) := List.Pairwise.sublist (List.drop_sublist k l) hs
  cases hl : l.drop k with
  | nil => rw [hl] at he; cases he
  | cons a rest =>
    rw [hl] at he hs2
    have ha := hd a (by rw [hl]; rfl)
    rcases List.mem_cons.mp he with rfl | hm
    · exact ha
    · exact Nat.lt_of_lt_of_le ha (List.rel_of_pairwise_cons hs2 hm)

theorem sorted_take_ge (l : List QEntry) (k : Nat) (a : QEntry) (hs : time_sorted l)
    (hh : l.head? = some a) : ∀ e ∈ l.take k, a.note.time_usec ≤ e.note.time_usec := by
  intro e he
  have hmem := List.mem_of_mem_take he
  cases l with
  | nil => cases hh
  | cons b rest =>
    simp only [List.head?_cons, Option.some.injEq] at hh
    subst hh
    rcases List.mem_cons.mp hmem with rfl | hm
    · exact Nat.le_refl _
    · exact List.rel_of_pairwise_cons hs hm

/-- C17 (amended): one drain of a non-empty queue by `pull_queue` that does not fail takes
away the oldest entry and with it every entry that follows directly with a time not after
that of the oldest entry: `k` entries, at least one, the count going down by `k`.  The
entries taken away are handed to the output in their order, the others stay in the queue
in their order, and the entry now oldest, if any, is later than the oldest time.  In a
queue in time order the entries taken away are exactly those of the oldest time. -/
theorem pull_queue_removes (s s1 : MIDIFile) (hr : ring_ok s)
    (hn : 0 < s.queue_numitems) (h : pull_queue s = .ok s1) :
    ∃ k s3, 1 ≤ k ∧ k ≤ s.queue_numitems ∧ pull_prelude s = .ok s3 ∧
      queue_seq s1 = (queue_seq s).drop k ∧
      s1.queue_numitems + k = s.queue_numitems ∧
      s1.output = s3.output ++ ((queue_seq s).take k).map Out.entry ∧
      (queue_seq s).head? = some (s.queue.getD s.queue_oldest_ndx default) ∧
      (∀ e ∈ (queue_seq s).take k, e.note.time_usec ≤ oldest_time s) ∧
      (∀ e, (queue_seq s1).head? = some e → oldest_time s < e.note.time_usec) ∧
      (time_sorted (queue_seq s) →
        (∀ e ∈ (queue_seq s).take k, e.note.time_usec = oldest_time s) ∧
        ∀ e ∈ queue_seq s1, oldest_time s < e.note.time_usec) := by
  obtain ⟨k, s3, h1, h2, h3, h4, h5, h6, h7, h8, h9⟩ := pull_queue_removes_aux s s1 hr hn h
  refine ⟨k, s3, h1, h2, h3, h4, h5, h6, h7, h8, h9, ?_⟩
  intro hs
  constructor
  · intro e he
    exact Nat.le_antisymm (h8 e he) (sorted_take_ge _ k _ hs h7 e he)
  · rw [h4] at h9 ⊢
    exact sorted_drop_gt _ k _ hs h9

/-- Witness of C17: a queue with the times 10, 10 and 20. -/
theorem pull_queue_removes_witness :
    (ring_ok (queue_state 0 0 [10, 10, 20]) ∧
      pull_queue (queue_state 0 0 [10, 10, 20]) =
        .ok { queue_state 10 10 [10, 10, 20] with
                queue_numitems := 1, queue_oldest_ndx := 2,
                output := [.entry ⟨CMD_PLAYNOTE, { time_usec := 10 }⟩,
                           .entry ⟨CMD_PLAYNOTE, { time_usec := 10 }⟩] }) ∧
    ∃ k, 1 ≤ k ∧ k ≤ 3 ∧
      queue_seq { queue_state 10 10 [10, 10, 20] with
                    queue_numitems := 1, queue_oldest_ndx := 2,
                    output := [.entry ⟨CMD_PLAYNOTE, { time_usec := 10 }⟩,
                               .entry ⟨CMD_PLAYNOTE, { time_usec := 10 }⟩] }
        = (queue_seq (queue_state 0 0 [10, 10, 20])).drop k :=
  ⟨⟨by decide!, by decide!⟩,
    match pull_queue_removes (queue_state 0 0 [10, 10, 20]) _ (by decide!) (by decide!)
      (by decide!) with
    | ⟨k, _, h1, h2, _, h4, _⟩ => ⟨k, h1, h2, h4⟩⟩

/-- Counterexample to C17 as stated: the queue holds two entries of time 10 and one of
time 20; one drain takes both entries of time 10, the count goes from 3 to 1, and the
entry of time 20 alone stays. -/
theorem pull_queue_removes_counterexample :
    (queue_state 0 0 [10, 10, 20]).queue_numitems = 3 ∧
    (pull_queue (queue_state 0 0 [10, 10, 20])).map
        (fun s1 => (s1.queue_numitems, queue_seq s1, s1.output))
      = .ok (1, [⟨CMD_PLAYNOTE, { time_usec := 20 }⟩],
          [.entry ⟨CMD_PLAYNOTE, { time_usec := 10 }⟩,
           .entry ⟨CMD_PLAYNOTE, { time_usec := 10 }⟩]) := by
  refine ⟨by decide!, by decide!⟩

/-! ## Note slots: the (track, note) pairs of a channel -/

theorem slots_of_getD {a b : List ChannelStatus} (h : slots_of a = slots_of b) (c : Nat) :
    (a.getD c default).note_playing = (b.getD c default).note_playing ∧
    (a.getD c default).notes_playing = (b.getD c default).notes_playing := by
  unfold slots_of at h
  have hlen : a.length = b.length := by
    have := congrArg List.length h
    simpa using this
  by_cases hc : c < a.length
  · have hcb : c < b.length := hlen ▸ hc
    have h1 := congrArg (fun l => l.get? c) h
    simp only [List.get?_eq_getElem?, List.getElem?_map, List.getElem?_eq_getElem hc,
      List.getElem?_eq_getElem hcb, Option.map_some', Option.some.injEq, Prod.mk.injEq] at h1
    rw [List.getD_eq_getElem _ _ hc, List.getD_eq_getElem _ _ hcb]
    exact h1
  · have hcb : ¬ c < b.length := hlen ▸ hc
    rw [List.getD_eq_default _ _ (Nat.le_of_not_lt hc),
      List.getD_eq_default _ _ (Nat.le_of_not_lt hcb)]
    exact ⟨rfl, rfl⟩

theorem slots_inv_of_slots {a b : List ChannelStatus} (h : slots_of a = slots_of b)
    (hb : slots_inv b) : slots_inv a := by
  intro c
  obtain ⟨h1, h2⟩ := slots_of_getD h c
  obtain ⟨hb1, hb2, hb3⟩ := hb c
  refine ⟨by rw [h1]; exact hb1, by rw [h2]; exact hb2, ?_⟩
  unfold slot_keys_unique
  rw [h1, h2]
  exact hb3

theorem slots_inv_set (ch : List ChannelStatus) (chan : Nat) (cp1 : ChannelStatus)
    (h : slots_inv ch)
    (h1 : cp1.note_playing.length = MAX_CHANNELNOTES ∧
      cp1.notes_playing.length = MAX_CHANNELNOTES ∧ slot_keys_unique cp1) :
    slots_inv (ch.set chan cp1) := by
  intro c
  rw [getD_set_eq]
  split_ifs
  · exact h1
  · exact h c

theorem slot_free_unique (cp : ChannelStatus) (ndx : Nat) (x : NoteInfo)
    (h1 : cp.note_playing.length = MAX_CHANNELNOTES)
    (_h2 : cp.notes_playing.length = MAX_CHANNELNOTES) (hu : slot_keys_unique cp) :
    slot_keys_unique { cp with notes_playing := cp.notes_playing.set ndx x,
                               note_playing := cp.note_playing.set ndx false } := by
  intro i j hi hj hij hoi hoj
  simp only [] at hoi hoj ⊢
  rw [getD_set_eq] at hoi hoj
  have hin : ndx ≠ i := by
    intro hc
    rw [if_pos ⟨hc, by rw [h1, hc]; exact hi⟩] at hoi
    cases hoi
  have hjn : ndx ≠ j := by
    intro hc
    rw [if_pos ⟨hc, by rw [h1, hc]; exact hj⟩] at hoj
    cases hoj
  rw [if_neg (fun hc => hin hc.1)] at hoi
  rw [if_neg (fun hc => hjn hc.1)] at hoj
  rw [getD_set_eq, getD_set_eq, if_neg (fun hc => hin hc.1), if_neg (fun hc => hjn hc.1)]
  exact hu i j hi hj hij hoi hoj

theorem slot_take_unique (cp : ChannelStatus) (ndx : Nat) (x : NoteInfo)
    (_h1 : cp.note_playing.length = MAX_CHANNELNOTES)
    (h2 : cp.notes_playing.length = MAX_CHANNELNOTES) (hu : slot_keys_unique cp)
    (hnew : ∀ j, j < MAX_CHANNELNOTES → cp.note_playing.getD j false = true →
      ¬ ((cp.notes_playing.getD j default).note = x.note ∧
         (cp.notes_playing.getD j default).track = x.track)) :
    slot_keys_unique { cp with note_playing := cp.note_playing.set ndx true,
                               notes_playing := cp.notes_playing.set ndx x } := by
  intro i j hi hj hij hoi hoj
  simp only [] at hoi hoj ⊢
  rw [getD_set_eq] at hoi hoj
  rw [getD_set_eq, getD_set_eq]
  by_cases hin : ndx = i
  · have hjn : ndx ≠ j := fun hc => hij (hin.symm.trans hc)
    rw [if_neg (fun hc => hjn hc.1)] at hoj
    rw [if_pos ⟨hin, by rw [h2, hin]; exact hi⟩, if_neg (fun hc => hjn hc.1)]
    intro hk
    exact hnew j hj hoj ⟨hk.2.symm, hk.1.symm⟩
  · rw [if_neg (fun hc => hin hc.1)] at hoi
    rw [if_neg (fun hc => hin hc.1)]
    by_cases hjn : ndx = j
    · rw [if_pos ⟨hjn, by rw [h2, hjn]; exact hj⟩]
      intro hk
      exact hnew i hi hoi ⟨hk.2, hk.1⟩
    · rw [if_neg (fun hc => hjn hc.1)] at hoj
      rw [if_neg (fun hc => hjn hc.1)]
      exact hu i j hi hj hij hoi hoj

theorem queue_cmd_note {s s1 : MIDIFile} {cmd : Nat} {np np1 : NoteInfo}
    (h : queue_cmd s cmd np = .ok (s1, np1)) :
    np1.track = np.track ∧ np1.note = np.note := by
  unfold queue_cmd at h
  split at h
  · cases h
  · next s2 _ =>
    split_ifs at h
    simp only [] at h
    split at h
    · cases h
    · cases h
      exact ⟨(clamp_note_fields s2 np).1, (clamp_note_fields s2 np).2.2.1⟩

theorem find_playing_slot_eq_none {cp : ChannelStatus} {note tracknum : Nat}
    (h : find_playing_slot cp note tracknum = none) :
    ∀ j, j < MAX_CHANNELNOTES → cp.note_playing.getD j false = true →
      ¬ ((cp.notes_playing.getD j default).note = note ∧
         (cp.notes_playing.getD j default).track = tracknum) := by
  intro j hj ho hk
  unfold find_playing_slot at h
  rw [List.find?_eq_none] at h
  have := h j (List.mem_range.mpr hj)
  rw [ho, hk.1, hk.2] at this
  simp at this

theorem dispatch_pedal_channel {s s1 : MIDIFile} {tracknum k cmd : Nat}
    (h : dispatch_pedal s tracknum k cmd = .ok s1) : s1.channel = s.channel := by
  unfold dispatch_pedal at h
  simp only [] at h
  split at h
  · cases h
  · next s2 pn1 hq =>
    cases h
    have hch := (queue_cmd_sched hq).2.1
    show s2.channel = s.channel
    rw [hch]
    split_ifs
    · rfl
    · rfl

theorem dispatch_slots_inv {s s1 : MIDIFile} {tracknum : Nat} (hinv : slots_inv s.channel)
    (h : dispatch s tracknum = .ok s1)
    (hclean : (s.track.getD tracknum default).cmd = CMD_PLAYNOTE →
      find_playing_slot (s.channel.getD (s.track.getD tracknum default).chan default)
        (s.track.getD tracknum default).note tracknum = none) :
    slots_inv s1.channel := by
  unfold dispatch at h
  simp only [] at h
  split_ifs at h with h1 h2 h3 h4 h5 h6 h7
  · cases h; exact hinv
  · cases h; exact hinv
  · unfold dispatch_stop at h
    simp only [] at h
    split at h
    · cases h; exact hinv
    · next ndx _ =>
      split at h
      · cases h
      · next s2 np2 hq =>
        cases h
        have hch := (queue_cmd_sched hq).2.1
        show slots_inv (s2.channel.set _ _)
        rw [hch]
        obtain ⟨l1, l2, hu⟩ := hinv (s.track.getD tracknum default).chan
        refine slots_inv_set _ _ _ hinv ⟨?_, ?_, slot_free_unique _ ndx np2 l1 l2 hu⟩
        · show (List.set _ _ _).length = _
          rw [List.length_set]; exact l1
        · show (List.set _ _ _).length = _
          rw [List.length_set]; exact l2
  · unfold dispatch_play at h
    simp only [] at h
    split at h
    · cases h; exact hinv
    · next ndx _ =>
      split at h
      · cases h
      · next s2 pn1 hq =>
        cases h
        have hch := (queue_cmd_sched hq).2.1
        obtain ⟨ht, hn⟩ := queue_cmd_note hq
        show slots_inv (s2.channel.set _ _)
        rw [hch]
        obtain ⟨l1, l2, hu⟩ := hinv (s.track.getD tracknum default).chan
        have hnone := find_playing_slot_eq_none (hclean (by assumption))
        refine slots_inv_set _ _ _ hinv ⟨?_, ?_, slot_take_unique _ ndx pn1 l1 l2 hu ?_⟩
        · show (List.set _ _ _).length = _
          rw [List.length_set]; exact l1
        · show (List.set _ _ _).length = _
          rw [List.length_set]; exact l2
        · rw [ht, hn]
          exact hnone
  all_goals
    rw [dispatch_pedal_channel h]
    exact hinv

theorem process_step_slots_inv {s s1 : MIDIFile} (hinv : slots_inv s.channel)
    (hclean : restarts s = false) (h : process_step s = .ok s1) : slots_inv s1.channel := by
  unfold process_step at h
  split at h
  · cases h
  · next et k hsel =>
    split_ifs at h with hord
    split at h
    · cases h
    · next sc hclk =>
      split at h
      · cases h
      · next sd hd =>
        obtain ⟨u, hsc⟩ := advance_clock_frame hclk
        have hc1 : sc.channel = s.channel := by rw [hsc]
        have ht1 : sc.track = s.track := by rw [hsc]
        have hdinv : slots_inv sd.channel := by
          refine dispatch_slots_inv (by rw [hc1]; exact hinv) hd ?_
          intro hcmd
          rw [hc1, ht1]
          rw [ht1] at hcmd
          unfold restarts at hclean
          rw [hsel] at hclean
          simp only [hcmd, decide_True, Bool.true_and] at hclean
          cases hf : find_playing_slot (s.channel.getD (s.track.getD k default).chan default)
            (s.track.getD k default).note k with
          | none => rfl
          | some x => rw [hf] at hclean; cases hclean
        obtain ⟨r, t1, ch1, d, hl, he⟩ := advance_track_track h
        have hsl := find_next_loop_slots _ _ _ _ _ _ hl
        rw [he]
        exact slots_inv_of_slots hsl hdinv

theorem midi_process_file_header_channel {s s1 : MIDIFile}
    (h : midi_process_file_header s = .ok s1) : s1.channel = s.channel := by
  unfold midi_process_file_header at h
  split_ifs at h
  split at h
  · cases h
  · cases h
  · split at h
    · simp only [] at h
      split_ifs at h
      all_goals (cases h; rfl)
    · cases h

theorem midi_process_track_header_channel {s s1 : MIDIFile} {tracknum : Nat}
    (h : midi_process_track_header s tracknum = .ok s1) : s1.channel = s.channel := by
  unfold midi_process_track_header at h
  split_ifs at h
  split at h
  · cases h
  · cases h; rfl
  · split at h
    · cases h
    · simp only [] at h
      split_ifs at h
      cases h
      rfl

theorem position_tracks_slots :
    ∀ (count tracknum : Nat) (s s1 : MIDIFile),
      position_tracks count tracknum s = .ok s1 → slots_of s1.channel = slots_of s.channel := by
  intro count
  induction count with
  | zero =>
    intro tracknum s s1 h
    unfold position_tracks at h
    cases h
    rfl
  | succ c ih =>
    intro tracknum s s1 h
    unfold position_tracks at h
    simp only [] at h
    split at h
    · cases h
    · next s2 hh =>
      have h2 := midi_process_track_header_channel hh
      split at h
      · cases h
      · cases h
      · next r s3 _ hf =>
        split_ifs at h
        obtain ⟨t1, ch1, d, hl, he⟩ := midi_find_next_note_track hf
        have hsl := find_next_loop_slots _ _ _ _ _ _ hl
        rw [ih (tracknum + 1) s3 s1 h, he]
        show slots_of ch1 = _
        rw [hsl, h2]

theorem slots_inv_initial : slots_inv (List.replicate NUM_CHANNELS ({} : ChannelStatus)) := by
  intro c
  have hd : (List.replicate NUM_CHANNELS ({} : ChannelStatus)).getD c default = {} := by
    rw [List.getD_eq_getElem?_getD]
    by_cases hi : c < NUM_CHANNELS
    · simp [List.getElem?_replicate, hi]
    · simp [List.getElem?_replicate, hi]; rfl
  rw [hd]
  refine ⟨rfl, rfl, ?_⟩
  intro i j hi _ _ hoi _
  have hall : ∀ i, i < MAX_CHANNELNOTES →
      ({} : ChannelStatus).note_playing.getD i false = false := by decide
  rw [hall i hi] at hoi
  cases hoi

theorem midi_prepare_slots_inv {data : List Nat} {s : MIDIFile}
    (h : midi_prepare data = .ok s) : slots_inv s.channel := by
  unfold midi_prepare midi_prepare_from at h
  split at h
  · cases h
  · next sh hh =>
    have h1 := midi_process_file_header_channel hh
    simp only [] at h
    split at h
    · cases h
    · next s2 hp =>
      cases h
      have h2 := position_tracks_slots _ _ _ _ hp
      show slots_inv s2.channel
      refine slots_inv_of_slots h2 ?_
      show slots_inv sh.channel
      rw [h1]
      exact slots_inv_initial

theorem process_steps_slots_inv :
    ∀ (n : Nat) (s s1 : MIDIFile), slots_inv s.channel → clean_steps n s = true →
      process_steps n s = .ok s1 → slots_inv s1.channel := by
  intro n
  induction n with
  | zero => intro s s1 hinv _ h; cases h; exact hinv
  | succ n ih =>
    intro s s1 hinv hc h
    unfold process_steps at h
    unfold clean_steps at hc
    split at h
    · cases h
    · next s2 hs =>
      rw [hs] at hc
      simp only [Bool.and_eq_true, Bool.not_eq_true'] at hc
      exact ih s2 s1 (process_step_slots_inv hinv hc.1 hs) hc.2 h

/-- C13 (amended): the prepared state has no occupied slot, and in every state reached
from it by passes of the merge loop none of which dispatches a PlayNote for a
(track, note) pair that an occupied slot of the channel already holds, every channel has
its `MAX_CHANNELNOTES` slots and within one channel no two occupied slots hold the same
(track, note) pair. -/
theorem slot_keys_unique_reached (data : List Nat) (s0 : MIDIFile) (n : Nat) (s : MIDIFile)
    (hprep : midi_prepare data = .ok s0) (hclean : clean_steps n s0 = true)
    (hrun : process_steps n s0 = .ok s) :
    ∀ c, (s.channel.getD c default).note_playing.length = MAX_CHANNELNOTES ∧
      (s.channel.getD c default).notes_playing.length = MAX_CHANNELNOTES ∧
      ∀ i j, i < MAX_CHANNELNOTES → j < MAX_CHANNELNOTES → i ≠ j →
        (s.channel.getD c default).note_playing.getD i false = true →
        (s.channel.getD c default).note_playing.getD j false = true →
        ¬ (((s.channel.getD c default).notes_playing.getD i default).track
              = ((s.channel.getD c default).notes_playing.getD j default).track ∧
           ((s.channel.getD c default).notes_playing.getD i default).note
              = ((s.channel.getD c default).notes_playing.getD j default).note) :=
  process_steps_slots_inv n s0 s (midi_prepare_slots_inv hprep) hclean hrun

/-- Witness of C13: the run on `one_note_file` after its first pass, with note 60 of
track 0 in slot 0. -/
theorem slot_keys_unique_reached_witness :
    (midi_prepare one_note_file = .ok one_note_prepared ∧
      clean_steps 1 one_note_prepared = true ∧
      process_steps 1 one_note_prepared = .ok one_note_sounding) ∧
    (one_note_sounding.channel.getD 0 default).note_playing.getD 0 false = true ∧
    slot_keys_unique (one_note_sounding.channel.getD 0 default) :=
  ⟨⟨by decide!, by decide!, by decide!⟩, by decide!,
    ((slot_keys_unique_reached one_note_file one_note_prepared 1 one_note_sounding
      (by decide!) (by decide!) (by decide!)) 0).2.2⟩

/-- Counterexample to C13 as stated: after the first two passes of the run on
`same_note_file`, whose track 0 starts note 60 twice in a row, the slots 0 and 1 of
channel 0 are both occupied and both hold the pair (track 0, note 60). -/
theorem slot_keys_unique_reached_counterexample :
    ((midi_prepare same_note_file).bind (process_steps 2)).map
        (fun s =>
          ((s.channel.getD 0 default).note_playing.take 2,
            ((s.channel.getD 0 default).notes_playing.take 2).map
              (fun np => (np.track, np.note))))
      = .ok ([true, true], [(0, 60), (0, 60)]) := by
  decide!

/-! ## Track event decoder: the cursor and the end of the track -/

/-- C14: the decoder at three inputs with a track cut off inside an event.  On
`truncated_file` the call that positions track 0 reads the velocity at offset 25, the
end offset of the track (the first byte, 0x4D, of the header of track 1), returns a
PlayNote of note 60 with volume 0x4D and leaves the cursor at 26, past the end offset
25.  On `truncated_meta_file` it takes the same byte for the length of the meta event and
leaves the cursor at 103, past the end offset and past the 41 bytes of the file.  On
`truncated_last_file` the read of the velocity leaves the bytes of the file. -/
theorem midi_find_next_note_overrun :
    (midi_prepare truncated_file).map
        (fun s => [(s.track.getD 0 default).trkptr, (s.track.getD 0 default).trkend,
                   (s.track.getD 0 default).cmd, (s.track.getD 0 default).note,
                   (s.track.getD 0 default).volume])
      = .ok [26, 25, CMD_PLAYNOTE, 60, 0x4D] ∧
    rd truncated_file 25 = .ok 0x4D ∧
    (midi_prepare truncated_meta_file).map
        (fun s => [(s.track.getD 0 default).trkptr, (s.track.getD 0 default).trkend,
                   (s.track.getD 0 default).cmd])
      = .ok [103, 25, CMD_TRACKDONE] ∧
    truncated_meta_file.length = 41 ∧
    midi_prepare truncated_last_file = .error .out_of_bounds := by
  refine ⟨by decide!, by decide!, by decide!, by decide!, by decide!⟩

/-! ## Track event decoder: when the call returns False -/

theorem midi_note_off_cmd (mask : Nat) (t : TrackStatus) (chan : Nat) :
    (midi_note_off mask t chan).2 = false → (midi_note_off mask t chan).1 = t := by
  unfold midi_note_off
  split_ifs
  · intro h; cases h
  · intro _; rfl

theorem channel_dispatch_known {data : List Nat} {mask event : Nat} {t : TrackStatus}
    {ch : List ChannelStatus} {p : Pass} (h : channel_dispatch data mask event t ch = .ok p)
    (hk : 8 ≤ event >>> 4 ∧ event >>> 4 ≤ 0xf) : p.fails = false ∧ p.keeps_cmd t.cmd := by
  unfold channel_dispatch at h
  split at h
  · unfold note_off_event at h
    split at h
    · cases h
    · split at h
      · cases h
      · simp only [] at h
        split_ifs at h with hc
        · cases h; exact ⟨rfl, trivial⟩
        · cases h
          refine ⟨rfl, ?_⟩
          show (midi_note_off mask _ _).1.cmd = t.cmd
          rw [midi_note_off_cmd _ _ _ (by simpa using hc)]
  · unfold note_on_event at h
    split at h
    · cases h
    · split at h
      · cases h
      · simp only [] at h
        split_ifs at h
        · cases h; exact ⟨rfl, trivial⟩
        · cases h; exact ⟨rfl, trivial⟩
        · cases h; exact ⟨rfl, rfl⟩
  · unfold skip_two at h
    split at h
    · cases h
    · split at h
      · cases h
      · cases h; exact ⟨rfl, rfl⟩
  · unfold controller_event at h
    split at h
    · cases h
    · split at h
      · cases h
      · simp only [] at h
        split_ifs at h
        · cases h; exact ⟨rfl, trivial⟩
        · cases h; exact ⟨rfl, trivial⟩
        · cases h; exact ⟨rfl, trivial⟩
        · cases h; exact ⟨rfl, rfl⟩
  · unfold program_event at h
    split at h
    · cases h
    · cases h; exact ⟨rfl, rfl⟩
  · unfold skip_one at h
    split at h
    · cases h
    · cases h; exact ⟨rfl, rfl⟩
  · unfold skip_two at h
    split at h
    · cases h
    · split at h
      · cases h
      · cases h; exact ⟨rfl, rfl⟩
  · unfold sysex_event at h
    split at h
    · cases h
    · cases h; exact ⟨rfl, rfl⟩
  · next h8 h9 ha hb hc hd he hf =>
    exfalso
    obtain ⟨h1, h2⟩ := hk
    generalize event >>> 4 = n at *
    interval_cases n
    · exact h8 rfl
    · exact h9 rfl
    · exact ha rfl
    · exact hb rfl
    · exact hc rfl
    · exact hd rfl
    · exact he rfl
    · exact hf rfl

theorem channel_dispatch_unknown (data : List Nat) (mask event : Nat) (t : TrackStatus)
    (ch : List ChannelStatus) (hk : ¬ (8 ≤ event >>> 4 ∧ event >>> 4 ≤ 0xf)) :
    channel_dispatch data mask event t ch = .ok (.returned .ret_false t ch) := by
  unfold channel_dispatch
  split
  all_goals first
    | rfl
    | (next he => exfalso; apply hk; rw [he]; decide)

theorem meta_event_known {data : List Nat} {t : TrackStatus}
    {ch : List ChannelStatus} {p : Pass} (h : meta_event data t ch = .ok p) :
    p.fails = false ∧ p.keeps_cmd t.cmd := by
  unfold meta_event at h
  split at h
  · cases h
  · split at h
    · cases h
    · split_ifs at h
      · split at h
        · cases h
        · cases h; exact ⟨rfl, trivial⟩
      · cases h; exact ⟨rfl, rfl⟩

theorem event_pass_fails {data : List Nat} {mask : Nat} {t : TrackStatus}
    {ch : List ChannelStatus} {p : Pass} (h : event_pass data mask t ch = .ok p) :
    p.keeps_cmd t.cmd ∧
    (p.fails = true → ∃ delta pp b, get_varlen data t.trkptr = .ok (delta, pp) ∧
      rd data pp = .ok b ∧ malformed_status (effective_status t.last_event b)) := by
  unfold event_pass at h
  split at h
  · cases h
  · next delta pp hv =>
    split at h
    · cases h
    · next b hb =>
      simp only [] at h
      have hev : (if b < 0x80 then t.last_event else b) = effective_status t.last_event b := rfl
      rw [hev] at h
      generalize hE : effective_status t.last_event b = event at h
      generalize (if b < 0x80 then pp else pp + 1) = q at h
      by_cases h1 : event = 0xff
      · rw [if_pos h1] at h
        obtain ⟨hf, hk⟩ := meta_event_known h
        refine ⟨hk, fun hc => ?_⟩
        rw [hf] at hc
        cases hc
      · rw [if_neg h1] at h
        by_cases h2 : event < 0x80
        · rw [if_pos h2] at h
          cases h
          exact ⟨rfl, fun _ => ⟨delta, pp, b, hv, hb, Or.inl (by rw [hE]; exact h2)⟩⟩
        · rw [if_neg h2] at h
          by_cases hk : 8 ≤ event >>> 4 ∧ event >>> 4 ≤ 0xf
          · obtain ⟨hf, hc⟩ := channel_dispatch_known h hk
            refine ⟨hc, fun hx => ?_⟩
            rw [hf] at hx
            cases hx
          · unfold channel_event at h
            rw [channel_dispatch_unknown _ _ _ _ _ hk] at h
            cases h
            exact ⟨rfl, fun _ => ⟨delta, pp, b, hv, hb, Or.inr (by rw [hE]; exact hk)⟩⟩

theorem event_pass_malformed (data : List Nat) (mask : Nat) (t : TrackStatus)
    (ch : List ChannelStatus) (delta pp b : Nat)
    (hv : get_varlen data t.trkptr = .ok (delta, pp)) (hb : rd data pp = .ok b)
    (hm : malformed_status (effective_status t.last_event b)) :
    ∃ t1 ch1, event_pass data mask t ch = .ok (.returned .ret_false t1 ch1) := by
  unfold event_pass
  simp only [hv, hb]
  have hev : (if b < 0x80 then t.last_event else b) = effective_status t.last_event b := rfl
  rw [hev]
  generalize effective_status t.last_event b = event at hm ⊢
  generalize (if b < 0x80 then pp else pp + 1) = q
  have hff : ¬ event = 0xff := by
    intro he
    rw [he] at hm
    rcases hm with h1 | h1
    · exact absurd h1 (by decide)
    · exact h1 (by decide)
  rw [if_neg hff]
  by_cases hlt : event < 0x80
  · rw [if_pos hlt]
    exact ⟨_, _, rfl⟩
  · rw [if_neg hlt]
    have hk : ¬ (8 ≤ event >>> 4 ∧ event >>> 4 ≤ 0xf) := by
      rcases hm with h1 | h1
      · exact absurd h1 hlt
      · exact h1
    unfold channel_event
    rw [channel_dispatch_unknown _ _ _ _ _ hk]
    exact ⟨_, _, rfl⟩

theorem find_next_loop_fails (data : List Nat) (mask : Nat) :
    ∀ (fuel : Nat) (t : TrackStatus) (ch : List ChannelStatus) (t1 : TrackStatus)
      (ch1 : List ChannelStatus),
      find_next_loop data mask fuel t ch = .ok (.ret_false, t1, ch1) →
      t1.cmd = t.cmd ∧
      ∃ k t2 ch2 delta pp b, skipped_events data mask k t ch = some (t2, ch2) ∧
        t2.trkptr < t2.trkend ∧ get_varlen data t2.trkptr = .ok (delta, pp) ∧
        rd data pp = .ok b ∧ malformed_status (effective_status t2.last_event b) := by
  intro fuel
  induction fuel with
  | zero =>
    intro t ch t1 ch1 h
    unfold find_next_loop at h
    split_ifs at h
    cases h
  | succ n ih =>
    intro t ch t1 ch1 h
    unfold find_next_loop at h
    split_ifs at h with hlt
    · simp only [] at h
      split at h
      · cases h
      · next r t3 ch3 hp =>
        cases h
        obtain ⟨hk, hf⟩ := event_pass_fails hp
        obtain ⟨delta, pp, b, h1, h2, h3⟩ := hf rfl
        exact ⟨hk, 0, t, ch, delta, pp, b, rfl, hlt, h1, h2, h3⟩
      · next t3 ch3 hp =>
        obtain ⟨hk, -⟩ := event_pass_fails hp
        obtain ⟨hc, k, t2, ch2, delta, pp, b, h0, h1, h2, h3, h4⟩ := ih t3 ch3 t1 ch1 h
        refine ⟨hc.trans hk, k + 1, t2, ch2, delta, pp, b, ?_, h1, h2, h3, h4⟩
        simp only [skipped_events, if_pos hlt, hp]
        exact h0
    · cases h

theorem skipped_then_malformed (data : List Nat) (mask : Nat) :
    ∀ (k fuel : Nat) (t : TrackStatus) (ch : List ChannelStatus) (t2 : TrackStatus)
      (ch2 : List ChannelStatus) (delta pp b : Nat),
      t.trkend - t.trkptr ≤ fuel →
      skipped_events data mask k t ch = some (t2, ch2) → t2.trkptr < t2.trkend →
      get_varlen data t2.trkptr = .ok (delta, pp) → rd data pp = .ok b →
      malformed_status (effective_status t2.last_event b) →
      ∃ t1 ch1, find_next_loop data mask fuel t ch = .ok (.ret_false, t1, ch1) := by
  intro k
  induction k with
  | zero =>
    intro fuel t ch t2 ch2 delta pp b hf hs hlt hv hb hm
    simp only [skipped_events, Option.some.injEq, Prod.mk.injEq] at hs
    obtain ⟨rfl, rfl⟩ := hs
    obtain ⟨n, rfl⟩ : ∃ n, fuel = n + 1 := ⟨fuel - 1, by omega⟩
    obtain ⟨t1, ch1, hp⟩ := event_pass_malformed data mask t ch delta pp b hv hb hm
    refine ⟨t1, ch1, ?_⟩
    unfold find_next_loop
    rw [if_pos hlt]
    simp only [hp]
  | succ k ih =>
    intro fuel t ch t2 ch2 delta pp b hf hs hlt hv hb hm
    unfold skipped_events at hs
    split_ifs at hs with hlt0
    split at hs
    · next t3 ch3 hp =>
      obtain ⟨n, rfl⟩ : ∃ n, fuel = n + 1 := ⟨fuel - 1, by omega⟩
      have hc := event_pass_cursor hp
      simp only [Pass.track] at hc
      obtain ⟨t1, ch1, hl⟩ := ih n t3 ch3 t2 ch2 delta pp b (by omega) hs hlt hv hb hm
      refine ⟨t1, ch1, ?_⟩
      unfold find_next_loop
      rw [if_pos hlt0]
      simp only [hp]
      exact hl
    · cases hs

/-- C15: `midi_find_next_note` returns `False` if and only if, after some number of
events that it consumed without surfacing them, it stands before the end of the track at
an event whose effective status (the byte read, or the stored running status when the
byte read is below 0x80) is below 0x80 or has a high nibble that the `switch` does not
know.  When it returns `False` the tag `cmd` of the track is the one it had before the
call and `tracks_done` does not move.  In particular a track whose first event begins
with a byte below 0x80 while no running status is stored makes the call return `False`. -/
theorem midi_find_next_note_fails (s : MIDIFile) (tracknum : Nat) :
    ((∃ s1, midi_find_next_note s tracknum = .ok (.ret_false, s1)) ↔
      ∃ k t2 ch2 delta pp b,
        skipped_events s.data s.channel_mask k (s.track.getD tracknum default) s.channel
          = some (t2, ch2) ∧
        t2.trkptr < t2.trkend ∧ get_varlen s.data t2.trkptr = .ok (delta, pp) ∧
        rd s.data pp = .ok b ∧ malformed_status (effective_status t2.last_event b)) ∧
    (∀ s1, midi_find_next_note s tracknum = .ok (.ret_false, s1) →
      (s1.track.getD tracknum default).cmd = (s.track.getD tracknum default).cmd ∧
      s1.tracks_done = s.tracks_done) ∧
    (∀ delta pp b,
      (s.track.getD tracknum default).trkptr < (s.track.getD tracknum default).trkend →
      (s.track.getD tracknum default).last_event = 0 →
      get_varlen s.data (s.track.getD tracknum default).trkptr = .ok (delta, pp) →
      rd s.data pp = .ok b → b < 0x80 →
      ∃ s1, midi_find_next_note s tracknum = .ok (.ret_false, s1)) := by
  have hback : ∀ k t2 ch2 delta pp b,
      skipped_events s.data s.channel_mask k (s.track.getD tracknum default) s.channel
        = some (t2, ch2) →
      t2.trkptr < t2.trkend → get_varlen s.data t2.trkptr = .ok (delta, pp) →
      rd s.data pp = .ok b → malformed_status (effective_status t2.last_event b) →
      ∃ s1, midi_find_next_note s tracknum = .ok (.ret_false, s1) := by
    intro k t2 ch2 delta pp b hs hlt hv hb hm
    obtain ⟨t1, ch1, hl⟩ := skipped_then_malformed s.data s.channel_mask k _ _ _ t2 ch2
      delta pp b (Nat.le_refl _) hs hlt hv hb hm
    unfold midi_find_next_note
    simp only [hl]
    exact ⟨_, rfl⟩
  refine ⟨⟨?_, ?_⟩, ?_, ?_⟩
  · rintro ⟨s1, h⟩
    unfold midi_find_next_note at h
    simp only [] at h
    split at h
    · cases h
    · next r t1 ch1 hl =>
      split at h
      · cases h
      · cases h
        exact (find_next_loop_fails _ _ _ _ _ _ _ hl).2
  · rintro ⟨k, t2, ch2, delta, pp, b, hs, hlt, hv, hb, hm⟩
    exact hback k t2 ch2 delta pp b hs hlt hv hb hm
  · intro s1 h
    unfold midi_find_next_note at h
    simp only [] at h
    split at h
    · cases h
    · next r t1 ch1 hl =>
      split at h
      · cases h
      · cases h
        have hc := (find_next_loop_fails _ _ _ _ _ _ _ hl).1
        refine ⟨?_, rfl⟩
        show ((s.track.set tracknum t1).getD tracknum default).cmd = _
        rw [getD_set_eq]
        split_ifs
        · exact hc
        · rfl
  · intro delta pp b hlt hle hv hb hb80
    refine hback 0 _ _ delta pp b rfl hlt hv hb ?_
    unfold effective_status
    rw [if_pos hb80, hle]
    exact Or.inl (by decide)

/-- The call that positions the track of `no_status_file` returns `False`, with the tag
and the count of finished tracks untouched, and `midi_binarize` stops at the assertion of
line 722. -/
theorem no_status_file_fails :
    (midi_process_file_header (midi_load no_status_file)).bind (fun s =>
        (midi_process_track_header s 0).bind (fun s1 =>
          (midi_find_next_note s1 0).map (fun r =>
            (r.1, (r.2.track.getD 0 default).cmd, r.2.tracks_done))))
      = .ok (.ret_false, 0, 0) ∧
    midi_binarize no_status_file = .error (.assertion 722) := by
  refine ⟨by decide!, by decide!⟩

/-! ## Track event decoder: the events that are skipped -/

theorem status_nibbles (base n : Nat) (hn : n < 16) (hb : base % 16 = 0) :
    (base + n) >>> 4 = base / 16 ∧ (base + n) &&& 0xf = n := by
  constructor
  · rw [Nat.shiftRight_eq_div_pow]
    omega
  · have : (0xf : Nat) = 2 ^ 4 - 1 := rfl
    rw [this, Nat.and_pow_two_sub_one_eq_mod]
    omega

theorem channel_event_skips (data : List Nat) (mask : Nat) (t : TrackStatus)
    (ch : List ChannelStatus) (n : Nat) (hn : n < 16) :
    (∀ x y, rd data t.trkptr = .ok x → rd data (t.trkptr + 1) = .ok y →
      channel_event data mask (0xA0 + n) t ch
        = .ok (.continues { t with last_event := 0xA0 + n, chan := n,
                                   trkptr := t.trkptr + 2 } ch)) ∧
    (∀ x, rd data t.trkptr = .ok x →
      channel_event data mask (0xC0 + n) t ch
        = .ok (.continues { t with last_event := 0xC0 + n, chan := n,
                                   trkptr := t.trkptr + 1 }
            (ch.set n { ch.getD n default with instrument := x }))) ∧
    (∀ x, rd data t.trkptr = .ok x →
      channel_event data mask (0xD0 + n) t ch
        = .ok (.continues { t with last_event := 0xD0 + n, chan := n,
                                   trkptr := t.trkptr + 1 } ch)) ∧
    (∀ x y, rd data t.trkptr = .ok x → rd data (t.trkptr + 1) = .ok y →
      channel_event data mask (0xE0 + n) t ch
        = .ok (.continues { t with last_event := 0xE0 + n, chan := n,
                                   trkptr := t.trkptr + 2 } ch)) := by
  refine ⟨?_, ?_, ?_, ?_⟩
  · intro x y hx hy
    obtain ⟨h1, h2⟩ := status_nibbles 0xA0 n hn (by decide)
    unfold channel_event channel_dispatch
    rw [h1, h2, if_pos (by omega)]
    show skip_two data _ ch = _
    unfold skip_two
    simp only [hx, hy]
  · intro x hx
    obtain ⟨h1, h2⟩ := status_nibbles 0xC0 n hn (by decide)
    unfold channel_event channel_dispatch
    rw [h1, h2, if_pos (by omega)]
    show program_event data n _ ch = _
    unfold program_event
    simp only [hx]
  · intro x hx
    obtain ⟨h1, h2⟩ := status_nibbles 0xD0 n hn (by decide)
    unfold channel_event channel_dispatch
    rw [h1, h2, if_pos (by omega)]
    show skip_one data _ ch = _
    unfold skip_one
    simp only [hx]
  · intro x y hx hy
    obtain ⟨h1, h2⟩ := status_nibbles 0xE0 n hn (by decide)
    unfold channel_event channel_dispatch
    rw [h1, h2, if_pos (by omega)]
    show skip_two data _ ch = _
    unfold skip_two
    simp only [hx, hy]

theorem event_pass_status (data : List Nat) (mask : Nat) (t : TrackStatus)
    (ch : List ChannelStatus) (delta p b : Nat)
    (hv : get_varlen data t.trkptr = .ok (delta, p)) (hb : rd data p = .ok b)
    (h1 : 0x80 ≤ b) (h2 : b ≠ 0xff) :
    event_pass data mask t ch =
      channel_event data mask b
        { t with trkptr := p + 1, time := (t.time + delta) % W64 } ch := by
  have hnb : ¬ b < 0x80 := by omega
  unfold event_pass
  simp only [hv, hb, if_neg hnb, if_neg h2]

/-- C20 (amended): for every channel `n`, after the delta time and the status byte the
pass of the decoder consumes 2 operand bytes for key pressure (0xAn), 1 for program change
(0xCn), 1 for channel pressure (0xDn) and 2 for pitch bend (0xEn), and goes on with the
next event without returning; the status is stored as running status and `n` as the
track's channel, and program change sets the instrument of channel `n` to its operand and
leaves the other channels as they are. -/
theorem event_pass_skips (data : List Nat) (mask : Nat) (t : TrackStatus)
    (ch : List ChannelStatus) (n delta p : Nat) (hn : n < 16)
    (hv : get_varlen data t.trkptr = .ok (delta, p)) :
    (∀ x y, rd data p = .ok (0xA0 + n) → rd data (p + 1) = .ok x → rd data (p + 2) = .ok y →
      event_pass data mask t ch
        = .ok (.continues { t with time := (t.time + delta) % W64, last_event := 0xA0 + n,
                                   chan := n, trkptr := p + 3 } ch)) ∧
    (∀ x, rd data p = .ok (0xC0 + n) → rd data (p + 1) = .ok x →
      event_pass data mask t ch
        = .ok (.continues { t with time := (t.time + delta) % W64, last_event := 0xC0 + n,
                                   chan := n, trkptr := p + 2 }
            (ch.set n { ch.getD n default with instrument := x }))) ∧
    (∀ x, rd data p = .ok (0xD0 + n) → rd data (p + 1) = .ok x →
      event_pass data mask t ch
        = .ok (.continues { t with time := (t.time + delta) % W64, last_event := 0xD0 + n,
                                   chan := n, trkptr := p + 2 } ch)) ∧
    (∀ x y, rd data p = .ok (0xE0 + n) → rd data (p + 1) = .ok x → rd data (p + 2) = .ok y →
      event_pass data mask t ch
        = .ok (.continues { t with time := (t.time + delta) % W64, last_event := 0xE0 + n,
                                   chan := n, trkptr := p + 3 } ch)) := by
  obtain ⟨ha, hc, hd, he⟩ := channel_event_skips data mask
    { t with trkptr := p + 1, time := (t.time + delta) % W64 } ch n hn
  refine ⟨?_, ?_, ?_, ?_⟩
  · intro x y hb hx hy
    rw [event_pass_status data mask t ch delta p _ hv hb (by omega) (by omega)]
    exact ha x y hx hy
  · intro x hb hx
    rw [event_pass_status data mask t ch delta p _ hv hb (by omega) (by omega)]
    exact hc x hx
  · intro x hb hx
    rw [event_pass_status data mask t ch delta p _ hv hb (by omega) (by omega)]
    exact hd x hx
  · intro x y hb hx hy
    rw [event_pass_status data mask t ch delta p _ hv hb (by omega) (by omega)]
    exact he x y hx hy

/-- Witness of C20: the key pressure event at the start of `key_pressure_track`. -/
theorem event_pass_skips_witness :
    get_varlen key_pressure_track 0 = .ok (0, 1) ∧
    event_pass key_pressure_track 0xffff { trkend := 8 } []
      = .ok (.continues { trkend := 8, last_event := 0xA0, trkptr := 4 } []) :=
  ⟨by decide!,
    (event_pass_skips key_pressure_track 0xffff { trkend := 8 } [] 0 0 1 (by decide)
      (by decide!)).1 0x3C 0x40 (by decide!) (by decide!) (by decide!)⟩

/-- Counterexample to C20 as stated: on `key_pressure_track` the pass over the key
pressure event `A0 3C 40` at offset 0 leaves the cursor at offset 4, two operand bytes
after the status byte at offset 1, and the call goes on to return the note on of note
0x3E that follows, with the cursor at 8. -/
theorem event_pass_skips_counterexample :
    (event_pass key_pressure_track 0xffff { trkend := 8 } []).map (fun p => p.track.trkptr)
      = .ok 4 ∧
    (find_next_loop key_pressure_track 0xffff 8 { trkend := 8 } []).map
        (fun r => (r.1, r.2.1.cmd, r.2.1.note, r.2.1.trkptr))
      = .ok (.ret_true, CMD_PLAYNOTE, 0x3E, 8) := by
  refine ⟨by decide!, by decide!⟩

/-! ## Note lifecycle: the truncation of a stopped note -/

theorem stop_truncation_of_eq (notemin release now start : Nat) (h1 : start ≤ now)
    (h2 : now < W64) :
    stop_truncation_of notemin release now start =
      (if now - start ≤ notemin then 0 else min (now - start - notemin) release) ∧
    stop_truncation_of notemin release now start ≤ now - start := by
  have hd : (now + W64 - start) % W64 = now - start := by
    have e : now + W64 - start = (now - start) + W64 := by omega
    rw [e, Nat.add_mod_right]
    exact Nat.mod_eq_of_lt (by omega)
  unfold stop_truncation_of
  simp only [hd]
  by_cases c1 : now - start ≤ notemin
  · rw [if_pos c1, if_pos c1]
    exact ⟨rfl, Nat.zero_le _⟩
  · rw [if_neg c1, if_neg c1]
    by_cases c2 : now - start < release + notemin
    · rw [if_pos c2, Nat.min_eq_left (by omega)]
      exact ⟨rfl, Nat.sub_le _ _⟩
    · rw [if_neg c2, Nat.min_eq_right (by omega)]
      exact ⟨rfl, by omega⟩

/-- C19: for a Stop at the time `now` of a note started at `start`, with `start <= now`,
and for all values of the two constants, the truncation of lines 618-622 is 0 when the
duration `now - start` is at most the minimum note time and otherwise the smaller of
`duration - minimum` and the release time; the stop time `now - truncation`, computed
as an `unsigned long`, is not before `start` and not after `now`.  The truncation in the
stop-note branch is the one for the configured 250 and 0. -/
theorem stop_truncation_spec (notemin release now start : Nat) (h1 : start ≤ now)
    (h2 : now < W64) :
    stop_truncation_of notemin release now start =
      (if now - start ≤ notemin then 0 else min (now - start - notemin) release) ∧
    (now + W64 - stop_truncation_of notemin release now start) % W64
      = now - stop_truncation_of notemin release now start ∧
    start ≤ (now + W64 - stop_truncation_of notemin release now start) % W64 ∧
    (now + W64 - stop_truncation_of notemin release now start) % W64 ≤ now ∧
    stop_truncation now start = stop_truncation_of notemin_usec releasetime_usec now start := by
  obtain ⟨he, hle⟩ := stop_truncation_of_eq notemin release now start h1 h2
  have hm : (now + W64 - stop_truncation_of notemin release now start) % W64
      = now - stop_truncation_of notemin release now start := by
    generalize stop_truncation_of notemin release now start = tr at hle
    have e : now + W64 - tr = (now - tr) + W64 := by omega
    rw [e, Nat.add_mod_right]
    exact Nat.mod_eq_of_lt (by omega)
  refine ⟨he, hm, ?_, ?_, rfl⟩
  · rw [hm]; omega
  · rw [hm]; omega

/-- Witness of C19: a note of 1000 usec with a minimum of 250 and a release time of 300
is cut by 300 usec; with a release time of 900 it is cut by 750. -/
theorem stop_truncation_spec_witness :
    stop_truncation_of 250 300 5000 4000 = 300 ∧
    stop_truncation_of 250 900 5000 4000 = 750 ∧
    (5000 + W64 - stop_truncation_of 250 300 5000 4000) % W64 = 4700 :=
  ⟨by decide, by decide,
    ((stop_truncation_spec 250 300 5000 4000 (by decide) (by decide)).2.1).trans (by decide)⟩

/-! ## Merge scheduler: the track picked by the scan -/

theorem select_track_exists (s : MIDIFile) (j : Nat) (hj : j < s.num_tracks)
    (hnd : (s.track.getD j default).cmd ≠ CMD_TRACKDONE)
    (ht : (s.track.getD j default).time < 0x7fffffff) :
    ∃ et k, select_track s = .ok (et, k) := by
  have h0 : s.num_tracks ≠ 0 := by omega
  obtain ⟨-, h2, h3⟩ := scan_tracks_spec s s.num_tracks 0 0x7fffffff none (Or.inr rfl)
  have hle := h2 j (by omega) (by omega) hnd
  unfold select_track
  rw [if_neg h0]
  rcases h3 with h3 | ⟨k, hk, -⟩
  · rw [h3] at hle
    simp only at hle
    omega
  · cases hr : scan_tracks s s.num_tracks 0 0x7fffffff none with
    | mk et en =>
      rw [hr] at hk
      simp only at hk
      subst hk
      exact ⟨et, k, rfl⟩

/-- C18 (amended): in every state in which some track among the song's `num_tracks` is
not Done and has a tick time below 0x7fffffff, the selection scan picks a track: one that
is not Done and whose tick time, which is the earliest time reported, is at most the tick
time of every track that is not Done. -/
theorem select_track_earliest (s : MIDIFile) (j : Nat) (hj : j < s.num_tracks)
    (hnd : (s.track.getD j default).cmd ≠ CMD_TRACKDONE)
    (ht : (s.track.getD j default).time < 0x7fffffff) :
    ∃ et k, select_track s = .ok (et, k) ∧ k < s.num_tracks ∧
      (s.track.getD k default).cmd ≠ CMD_TRACKDONE ∧
      (s.track.getD k default).time = et ∧
      ∀ i, i < s.num_tracks → (s.track.getD i default).cmd ≠ CMD_TRACKDONE →
        (s.track.getD k default).time ≤ (s.track.getD i default).time := by
  obtain ⟨et, k, h⟩ := select_track_exists s j hj hnd ht
  obtain ⟨h1, h2, h3, -, h5⟩ := select_track_spec h
  refine ⟨et, k, h, h1, h2, h3, ?_⟩
  rw [h3]
  exact h5

/-- Witness of C18: in `two_pending_state` track 1 at tick 100 is picked before track 0
at tick 200. -/
theorem select_track_earliest_witness :
    select_track two_pending_state = .ok (100, 1) ∧
    ∃ et k, select_track two_pending_state = .ok (et, k) ∧ k < two_pending_state.num_tracks ∧
      (two_pending_state.track.getD k default).cmd ≠ CMD_TRACKDONE ∧
      (two_pending_state.track.getD k default).time = et ∧
      ∀ i, i < two_pending_state.num_tracks →
        (two_pending_state.track.getD i default).cmd ≠ CMD_TRACKDONE →
        (two_pending_state.track.getD k default).time
          ≤ (two_pending_state.track.getD i default).time :=
  ⟨by decide!,
    select_track_earliest two_pending_state 0 (by decide!) (by decide!) (by decide!)⟩

/-- Counterexample to C18 as stated: in the state prepared for `late_note_file` the one
track is not Done, its pending command being the PlayNote at tick 0x8FFFFFF7; the scan
picks no track and leaves `earliest_tracknum` unset. -/
theorem select_track_earliest_counterexample :
    (midi_prepare late_note_file).map
        (fun s => (s.num_tracks, (s.track.getD 0 default).cmd, (s.track.getD 0 default).time,
          select_track s))
      = .ok (1, CMD_PLAYNOTE, 0x8FFFFFF7, .error .uninitialised) := by
  decide!

/-! ## Merge scheduler: termination -/

theorem rd_fault {data : List Nat} {p : Nat} {e : Fault} (h : rd data p = .error e) :
    e = .out_of_bounds := by
  unfold rd at h
  split at h
  · cases h
  · cases h; rfl

theorem get_varlen_loop_fault (data : List Nat) :
    ∀ (n val p : Nat) (e : Fault), get_varlen_loop data n val p = .error e →
      e = .out_of_bounds := by
  intro n
  induction n with
  | zero => intro val p e h; cases h
  | succ n ih =>
    intro val p e h
    unfold get_varlen_loop at h
    split at h
    · next hr => cases h; exact rd_fault hr
    · simp only [] at h
      split_ifs at h
      exact ih _ _ _ h

theorem get_varlen_fault {data : List Nat} {p : Nat} {e : Fault}
    (h : get_varlen data p = .error e) : e = .out_of_bounds :=
  get_varlen_loop_fault data 4 0 p e h

theorem load32_fault {data : List Nat} {p : Nat} {e : Fault}
    (h : load32 data p = .error e) : e = .out_of_bounds := by
  unfold load32 at h
  cases h0 : rd data p with
  | error e0 => rw [h0] at h; cases h; exact rd_fault h0
  | ok b0 =>
    cases h1 : rd data (p + 1) with
    | error e1 => rw [h0, h1] at h; cases h; exact rd_fault h1
    | ok b1 =>
      cases h2 : rd data (p + 2) with
      | error e2 => rw [h0, h1, h2] at h; cases h; exact rd_fault h2
      | ok b2 =>
        cases h3 : rd data (p + 3) with
        | error e3 => rw [h0, h1, h2, h3] at h; cases h; exact rd_fault h3
        | ok b3 => rw [h0, h1, h2, h3] at h; cases h

theorem meta_event_fault {data : List Nat} {t : TrackStatus} {ch : List ChannelStatus}
    {e : Fault} (h : meta_event data t ch = .error e) : e = .out_of_bounds := by
  unfold meta_event at h
  split at h
  · next hr => cases h; exact rd_fault hr
  · split at h
    · next hv => cases h; exact get_varlen_fault hv
    · split_ifs at h
      split at h
      · next ht =>
        cases h
        unfold read_tempo at ht
        split at ht
        · next hl => cases ht; exact load32_fault hl
        · cases ht
      · cases h

theorem channel_dispatch_fault {data : List Nat} {mask event : Nat} {t : TrackStatus}
    {ch : List ChannelStatus} {e : Fault} (h : channel_dispatch data mask event t ch = .error e) :
    e = .out_of_bounds := by
  unfold channel_dispatch at h
  split at h
  · unfold note_off_event at h
    split at h
    · next hr => cases h; exact rd_fault hr
    · split at h
      · next hr => cases h; exact rd_fault hr
      · simp only [] at h
        split_ifs at h
  · unfold note_on_event at h
    split at h
    · next hr => cases h; exact rd_fault hr
    · split at h
      · next hr => cases h; exact rd_fault hr
      · simp only [] at h
        split_ifs at h
  · unfold skip_two at h
    split at h
    · next hr => cases h; exact rd_fault hr
    · split at h
      · next hr => cases h; exact rd_fault hr
      · cases h
  · unfold controller_event at h
    split at h
    · next hr => cases h; exact rd_fault hr
    · split at h
      · next hr => cases h; exact rd_fault hr
      · simp only [] at h
        split_ifs at h
  · unfold program_event at h
    split at h
    · next hr => cases h; exact rd_fault hr
    · cases h
  · unfold skip_one at h
    split at h
    · next hr => cases h; exact rd_fault hr
    · cases h
  · unfold skip_two at h
    split at h
    · next hr => cases h; exact rd_fault hr
    · split at h
      · next hr => cases h; exact rd_fault hr
      · cases h
  · unfold sysex_event at h
    split at h
    · next hv => cases h; exact get_varlen_fault hv
    · cases h
  · cases h

theorem event_pass_fault {data : List Nat} {mask : Nat} {t : TrackStatus}
    {ch : List ChannelStatus} {e : Fault} (h : event_pass data mask t ch = .error e) :
    e = .out_of_bounds := by
  unfold event_pass at h
  split at h
  · next hv => cases h; exact get_varlen_fault hv
  · split at h
    · next hr => cases h; exact rd_fault hr
    · simp only [] at h
      generalize (if _ < 0x80 then t.last_event else _) = event at h
      generalize (if _ < 0x80 then _ else _ + 1) = q at h
      split_ifs at h
      · exact meta_event_fault h
      · exact channel_dispatch_fault h

theorem find_next_loop_fault (data : List Nat) (mask : Nat) :
    ∀ (fuel : Nat) (t : TrackStatus) (ch : List ChannelStatus) (e : Fault),
      t.trkend - t.trkptr ≤ fuel → find_next_loop data mask fuel t ch = .error e →
      e = .out_of_bounds := by
  intro fuel
  induction fuel with
  | zero =>
    intro t ch e hf h
    unfold find_next_loop at h
    split_ifs at h with hlt
    omega
  | succ n ih =>
    intro t ch e hf h
    unfold find_next_loop at h
    split_ifs at h with hlt
    simp only [] at h
    split at h
    · next hp => cases h; exact event_pass_fault hp
    · cases h
    · next t1 ch1 hp =>
      have hc := event_pass_cursor hp
      simp only [Pass.track] at hc
      exact ih t1 ch1 e (by omega) h

theorem midi_find_next_note_fault {s : MIDIFile} {tracknum : Nat} {e : Fault}
    (h : midi_find_next_note s tracknum = .error e) : e = .out_of_bounds := by
  unfold midi_find_next_note at h
  simp only [] at h
  split at h
  · next hl => cases h; exact find_next_loop_fault _ _ _ _ _ _ (Nat.le_refl _) hl
  · split at h <;> cases h

theorem flush_loop_fault :
    ∀ (fuel : Nat) (s : MIDIFile) (e : Fault), ring_ok s → s.queue_numitems ≤ fuel →
      flush_loop fuel s = .error e → e = .assertion 466 ∨ e = .assertion 440 := by
  intro fuel
  induction fuel with
  | zero =>
    intro s e _ hn h
    unfold flush_loop at h
    split_ifs at h with hpos
    omega
  | succ n ih =>
    intro s e hr hn h
    unfold flush_loop at h
    split_ifs at h with hpos
    simp only [] at h
    split at h
    · next hp => cases h; exact pull_queue_fault hp
    · next s1 hp =>
      obtain ⟨hr1, hlt⟩ := pull_queue_ring_ok hp hr hpos
      exact ih s1 e hr1 (by omega) h

theorem queue_cmd_fault {s : MIDIFile} {cmd : Nat} {np : NoteInfo} {e : Fault}
    (hr : ring_ok s) (h : queue_cmd s cmd np = .error e) :
    e = .assertion 466 ∨ e = .assertion 440 := by
  cases hd : (if s.queue_numitems = QUEUE_SIZE then pull_queue s else .ok s) with
  | error e1 =>
    unfold queue_cmd at h
    rw [hd] at h
    cases h
    split_ifs at hd
    exact pull_queue_fault hd
  | ok s2 =>
    obtain ⟨s3, hq, -⟩ := queue_cmd_drain_aux s s2 cmd np hr hd
    rw [hq] at h
    cases h

theorem dispatch_pedal_fault {s : MIDIFile} {tracknum k cmd : Nat} {e : Fault}
    (hr : ring_ok s) (h : dispatch_pedal s tracknum k cmd = .error e) :
    e = .assertion 466 ∨ e = .assertion 440 := by
  unfold dispatch_pedal at h
  simp only [] at h
  split at h
  · next hq =>
    cases h
    have hr1 : ring_ok (if k = 0 then s
        else { s with pedalStatus :=
          s.pedalStatus.set k ((s.track.getD tracknum default).pedalVals.getD k 0) }) := by
      split_ifs
      · exact hr
      · exact hr
    exact queue_cmd_fault hr1 hq
  · cases h

theorem dispatch_fault {s : MIDIFile} {tracknum : Nat} {e : Fault} (hr : ring_ok s)
    (h : dispatch s tracknum = .error e) :
    e = .assertion 466 ∨ e = .assertion 440 ∨ e = .assertion 681 := by
  unfold dispatch at h
  simp only [] at h
  split_ifs at h
  · unfold dispatch_stop at h
    simp only [] at h
    split at h
    · cases h
    · split at h
      · next hq =>
        cases h
        rcases queue_cmd_fault hr hq with h1 | h1
        · exact Or.inl h1
        · exact Or.inr (Or.inl h1)
      · cases h
  · unfold dispatch_play at h
    simp only [] at h
    split at h
    · cases h
    · split at h
      · next hq =>
        cases h
        rcases queue_cmd_fault hr hq with h1 | h1
        · exact Or.inl h1
        · exact Or.inr (Or.inl h1)
      · cases h
  · rcases dispatch_pedal_fault hr h with h1 | h1
    · exact Or.inl h1
    · exact Or.inr (Or.inl h1)
  · rcases dispatch_pedal_fault hr h with h1 | h1
    · exact Or.inl h1
    · exact Or.inr (Or.inl h1)
  · rcases dispatch_pedal_fault hr h with h1 | h1
    · exact Or.inl h1
    · exact Or.inr (Or.inl h1)
  · cases h
    exact Or.inr (Or.inr rfl)

theorem advance_track_fault {s : MIDIFile} {tracknum : Nat} {e : Fault}
    (h : advance_track s tracknum = .error e) :
    e = .out_of_bounds ∨ e = .assertion 598 := by
  unfold advance_track at h
  split at h
  · next hf => cases h; exact Or.inl (midi_find_next_note_fault hf)
  · cases h; exact Or.inr rfl
  · split_ifs at h
    cases h
    exact Or.inr rfl

theorem process_step_fault {s : MIDIFile} {e : Fault} (hr : ring_ok s)
    (h : process_step s = .error e) : e ≠ .no_fuel := by
  unfold process_step at h
  split at h
  · next hsel =>
    cases h
    unfold select_track at hsel
    split_ifs at hsel
    · cases hsel; intro hc; cases hc
    · split at hsel
      · cases hsel
      · cases hsel; intro hc; cases hc
  · next et k hsel =>
    split_ifs at h with hord
    · split at h
      · next hclk =>
        cases h
        unfold advance_clock at hclk
        split_ifs at hclk
        cases hclk
        intro hc; cases hc
      · next sc hclk =>
        obtain ⟨u, hsc⟩ := advance_clock_frame hclk
        have hrc : ring_ok sc := by rw [hsc]; exact hr
        split at h
        · next hd =>
          cases h
          rcases dispatch_fault hrc hd with h1 | h1 | h1 <;> (rw [h1]; intro hc; cases hc)
        · next sd hd =>
          rcases advance_track_fault h with h1 | h1 <;> (rw [h1]; intro hc; cases hc)
    · cases h
      intro hc; cases hc

theorem fuel_left_congr (tr tr1 : List TrackStatus) :
    ∀ n, (∀ i, i < n → tr1.getD i default = tr.getD i default) →
      fuel_left tr1 n = fuel_left tr n := by
  intro n
  induction n with
  | zero => intro _; rfl
  | succ n ih =>
    intro h
    unfold fuel_left
    rw [ih (fun i hi => h i (Nat.lt_succ_of_lt hi)), h n (Nat.lt_succ_self n)]

theorem fuel_left_set_lt (tr : List TrackStatus) (k : Nat) (t1 : TrackStatus)
    (hk : k < tr.length) (hlt : track_fuel t1 < track_fuel (tr.getD k default)) :
    ∀ n, k < n → fuel_left (tr.set k t1) n < fuel_left tr n := by
  intro n
  induction n with
  | zero => intro h; omega
  | succ n ih =>
    intro h
    unfold fuel_left
    by_cases hkn : k = n
    · subst hkn
      have h1 : fuel_left (tr.set k t1) k = fuel_left tr k := by
        apply fuel_left_congr
        intro i hi
        rw [getD_set_eq, if_neg (fun hc => by omega)]
      rw [h1, getD_set_eq, if_pos ⟨rfl, hk⟩]
      omega
    · have h1 := ih (by omega)
      rw [getD_set_eq, if_neg (fun hc => hkn hc.1)]
      omega

theorem fuel_left_le_merge (s : MIDIFile) :
    ∀ n, fuel_left s.track n ≤
      ((List.range n).map fun i =>
        (s.track.getD i default).trkend - (s.track.getD i default).trkptr + 1).sum := by
  intro n
  induction n with
  | zero => exact Nat.le_refl _
  | succ n ih =>
    rw [List.range_succ, List.map_append, List.sum_append]
    unfold fuel_left
    have : track_fuel (s.track.getD n default)
        ≤ (s.track.getD n default).trkend - (s.track.getD n default).trkptr + 1 := by
      unfold track_fuel
      split_ifs
      · exact Nat.zero_le _
      · exact Nat.le_refl _
    simp only [List.map_cons, List.map_nil, List.sum_cons, List.sum_nil, Nat.add_zero]
    omega

theorem fuel_left_lt_merge (s : MIDIFile) : fuel_left s.track s.num_tracks < merge_fuel s := by
  unfold merge_fuel
  exact Nat.lt_succ_of_le (fuel_left_le_merge s s.num_tracks)

theorem done_count_congr (tr tr1 : List TrackStatus) :
    ∀ n, (∀ i, i < n → (tr1.getD i default).cmd = (tr.getD i default).cmd) →
      done_count tr1 n = done_count tr n := by
  intro n
  induction n with
  | zero => intro _; rfl
  | succ n ih =>
    intro h
    unfold done_count
    rw [ih (fun i hi => h i (Nat.lt_succ_of_lt hi)), h n (Nat.lt_succ_self n)]

theorem done_count_set (tr : List TrackStatus) (k : Nat) (t1 : TrackStatus)
    (hk : k < tr.length) (hnd : (tr.getD k default).cmd ≠ CMD_TRACKDONE) :
    ∀ n, k < n → done_count (tr.set k t1) n
      = done_count tr n + (if t1.cmd = CMD_TRACKDONE then 1 else 0) := by
  intro n
  induction n with
  | zero => intro h; omega
  | succ n ih =>
    intro h
    unfold done_count
    by_cases hkn : k = n
    · subst hkn
      have h1 : done_count (tr.set k t1) k = done_count tr k := by
        apply done_count_congr
        intro i hi
        rw [getD_set_eq, if_neg (fun hc => by omega)]
      have hg : (tr.set k t1).getD k default = t1 := by
        rw [getD_set_eq, if_pos ⟨rfl, hk⟩]
      rw [h1, hg, if_neg hnd, Nat.add_zero]
    · have h1 := ih (by omega)
      have hg : (tr.set k t1).getD n default = tr.getD n default := by
        rw [getD_set_eq, if_neg (fun hc => hkn hc.1)]
      rw [hg, h1]
      omega

theorem done_count_le (tr : List TrackStatus) : ∀ n, done_count tr n ≤ n := by
  intro n
  induction n with
  | zero => exact Nat.le_refl _
  | succ n ih =>
    unfold done_count
    split_ifs <;> omega

theorem done_count_all (tr : List TrackStatus) :
    ∀ n, n ≤ done_count tr n → ∀ i, i < n → (tr.getD i default).cmd = CMD_TRACKDONE := by
  intro n
  induction n with
  | zero => intro _ i hi; omega
  | succ n ih =>
    intro h i hi
    unfold done_count at h
    have hle := done_count_le tr n
    by_cases hd : (tr.getD n default).cmd = CMD_TRACKDONE
    · rw [if_pos hd] at h
      by_cases hin : i = n
      · rw [hin]; exact hd
      · exact ih (by omega) i (by omega)
    · rw [if_neg hd] at h
      omega

theorem midi_note_off_tag (mask : Nat) (t : TrackStatus) (chan : Nat) :
    (midi_note_off mask t chan).2 = true → (midi_note_off mask t chan).1.cmd = CMD_STOPNOTE := by
  unfold midi_note_off
  split_ifs
  · intro _; rfl
  · intro h; cases h

theorem channel_dispatch_tagged {data : List Nat} {mask event : Nat} {t : TrackStatus}
    {ch : List ChannelStatus} {p : Pass} (h : channel_dispatch data mask event t ch = .ok p) :
    p.tagged := by
  unfold channel_dispatch at h
  split at h
  · unfold note_off_event at h
    split at h
    · cases h
    · split at h
      · cases h
      · simp only [] at h
        split_ifs at h with hc
        · cases h
          show (midi_note_off mask _ _).1.cmd ≠ CMD_TRACKDONE
          rw [midi_note_off_tag _ _ _ hc]
          decide
        · cases h; trivial
  · unfold note_on_event at h
    split at h
    · cases h
    · split at h
      · cases h
      · simp only [] at h
        split_ifs at h with hc
        · cases h
          show (midi_note_off mask _ _).1.cmd ≠ CMD_TRACKDONE
          rw [midi_note_off_tag _ _ _ hc.2]
          decide
        · cases h
          show CMD_PLAYNOTE ≠ CMD_TRACKDONE
          decide
        · cases h; trivial
  · unfold skip_two at h
    split at h
    · cases h
    · split at h
      · cases h
      · cases h; trivial
  · unfold controller_event at h
    split at h
    · cases h
    · split at h
      · cases h
      · simp only [] at h
        split_ifs at h
        · cases h; show CMD_PED0 ≠ CMD_TRACKDONE; decide
        · cases h; show CMD_PED1 ≠ CMD_TRACKDONE; decide
        · cases h; show CMD_PED2 ≠ CMD_TRACKDONE; decide
        · cases h; trivial
  · unfold program_event at h
    split at h
    · cases h
    · cases h; trivial
  · unfold skip_one at h
    split at h
    · cases h
    · cases h; trivial
  · unfold skip_two at h
    split at h
    · cases h
    · split at h
      · cases h
      · cases h; trivial
  · unfold sysex_event at h
    split at h
    · cases h
    · cases h; trivial
  · cases h; trivial

theorem event_pass_tagged {data : List Nat} {mask : Nat} {t : TrackStatus}
    {ch : List ChannelStatus} {p : Pass} (h : event_pass data mask t ch = .ok p) :
    p.tagged := by
  unfold event_pass at h
  split at h
  · cases h
  · split at h
    · cases h
    · simp only [] at h
      generalize (if _ < 0x80 then t.last_event else _) = event at h
      generalize (if _ < 0x80 then _ else _ + 1) = q at h
      split_ifs at h
      · unfold meta_event at h
        split at h
        · cases h
        · split at h
          · cases h
          · split_ifs at h
            · split at h
              · cases h
              · cases h; show CMD_TEMPO ≠ CMD_TRACKDONE; decide
            · cases h; trivial
      · cases h; trivial
      · exact channel_dispatch_tagged h

theorem find_next_loop_progress (data : List Nat) (mask : Nat) :
    ∀ (fuel : Nat) (t : TrackStatus) (ch : List ChannelStatus) (r : Ret) (t1 : TrackStatus)
      (ch1 : List ChannelStatus),
      find_next_loop data mask fuel t ch = .ok (r, t1, ch1) →
      t1.trkend = t.trkend ∧ t.trkptr ≤ t1.trkptr ∧
      (r = .no_return → t1.cmd = CMD_TRACKDONE) ∧
      (r = .ret_true → t.trkptr < t.trkend ∧ t.trkptr < t1.trkptr ∧
        t1.cmd ≠ CMD_TRACKDONE) := by
  intro fuel
  induction fuel with
  | zero =>
    intro t ch r t1 ch1 h
    unfold find_next_loop at h
    split_ifs at h
    cases h
    exact ⟨rfl, Nat.le_refl _, fun _ => rfl, fun hc => by cases hc⟩
  | succ n ih =>
    intro t ch r t1 ch1 h
    unfold find_next_loop at h
    split_ifs at h with hlt
    · simp only [] at h
      split at h
      · cases h
      · next r0 t3 ch3 hp =>
        cases h
        have hc := event_pass_cursor hp
        have ht := event_pass_tagged hp
        simp only [Pass.track] at hc
        refine ⟨hc.2, Nat.le_of_lt hc.1, ?_, ?_⟩
        · intro hr
          subst hr
          exact absurd ht (fun hf => hf)
        · intro hr
          subst hr
          exact ⟨hlt, hc.1, ht⟩
      · next t3 ch3 hp =>
        have hc := event_pass_cursor hp
        simp only [Pass.track] at hc
        obtain ⟨h1, h2, h3, h4⟩ := ih t3 ch3 r t1 ch1 h
        refine ⟨h1.trans hc.2, by omega, h3, ?_⟩
        intro hr
        obtain ⟨_, h5, h6⟩ := h4 hr
        exact ⟨hlt, by omega, h6⟩
    · cases h
      exact ⟨rfl, Nat.le_refl _, fun _ => rfl, fun hc => by cases hc⟩

theorem midi_find_next_note_shape {s s1 : MIDIFile} {tracknum : Nat} {r : Ret}
    (h : midi_find_next_note s tracknum = .ok (r, s1)) :
    ∃ (t1 : TrackStatus) (ch1 : List ChannelStatus),
      find_next_loop s.data s.channel_mask
          ((s.track.getD tracknum default).trkend - (s.track.getD tracknum default).trkptr)
          (s.track.getD tracknum default) s.channel = .ok (r, t1, ch1) ∧
      s1.track = s.track.set tracknum t1 ∧ s1.num_tracks = s.num_tracks ∧
      s1.tracks_done = (if r = .no_return then s.tracks_done + 1 else s.tracks_done) := by
  unfold midi_find_next_note at h
  simp only at h
  split at h
  · cases h
  · next r0 t1 ch1 hl =>
    refine ⟨t1, ch1, ?_⟩
    split at h
    · cases h; exact ⟨hl, rfl, rfl, rfl⟩
    · next hne =>
      cases h
      refine ⟨hl, rfl, rfl, ?_⟩
      rw [if_neg]
      intro hc
      exact hne (by rw [hc])

theorem process_step_measure {s s1 : MIDIFile} (hinv : merge_inv s)
    (h : process_step s = .ok s1) :
    s1.num_tracks = s.num_tracks ∧
    fuel_left s1.track s1.num_tracks < fuel_left s.track s.num_tracks ∧
    (done_inv s → done_inv s1) := by
  obtain ⟨hlen, hnum, -⟩ := hinv
  unfold process_step at h
  split at h
  · cases h
  · next et k hsel =>
    obtain ⟨hk, hnd, -, -, -⟩ := select_track_spec hsel
    split_ifs at h with hord
    split at h
    · cases h
    · next sc hclk =>
      split at h
      · cases h
      · next sd hd =>
        obtain ⟨u, hsc⟩ := advance_clock_frame hclk
        have hs := dispatch_sched hd
        rw [hsc] at hs
        simp only [sched_fields, Prod.mk.injEq] at hs
        obtain ⟨-, hn, htr, htd, -⟩ := hs
        unfold advance_track at h
        split at h
        · cases h
        · cases h
        · next r s2 hne hf =>
          split_ifs at h
          cases h
          obtain ⟨t1, ch1, hl, h1, h2, h3⟩ := midi_find_next_note_shape hf
          obtain ⟨-, -, p3, p4⟩ := find_next_loop_progress _ _ _ _ _ _ _ _ hl
          rw [htr] at hl h1 p4
          have hklen : k < s.track.length := by omega
          have hfuel : track_fuel t1 < track_fuel (s.track.getD k default) := by
            have e0 : track_fuel (s.track.getD k default)
                = (s.track.getD k default).trkend - (s.track.getD k default).trkptr + 1 := by
              unfold track_fuel
              rw [if_neg hnd]
            rw [e0]
            obtain ⟨q1, -, -, -⟩ := find_next_loop_progress _ _ _ _ _ _ _ _ hl
            cases r with
            | no_return =>
              unfold track_fuel
              rw [if_pos (p3 rfl)]
              omega
            | ret_true =>
              obtain ⟨a1, a2, a3⟩ := p4 rfl
              unfold track_fuel
              rw [if_neg a3, q1]
              omega
            | ret_false => exact absurd rfl hne
          refine ⟨by rw [h2, hn], ?_, ?_⟩
          · rw [h1, h2, hn]
            exact fuel_left_set_lt s.track k t1 hklen hfuel s.num_tracks hk
          · intro hdi
            unfold done_inv at hdi ⊢
            rw [h1, h2, h3, hn, htd, done_count_set s.track k t1 hklen hnd s.num_tracks hk, hdi]
            cases r with
            | no_return => rw [if_pos rfl, if_pos (p3 rfl)]
            | ret_true =>
              obtain ⟨-, -, a3⟩ := p4 rfl
              rw [if_neg (by intro hc; cases hc), if_neg a3, Nat.add_zero]
            | ret_false => exact absurd rfl hne

theorem process_loop_terminates :
    ∀ (fuel : Nat) (s : MIDIFile), merge_inv s → ring_ok s →
      fuel_left s.track s.num_tracks < fuel →
      process_loop fuel s ≠ .error .no_fuel ∧
      ∀ s1, process_loop fuel s = .ok s1 →
        (∃ n, 1 ≤ n ∧ n ≤ fuel ∧ process_steps n s = .ok s1) ∧
        ¬ (s1.tracks_done < s1.num_tracks) ∧ (done_inv s → done_inv s1) ∧ ring_ok s1 := by
  intro fuel
  induction fuel with
  | zero => intro s _ _ h; omega
  | succ n ih =>
    intro s hinv hr hf
    unfold process_loop
    cases hs : process_step s with
    | error e =>
      simp only []
      refine ⟨?_, fun s1 h => by cases h⟩
      intro hc
      cases hc
      exact process_step_fault hr hs rfl
    | ok s2 =>
      simp only []
      obtain ⟨hnum, hlt, hdone⟩ := process_step_measure hinv hs
      have hinv2 := (process_step_inv hinv hs).1
      have hr2 := process_step_ring_ok hr hs
      split_ifs with hc
      · obtain ⟨h1, h2⟩ := ih s2 hinv2 hr2 (by omega)
        refine ⟨h1, ?_⟩
        intro s1 h
        obtain ⟨⟨m, hm1, hm2, hm3⟩, h4, h5, h6⟩ := h2 s1 h
        refine ⟨⟨m + 1, by omega, by omega, ?_⟩, h4, fun hd => h5 (hdone hd), h6⟩
        simp only [process_steps, hs]
        exact hm3
      · refine ⟨fun h => (by cases h), ?_⟩
        intro s1 h
        cases h
        refine ⟨⟨1, Nat.le_refl _, by omega, ?_⟩, hc, hdone, hr2⟩
        simp only [process_steps, hs]

theorem midi_process_track_header_cmds {s s1 : MIDIFile} {tracknum : Nat}
    (h : midi_process_track_header s tracknum = .ok s1) :
    s1.tracks_done = s.tracks_done ∧ s1.track.length = s.track.length ∧
    ∀ i, (s1.track.getD i default).cmd = (s.track.getD i default).cmd := by
  unfold midi_process_track_header at h
  split_ifs at h
  split at h
  · cases h
  · cases h; exact ⟨rfl, rfl, fun _ => rfl⟩
  · split at h
    · cases h
    · simp only [] at h
      split_ifs at h
      cases h
      refine ⟨rfl, by simp only [List.length_set], ?_⟩
      intro i
      show ((s.track.set _ _).getD i default).cmd = _
      rw [getD_set_eq]
      split_ifs with hc
      · rw [hc.1]
      · rfl

theorem position_tracks_done :
    ∀ (count tracknum : Nat) (s s1 : MIDIFile),
      s.tracks_done = done_count s.track tracknum →
      (∀ i, tracknum ≤ i → (s.track.getD i default).cmd ≠ CMD_TRACKDONE) →
      s.track.length = MAX_TRACKS → tracknum + count ≤ MAX_TRACKS →
      position_tracks count tracknum s = .ok s1 →
      s1.tracks_done = done_count s1.track (tracknum + count) := by
  intro count
  induction count with
  | zero =>
    intro tracknum s s1 h1 _ _ _ h
    unfold position_tracks at h
    cases h
    exact h1
  | succ c ih =>
    intro tracknum s s1 h1 h2 h3 h4 h
    unfold position_tracks at h
    simp only [] at h
    split at h
    · cases h
    · next s2 hh =>
      obtain ⟨q1, q2, q3⟩ := midi_process_track_header_cmds hh
      have hcmd : ∀ i, (s2.track.getD i default).cmd = (s.track.getD i default).cmd := by
        intro i
        rw [q3 i]
        show ((s.track.set _ _).getD i default).cmd = _
        rw [getD_set_eq]
        split_ifs with hc
        · rw [hc.1]
        · rfl
      have hlen2 : s2.track.length = MAX_TRACKS := by
        rw [q2]
        show (s.track.set _ _).length = _
        rw [List.length_set]
        exact h3
      split at h
      · cases h
      · cases h
      · next r s3 hne hf =>
        split_ifs at h
        obtain ⟨t1, ch1, hl, e1, e2, e3⟩ := midi_find_next_note_shape hf
        obtain ⟨-, -, p3, p4⟩ := find_next_loop_progress _ _ _ _ _ _ _ _ hl
        have hklen : tracknum < s2.track.length := by omega
        have e : tracknum + (c + 1) = (tracknum + 1) + c := by omega
        rw [e]
        refine ih (tracknum + 1) s3 s1 ?_ ?_ ?_ (by omega) h
        · rw [e1, e3]
          unfold done_count
          have hg : (s2.track.set tracknum t1).getD tracknum default = t1 := by
            rw [getD_set_eq, if_pos ⟨rfl, hklen⟩]
          have hc0 : done_count (s2.track.set tracknum t1) tracknum
              = done_count s.track tracknum := by
            apply done_count_congr
            intro i hi
            rw [getD_set_eq, if_neg (fun hc => by omega)]
            exact hcmd i
          rw [hg, hc0, q1]
          show (if r = .no_return then s.tracks_done + 1 else s.tracks_done) = _
          rw [h1]
          cases r with
          | no_return => rw [if_pos rfl, if_pos (p3 rfl)]
          | ret_true =>
            obtain ⟨-, -, a3⟩ := p4 rfl
            rw [if_neg (by intro hc; cases hc), if_neg a3, Nat.add_zero]
          | ret_false => exact absurd rfl hne
        · intro i hi
          rw [e1, getD_set_eq, if_neg (fun hc => by omega), hcmd i]
          exact h2 i (by omega)
        · rw [e1, List.length_set]
          exact hlen2

theorem midi_prepare_done_inv {data : List Nat} {s : MIDIFile}
    (h : midi_prepare data = .ok s) : done_inv s := by
  unfold midi_prepare midi_prepare_from at h
  split at h
  · cases h
  · next sh hh =>
    obtain ⟨htrack, hnum⟩ := midi_process_file_header_inv hh
    simp only [] at h
    split at h
    · cases h
    · next s2 hp =>
      cases h
      have hz : ∀ i, (sh.track.getD i default).cmd ≠ CMD_TRACKDONE := by
        intro i
        rw [htrack]
        have : (List.replicate MAX_TRACKS ({} : TrackStatus)).getD i default = {} := by
          rw [List.getD_eq_getElem?_getD]
          by_cases hi : i < MAX_TRACKS
          · simp [List.getElem?_replicate, hi]
          · simp [List.getElem?_replicate, hi]; rfl
        rw [this]
        decide
      have hn2 := (position_tracks_inv _ _ _ _
        (by
          refine ⟨?_, ?_⟩
          · show sh.track.length = _; rw [htrack]; simp
          · intro i
            show tick_budget (sh.track.getD i default) < W64 ∧
              (0 ≤ i → (sh.track.getD i default).time = 0)
            rw [htrack]
            have : (List.replicate MAX_TRACKS ({} : TrackStatus)).getD i default = {} := by
              rw [List.getD_eq_getElem?_getD]
              by_cases hi : i < MAX_TRACKS
              · simp [List.getElem?_replicate, hi]
              · simp [List.getElem?_replicate, hi]; rfl
            rw [this]
            exact ⟨by decide, fun _ => rfl⟩) hp).2
      have hd := position_tracks_done sh.num_tracks 0
        { sh with tempo := DEFAULT_TEMPO, tracks_done := 0 } s2 rfl
        (fun i _ => hz i) (by show sh.track.length = _; rw [htrack]; simp)
        (by show 0 + sh.num_tracks ≤ MAX_TRACKS; omega) hp
      unfold done_inv
      show s2.tracks_done = done_count s2.track s2.num_tracks
      rw [hd, hn2, Nat.zero_add]

theorem flush_queue_fault {s : MIDIFile} {e : Fault} (hr : ring_ok s)
    (h : flush_queue s = .error e) : e = .assertion 466 ∨ e = .assertion 440 :=
  flush_loop_fault _ s e hr (Nat.le_refl _) h

theorem generate_delay_fault {s : MIDIFile} {d : Nat} {e : Fault}
    (h : generate_delay s d = .error e) : e = .assertion 440 := by
  unfold generate_delay at h
  split_ifs at h
  cases h
  rfl

theorem midi_process_track_data_fault {s : MIDIFile} {e : Fault}
    (hl : ∀ s1, process_loop (merge_fuel s) s = .ok s1 → ring_ok s1)
    (hn : process_loop (merge_fuel s) s ≠ .error .no_fuel)
    (h : midi_process_track_data s = .error e) : e ≠ .no_fuel := by
  unfold midi_process_track_data at h
  split at h
  · next e1 hp =>
    cases h
    intro hc
    rw [hc] at hp
    exact hn hp
  · next s1 hp =>
    split at h
    · next e1 hf =>
      cases h
      rcases flush_queue_fault (hl s1 hp) hf with h | h <;> rw [h] <;> intro hc <;> cases hc
    · split_ifs at h
      · split at h
        · next hg =>
          cases h
          rw [generate_delay_fault hg]
          intro hc
          cases hc
        · cases h
      · cases h
        intro hc
        cases hc

/-- C16 (amended): for every song `s0` whose tracks `midi_binarize` has positioned on
their first event, the merge loop of `midi_process_track_data` makes at most
`merge_fuel s0` passes (the bytes left in the tracks, plus one pass per track, plus one):
with that many passes allowed, or more, the loop never runs out of passes.  It ends
either in an abort (an error other than `no_fuel`: a failed assertion or a faulty read)
or at its exit after at least one and at most `merge_fuel s0` scheduling steps, and then
`tracks_done` is no longer below `num_tracks` and the tag of every track is Done.  Every
call of `midi_find_next_note` in a state the loop reaches ends within the passes its
model allows, as does every scheduling step, the `flush_queue` after the loop, and
`midi_process_track_data` as a whole. -/
theorem merge_loop_terminates (data : List Nat) (s0 : MIDIFile)
    (hprep : midi_prepare data = .ok s0) :
    (∀ fuel, merge_fuel s0 ≤ fuel → process_loop fuel s0 ≠ .error .no_fuel) ∧
    (∀ s1, process_loop (merge_fuel s0) s0 = .ok s1 →
      (∃ n, 1 ≤ n ∧ n ≤ merge_fuel s0 ∧ process_steps n s0 = .ok s1) ∧
      ¬ (s1.tracks_done < s1.num_tracks) ∧
      (∀ i, i < s1.num_tracks → (s1.track.getD i default).cmd = CMD_TRACKDONE) ∧
      flush_queue s1 ≠ .error .no_fuel) ∧
    (∀ n s, process_steps n s0 = .ok s →
      (∀ k, midi_find_next_note s k ≠ .error .no_fuel) ∧
      process_step s ≠ .error .no_fuel) ∧
    midi_process_track_data s0 ≠ .error .no_fuel := by
  have hinv := midi_prepare_inv hprep
  have hr := midi_prepare_ring_ok hprep
  have hd := midi_prepare_done_inv hprep
  have hlt := fuel_left_lt_merge s0
  have main := process_loop_terminates (merge_fuel s0) s0 hinv hr hlt
  refine ⟨?_, ?_, ?_, ?_⟩
  · intro fuel hf
    exact (process_loop_terminates fuel s0 hinv hr (by omega)).1
  · intro s1 h
    obtain ⟨h1, h2, h3, h4⟩ := main.2 s1 h
    refine ⟨h1, h2, ?_, ?_⟩
    · have hd1 := h3 hd
      unfold done_inv at hd1
      exact done_count_all _ _ (by omega)
    · intro hc
      have := flush_queue_fault h4 hc
      rcases this with h | h <;> cases h
  · intro n s hs
    refine ⟨?_, ?_⟩
    · intro k hc
      have := midi_find_next_note_fault hc
      cases this
    · intro hc
      exact process_step_fault (reached_ring_ok hprep hs) hc rfl
  · intro hc
    exact midi_process_track_data_fault (fun s1 h => (main.2 s1 h).2.2.2) main.1 hc rfl

/-- Witness for C16 (amended): the song of `one_note_file`; its merge loop exits with
the one track Done. -/
theorem merge_loop_terminates_witness :
    midi_prepare one_note_file = .ok one_note_prepared ∧
    (process_loop (merge_fuel one_note_prepared) one_note_prepared).map
        (fun s => (s.tracks_done, s.num_tracks, (s.track.getD 0 default).cmd))
      = .ok (1, 1, CMD_TRACKDONE) ∧
    ((∀ fuel, merge_fuel one_note_prepared ≤ fuel →
        process_loop fuel one_note_prepared ≠ .error .no_fuel) ∧
    (∀ s1, process_loop (merge_fuel one_note_prepared) one_note_prepared = .ok s1 →
      (∃ n, 1 ≤ n ∧ n ≤ merge_fuel one_note_prepared ∧
        process_steps n one_note_prepared = .ok s1) ∧
      ¬ (s1.tracks_done < s1.num_tracks) ∧
      (∀ i, i < s1.num_tracks → (s1.track.getD i default).cmd = CMD_TRACKDONE) ∧
      flush_queue s1 ≠ .error .no_fuel) ∧
    (∀ n s, process_steps n one_note_prepared = .ok s →
      (∀ k, midi_find_next_note s k ≠ .error .no_fuel) ∧
      process_step s ≠ .error .no_fuel) ∧
    midi_process_track_data one_note_prepared ≠ .error .no_fuel) :=
  ⟨by decide!, by decide!, merge_loop_terminates one_note_file one_note_prepared (by decide!)⟩

/-- Counterexample to C16 as stated.  In the song of `empty_track_file` the one track is
Done when the merge loop is entered; the body of the `do ... while` loop runs all the
same, the scan picks no track and `earliest_tracknum` is read unset: no scheduling step
is completed and the loop does not reach its exit.  In the song of
`tempo_then_data_file` the first scheduling step handles the tempo change and then
aborts at the assertion on the result of `midi_find_next_note` (line 598), the track
not being Done. -/
theorem merge_loop_terminates_counterexample :
    (midi_prepare empty_track_file).map
        (fun s => (s.num_tracks, s.tracks_done, (s.track.getD 0 default).cmd,
          process_loop (merge_fuel s) s))
      = .ok (1, 1, CMD_TRACKDONE, .error .uninitialised) ∧
    midi_binarize empty_track_file = .error .uninitialised ∧
    (midi_prepare tempo_then_data_file).map
        (fun s => (s.num_tracks, s.tracks_done, (s.track.getD 0 default).cmd,
          process_loop (merge_fuel s) s))
      = .ok (1, 0, CMD_TEMPO, .error (.assertion 598)) ∧
    midi_binarize tempo_then_data_file = .error (.assertion 598) := by
  refine ⟨by decide!, by decide!, by decide!, by decide!⟩

/-! ## Track event decoder: the set-tempo event -/

theorem rd_lt {data : List Nat} {p b : Nat} (h : rd data p = .ok b) : b < 256 := by
  unfold rd at h
  split at h
  · cases h
    exact Nat.mod_lt _ (by decide)
  · cases h

theorem rev_short_eq (v : Nat) : rev_short v = (v % 256 * 256 + v / 256 % 256) % 65536 := by
  unfold rev_short
  have h1 : v &&& 0xff = v % 256 := Nat.and_pow_two_sub_one_eq_mod v 8
  have h2 : (v >>> 8) &&& 0xff = v / 256 % 256 := by
    rw [Nat.shiftRight_eq_div_pow]
    exact Nat.and_pow_two_sub_one_eq_mod _ 8
  have h3 : v / 256 % 256 < 2 ^ 8 := Nat.mod_lt _ (by decide)
  rw [h1, h2, Nat.shiftLeft_eq, Nat.mul_comm, ← Nat.mul_add_lt_is_or h3]

theorem rev_long_eq (w : Nat) :
    rev_long w = (rev_short (w % 65536) * 65536 + rev_short (w / 65536 % 65536)) % W32 := by
  unfold rev_long
  have hs : ∀ x, rev_short x < 2 ^ 16 := by
    intro x
    unfold rev_short
    exact Nat.mod_lt _ (by decide)
  have h1 : ∀ x, rev_short x &&& 0xffff = rev_short x := by
    intro x
    have := Nat.and_pow_two_sub_one_eq_mod (rev_short x) 16
    rw [Nat.mod_eq_of_lt (hs x)] at this
    exact this
  rw [h1, h1, Nat.shiftRight_eq_div_pow, Nat.shiftLeft_eq, Nat.mul_comm,
    ← Nat.mul_add_lt_is_or (hs _)]

theorem swap_bytes (lo hi : Nat) (h1 : lo < 256) (h2 : hi < 256) :
    ((lo + hi * 256) % 256 * 256 + (lo + hi * 256) / 256 % 256) % 65536 = lo * 256 + hi := by
  have a1 : (lo + hi * 256) % 256 = lo := by omega
  have a2 : (lo + hi * 256) / 256 = hi := by omega
  rw [a1, a2]
  omega

theorem read_tempo_eq {data : List Nat} {p c b0 b1 b2 : Nat} (hp : 0 < p)
    (hc : rd data (p - 1) = .ok c) (h0 : rd data p = .ok b0)
    (h1 : rd data (p + 1) = .ok b1) (h2 : rd data (p + 2) = .ok b2) :
    read_tempo data p = .ok (b0 * 65536 + b1 * 256 + b2) := by
  have e1 : p - 1 + 1 = p := by omega
  have e2 : p - 1 + 2 = p + 1 := by omega
  have e3 : p - 1 + 3 = p + 2 := by omega
  have l : load32 data (p - 1) = .ok (c + b0 * 256 + b1 * 65536 + b2 * 16777216) := by
    unfold load32
    rw [e1, e2, e3, hc, h0, h1, h2]
    rfl
  have hcl := rd_lt hc
  have h0l := rd_lt h0
  have h1l := rd_lt h1
  have h2l := rd_lt h2
  unfold read_tempo
  rw [l]
  simp only []
  have hm : ∀ x, x &&& 0xffffff = x % 16777216 := fun x => Nat.and_pow_two_sub_one_eq_mod x 24
  rw [hm, rev_long_eq, rev_short_eq, rev_short_eq]
  have w1 : (c + b0 * 256 + b1 * 65536 + b2 * 16777216) % 65536 = c + b0 * 256 := by omega
  have w2 : (c + b0 * 256 + b1 * 65536 + b2 * 16777216) / 65536 % 65536 = b1 + b2 * 256 := by
    omega
  rw [w1, w2]
  rw [swap_bytes c b0 hcl h0l, swap_bytes b1 b2 h1l h2l]
  congr 1
  show ((c * 256 + b0) * 65536 + (b1 * 256 + b2)) % 4294967296 % 16777216 = _
  omega

theorem get_varlen_loop_last (data : List Nat) :
    ∀ (n val p v q : Nat), 0 < n → get_varlen_loop data n val p = .ok (v, q) →
      0 < q ∧ ∃ c, rd data (q - 1) = .ok c := by
  intro n
  induction n with
  | zero => intro val p v q h0; omega
  | succ n ih =>
    intro val p v q _ h
    unfold get_varlen_loop at h
    split at h
    · cases h
    · next b hb =>
      simp only [] at h
      split_ifs at h
      · cases h
        exact ⟨by omega, b, by rw [Nat.add_sub_cancel]; exact hb⟩
      · cases n with
        | zero =>
          unfold get_varlen_loop at h
          cases h
          exact ⟨by omega, b, by rw [Nat.add_sub_cancel]; exact hb⟩
        | succ m => exact ih _ _ _ _ (by omega) h

theorem get_varlen_last {data : List Nat} {p v q : Nat}
    (h : get_varlen data p = .ok (v, q)) : 0 < q ∧ ∃ c, rd data (q - 1) = .ok c :=
  get_varlen_loop_last data 4 0 p v q (by decide) h

theorem event_pass_tempo (data : List Nat) (mask : Nat) (t : TrackStatus)
    (ch : List ChannelStatus) (delta p len q b0 b1 b2 : Nat)
    (hv : get_varlen data t.trkptr = .ok (delta, p))
    (h1 : rd data p = .ok 0xFF) (h2 : rd data (p + 1) = .ok 0x51)
    (hl : get_varlen data (p + 2) = .ok (len, q))
    (hb0 : rd data q = .ok b0) (hb1 : rd data (q + 1) = .ok b1)
    (hb2 : rd data (q + 2) = .ok b2) :
    event_pass data mask t ch
      = .ok (.returned .ret_true
          { t with trkptr := q + len, time := (t.time + delta) % W64, cmd := CMD_TEMPO,
                   tempo := b0 * 65536 + b1 * 256 + b2 } ch) := by
  obtain ⟨hq, c, hc⟩ := get_varlen_last hl
  have ht := read_tempo_eq hq hc hb0 hb1 hb2
  unfold event_pass
  have hn : ¬ ((255 : Nat) < 128) := by decide
  simp only [hv, h1, if_neg hn, if_true]
  unfold meta_event
  simp only [h2, hl, ht, if_true]

/-- C21: when track `tracknum` stands, before its end, at a set-tempo meta event (after
the delta time the bytes `FF 51`, the variable-length meta length `len`, then the bytes
`b0 b1 b2`), `midi_find_next_note` returns `True`; the tag of the track is then Tempo, its
tempo is `b0 * 65536 + b1 * 256 + b2` whatever the length is, its cursor is `len` bytes
after the length field, its time has moved on by the delta time, and nothing else in the
state is touched.  The pass of the decoder over the event gives the same track. -/
theorem midi_find_next_note_tempo (s : MIDIFile) (tracknum delta p len q b0 b1 b2 : Nat)
    (hlt : (s.track.getD tracknum default).trkptr < (s.track.getD tracknum default).trkend)
    (hv : get_varlen s.data (s.track.getD tracknum default).trkptr = .ok (delta, p))
    (h1 : rd s.data p = .ok 0xFF) (h2 : rd s.data (p + 1) = .ok 0x51)
    (hl : get_varlen s.data (p + 2) = .ok (len, q))
    (hb0 : rd s.data q = .ok b0) (hb1 : rd s.data (q + 1) = .ok b1)
    (hb2 : rd s.data (q + 2) = .ok b2) :
    midi_find_next_note s tracknum
      = .ok (.ret_true,
          { s with
              track := s.track.set tracknum
                { s.track.getD tracknum default with
                    trkptr := q + len,
                    time := ((s.track.getD tracknum default).time + delta) % W64,
                    cmd := CMD_TEMPO, tempo := b0 * 65536 + b1 * 256 + b2 } }) ∧
    event_pass s.data s.channel_mask (s.track.getD tracknum default) s.channel
      = .ok (.returned .ret_true
          { s.track.getD tracknum default with
              trkptr := q + len,
              time := ((s.track.getD tracknum default).time + delta) % W64,
              cmd := CMD_TEMPO, tempo := b0 * 65536 + b1 * 256 + b2 } s.channel) ∧
    b0 * 65536 + b1 * 256 + b2 < 16777216 ∧ p + 2 < q := by
  have hp := event_pass_tempo s.data s.channel_mask (s.track.getD tracknum default)
    s.channel delta p len q b0 b1 b2 hv h1 h2 hl hb0 hb1 hb2
  have l0 := rd_lt hb0
  have l1 := rd_lt hb1
  have l2 := rd_lt hb2
  refine ⟨?_, hp, by omega, get_varlen_progress hl⟩
  obtain ⟨n, hn⟩ : ∃ n, (s.track.getD tracknum default).trkend
      - (s.track.getD tracknum default).trkptr = n + 1 :=
    ⟨(s.track.getD tracknum default).trkend - (s.track.getD tracknum default).trkptr - 1,
      by omega⟩
  unfold midi_find_next_note
  simp only [hn]
  unfold find_next_loop
  rw [if_pos hlt]
  simp only [hp]

/-- Witness for C21: the two set-tempo events of `tempo_track`; the second one has the
length 5, its tempo is 0x010203 and the cursor ends at 16, five bytes after the length. -/
theorem midi_find_next_note_tempo_witness :
    (midi_find_next_note (tempo_state 0) 0).map
        (fun r => (r.1, (r.2.track.getD 0 default).cmd, (r.2.track.getD 0 default).tempo,
          (r.2.track.getD 0 default).trkptr))
      = .ok (.ret_true, CMD_TEMPO, 500000, 7) ∧
    (midi_find_next_note (tempo_state 7) 0).map
        (fun r => (r.1, (r.2.track.getD 0 default).cmd, (r.2.track.getD 0 default).tempo,
          (r.2.track.getD 0 default).trkptr))
      = .ok (.ret_true, CMD_TEMPO, 0x010203, 16) ∧
    midi_find_next_note (tempo_state 7) 0
      = .ok (.ret_true,
          { tempo_state 7 with
              track := (tempo_state 7).track.set 0
                { (tempo_state 7).track.getD 0 default with
                    trkptr := 11 + 5,
                    time := (((tempo_state 7).track.getD 0 default).time + 0) % W64,
                    cmd := CMD_TEMPO, tempo := 1 * 65536 + 2 * 256 + 3 } }) :=
  ⟨by decide!, by decide!,
    (midi_find_next_note_tempo (tempo_state 7) 0 0 8 5 11 1 2 3 (by decide!) (by decide!)
      (by decide!) (by decide!) (by decide!) (by decide!) (by decide!) (by decide!)).1⟩

/-! ## Track event decoder: note on with velocity 0 -/

theorem channel_event_note_off (data : List Nat) (mask : Nat) (t : TrackStatus)
    (ch : List ChannelStatus) (n k v : Nat) (hn : n < 16)
    (hk : rd data t.trkptr = .ok k) (hz : rd data (t.trkptr + 1) = .ok v) :
    channel_event data mask (0x80 + n) t ch
      = .ok (if channel_wanted mask n = true then
          .returned .ret_true
            { t with last_event := 0x80 + n, chan := 0, cmd := CMD_STOPNOTE, note := k,
                     volume := v, trkptr := t.trkptr + 2 } ch
        else
          .continues
            { t with last_event := 0x80 + n, chan := n, note := k, volume := v,
                     trkptr := t.trkptr + 2 } ch) := by
  obtain ⟨h1, h2⟩ := status_nibbles 0x80 n hn (by decide)
  unfold channel_event channel_dispatch
  rw [h1, h2, if_pos (by omega)]
  show note_off_event data mask n _ ch = _
  unfold note_off_event midi_note_off
  simp only [hk, hz]
  by_cases hw : channel_wanted mask n = true
  · simp only [if_pos hw, if_true]
  · simp only [if_neg hw]
    rfl

theorem channel_event_note_on_zero (data : List Nat) (mask : Nat) (t : TrackStatus)
    (ch : List ChannelStatus) (n k : Nat) (hn : n < 16)
    (hk : rd data t.trkptr = .ok k) (hz : rd data (t.trkptr + 1) = .ok 0) :
    channel_event data mask (0x90 + n) t ch
      = .ok (if channel_wanted mask n = true then
          .returned .ret_true
            { t with last_event := 0x90 + n, chan := 0, cmd := CMD_STOPNOTE, note := k,
                     volume := 0, trkptr := t.trkptr + 2 } ch
        else
          .continues
            { t with last_event := 0x90 + n, chan := n, note := k, volume := 0,
                     trkptr := t.trkptr + 2 } ch) := by
  obtain ⟨h1, h2⟩ := status_nibbles 0x90 n hn (by decide)
  unfold channel_event channel_dispatch
  rw [h1, h2, if_pos (by omega)]
  show note_on_event data mask n _ ch = _
  unfold note_on_event midi_note_off
  simp only [hk, hz]
  by_cases hw : channel_wanted mask n = true
  · simp only [if_pos hw, true_and, if_true]
  · simp only [if_neg hw]
    rw [if_neg (by intro h; cases h.2)]

theorem channel_wanted_false (mask n : Nat) :
    channel_wanted mask n = false ↔ (n = PERCUSSION_TRACK ∨ (1 <<< n) &&& mask = 0) := by
  unfold channel_wanted
  simp only [Bool.and_eq_false_iff, bne_eq_false_iff_eq, beq_iff_eq]
  tauto

/-- C23: for every channel `n` and note `k`, the pass of the decoder over the note on
`9n k 00` (in the buffer `d9`) and its pass over the note off `8n k 00` (in the buffer
`d8`, at the same place) have the same outcome, the stored running status apart, which is
the status byte of the event.  On a channel that is wanted both return `True` with the tag
StopNote, the channel 0, the note `k`, the volume 0 and the cursor three bytes after the
delta time; on the percussion channel or a channel that the mask excludes both go on with
the next event, the track keeping its tag, and so does the loop of
`midi_find_next_note`. -/
theorem note_on_zero_as_note_off (d9 d8 : List Nat) (mask : Nat) (t : TrackStatus)
    (ch : List ChannelStatus) (n k delta p : Nat) (hn : n < 16)
    (h9 : get_varlen d9 t.trkptr = .ok (delta, p) ∧ rd d9 p = .ok (0x90 + n) ∧
      rd d9 (p + 1) = .ok k ∧ rd d9 (p + 2) = .ok 0)
    (h8 : get_varlen d8 t.trkptr = .ok (delta, p) ∧ rd d8 p = .ok (0x80 + n) ∧
      rd d8 (p + 1) = .ok k ∧ rd d8 (p + 2) = .ok 0) :
    (channel_wanted mask n = true →
      event_pass d9 mask t ch
        = .ok (.returned .ret_true
            { t with time := (t.time + delta) % W64, last_event := 0x90 + n, chan := 0,
                     cmd := CMD_STOPNOTE, note := k, volume := 0, trkptr := p + 3 } ch) ∧
      event_pass d8 mask t ch
        = .ok (.returned .ret_true
            { t with time := (t.time + delta) % W64, last_event := 0x80 + n, chan := 0,
                     cmd := CMD_STOPNOTE, note := k, volume := 0, trkptr := p + 3 } ch)) ∧
    (channel_wanted mask n = false →
      event_pass d9 mask t ch
        = .ok (.continues
            { t with time := (t.time + delta) % W64, last_event := 0x90 + n, chan := n,
                     note := k, volume := 0, trkptr := p + 3 } ch) ∧
      event_pass d8 mask t ch
        = .ok (.continues
            { t with time := (t.time + delta) % W64, last_event := 0x80 + n, chan := n,
                     note := k, volume := 0, trkptr := p + 3 } ch) ∧
      (t.trkptr < t.trkend → ∀ fuel,
        find_next_loop d9 mask (fuel + 1) t ch
          = find_next_loop d9 mask fuel
              { t with time := (t.time + delta) % W64, last_event := 0x90 + n, chan := n,
                       note := k, volume := 0, trkptr := p + 3 } ch ∧
        find_next_loop d8 mask (fuel + 1) t ch
          = find_next_loop d8 mask fuel
              { t with time := (t.time + delta) % W64, last_event := 0x80 + n, chan := n,
                       note := k, volume := 0, trkptr := p + 3 } ch)) ∧
    (channel_wanted mask n = false ↔ (n = PERCUSSION_TRACK ∨ (1 <<< n) &&& mask = 0)) ∧
    event_pass d8 mask t ch
      = (event_pass d9 mask t ch).map (Pass.with_last_event (0x80 + n)) := by
  obtain ⟨h9v, h9s, h9k, h9z⟩ := h9
  obtain ⟨h8v, h8s, h8k, h8z⟩ := h8
  have e9 := event_pass_status d9 mask t ch delta p _ h9v h9s (by omega) (by omega)
  have e8 := event_pass_status d8 mask t ch delta p _ h8v h8s (by omega) (by omega)
  have c9 := channel_event_note_on_zero d9 mask
    { t with trkptr := p + 1, time := (t.time + delta) % W64 } ch n k hn h9k h9z
  have c8 := channel_event_note_off d8 mask
    { t with trkptr := p + 1, time := (t.time + delta) % W64 } ch n k 0 hn h8k h8z
  rw [← e9] at c9
  rw [← e8] at c8
  refine ⟨?_, ?_, channel_wanted_false mask n, ?_⟩
  · intro hw
    rw [c9, c8, if_pos hw, if_pos hw]
    exact ⟨rfl, rfl⟩
  · intro hw
    have hw1 : ¬ channel_wanted mask n = true := by rw [hw]; decide
    rw [if_neg hw1] at c9 c8
    refine ⟨c9, c8, ?_⟩
    intro hlt fuel
    constructor
    · conv_lhs => unfold find_next_loop
      rw [if_pos hlt]
      simp only [c9]
    · conv_lhs => unfold find_next_loop
      rw [if_pos hlt]
      simp only [c8]
  · rw [c9, c8]
    by_cases hw : channel_wanted mask n = true
    · rw [if_pos hw, if_pos hw]; rfl
    · rw [if_neg hw, if_neg hw]; rfl

/-- Witness for C23: the first events of `zero_velocity_track` and `note_off_track`, on
channel 3; and the calls on the two tracks from their second event, which is on the
percussion channel, return the note on of note 0x40 that follows. -/
theorem note_on_zero_as_note_off_witness :
    (event_pass zero_velocity_track 0xffff { trkend := 12 } []
        = .ok (.returned .ret_true
            { trkend := 12, last_event := 0x93, cmd := CMD_STOPNOTE, note := 60,
              trkptr := 4 } []) ∧
      event_pass note_off_track 0xffff { trkend := 12 } []
        = .ok (.returned .ret_true
            { trkend := 12, last_event := 0x83, cmd := CMD_STOPNOTE, note := 60,
              trkptr := 4 } [])) ∧
    (find_next_loop zero_velocity_track 0xffff 8 { trkptr := 4, trkend := 12 } []).map
        (fun r => (r.1, r.2.1.cmd, r.2.1.note, r.2.1.trkptr))
      = .ok (.ret_true, CMD_PLAYNOTE, 0x40, 12) ∧
    (find_next_loop note_off_track 0xffff 8 { trkptr := 4, trkend := 12 } []).map
        (fun r => (r.1, r.2.1.cmd, r.2.1.note, r.2.1.trkptr))
      = .ok (.ret_true, CMD_PLAYNOTE, 0x40, 12) :=
  ⟨(note_on_zero_as_note_off zero_velocity_track note_off_track 0xffff { trkend := 12 } []
      3 60 0 1 (by decide) (by decide!) (by decide!)).1 (by decide!),
    by decide!, by decide!⟩

/-! ## Pedal events: decoder and dispatch -/

theorem channel_event_controller (data : List Nat) (mask : Nat) (t : TrackStatus)
    (ch : List ChannelStatus) (n : Nat) (hn : n < 16) :
    channel_event data mask (0xB0 + n) t ch
      = controller_event data { t with last_event := 0xB0 + n, chan := n } ch := by
  obtain ⟨h1, h2⟩ := status_nibbles 0xB0 n hn (by decide)
  unfold channel_event channel_dispatch
  rw [h1, h2, if_pos (by omega)]

theorem queue_pedal_spec {s s3 : MIDIFile} {k cmd : Nat} {ps : List Nat} {pn1 : NoteInfo}
    (hr : ring_ok s)
    (hq : queue_cmd { s with pedalStatus := ps } cmd
      { s.pedalNote with volume := ps.getD k 0, time_usec := s.timenow_usec }
        = .ok (s3, pn1)) :
    ∃ s2,
      (if s.queue_numitems = QUEUE_SIZE then
          pull_queue { s with pedalStatus := s3.pedalStatus }
        else .ok { s with pedalStatus := s3.pedalStatus }) = .ok s2 ∧
      s3.pedalStatus = ps ∧
      pn1 = { s.pedalNote with volume := s3.pedalStatus.getD k 0,
                               time_usec := max s.timenow_usec (horizon s2) } ∧
      inserted_after_last_le ⟨cmd, pn1⟩ (queue_seq s2) (queue_seq s3) ∧
      s3.queue_numitems = s2.queue_numitems + 1 ∧ horizon s3 = horizon s2 := by
  have hr1 : ring_ok { s with pedalStatus := ps } := hr
  obtain ⟨s2, hd, hnp, hins, hcnt, ho, hdf⟩ := queue_cmd_horizon_aux _ _ _ _ _ hr1 hq
  obtain ⟨-, -, -, -, hps⟩ := queue_cmd_sched hq
  have hps1 : s3.pedalStatus = ps := hps
  refine ⟨s2, ?_, hps1, ?_, hins, hcnt, ?_⟩
  · rw [hps1]
    exact hd
  · rw [hnp, hps1]
  · unfold horizon
    rw [ho, hdf]

theorem dispatch_pedal_spec {s s1 : MIDIFile} {tracknum k cmd : Nat} (hr : ring_ok s)
    (h : dispatch_pedal s tracknum k cmd = .ok s1) :
    ∃ s2,
      (if s.queue_numitems = QUEUE_SIZE then
          pull_queue { s with pedalStatus := s1.pedalStatus }
        else .ok { s with pedalStatus := s1.pedalStatus }) = .ok s2 ∧
      s1.pedalStatus = (if k = 0 then s.pedalStatus
        else s.pedalStatus.set k ((s.track.getD tracknum default).pedalVals.getD k 0)) ∧
      s1.pedalNote = { s.pedalNote with volume := s1.pedalStatus.getD k 0,
                                        time_usec := max s.timenow_usec (horizon s2) } ∧
      inserted_after_last_le ⟨cmd, s1.pedalNote⟩ (queue_seq s2) (queue_seq s1) ∧
      s1.queue_numitems = s2.queue_numitems + 1 ∧ horizon s1 = horizon s2 := by
  unfold dispatch_pedal at h
  simp only [] at h
  split at h
  · cases h
  · next s3 pn1 hq =>
    cases h
    by_cases hk : k = 0
    · rw [if_pos hk] at hq
      rw [if_pos hk]
      have hq1 : queue_cmd { s with pedalStatus := s.pedalStatus } cmd
          { s.pedalNote with volume := s.pedalStatus.getD k 0, time_usec := s.timenow_usec }
            = .ok (s3, pn1) := hq
      obtain ⟨s2, a1, a2, a3, a4, a5, a6⟩ := queue_pedal_spec hr hq1
      exact ⟨s2, a1, a2, a3, a4, a5, a6⟩
    · rw [if_neg hk] at hq
      rw [if_neg hk]
      obtain ⟨s2, a1, a2, a3, a4, a5, a6⟩ := queue_pedal_spec hr hq
      exact ⟨s2, a1, a2, a3, a4, a5, a6⟩

theorem dispatch_pedal_total {s : MIDIFile} {tracknum k cmd : Nat} (hr : ring_ok s)
    (hn : s.queue_numitems < QUEUE_SIZE) : ∃ s1, dispatch_pedal s tracknum k cmd = .ok s1 := by
  have hr1 : ring_ok (if k = 0 then s
      else { s with pedalStatus :=
        s.pedalStatus.set k ((s.track.getD tracknum default).pedalVals.getD k 0) }) := by
    split_ifs
    · exact hr
    · exact hr
  have hn1 : (if k = 0 then s
      else { s with pedalStatus :=
        s.pedalStatus.set k ((s.track.getD tracknum default).pedalVals.getD k 0) }).queue_numitems
        ≠ QUEUE_SIZE := by
    split_ifs
    · exact Nat.ne_of_lt hn
    · exact Nat.ne_of_lt hn
  obtain ⟨s3, hq, -⟩ := queue_cmd_drain_aux _ _ cmd
    { (if k = 0 then s
        else { s with pedalStatus :=
          s.pedalStatus.set k ((s.track.getD tracknum default).pedalVals.getD k 0) }).pedalNote with
      volume := (if k = 0 then s
        else { s with pedalStatus :=
          s.pedalStatus.set k ((s.track.getD tracknum default).pedalVals.getD k 0) }).pedalStatus.getD k 0,
      time_usec := (if k = 0 then s
        else { s with pedalStatus :=
          s.pedalStatus.set k ((s.track.getD tracknum default).pedalVals.getD k 0) }).timenow_usec }
    hr1 (if_neg hn1)
  unfold dispatch_pedal
  simp only [hq]
  exact ⟨_, rfl⟩

theorem dispatch_is_pedal {s : MIDIFile} {tracknum k cmd : Nat}
    (hk : (k = 0 ∧ cmd = CMD_PED0) ∨ (k = 1 ∧ cmd = CMD_PED1) ∨ (k = 2 ∧ cmd = CMD_PED2))
    (hc : (s.track.getD tracknum default).cmd = cmd) :
    dispatch s tracknum = dispatch_pedal s tracknum k cmd := by
  unfold dispatch
  simp only [hc]
  rcases hk with ⟨rfl, rfl⟩ | ⟨rfl, rfl⟩ | ⟨rfl, rfl⟩
  · rw [if_neg (by decide), if_neg (by decide), if_neg (by decide), if_pos rfl]
  · rw [if_neg (by decide), if_neg (by decide), if_neg (by decide), if_neg (by decide),
      if_pos rfl]
  · rw [if_neg (by decide), if_neg (by decide), if_neg (by decide), if_neg (by decide),
      if_neg (by decide), if_pos rfl]

theorem event_pass_controller (data : List Nat) (mask : Nat) (t : TrackStatus)
    (ch : List ChannelStatus) (n c v delta p : Nat) (hn : n < 16)
    (hv : get_varlen data t.trkptr = .ok (delta, p)) (hs : rd data p = .ok (0xB0 + n))
    (hc : rd data (p + 1) = .ok c) (hvv : rd data (p + 2) = .ok v) :
    (c ≠ 64 → c ≠ 66 → c ≠ 67 →
      event_pass data mask t ch
        = .ok (.continues
            { t with time := (t.time + delta) % W64, last_event := 0xB0 + n, chan := n,
                     trkptr := p + 3 } ch)) ∧
    (∀ k cmd,
      (c = 64 ∧ k = 0 ∧ cmd = CMD_PED0) ∨ (c = 66 ∧ k = 1 ∧ cmd = CMD_PED1) ∨
        (c = 67 ∧ k = 2 ∧ cmd = CMD_PED2) →
      event_pass data mask t ch
        = .ok (.returned .ret_true
            { t with time := (t.time + delta) % W64, last_event := 0xB0 + n, chan := n,
                     cmd := cmd, pedalVals := t.pedalVals.set k v, volume := v,
                     trkptr := p + 3 } ch)) := by
  rw [event_pass_status data mask t ch delta p _ hv hs (by omega) (by omega),
    channel_event_controller data mask _ ch n hn]
  unfold controller_event
  simp only [hc, hvv]
  constructor
  · intro h1 h2 h3
    rw [if_neg h1, if_neg h2, if_neg h3]
  · intro k cmd hk
    rcases hk with ⟨rfl, rfl, rfl⟩ | ⟨rfl, rfl, rfl⟩ | ⟨rfl, rfl, rfl⟩
    · rw [if_pos rfl]
    · rw [if_neg (by decide), if_pos rfl]
    · rw [if_neg (by decide), if_neg (by decide), if_pos rfl]

/-- C22 (amended): a controller change `Bn c v` whose controller `c` is none of 64, 66
and 67 is consumed by the decoder, which goes on with the next event.  For `c` = 64, 66 or
67 the decoder returns `True` with the tag Pedal0, Pedal1 or Pedal2 and the value `v`, both
as the track's volume and in `pedalVals`.  When the scheduler dispatches a track `T` so
left, in a state `s` whose ring is well formed, the dispatch succeeds if the queue is not
full, and whenever it succeeds it puts exactly one command of that kind into the queue (of
the state `s2` left by the forced drain, if the queue was full); the time of the command is
`max timenow_usec horizon`, which is `timenow_usec` when the horizon is not ahead of it;
for Pedal1 and Pedal2 the command carries the value `v`. -/
theorem pedal_controller_dispatch (data : List Nat) (mask : Nat) (t : TrackStatus)
    (ch : List ChannelStatus) (n c v delta p : Nat) (hn : n < 16)
    (hpv : t.pedalVals.length = 3)
    (hv : get_varlen data t.trkptr = .ok (delta, p)) (hs : rd data p = .ok (0xB0 + n))
    (hc : rd data (p + 1) = .ok c) (hvv : rd data (p + 2) = .ok v) :
    (c ≠ 64 → c ≠ 66 → c ≠ 67 →
      event_pass data mask t ch
        = .ok (.continues
            { t with time := (t.time + delta) % W64, last_event := 0xB0 + n, chan := n,
                     trkptr := p + 3 } ch)) ∧
    (∀ k cmd T,
      (c = 64 ∧ k = 0 ∧ cmd = CMD_PED0) ∨ (c = 66 ∧ k = 1 ∧ cmd = CMD_PED1) ∨
        (c = 67 ∧ k = 2 ∧ cmd = CMD_PED2) →
      T = { t with time := (t.time + delta) % W64, last_event := 0xB0 + n, chan := n,
                   cmd := cmd, pedalVals := t.pedalVals.set k v, volume := v,
                   trkptr := p + 3 } →
      event_pass data mask t ch = .ok (.returned .ret_true T ch) ∧
      T.pedalVals.getD k 0 = v ∧
      ∀ s tracknum, ring_ok s → s.pedalStatus.length = 3 →
        s.track.getD tracknum default = T →
        (s.queue_numitems < QUEUE_SIZE → ∃ s1, dispatch s tracknum = .ok s1) ∧
        ∀ s1, dispatch s tracknum = .ok s1 →
          ∃ s2,
            (if s.queue_numitems = QUEUE_SIZE then
                pull_queue { s with pedalStatus := s1.pedalStatus }
              else .ok { s with pedalStatus := s1.pedalStatus }) = .ok s2 ∧
            (s.queue_numitems < QUEUE_SIZE →
              queue_seq s2 = queue_seq s ∧ horizon s2 = horizon s) ∧
            inserted_after_last_le ⟨cmd, s1.pedalNote⟩ (queue_seq s2) (queue_seq s1) ∧
            s1.queue_numitems = s2.queue_numitems + 1 ∧
            s1.pedalNote.time_usec = max s.timenow_usec (horizon s2) ∧
            (horizon s2 ≤ s.timenow_usec → s1.pedalNote.time_usec = s.timenow_usec) ∧
            (k ≠ 0 → s1.pedalNote.volume = v) ∧
            s1.timenow_usec = s.timenow_usec) := by
  obtain ⟨hother, hped⟩ := event_pass_controller data mask t ch n c v delta p hn hv hs hc hvv
  refine ⟨hother, ?_⟩
  intro k cmd T hk hT
  have hk3 : k < 3 := by
    rcases hk with ⟨-, rfl, -⟩ | ⟨-, rfl, -⟩ | ⟨-, rfl, -⟩ <;> decide
  have hTv : T.pedalVals.getD k 0 = v := by
    rw [hT]
    show (t.pedalVals.set k v).getD k 0 = v
    rw [getD_set_eq, if_pos ⟨rfl, by omega⟩]
  have hkc : (k = 0 ∧ cmd = CMD_PED0) ∨ (k = 1 ∧ cmd = CMD_PED1) ∨ (k = 2 ∧ cmd = CMD_PED2) := by
    rcases hk with ⟨-, h1, h2⟩ | ⟨-, h1, h2⟩ | ⟨-, h1, h2⟩
    · exact Or.inl ⟨h1, h2⟩
    · exact Or.inr (Or.inl ⟨h1, h2⟩)
    · exact Or.inr (Or.inr ⟨h1, h2⟩)
  refine ⟨by rw [hT]; exact hped k cmd hk, hTv, ?_⟩
  intro s tracknum hr hps htr
  have hcmd : (s.track.getD tracknum default).cmd = cmd := by rw [htr, hT]
  have hdp := dispatch_is_pedal hkc hcmd
  rw [hdp]
  refine ⟨fun hlt => dispatch_pedal_total hr hlt, ?_⟩
  intro s1 hd
  obtain ⟨s2, a1, a2, a3, a4, a5, a6⟩ := dispatch_pedal_spec hr hd
  have hsched := dispatch_sched (by rw [hdp]; exact hd)
  refine ⟨s2, a1, ?_, a4, a5, ?_, ?_, ?_, ?_⟩
  · intro hlt
    rw [if_neg (Nat.ne_of_lt hlt)] at a1
    cases a1
    exact ⟨rfl, rfl⟩
  · rw [a3]
  · intro hle
    rw [a3]
    exact Nat.max_eq_left hle
  · intro hk0
    rw [a3]
    show s1.pedalStatus.getD k 0 = v
    rw [a2, if_neg hk0, getD_set_eq, if_pos ⟨rfl, by omega⟩, htr, hTv]
  · have := congrArg (fun x => x.2.2.2.2.2.1) hsched
    exact this

/-- Witness for C22 (amended): the first event of `pedal_track` sets controller 66 to
100; the decoder leaves track 0 of `pedal_state`, and the dispatch of that track at 5000
usec, the queue being empty, queues one Pedal1 command with the value 100 and the time
5000. -/
theorem pedal_controller_dispatch_witness :
    event_pass pedal_track 0xffff { trkend := 8 } []
      = .ok (.returned .ret_true (pedal_state.track.getD 0 default) []) ∧
    (∃ s1, dispatch pedal_state 0 = .ok s1) ∧
    (dispatch pedal_state 0).map (fun s1 => (queue_seq s1, s1.pedalNote))
      = .ok ([⟨CMD_PED1, { time_usec := 5000, volume := 100 }⟩],
          { time_usec := 5000, volume := 100 }) :=
  ⟨((pedal_controller_dispatch pedal_track 0xffff { trkend := 8 } [] 2 66 100 0 1
      (by decide) (by decide) (by decide!) (by decide!) (by decide!) (by decide!)).2
        1 CMD_PED1 (pedal_state.track.getD 0 default) (Or.inr (Or.inl ⟨rfl, rfl, rfl⟩))
        (by decide!)).1,
    ((((pedal_controller_dispatch pedal_track 0xffff { trkend := 8 } [] 2 66 100 0 1
      (by decide) (by decide) (by decide!) (by decide!) (by decide!) (by decide!)).2
        1 CMD_PED1 (pedal_state.track.getD 0 default) (Or.inr (Or.inl ⟨rfl, rfl, rfl⟩))
        (by decide!)).2.2 pedal_state 0 (by decide!) (by decide!) rfl).1 (by decide!)),
    by decide!⟩

/-- Counterexample to C22 as stated.  In `damper_file` the damper pedal (controller 64) is
set to 127: the decoder surfaces Pedal0 with the value 127, and the step that dispatches
it queues a Pedal0 command with the value 0, which is what the run writes.  In
`pedal_burst_file` the queue holds 100 commands when the 101st controller change is
dispatched at 2083 usec: the forced drain moves the horizon to 2166 usec, and the Pedal1
command is queued with the time 2166, not 2083. -/
theorem pedal_controller_dispatch_counterexample :
    (midi_prepare damper_file).map
        (fun s => ((s.track.getD 0 default).cmd, (s.track.getD 0 default).volume,
          (s.track.getD 0 default).pedalVals))
      = .ok (CMD_PED0, 127, [127, 0, 0]) ∧
    ((midi_prepare damper_file).bind process_step).map (fun s1 => queue_seq s1)
      = .ok [⟨CMD_PED0, { time_usec := 0, volume := 0 }⟩] ∧
    (midi_binarize damper_file).map (fun s => s.output)
      = .ok [.entry ⟨CMD_PED0, { time_usec := 0, volume := 0 }⟩, .byte 0xF0] ∧
    ((midi_prepare pedal_burst_file).bind (process_steps 100)).bind (fun s =>
        (process_step s).map (fun s1 =>
          ([s.queue_numitems, s.timenow_usec, s1.timenow_usec, horizon s1],
            (s.track.getD 0 default).cmd, queue_seq s1)))
      = .ok ([100, 2083, 2083, 2166], CMD_PED1,
          [⟨CMD_PED1, { time_usec := 2166, volume := 64 }⟩]) := by
  refine ⟨by decide!, by decide!, by decide!, by decide!⟩

/-! ## End of the song: the time deficit -/

theorem set_end_results_self (s : MIDIFile) (l : List Bool) (h : s.end_results = l) :
    { s with end_results := l } = s := by
  cases s
  cases h
  rfl

theorem midi_load_end_results (data : List Nat) :
    ({ midi_load data with end_results := List.replicate MAX_TRACKS true } : MIDIFile)
      = midi_load data :=
  set_end_results_self (midi_load data) _ rfl

theorem midi_prepare_eq (data : List Nat) :
    midi_prepare data = midi_prepare_from (midi_load data) := rfl

theorem midi_binarize_from_eq (s0 : MIDIFile) :
    midi_binarize_from s0 = (midi_prepare_from s0).bind midi_process_track_data := by
  unfold midi_binarize_from
  cases midi_prepare_from s0 <;> rfl

/-- A run whose merge loop ends and whose flush leaves the last output time `o` above the
song's time `t` stops at the assertion of line 697. -/
theorem flush_deficit_aborts (p : Except Fault MIDIFile) (a : List Nat) (q : List QEntry)
    (n t o : Nat)
    (h : (p.bind (fun s => process_loop (merge_fuel s) s)).bind
        (fun s1 => (flush_queue s1).map (fun s2 =>
          ([s1.tracks_done, s1.num_tracks, (s1.track.getD 0 default).cmd],
            queue_seq s1,
            [s2.queue_numitems, s2.timenow_usec, s2.output_usec])))
      = .ok (a, q, [n, t, o]))
    (hto : t < o) :
    p.bind midi_process_track_data = .error (.assertion 697) := by
  cases p with
  | error e => cases h
  | ok s =>
    cases hl : process_loop (merge_fuel s) s with
    | error e =>
      simp only [Except.bind, hl] at h
      cases h
    | ok s1 =>
      cases hf : flush_queue s1 with
      | error e =>
        simp only [Except.bind, hl, hf, Except.map] at h
        cases h
      | ok s2 =>
        simp only [Except.bind, hl, hf, Except.map, Except.ok.injEq, Prod.mk.injEq,
          List.cons.injEq] at h
        obtain ⟨-, -, -, ht, ho, -⟩ := h
        have hn : ¬ (s2.timenow_usec ≥ s2.output_usec) := by
          rw [ht, ho]
          exact Nat.not_le.2 hto
        simp only [Except.bind, midi_process_track_data, hl, hf, if_neg hn]

theorem note_burst_passes :
    ((midi_prepare note_burst_file).bind (process_steps 100)).bind (fun s =>
        (process_step s).bind (fun s1 =>
          (select_track s1).bind (fun sel =>
            (advance_clock s1 sel.1).bind (fun sc =>
              (dispatch sc sel.2).bind (fun sd =>
                (midi_find_next_note sd sel.2).map (fun r =>
                  ([s.queue_numitems, s.timenow_usec, s.output_usec, horizon s],
                   [s1.queue_numitems, s1.timenow_usec, s1.output_usec, horizon s1],
                   r.1,
                   [r.2.tracks_done, r.2.queue_numitems, r.2.timenow_usec,
                     r.2.output_usec, horizon r.2],
                   (queue_seq r.2).map (fun e => e.note.time_usec))))))))
      = .ok ([100, 2083, 0, 0], [1, 2083, 2083, 2166], .no_return,
          [1, 2, 2083, 2083, 2166], [2166, 2166]) := by
  decide!

theorem note_burst_flushed :
    ((midi_prepare note_burst_file).bind (fun s => process_loop (merge_fuel s) s)).bind
        (fun s1 => (flush_queue s1).map (fun s2 =>
          ([s1.tracks_done, s1.num_tracks, (s1.track.getD 0 default).cmd],
            queue_seq s1,
            [s2.queue_numitems, s2.timenow_usec, s2.output_usec])))
      = .ok ([1, 1, CMD_TRACKDONE],
          [⟨CMD_PLAYNOTE, { time_usec := 2166, note := 60, volume := 64 }⟩,
           ⟨CMD_STOPNOTE, { time_usec := 2166, note := 60, volume := 64 }⟩],
          [0, 2083, 2166]) := by
  decide!

theorem note_burst_end_false :
    midi_binarize_from
        { midi_load note_burst_file with end_results := List.replicate MAX_TRACKS false }
      = .error (.assertion 598) := by
  decide!

/-- C26: the run on `note_burst_file`.  After 100 passes of the merge loop the queue
holds 100 commands, all with the time 2083 usec, and nothing has been output (first
list).  The 101st command forces a drain, which outputs a delay of 2 ms and leaves the
deficit 83, so the horizon is 2166 usec while the song's time is 2083 usec (second
list).  In pass 102 the last Stop is queued and the call of `midi_find_next_note` finds
the end of the track and leaves without a `return` statement, the track Done, the clock
at 2083 and the last Play and the last Stop in the queue with the time 2166.  The
assertion after the call reads an indeterminate value, and whatever that value is, the
run does not end well.  If it is not `True` the run stops at that assertion.  If it is
`True`, the one case in which every track is Done and the queue is flushed,
`flush_queue` sets `output_usec` to 2166, above `timenow_usec` = 2083, and the assertion
of line 697 fails. -/
theorem end_of_song_deficit :
    ((midi_prepare note_burst_file).bind (process_steps 100)).bind (fun s =>
        (process_step s).bind (fun s1 =>
          (select_track s1).bind (fun sel =>
            (advance_clock s1 sel.1).bind (fun sc =>
              (dispatch sc sel.2).bind (fun sd =>
                (midi_find_next_note sd sel.2).map (fun r =>
                  ([s.queue_numitems, s.timenow_usec, s.output_usec, horizon s],
                   [s1.queue_numitems, s1.timenow_usec, s1.output_usec, horizon s1],
                   r.1,
                   [r.2.tracks_done, r.2.queue_numitems, r.2.timenow_usec,
                     r.2.output_usec, horizon r.2],
                   (queue_seq r.2).map (fun e => e.note.time_usec))))))))
      = .ok ([100, 2083, 0, 0], [1, 2083, 2083, 2166], .no_return,
          [1, 2, 2083, 2083, 2166], [2166, 2166]) ∧
    (∀ b : Bool,
      midi_binarize_from
          { midi_load note_burst_file with end_results := List.replicate MAX_TRACKS b }
        = if b = true then .error (.assertion 697) else .error (.assertion 598)) ∧
    ((midi_prepare note_burst_file).bind (fun s => process_loop (merge_fuel s) s)).bind
        (fun s1 => (flush_queue s1).map (fun s2 =>
          ([s1.tracks_done, s1.num_tracks, (s1.track.getD 0 default).cmd],
            queue_seq s1,
            [s2.queue_numitems, s2.timenow_usec, s2.output_usec])))
      = .ok ([1, 1, CMD_TRACKDONE],
          [⟨CMD_PLAYNOTE, { time_usec := 2166, note := 60, volume := 64 }⟩,
           ⟨CMD_STOPNOTE, { time_usec := 2166, note := 60, volume := 64 }⟩],
          [0, 2083, 2166]) := by
  refine ⟨note_burst_passes, ?_, note_burst_flushed⟩
  intro b
  cases b
  · exact note_burst_end_false
  · rw [midi_load_end_results, if_pos rfl, midi_binarize_from_eq, ← midi_prepare_eq]
    exact flush_deficit_aborts _ _ _ _ _ _ note_burst_flushed (by decide)

/-! ## Output codec: the carried deficit -/

theorem delays_of_append : ∀ (a b : List Out) (x y : List Nat),
    delays_of a = some x → delays_of b = some y → delays_of (a ++ b) = some (x ++ y) := by
  intro a
  induction a using delays_of.induct with
  | case1 =>
    intro b x y ha hb
    simp only [delays_of, Option.some.injEq] at ha
    subst ha
    simpa using hb
  | case2 e rest ih =>
    intro b x y ha hb
    simp only [delays_of] at ha
    simp only [List.cons_append, delays_of]
    exact ih b x y ha hb
  | case3 hi lo rest ih =>
    intro b x y ha hb
    simp only [delays_of, Option.map_eq_some'] at ha
    obtain ⟨l, hl, rfl⟩ := ha
    have h := ih b l y hl hb
    show (delays_of (rest ++ b)).map (fun l => (hi * 256 + lo) :: l) = _
    rw [h]
    rfl
  | case4 b0 t hne =>
    intro b x y ha hb
    exfalso
    cases t with
    | nil => simp [delays_of] at ha
    | cons z r =>
      cases z with
      | byte lo => exact hne lo r rfl
      | entry e => simp [delays_of] at ha

theorem delays_of_entries : ∀ es : List QEntry, delays_of (es.map Out.entry) = some [] := by
  intro es
  induction es with
  | nil => rfl
  | cons e r ih => simp only [List.map_cons, delays_of]; exact ih

theorem delays_of_delay_record (d : Nat) (h : d ≤ 0x7FFF) :
    ∃ ds, delays_of (delay_record d) = some ds ∧ ds.sum = d := by
  unfold delay_record
  split_ifs with hd
  · refine ⟨[d], ?_, by simp⟩
    simp only [delays_of, Option.map_some']
    rw [shr8, and255]
    congr 2
    omega
  · exact ⟨[], rfl, by simp; omega⟩

theorem pull_queue_asserted {s s1 : MIDIFile} (h : pull_queue s = .ok s1) :
    s.output_usec ≤ oldest_time s := by
  by_contra hc
  unfold pull_queue pull_prelude at h
  simp only [] at h
  rw [if_neg (by omega)] at h
  cases h

theorem pull_queue_drain_inv {o0 : List Out} {s s1 : MIDIFile} (hr : ring_ok s)
    (hn : 0 < s.queue_numitems) (ht : times_fit s) (hinv : drain_inv o0 s)
    (h : pull_queue s = .ok s1) : drain_inv o0 s1 ∧ times_fit s1 ∧ ring_ok s1 := by
  obtain ⟨k, s3, hk1, hk2, -, hseq, -, -, hhead, -, -⟩ := pull_queue_removes_aux s s1 hr hn h
  have hold : oldest_time s < W32 := by
    have hmem : s.queue.getD s.queue_oldest_ndx default ∈ queue_seq s := by
      cases hq : queue_seq s with
      | nil => rw [hq] at hhead; cases hhead
      | cons a l =>
        rw [hq] at hhead
        simp only [List.head?_cons, Option.some.injEq] at hhead
        rw [← hhead]
        exact List.mem_cons_self _ _
    exact ht _ hmem
  have hle := pull_queue_asserted h
  obtain ⟨hdef, out, ds, hout, hds, hsum⟩ := hinv
  obtain ⟨hgood, hbad⟩ := pull_queue_delay_aux s hle hold (by simp only [W32]; omega)
  have hd : drain_delta_usec s / 1000 ≤ 0x7FFF := by
    by_contra hc
    rw [hbad (by omega)] at h
    cases h
  obtain ⟨s1b, es, hp, h1, h2, -, h4⟩ := hgood hd
  rw [hp] at h
  cases h
  obtain ⟨dr, hdr, hdrs⟩ := delays_of_delay_record _ hd
  refine ⟨⟨?_, out ++ delay_record (drain_delta_usec s / 1000) ++ es.map Out.entry,
    ds ++ dr ++ [], ?_, ?_, ?_⟩, ?_, (pull_queue_ring_ok hp hr hn).1⟩
  · rw [h1]
    exact Nat.mod_lt _ (by decide)
  · rw [h4, hout]
    simp only [List.append_assoc]
  · exact delays_of_append _ _ _ _ (delays_of_append _ _ _ _ hds hdr) (delays_of_entries es)
  · rw [h1, h2]
    simp only [List.append_nil, List.sum_append, hdrs]
    unfold drain_delta_usec at *
    omega
  · intro e he
    rw [hseq] at he
    exact ht e (List.mem_of_mem_drop he)

theorem queue_cmd_drain_inv {o0 : List Out} {s s1 : MIDIFile} {cmd : Nat} {np np1 : NoteInfo}
    (hr : ring_ok s) (ht : times_fit s) (hinv : drain_inv o0 s) (hnp : np.time_usec < W32)
    (h : queue_cmd s cmd np = .ok (s1, np1)) : drain_inv o0 s1 ∧ times_fit s1 := by
  cases hd : (if s.queue_numitems = QUEUE_SIZE then pull_queue s else .ok s) with
  | error e =>
    unfold queue_cmd at h
    rw [hd] at h
    cases h
  | ok s2 =>
    obtain ⟨s3, hq, -, ⟨q, o, nw, hs3⟩, a, b, hab, hab1, -, -⟩ :=
      queue_cmd_drain_aux s s2 cmd np hr hd
    rw [hq] at h
    cases h
    have h2 : drain_inv o0 s2 ∧ times_fit s2 := by
      split_ifs at hd with hfull
      · obtain ⟨i1, i2, -⟩ := pull_queue_drain_inv hr
          (by rw [hfull]; decide) ht hinv hd
        exact ⟨i1, i2⟩
      · cases hd
        exact ⟨hinv, ht⟩
    refine ⟨?_, ?_⟩
    · rw [hs3]
      exact h2.1
    · intro e he
      rw [hab1] at he
      rcases List.mem_append.1 he with h1 | h1
      · exact h2.2 e (by rw [hab]; exact List.mem_append_left _ h1)
      · rcases List.mem_cons.1 h1 with h3 | h3
        · rw [h3, clamp_note_eq]
          show max np.time_usec (horizon s2) < W32
          have : horizon s2 < W32 := Nat.mod_lt _ (by decide)
          exact max_lt hnp this
        · exact h2.2 e (by rw [hab]; exact List.mem_append_right _ h3)

theorem queue_ops_drain_inv (o0 : List Out) :
    ∀ (ops : List QOp) (s0 s : MIDIFile), ring_ok s0 → times_fit s0 → drain_inv o0 s0 →
      (∀ cmd np, QOp.insert cmd np ∈ ops → np.time_usec < W32) →
      queue_ops ops s0 = .ok s → drain_inv o0 s ∧ times_fit s := by
  intro ops
  induction ops with
  | nil =>
    intro s0 s _ ht hinv _ h
    simp only [queue_ops] at h
    cases h
    exact ⟨hinv, ht⟩
  | cons op rest ih =>
    intro s0 s hr ht hinv hops h
    cases hop : queue_op s0 op with
    | error e =>
      simp only [queue_ops, hop] at h
      cases h
    | ok s1 =>
      simp only [queue_ops, hop] at h
      have hr1 : ring_ok s1 := queue_ops_ring_ok [op] s0 s1 hr (by simp only [queue_ops, hop])
      have hrest : ∀ cmd np, QOp.insert cmd np ∈ rest → np.time_usec < W32 :=
        fun cmd np hm => hops cmd np (List.mem_cons_of_mem _ hm)
      have h1 : drain_inv o0 s1 ∧ times_fit s1 := by
        cases op with
        | insert cmd np =>
          simp only [queue_op] at hop
          split at hop
          · cases hop
          · next s2 np1 hq =>
            cases hop
            exact queue_cmd_drain_inv hr ht hinv (hops cmd np (List.mem_cons_self _ _)) hq
        | drain =>
          simp only [queue_op] at hop
          split_ifs at hop with hpos
          · obtain ⟨i1, i2, -⟩ := pull_queue_drain_inv hr hpos ht hinv hop
            exact ⟨i1, i2⟩
          · cases hop
            exact ⟨hinv, ht⟩
      exact ih s1 s hr1 h1.2 h1.1 hrest h

/-- C25: let `s0` be a state with a well-formed ring, the last output time 0 and the
deficit 0, whose queue entries all have times below `2^32`.  In every state `s` reached
from it by drains (passes of the loop of `flush_queue`) and by insertions of commands with
times below `2^32`, the deficit is below 1000 usec, and the output written since `s0` is
delay records and queue entries such that 1000 times the sum of the delays, plus the
deficit, is the last output time.  The order of the entries plays no part. -/
theorem drain_deficit_bounded (s0 s : MIDIFile) (ops : List QOp) (hr : ring_ok s0)
    (h0 : s0.output_usec = 0 ∧ s0.output_deficit_usec = 0)
    (hq : ∀ e ∈ queue_seq s0, e.note.time_usec < W32)
    (hops : ∀ cmd np, QOp.insert cmd np ∈ ops → np.time_usec < W32)
    (hrun : queue_ops ops s0 = .ok s) :
    s.output_deficit_usec < 1000 ∧
    ∃ out ds, s.output = s0.output ++ out ∧ delays_of out = some ds ∧
      1000 * ds.sum + s.output_deficit_usec = s.output_usec := by
  have hinv0 : drain_inv s0.output s0 := by
    refine ⟨by rw [h0.2]; decide, [], [], by simp, rfl, ?_⟩
    rw [h0.1, h0.2]
    rfl
  exact (queue_ops_drain_inv s0.output ops s0 s hr hq hinv0 hops hrun).1

/-- Witness for C25: three drains of `queue_state 0 0 [0, 1500, 3200]`; the delays are 1
ms and 2 ms, the deficit is 200 and the last output time 3200. -/
theorem drain_deficit_bounded_witness :
    queue_ops [.drain, .drain, .drain] (queue_state 0 0 [0, 1500, 3200]) = .ok drained_state ∧
    delays_of drained_state.output = some [1, 2] ∧
    (drained_state.output_deficit_usec < 1000 ∧
      ∃ out ds, drained_state.output = (queue_state 0 0 [0, 1500, 3200]).output ++ out ∧
        delays_of out = some ds ∧
        1000 * ds.sum + drained_state.output_deficit_usec = drained_state.output_usec) :=
  ⟨by decide!, by decide!,
    drain_deficit_bounded (queue_state 0 0 [0, 1500, 3200]) drained_state
      [.drain, .drain, .drain] (by decide!) (by decide!) (by decide!)
      (by intro cmd np h; simp at h) (by decide!)⟩

/-! ## Merge scheduler: the clock update -/

theorem read_tempo_lt {data : List Nat} {p w : Nat} (h : read_tempo data p = .ok w) :
    w < 16777216 := by
  unfold read_tempo at h
  split at h
  · cases h
  · cases h
    exact Nat.lt_of_le_of_lt Nat.and_le_right (by decide)

theorem channel_dispatch_tempo_eq {data : List Nat} {mask event : Nat} {t : TrackStatus}
    {ch : List ChannelStatus} {p : Pass} (h : channel_dispatch data mask event t ch = .ok p) :
    p.track.tempo = t.tempo := by
  unfold channel_dispatch at h
  split at h
  · unfold note_off_event at h
    split at h
    · cases h
    · split at h
      · cases h
      · simp only [midi_note_off] at h
        split_ifs at h <;> (cases h; rfl)
  · unfold note_on_event at h
    split at h
    · cases h
    · split at h
      · cases h
      · simp only [midi_note_off] at h
        split_ifs at h <;> (cases h; rfl)
  · unfold skip_two at h
    split at h
    · cases h
    · split at h
      · cases h
      · cases h; rfl
  · unfold controller_event at h
    split at h
    · cases h
    · split at h
      · cases h
      · simp only [] at h
        split_ifs at h <;> (cases h; rfl)
  · unfold program_event at h
    split at h
    · cases h
    · cases h; rfl
  · unfold skip_one at h
    split at h
    · cases h
    · cases h; rfl
  · unfold skip_two at h
    split at h
    · cases h
    · split at h
      · cases h
      · cases h; rfl
  · unfold sysex_event at h
    split at h
    · cases h
    · cases h; rfl
  · cases h; rfl

theorem meta_event_tempo_lt {data : List Nat} {t : TrackStatus}
    {ch : List ChannelStatus} {p : Pass} (h : meta_event data t ch = .ok p)
    (ht : t.tempo < 16777216) : p.track.tempo < 16777216 := by
  unfold meta_event at h
  split at h
  · cases h
  · split at h
    · cases h
    · split_ifs at h
      · split at h
        · cases h
        · next w hw => cases h; exact read_tempo_lt hw
      · cases h; exact ht

theorem event_pass_tempo_lt {data : List Nat} {mask : Nat} {t : TrackStatus}
    {ch : List ChannelStatus} {p : Pass} (h : event_pass data mask t ch = .ok p)
    (ht : t.tempo < 16777216) : p.track.tempo < 16777216 := by
  unfold event_pass at h
  split at h
  · cases h
  · split at h
    · cases h
    · simp only [] at h
      split_ifs at h
      all_goals
        first
        | exact meta_event_tempo_lt h ht
        | (cases h; exact ht)
        | (unfold channel_event at h
           rw [channel_dispatch_tempo_eq h]
           exact ht)

theorem find_next_loop_tempo_lt (data : List Nat) (mask : Nat) :
    ∀ (fuel : Nat) (t : TrackStatus) (ch : List ChannelStatus) (r : Ret) (t1 : TrackStatus)
      (ch1 : List ChannelStatus),
      find_next_loop data mask fuel t ch = .ok (r, t1, ch1) → t.tempo < 16777216 →
      t1.tempo < 16777216 := by
  intro fuel
  induction fuel with
  | zero =>
    intro t ch r t1 ch1 h ht
    unfold find_next_loop at h
    split_ifs at h
    cases h
    exact ht
  | succ n ih =>
    intro t ch r t1 ch1 h ht
    unfold find_next_loop at h
    split_ifs at h with hlt
    · simp only [] at h
      split at h
      · cases h
      · next r' t' ch' hp =>
        cases h
        exact event_pass_tempo_lt hp ht
      · next t' ch' hp =>
        exact ih t' ch' r t1 ch1 h (event_pass_tempo_lt hp ht)
    · cases h
      exact ht

theorem track_tempo_set {tr : List TrackStatus} {k : Nat} {t1 : TrackStatus}
    (h : ∀ i, (tr.getD i default).tempo < 16777216) (h1 : t1.tempo < 16777216) :
    ∀ i, ((tr.set k t1).getD i default).tempo < 16777216 := by
  intro i
  rw [getD_set_eq]
  split_ifs
  · exact h1
  · exact h i

theorem dispatch_tempo {s s1 : MIDIFile} {tracknum : Nat} (h : dispatch s tracknum = .ok s1) :
    s1.tempo = (if (s.track.getD tracknum default).cmd = CMD_TEMPO
      then (s.track.getD tracknum default).tempo else s.tempo) := by
  unfold dispatch at h
  simp only [] at h
  split_ifs at h with h1 h2
  · cases h
    rw [if_pos h1]
  · cases h
    rw [if_pos h1]
    exact not_not.1 h2
  · rw [if_neg h1]
    unfold dispatch_stop at h
    simp only [] at h
    split at h
    · cases h; rfl
    · split at h
      · cases h
      · next hq => cases h; exact (queue_cmd_sched hq).2.2.1
  · rw [if_neg h1]
    unfold dispatch_play at h
    simp only [] at h
    split at h
    · cases h; rfl
    · split at h
      · cases h
      · next hq => cases h; exact (queue_cmd_sched hq).2.2.1
  all_goals
    rw [if_neg h1]
    unfold dispatch_pedal at h
    simp only [] at h
    split at h
    · cases h
    · next hq =>
      cases h
      have := (queue_cmd_sched hq).2.2.1
      rw [this]
      split_ifs <;> rfl

theorem advance_clock_exact {s : MIDIFile} {et : Nat} (hinv : clock_inv s)
    (h1 : s.timenow_ticks ≤ et) (h2 : et < 0x7fffffff) (h3 : 0 < s.ticks_per_beat) :
    advance_clock s et
      = .ok { s with timenow_ticks := et,
                     timenow_usec := s.timenow_usec
                       + (et - s.timenow_usec_updated) * s.tempo / s.ticks_per_beat,
                     timenow_usec_updated := et } ∧
    s.timenow_usec + (et - s.timenow_usec_updated) * s.tempo / s.ticks_per_beat
      ≤ et * 16777216 := by
  obtain ⟨hu, -, htempo, -, husec⟩ := hinv
  have hd : (et + W64 - s.timenow_usec_updated) % W64 = et - s.timenow_usec_updated := by
    simp only [W64]
    omega
  have hx : (et - s.timenow_usec_updated) * s.tempo
      ≤ (et - s.timenow_usec_updated) * 16777216 :=
    Nat.mul_le_mul_left _ (Nat.le_of_lt htempo)
  have hq : (et - s.timenow_usec_updated) * s.tempo / s.ticks_per_beat
      ≤ (et - s.timenow_usec_updated) * s.tempo := Nat.div_le_self _ _
  have hm : ((et - s.timenow_usec_updated) * s.tempo) % W64
      = (et - s.timenow_usec_updated) * s.tempo := by
    apply Nat.mod_eq_of_lt
    simp only [W64]
    omega
  have hb : s.timenow_usec + (et - s.timenow_usec_updated) * s.tempo / s.ticks_per_beat
      ≤ et * 16777216 := by omega
  have hs : (s.timenow_usec + (et - s.timenow_usec_updated) * s.tempo / s.ticks_per_beat) % W64
      = s.timenow_usec + (et - s.timenow_usec_updated) * s.tempo / s.ticks_per_beat := by
    apply Nat.mod_eq_of_lt
    simp only [W64]
    omega
  refine ⟨?_, hb⟩
  unfold advance_clock
  rw [if_neg (by omega)]
  simp only [hd, hm, hs]

theorem advance_clock_beat {s sc : MIDIFile} {et : Nat} (h : advance_clock s et = .ok sc) :
    0 < s.ticks_per_beat := by
  unfold advance_clock at h
  split_ifs at h with h0
  omega

theorem process_step_clock {s s1 : MIDIFile} (hinv : clock_inv s)
    (h : process_step s = .ok s1) :
    clock_inv s1 ∧
    ∃ et k, select_track s = .ok (et, k) ∧ s.timenow_usec_updated ≤ et ∧
      0 < s.ticks_per_beat ∧
      s1.timenow_usec = s.timenow_usec
        + (et - s.timenow_usec_updated) * s.tempo / s.ticks_per_beat ∧
      s1.timenow_usec_updated = et ∧ s1.timenow_ticks = et ∧
      s1.tempo = (if (s.track.getD k default).cmd = CMD_TEMPO
        then (s.track.getD k default).tempo else s.tempo) ∧
      s1.ticks_per_beat = s.ticks_per_beat := by
  unfold process_step at h
  split at h
  · cases h
  · next et k hsel =>
    split_ifs at h with hord
    split at h
    · cases h
    · next sc hclk =>
      split at h
      · cases h
      · next sd hd =>
        obtain ⟨-, -, -, het, -⟩ := select_track_spec hsel
        have hbeat := advance_clock_beat hclk
        obtain ⟨hex, hbound⟩ := advance_clock_exact hinv hord het hbeat
        rw [hex] at hclk
        cases hclk
        have hsf := dispatch_sched hd
        have htempo := dispatch_tempo hd
        have e_track : sd.track = s.track := congrArg (fun x => x.2.2.1) hsf
        have e_ticks : sd.timenow_ticks = et := congrArg (fun x => x.2.2.2.2.1) hsf
        have e_usec : sd.timenow_usec = s.timenow_usec
            + (et - s.timenow_usec_updated) * s.tempo / s.ticks_per_beat :=
          congrArg (fun x => x.2.2.2.2.2.1) hsf
        have e_upd : sd.timenow_usec_updated = et := congrArg (fun x => x.2.2.2.2.2.2.1) hsf
        have e_beat : sd.ticks_per_beat = s.ticks_per_beat :=
          congrArg (fun x => x.2.2.2.2.2.2.2.1) hsf
        obtain ⟨r, t1, ch1, d, hl, he⟩ := advance_track_track h
        obtain ⟨hu, -, htl, htr, -⟩ := hinv
        have ht1 : t1.tempo < 16777216 :=
          find_next_loop_tempo_lt _ _ _ _ _ _ _ _ hl (by rw [e_track]; exact htr k)
        have hsdt : sd.tempo < 16777216 := by
          rw [htempo]
          show (if (s.track.getD k default).cmd = CMD_TEMPO
            then (s.track.getD k default).tempo else s.tempo) < _
          split_ifs
          · exact htr k
          · exact htl
        rw [he]
        refine ⟨⟨?_, ?_, hsdt, ?_, ?_⟩, et, k, hsel, ?_, hbeat, e_usec, e_upd, e_ticks,
          htempo, e_beat⟩
        · show sd.timenow_usec_updated = sd.timenow_ticks
          rw [e_upd, e_ticks]
        · show sd.timenow_ticks < _
          rw [e_ticks]
          exact het
        · show ∀ i, ((sd.track.set k t1).getD i default).tempo < _
          rw [e_track]
          exact track_tempo_set htr ht1
        · show sd.timenow_usec ≤ sd.timenow_ticks * 16777216
          rw [e_usec, e_ticks]
          exact hbound
        · rw [hu]
          exact hord

theorem process_steps_clock :
    ∀ (n : Nat) (s s1 : MIDIFile), clock_inv s → process_steps n s = .ok s1 →
      clock_inv s1 ∧ s.timenow_usec ≤ s1.timenow_usec := by
  intro n
  induction n with
  | zero =>
    intro s s1 hinv h
    simp only [process_steps] at h
    cases h
    exact ⟨hinv, Nat.le_refl _⟩
  | succ m ih =>
    intro s s1 hinv h
    unfold process_steps at h
    split at h
    · cases h
    · next s2 hs =>
      obtain ⟨hinv2, et, k, -, -, -, hus, -⟩ := process_step_clock hinv hs
      obtain ⟨h1, h2⟩ := ih s2 s1 hinv2 h
      have h3 : s.timenow_usec ≤ s2.timenow_usec := by
        rw [hus]
        exact Nat.le_add_right _ _
      exact ⟨h1, Nat.le_trans h3 h2⟩

theorem midi_process_track_header_tempo {s s1 : MIDIFile} {tracknum : Nat}
    (h : midi_process_track_header s tracknum = .ok s1) :
    s1.tempo = s.tempo ∧
    ∀ i, (s1.track.getD i default).tempo = (s.track.getD i default).tempo := by
  unfold midi_process_track_header at h
  split_ifs at h
  split at h
  · cases h
  · cases h; exact ⟨rfl, fun _ => rfl⟩
  · split at h
    · cases h
    · simp only [] at h
      split_ifs at h
      cases h
      refine ⟨rfl, ?_⟩
      intro i
      show ((s.track.set _ _).getD i default).tempo = _
      rw [getD_set_eq]
      split_ifs with hc
      · rw [hc.1]
      · rfl

theorem midi_find_next_note_tempo_lt {s s1 : MIDIFile} {tracknum : Nat} {r : Ret}
    (h : midi_find_next_note s tracknum = .ok (r, s1))
    (htr : ∀ i, (s.track.getD i default).tempo < 16777216) :
    s1.tempo = s.tempo ∧ ∀ i, (s1.track.getD i default).tempo < 16777216 := by
  obtain ⟨t1, ch1, d, hl, he⟩ := midi_find_next_note_track h
  have ht1 := find_next_loop_tempo_lt _ _ _ _ _ _ _ _ hl (htr tracknum)
  rw [he]
  exact ⟨rfl, track_tempo_set htr ht1⟩

theorem position_tracks_tempo :
    ∀ (count tracknum : Nat) (s s1 : MIDIFile),
      (∀ i, (s.track.getD i default).tempo < 16777216) →
      position_tracks count tracknum s = .ok s1 →
      s1.tempo = s.tempo ∧ ∀ i, (s1.track.getD i default).tempo < 16777216 := by
  intro count
  induction count with
  | zero =>
    intro tracknum s s1 htr h
    unfold position_tracks at h
    cases h
    exact ⟨rfl, htr⟩
  | succ c ih =>
    intro tracknum s s1 htr h
    unfold position_tracks at h
    simp only [] at h
    split at h
    · cases h
    · next s2 hh =>
      obtain ⟨q1, q2⟩ := midi_process_track_header_tempo hh
      have htr2 : ∀ i, (s2.track.getD i default).tempo < 16777216 := by
        intro i
        rw [q2 i]
        exact track_tempo_set htr (show DEFAULT_TEMPO < 16777216 by decide) i
      split at h
      · cases h
      · cases h
      · next r s3 hne hf =>
        split_ifs at h
        obtain ⟨e1, e2⟩ := midi_find_next_note_tempo_lt hf htr2
        obtain ⟨f1, f2⟩ := ih (tracknum + 1) s3 s1 e2 h
        refine ⟨?_, f2⟩
        rw [f1, e1, q1]

theorem midi_prepare_clock_inv {data : List Nat} {s : MIDIFile}
    (h : midi_prepare data = .ok s) : clock_inv s := by
  unfold midi_prepare midi_prepare_from at h
  split at h
  · cases h
  · next sh hh =>
    obtain ⟨htrack, -⟩ := midi_process_file_header_inv hh
    simp only [] at h
    split at h
    · cases h
    · next s2 hp =>
      cases h
      have hz : ∀ i, (sh.track.getD i default).tempo < 16777216 := by
        intro i
        rw [htrack]
        have : (List.replicate MAX_TRACKS ({} : TrackStatus)).getD i default = {} := by
          rw [List.getD_eq_getElem?_getD]
          by_cases hi : i < MAX_TRACKS
          · simp [List.getElem?_replicate, hi]
          · simp [List.getElem?_replicate, hi]; rfl
        rw [this]
        decide
      obtain ⟨f1, f2⟩ := position_tracks_tempo sh.num_tracks 0
        { sh with tempo := DEFAULT_TEMPO, tracks_done := 0 } s2 hz hp
      refine ⟨rfl, ?_, ?_, f2, Nat.zero_le _⟩
      · show 0 < 0x7fffffff
        decide
      · show s2.tempo < _
        rw [f1]
        show DEFAULT_TEMPO < 16777216
        decide

theorem reached_clock_inv {data : List Nat} {s0 s : MIDIFile} {n : Nat}
    (hprep : midi_prepare data = .ok s0) (hrun : process_steps n s0 = .ok s) :
    clock_inv s ∧ s0.timenow_usec ≤ s.timenow_usec :=
  process_steps_clock n s0 s (midi_prepare_clock_inv hprep) hrun

/-- C24: let `s` be a state that a run reaches after some passes of the merge loop.  The
clock update of a pass that selects the tick time `new_ticks` (not before the current tick
time and below the sentinel `0x7fffffff`, as every selected time is), with
`ticks_per_beat > 0`, succeeds and sets `timenow_usec` to
`timenow_usec + (new_ticks - timenow_usec_updated) * tempo / ticks_per_beat` in exact
arithmetic, nothing wrapping around, `tempo` being the song's tempo before the pass, and
sets `timenow_usec_updated` and `timenow_ticks` to `new_ticks`.  Every pass that completes
ends with these values; it leaves the tempo as it was unless it dispatches a Tempo event,
whose tempo holds from then on.  So the microsecond clock never goes back: not in the pass,
not in the passes before it, not in those after it. -/
theorem clock_update_exact (data : List Nat) (s0 s : MIDIFile) (n : Nat)
    (hprep : midi_prepare data = .ok s0) (hrun : process_steps n s0 = .ok s) :
    (∀ new_ticks, 0 < s.ticks_per_beat → s.timenow_ticks ≤ new_ticks →
      new_ticks < 0x7fffffff →
      advance_clock s new_ticks
        = .ok { s with timenow_ticks := new_ticks,
                       timenow_usec := s.timenow_usec
                         + (new_ticks - s.timenow_usec_updated) * s.tempo / s.ticks_per_beat,
                       timenow_usec_updated := new_ticks }) ∧
    (∀ s1, process_step s = .ok s1 →
      ∃ new_ticks k, select_track s = .ok (new_ticks, k) ∧ 0 < s.ticks_per_beat ∧
        s.timenow_usec_updated ≤ new_ticks ∧
        s1.timenow_usec = s.timenow_usec
          + (new_ticks - s.timenow_usec_updated) * s.tempo / s.ticks_per_beat ∧
        s1.timenow_usec_updated = new_ticks ∧ s1.timenow_ticks = new_ticks ∧
        s.timenow_usec ≤ s1.timenow_usec ∧
        s1.tempo = (if (s.track.getD k default).cmd = CMD_TEMPO
          then (s.track.getD k default).tempo else s.tempo) ∧
        ∀ m s2, process_steps m s1 = .ok s2 → s1.timenow_usec ≤ s2.timenow_usec) ∧
    s0.timenow_usec ≤ s.timenow_usec ∧ s.timenow_usec_updated = s.timenow_ticks := by
  obtain ⟨hinv, hmono⟩ := reached_clock_inv hprep hrun
  refine ⟨?_, ?_, hmono, hinv.1⟩
  · intro new_ticks h1 h2 h3
    exact (advance_clock_exact hinv h2 h3 h1).1
  · intro s1 hs
    obtain ⟨hinv1, et, k, a1, a2, a3, a4, a5, a6, a7, -⟩ := process_step_clock hinv hs
    refine ⟨et, k, a1, a3, a2, a4, a5, a6, ?_, a7, ?_⟩
    · rw [a4]
      exact Nat.le_add_right _ _
    · intro m s2 hm
      exact (process_steps_clock m s1 s2 hinv1 hm).2

/-- Witness for C24: the run on `tempo_change_file` after its first pass.  The second pass
selects tick 240 and dispatches the change of the tempo to 250000: the clock goes from 0 to
240 * 500000 / 240 = 500000 usec, at the old tempo.  The third pass selects tick 480 and
brings the clock to 500000 + 240 * 250000 / 240 = 750000 usec. -/
theorem clock_update_exact_witness :
    midi_prepare tempo_change_file = .ok tempo_change_prepared ∧
    process_steps 1 tempo_change_prepared = .ok tempo_change_sounding ∧
    (process_step tempo_change_sounding).map
        (fun s1 => [s1.timenow_ticks, s1.timenow_usec, s1.timenow_usec_updated, s1.tempo])
      = .ok [240, 500000, 240, 250000] ∧
    (process_steps 2 tempo_change_sounding).map
        (fun s1 => [s1.timenow_ticks, s1.timenow_usec, s1.timenow_usec_updated, s1.tempo])
      = .ok [480, 750000, 480, 250000] ∧
    advance_clock tempo_change_sounding 240
      = .ok { tempo_change_sounding with
                timenow_ticks := 240,
                timenow_usec := tempo_change_sounding.timenow_usec
                  + (240 - tempo_change_sounding.timenow_usec_updated)
                    * tempo_change_sounding.tempo / tempo_change_sounding.ticks_per_beat,
                timenow_usec_updated := 240 } :=
  ⟨by decide!, by decide!, by decide!, by decide!,
    (clock_update_exact tempo_change_file tempo_change_prepared tempo_change_sounding 1
      (by decide!) (by decide!)).1 240 (by decide!) (by decide!) (by decide)⟩

end Midilib
